import Mathlib

/-!
# MidiIO4Java: the port automaton of `src/native/port.hpp`

A shallow embedding of class `Port`: its life-cycle automaton (main state),
its per-cycle rendezvous automaton (running sub-state) and the capture of
worker exceptions; of the guarded slot `PtrEnvelope`
(`src/native/ptrEnvelope.hpp`); and of class `PortChain`
(`src/native/portchain.hpp`): the search for a slot, `addPort`, `removePort`,
the life-cycle of the chain and `retrieveProcessException`.

Modelling conventions.

* A port is a record of the fields of `class Port`.  The ghost field `calls`
  logs every invocation of a virtual `*_impl` hook, in order, with the
  arguments the base class passes that it owns (time-code, last-cycle flag).
* The hooks are pure virtual in `Port`; a `Hooks` value says, for the port as
  it is when the hook is entered, whether the implementation returns or
  raises.  No port class of the repository writes a field of the base class
  from a hook, so a hook leaves the record alone.
* An operation yields an `Outcome`: it returned, it raised (the exception left
  the function), or it is blocked for ever in an untimed
  `onStateChanged.wait`.
* The calling thread owns `stateMutex`; expiry of the timed acquisition of the
  mutex is a matter of real time and is outside the embedding.
* Condition-variable waits take the list `env` of wake-ups the waiting thread
  will see: each entry is the port as the other threads left it when the
  waiter got the mutex back.  When the list is used up nobody signals any
  more: a timed `wait_for` then times out, an untimed `wait` never returns.
* `unsigned long` time-codes are stored as they are passed; no arithmetic is
  done on them.
-/

namespace MidiIO

/-- The main state, `enum State`. -/
inductive State
  | created
  | initialized
  | registered
  | running
  | stoppedOnError
  | stopped
  | unregistered
  | deletable
  deriving DecidableEq

/-- The sub-states of the running state, `enum RunningSubState`. -/
inductive RunningSubState
  | started
  | javaToExec
  | nativeToExec
  | cycleDone
  | nativeToTerminate
  | terminated
  | none
  deriving DecidableEq

/-- One invocation of a virtual hook of `Port`. -/
inductive HookCall
  | initialize_impl
  | register_impl
  | start_impl
  | stop_impl
  | execJavaProcess_impl (timeCodeStart timeCodeDuration : Nat) (lastCycle : Bool)
  | execNativeProcess_impl (timeCodeStart timeCodeDuration : Nat)
  | uninitialize_impl
  | unregister_impl
  deriving DecidableEq

/-- The exceptions that travel through `Port`: the `runtime_error` built by
`throwCannot`, the one built by a forced `stop`, and whatever a hook throws. -/
inductive Exc
  | cannot (attemptedAction : String) (lineNumber : Nat) (internalId : Int)
      (state : State) (substate : RunningSubState)
  | didNotTerminate
  | thrown (tag : Nat)
  deriving DecidableEq

/-- The fields of `class Port`, and the log of hook invocations. -/
structure Port where
  internalId : Int
  output : Bool
  state : State
  substate : RunningSubState
  lastCycle : Bool
  timeCodeStart : Nat
  timeCodeDuration : Nat
  processException : Option Exc
  calls : List HookCall
  deriving DecidableEq

/-- Behaviour of the hook implementations of a concrete port class: entered
on port `p` with call `c`, the hook raises `e` when the value is `some e`. -/
abbrev Hooks := Port → HookCall → Option Exc

/-- How a member function of `Port` ends. -/
inductive Outcome
  | returned (p : Port)
  | raised (e : Exc) (p : Port)
  | blocked (p : Port)
  deriving DecidableEq

/-- How a wait loop ends: it is left at its head (`proceed`), or the
function is left from inside it. -/
inductive Waited
  | proceed (p : Port)
  | finished (o : Outcome)
  deriving DecidableEq

/-- Sequencing: the rest of a function body runs when the first part returned. -/
def Outcome.andThen (o : Outcome) (k : Port → Outcome) : Outcome :=
  match o with
  | .returned p => k p
  | .raised e p => .raised e p
  | .blocked p => .blocked p

/-- The handler of `try { ... } catch (...)`. -/
def Outcome.catchAll (o : Outcome) (handler : Exc → Port → Outcome) : Outcome :=
  match o with
  | .returned p => .returned p
  | .raised e p => handler e p
  | .blocked p => .blocked p

/-- The port the function ended on. -/
def Outcome.port : Outcome → Port
  | .returned p => p
  | .raised _ p => p
  | .blocked p => p

/-- The constructor `Port(bool _isOutput, long _internalId)`; the time-code
fields are not initialised by the constructor and are taken as 0. -/
def Port.construct (_isOutput : Bool) (_internalId : Int) : Port :=
  { internalId := _internalId, output := _isOutput, state := .created, substate := .none,
    lastCycle := false, timeCodeStart := 0, timeCodeDuration := 0,
    processException := Option.none, calls := [] }

/-- Member `isOutput`. -/
def Port.isOutput (p : Port) : Bool := p.output

/-- Member `isInput`. -/
def Port.isInput (p : Port) : Bool := !p.output

/-- Member `hasProcessException`. -/
def Port.hasProcessException (p : Port) : Bool := p.processException.isSome

/-- The waiting thread gets the mutex back and sees the port as the other
threads left it; the direction is `const`, and no member of `Port` ever
clears the private last-cycle flag. -/
def Port.wake (p q : Port) : Port :=
  { q with output := p.output, lastCycle := p.lastCycle || q.lastCycle }

/-- Invocation of a virtual hook: logged, and the implementation may raise. -/
def callHook (h : Hooks) (c : HookCall) (p : Port) : Outcome :=
  match h p c with
  | some e => .raised e { p with calls := p.calls ++ [c] }
  | Option.none => .returned { p with calls := p.calls ++ [c] }

/-- Number of invocations of hook `c` recorded on the port. -/
def Port.count (p : Port) (c : HookCall) : Nat := p.calls.count c

/-- Member `throwCannot(attemptedAction, lineNumber, state, substate)`. -/
def throwCannot (attemptedAction : String) (lineNumber : Nat) (state : State)
    (substate : RunningSubState) (p : Port) : Outcome :=
  .raised (.cannot attemptedAction lineNumber p.internalId state substate) p

/-- Member `setProcessException`: only the first exception is kept. -/
def setProcessException (ex : Exc) (p : Port) : Port :=
  if p.processException.isSome then p else { p with processException := some ex }

/-- Member `emergencyStop`. -/
def emergencyStop (h : Hooks) (cause : Exc) (p : Port) : Outcome :=
  (callHook h .stop_impl p).andThen fun p =>
    .returned (setProcessException cause { p with state := .stoppedOnError, substate := .none })

/-- Member `initialize`. -/
def Port.initialize (h : Hooks) (p : Port) : Outcome :=
  if p.state ≠ .created then throwCannot "initialize" 438 p.state .none p
  else (callHook h .initialize_impl p).andThen fun p =>
    .returned { p with state := .initialized }

/-- Member `registerAtServer`. -/
def Port.registerAtServer (h : Hooks) (p : Port) : Outcome :=
  if p.state ≠ .initialized then throwCannot "register" 457 p.state .none p
  else (callHook h .register_impl p).andThen fun p =>
    .returned { p with state := .registered }

/-- Member `start`. -/
def Port.start (h : Hooks) (p : Port) : Outcome :=
  if p.state ≠ .registered then throwCannot "start" 473 p.state .none p
  else (callHook h .start_impl p).andThen fun p =>
    .returned { p with state := .running, substate := .started }

/-- Member `unregisterAtServer`. -/
def Port.unregisterAtServer (h : Hooks) (p : Port) : Outcome :=
  if p.state ≠ .stopped ∧ p.state ≠ .registered then throwCannot "unregister" 701 p.state .none p
  else (callHook h .unregister_impl p).andThen fun p =>
    .returned { p with state := .unregistered }

/-- Member `uninitialize`. -/
def Port.uninitialize (h : Hooks) (p : Port) : Outcome :=
  if p.state ≠ .unregistered ∧ p.state ≠ .initialized then
    throwCannot "un-initialize" 721 p.state .none p
  else (callHook h .uninitialize_impl p).andThen fun p =>
    .returned { p with state := .deletable }

/-- The loop of `execJavaProcess`:
`while ((substate != javaToExec) && (state == running)) { wait; if (...) return; }`. -/
def waitJavaToExec (p : Port) : List Port → Waited
  | [] =>
    if p.substate ≠ .javaToExec ∧ p.state = .running then .finished (.blocked p)
    else .proceed p
  | q :: env =>
    if p.substate ≠ .javaToExec ∧ p.state = .running then
      if (p.wake q).state ≠ .running ∨ (p.wake q).substate = .terminated
          ∨ (p.wake q).substate = .nativeToTerminate then
        .finished (.returned (p.wake q))
      else waitJavaToExec (p.wake q) env
    else .proceed p

/-- The body of `execJavaProcess` after the wait loop ("OK let's do the work"). -/
def execJavaWork (h : Hooks) (_lastCycle : Bool) (p : Port) : Outcome :=
  let p := { p with lastCycle := p.lastCycle || _lastCycle }
  (callHook h (.execJavaProcess_impl p.timeCodeStart p.timeCodeDuration p.lastCycle) p).andThen
    fun p =>
      if p.lastCycle then
        if p.isOutput then .returned { p with substate := .nativeToTerminate }
        else .returned { p with substate := .terminated }
      else
        if p.isOutput then .returned { p with substate := .nativeToExec }
        else .returned { p with substate := .cycleDone }

/-- Member `execJavaProcess`. -/
def Port.execJavaProcess (h : Hooks) (_lastCycle : Bool) (env : List Port) (p : Port) :
    Outcome :=
  Outcome.catchAll
    (if p.state ≠ .running then .returned p
     else if p.substate = .started ∨ p.substate = .terminated
         ∨ p.substate = .nativeToTerminate then .returned p
     else
       match waitJavaToExec p env with
       | .finished o => o
       | .proceed p => execJavaWork h _lastCycle p)
    (emergencyStop h)

/-- Member `execNativeCycleInit`. -/
def Port.execNativeCycleInit (h : Hooks) (_timeCodeStart _timeCodeDuration : Nat) (p : Port) :
    Outcome :=
  Outcome.catchAll
    (if p.state ≠ .running then .returned p
     else if p.substate = .terminated then .returned p
     else if p.substate ≠ .cycleDone ∧ p.substate ≠ .started then
       throwCannot "execNativeCycleInit" 560 p.state p.substate p
     else
       let p := { p with timeCodeStart := _timeCodeStart, timeCodeDuration := _timeCodeDuration }
       if p.isInput then .returned { p with substate := .nativeToExec }
       else .returned { p with substate := .javaToExec })
    (emergencyStop h)

/-- The loop of `execNativeProcess`:
`while ((state == running) && (substate != nativeToExec) && (substate != nativeToTerminate))`. -/
def waitNativeToExec (p : Port) : List Port → Waited
  | [] =>
    if p.state = .running ∧ p.substate ≠ .nativeToExec ∧ p.substate ≠ .nativeToTerminate then
      .finished (.blocked p)
    else .proceed p
  | q :: env =>
    if p.state = .running ∧ p.substate ≠ .nativeToExec ∧ p.substate ≠ .nativeToTerminate then
      if (p.wake q).substate = .terminated ∨ (p.wake q).substate = .cycleDone
          ∨ (p.wake q).substate = .started then
        .finished (throwCannot "execNativeProcess" 612 (p.wake q).state (p.wake q).substate
          (p.wake q))
      else waitNativeToExec (p.wake q) env
    else .proceed p

/-- The body of `execNativeProcess` after the wait loop. -/
def execNativeWork (h : Hooks) (p : Port) : Outcome :=
  if p.state ≠ .running then .returned p
  else if p.isInput ∧ p.substate = .nativeToTerminate then
    throwCannot "execNativeProcess on Input" 624 p.state p.substate p
  else
    (callHook h (.execNativeProcess_impl p.timeCodeStart p.timeCodeDuration) p).andThen fun p =>
      if p.isInput then .returned { p with substate := .javaToExec }
      else if p.substate = .nativeToTerminate then .returned { p with substate := .terminated }
      else .returned { p with substate := .cycleDone }

/-- Member `execNativeProcess`. -/
def Port.execNativeProcess (h : Hooks) (env : List Port) (p : Port) : Outcome :=
  Outcome.catchAll
    (if p.state ≠ .running then .returned p
     else if p.substate = .started ∨ p.substate = .terminated then .returned p
     else
       match waitNativeToExec p env with
       | .finished o => o
       | .proceed p => execNativeWork h p)
    (emergencyStop h)

/-- The timed loop shared by `stop` and `shutdown`:
`while ((!force) && (state == running) && (substate != terminated) && (substate != none))`
with `wait_for(lock, maxWaitingTime)`; a timeout sets `force` and ends the loop. -/
def waitForTermination (force : Bool) (p : Port) : List Port → Port
  | [] => p
  | q :: env =>
    if force = false ∧ p.state = .running ∧ p.substate ≠ .terminated ∧ p.substate ≠ .none then
      waitForTermination force (p.wake q) env
    else p

/-- Member `stop`. -/
def Port.stop (h : Hooks) (force : Bool) (env : List Port) (p : Port) : Outcome :=
  if p.state = .stoppedOnError then .returned { p with state := .stopped }
  else if p.state ≠ .running ∧ p.state ≠ .registered then
    throwCannot "stop" 667 p.state p.substate p
  else
    let p := waitForTermination force { p with lastCycle := true } env
    (if p.substate ≠ .terminated ∧ p.substate ≠ .none then emergencyStop h .didNotTerminate p
     else callHook h .stop_impl p).andThen fun p =>
      .returned { p with state := .stopped, substate := .none }

/-- Member `shutdown_impl`. -/
def shutdown_impl (h : Hooks) (p : Port) : Outcome :=
  match p.state with
  | .created => .returned p
  | .initialized => callHook h .uninitialize_impl p
  | .registered =>
    (callHook h .unregister_impl p).andThen (callHook h .uninitialize_impl)
  | .running =>
    ((callHook h .stop_impl p).andThen (callHook h .unregister_impl)).andThen
      (callHook h .uninitialize_impl)
  | .stoppedOnError =>
    (callHook h .unregister_impl p).andThen (callHook h .uninitialize_impl)
  | .stopped =>
    (callHook h .unregister_impl p).andThen (callHook h .uninitialize_impl)
  | .unregistered => callHook h .uninitialize_impl p
  | .deletable => .returned p

/-- Member `shutdown`. -/
def Port.shutdown (h : Hooks) (force : Bool) (env : List Port) (p : Port) : Outcome :=
  (Outcome.catchAll (shutdown_impl h (waitForTermination force { p with lastCycle := true } env))
    (fun e p => .returned (setProcessException e p))).andThen fun p =>
      .returned { p with state := .deletable, substate := .none }

/-- Hook implementations that never raise (those of `PortMock` without an
injected fault). -/
def quietHooks : Hooks := fun _ _ => Option.none

/-- Hook implementations with an injected fault (as `PortMock` has them): the
hooks selected by `bad` raise `e`, the others return. -/
def faultyHooks (bad : HookCall → Bool) (e : Exc) : Hooks :=
  fun _ c => if bad c then some e else Option.none

/-- Selects the invocations of `execJavaProcess_impl`. -/
def HookCall.isJava : HookCall → Bool
  | .execJavaProcess_impl _ _ _ => true
  | _ => false

/-- Selects the invocations of `execNativeProcess_impl`. -/
def HookCall.isNative : HookCall → Bool
  | .execNativeProcess_impl _ _ => true
  | _ => false

/-- Selects the invocations of `stop_impl`. -/
def HookCall.isStop : HookCall → Bool
  | .stop_impl => true
  | _ => false

/-- The outcome is a return or a raise (not a blocked wait) on a port that
differs from `p` in the log of hook invocations at most. -/
def Outcome.keeps (o : Outcome) (p : Port) : Prop :=
  (∃ q, o = .returned q ∧ q = { p with calls := q.calls }) ∨
  (∃ e q, o = .raised e q ∧ q = { p with calls := q.calls })

/-- A sample port: input port 7 as constructed, put into main state `s` and
sub-state `b`. -/
def samplePort (isOutput : Bool) (s : State) (b : RunningSubState) : Port :=
  { Port.construct isOutput 7 with state := s, substate := b }

/-- The macro `PortInvalidId`. -/
def PortInvalidId : Int := -100000

/-- The move constructor `Port(Port && other)`: the new port and the remains
of `other`.  The constructor does not initialise `lastCycle`, `timeCodeStart`
and `timeCodeDuration` of the new port; their indeterminate values are the
parameters.  Moving a `std::exception_ptr` leaves the source null (the move
constructor of libstdc++, the library the sources demand).  The log of hook
invocations belongs to the derived class and is taken over as it is. -/
def Port.moveConstruct (other : Port) (lastCycle : Bool) (timeCodeStart timeCodeDuration : Nat) :
    Port × Port :=
  ({ internalId := other.internalId, output := other.output, state := other.state,
     substate := other.substate, lastCycle := lastCycle, timeCodeStart := timeCodeStart,
     timeCodeDuration := timeCodeDuration, processException := other.processException,
     calls := other.calls },
   { other with internalId := PortInvalidId, state := .deletable, substate := .none,
                processException := Option.none })

/-! ### The guarded slot, `src/native/ptrEnvelope.hpp`

`useCount` is an `int` that counts the accessors alive; it is modelled as an
unbounded integer (one accessor per active scope keeps it far from the limits
of `int`).  An accessor is a reference to its owner: making one is the
increment, destroying it is `decrementUseCount`.  The waits of `setItemWait`
and `removeItemWait` are timed: with the list of wake-ups used up the wait
times out. -/

/-- The fields of `class PtrEnvelope`; `maxWaitingTime` in milliseconds. -/
structure PtrEnvelope where
  maxWaitingTime : Int
  useCount : Int
  item : Option Port
  deriving DecidableEq

/-- What the members of `PtrEnvelope` throw: `THROW` and `THROW_TIMEOUT`. -/
inductive EnvelopeExc
  | runtimeError (message : String)
  | timeout (message : String)
  deriving DecidableEq

/-- The constructor `PtrEnvelope()`. -/
def PtrEnvelope.construct : PtrEnvelope :=
  { maxWaitingTime := 500, useCount := 0, item := Option.none }

/-- The constructor `PtrEnvelope(int _maxWaitingTime)`. -/
def PtrEnvelope.constructWith (_maxWaitingTime : Int) : PtrEnvelope :=
  { maxWaitingTime := _maxWaitingTime, useCount := 0, item := Option.none }

/-- Member `decrementUseCount`, the body of `~Accessor`. -/
def PtrEnvelope.decrementUseCount (e : PtrEnvelope) : PtrEnvelope :=
  { e with useCount := e.useCount - 1 }

/-- Member `makeAccessor`: the envelope once the accessor exists. -/
def PtrEnvelope.makeAccessor (e : PtrEnvelope) : PtrEnvelope :=
  { e with useCount := e.useCount + 1 }

/-- Member `getUseCount`. -/
def PtrEnvelope.getUseCount (e : PtrEnvelope) : Int := e.useCount

/-- Member `hasItem`. -/
def PtrEnvelope.hasItem (e : PtrEnvelope) : Bool := e.item.isSome

/-- Member `isEmpty`. -/
def PtrEnvelope.isEmpty (e : PtrEnvelope) : Bool := !e.item.isSome

/-- The loop `while (useCount != 0) { wait_for(lock, maxWaitingTime); ... }`:
the envelope when the use count is seen at zero, or nothing on a timeout.  A
wake-up shows the envelope as the other threads left it. -/
def PtrEnvelope.waitUnused (e : PtrEnvelope) : List PtrEnvelope → Option PtrEnvelope
  | [] => if e.useCount ≠ 0 then Option.none else some e
  | w :: env =>
    if e.useCount ≠ 0 then
      PtrEnvelope.waitUnused { w with maxWaitingTime := e.maxWaitingTime } env
    else some e

/-- Member `setItemWait`. -/
def PtrEnvelope.setItemWait (newItem : Option Port) (env : List PtrEnvelope) (e : PtrEnvelope) :
    Except EnvelopeExc PtrEnvelope :=
  if newItem.isSome = false then
    .error (.runtimeError "Programming error: newItem is null (nothing to add).")
  else if e.item.isSome then
    .error (.runtimeError "Programming error: envelope not empty, cannot add a new item.")
  else
    match e.waitUnused env with
    | Option.none => .error (.timeout "Timeout in setItemWait().")
    | some e => .ok { e with item := newItem }

/-- Member `removeItemWait`: the removed item and the envelope left. -/
def PtrEnvelope.removeItemWait (env : List PtrEnvelope) (e : PtrEnvelope) :
    Except EnvelopeExc (Option Port × PtrEnvelope) :=
  if e.item.isSome = false then
    .error (.runtimeError "Programming error: envelope is empty, cannot remove the item.")
  else
    match e.waitUnused env with
    | Option.none => .error (.timeout "Timeout in removeItemWait().")
    | some e => .ok (e.item, { e with item := Option.none })

/-- The life of accessors on one envelope: one is made, one is destroyed. -/
inductive AccessorEvent
  | make
  | destroy
  deriving DecidableEq

/-- The envelope after one accessor event. -/
def PtrEnvelope.accessorEvent (e : PtrEnvelope) : AccessorEvent → PtrEnvelope
  | .make => e.makeAccessor
  | .destroy => e.decrementUseCount

/-- The envelope after a sequence of accessor events. -/
def PtrEnvelope.accessorEvents (e : PtrEnvelope) : List AccessorEvent → PtrEnvelope
  | [] => e
  | a :: evs => PtrEnvelope.accessorEvents (e.accessorEvent a) evs

/-- The number of accessors alive after a sequence of events that starts
with `n` of them alive; nothing when the sequence destroys an accessor that
does not exist (use that is not scoped). -/
def liveAccessors : List AccessorEvent → Nat → Option Nat
  | [], n => some n
  | .make :: evs, n => liveAccessors evs (n + 1)
  | .destroy :: _, 0 => Option.none
  | .destroy :: evs, n + 1 => liveAccessors evs n

/-! ### `PortChain::retrieveProcessException`, `src/native/portchain.hpp` -/

/-- The macro `MAX_PORTS`. -/
def MAX_PORTS : Nat := 512

/-- Member `retrieveProcessException` on the array `portList`: the result
and the array left.  Each entry is visited through an accessor, destroyed when
the loop body is left; `return move(...getProcessException())` moves the
exception pointer out of the port, which leaves the slot of the port null. -/
def retrieveProcessException : List PtrEnvelope → Option Exc × List PtrEnvelope
  | [] => (Option.none, [])
  | entry :: rest =>
    match entry.makeAccessor.item with
    | some port =>
      if port.hasProcessException then
        (port.processException,
          PtrEnvelope.decrementUseCount
            { entry.makeAccessor with
                item := some { port with processException := Option.none } } :: rest)
      else
        ((retrieveProcessException rest).1,
          entry.makeAccessor.decrementUseCount :: (retrieveProcessException rest).2)
    | Option.none =>
      ((retrieveProcessException rest).1,
        entry.makeAccessor.decrementUseCount :: (retrieveProcessException rest).2)

/-- Number of entries of `portList` that hold a port with a process exception. -/
def pendingExceptions : List PtrEnvelope → Nat
  | [] => 0
  | entry :: rest =>
    (match entry.item with
      | some port => if port.hasProcessException then 1 else 0
      | Option.none => 0) + pendingExceptions rest

/-- An envelope as `addPort` leaves it: unused, holding `port`. -/
def PtrEnvelope.holding (port : Port) : PtrEnvelope :=
  { PtrEnvelope.construct with item := some port }

/-! ### Sequences of operations on one port -/

/-- A use of a port: a call of one of its public member functions that
change it, with the arguments of the call and the wake-ups `env` it will see
if it waits, or a move construction from it (`moveInto`: what is looked at
next is the new port; `moveFrom`: the remains of the source). -/
inductive Op
  | doInitialize
  | doRegisterAtServer
  | doStart
  | doExecJavaProcess (_lastCycle : Bool) (env : List Port)
  | doExecNativeCycleInit (_timeCodeStart _timeCodeDuration : Nat)
  | doExecNativeProcess (env : List Port)
  | doStop (force : Bool) (env : List Port)
  | doUnregisterAtServer
  | doUnInitialize
  | doShutdown (force : Bool) (env : List Port)
  | moveInto (lastCycle : Bool) (timeCodeStart timeCodeDuration : Nat)
  | moveFrom
  deriving DecidableEq

/-- The wake-ups of a use. -/
def Op.env : Op → List Port
  | .doExecJavaProcess _ env => env
  | .doExecNativeProcess env => env
  | .doStop _ env => env
  | .doShutdown _ env => env
  | _ => []

/-- The use is a move construction. -/
def Op.isMove : Op → Bool
  | .moveInto _ _ _ => true
  | .moveFrom => true
  | _ => false

/-- The use is a call of a worker operation (`execNativeCycleInit`,
`execNativeProcess`, `execJavaProcess`). -/
def Op.isWorker : Op → Bool
  | .doExecJavaProcess _ _ => true
  | .doExecNativeCycleInit _ _ => true
  | .doExecNativeProcess _ => true
  | _ => false

/-- The use is a call of a member function by a thread that no other thread
signals while it waits. -/
def Op.sequential (a : Op) : Bool := !a.isMove && a.env.isEmpty

/-- The outcome of a use of port `p`. -/
def Port.perform (h : Hooks) (a : Op) (p : Port) : Outcome :=
  match a with
  | .doInitialize => Port.initialize h p
  | .doRegisterAtServer => Port.registerAtServer h p
  | .doStart => Port.start h p
  | .doExecJavaProcess l env => Port.execJavaProcess h l env p
  | .doExecNativeCycleInit s d => Port.execNativeCycleInit h s d p
  | .doExecNativeProcess env => Port.execNativeProcess h env p
  | .doStop force env => Port.stop h force env p
  | .doUnregisterAtServer => Port.unregisterAtServer h p
  | .doUnInitialize => Port.uninitialize h p
  | .doShutdown force env => Port.shutdown h force env p
  | .moveInto l s d => .returned (p.moveConstruct l s d).1
  | .moveFrom => .returned (p.moveConstruct false 0 0).2

/-- The port after a sequence of uses; a call that raised or that is blocked
leaves the port as its outcome shows it. -/
def Port.run (h : Hooks) : List Op → Port → Port
  | [], p => p
  | a :: ops, p => Port.run h ops (Port.perform h a p).port

/-- The ports that can be met: a port as constructed, and the port left by a
use `a`, permitted by `allowed`, of a port that can be met, every wake-up seen
during the use being itself a port that can be met. -/
inductive Reachable (h : Hooks) (allowed : Op → Port → Prop) : Port → Prop
  | construct (isOutput : Bool) (internalId : Int) :
      Reachable h allowed (Port.construct isOutput internalId)
  | perform (a : Op) (p : Port) :
      Reachable h allowed p → allowed a p → (∀ q, q ∈ a.env → Reachable h allowed q) →
      Reachable h allowed (Port.perform h a p).port

/-- Number of invocations of `execJavaProcess_impl` recorded on the port. -/
def Port.javaCount (p : Port) : Nat := p.calls.countP HookCall.isJava

/-- Number of invocations of `execNativeProcess_impl` recorded on the port. -/
def Port.nativeCount (p : Port) : Nat := p.calls.countP HookCall.isNative

/-- The invariant of the data model: Running if and only if the sub-state
is not None. -/
def Port.subStateInv (p : Port) : Prop := p.state = .running ↔ p.substate ≠ .none

/-- The two counts differ as the direction allows: on an input port the
native half is at most one invocation ahead, on an output port the java
half. -/
def Port.halvesInStep (p : Port) : Prop :=
  if p.output then p.javaCount = p.nativeCount ∨ p.javaCount = p.nativeCount + 1
  else p.nativeCount = p.javaCount ∨ p.nativeCount = p.javaCount + 1

/-- The inductive form of the alternation of the two halves: what the two
counts are in each sub-state of a running port. -/
def Port.alternationInv (p : Port) : Prop :=
  match p.state with
  | .running =>
    match p.substate, p.output with
    | .started, _ => p.javaCount = p.nativeCount
    | .cycleDone, _ => p.javaCount = p.nativeCount
    | .terminated, _ => p.javaCount = p.nativeCount
    | .nativeToExec, false => p.nativeCount = p.javaCount
    | .javaToExec, false => p.nativeCount = p.javaCount + 1
    | .nativeToTerminate, false => p.nativeCount = p.javaCount
    | .javaToExec, true => p.javaCount = p.nativeCount
    | .nativeToExec, true => p.javaCount = p.nativeCount + 1
    | .nativeToTerminate, true => p.javaCount = p.nativeCount + 1
    | .none, _ => p.halvesInStep
  | _ => p.substate = .none ∧ p.halvesInStep

/-- The time-code pair a hook invocation received, for the two process
hooks. -/
def HookCall.timeCode : HookCall → Option (Nat × Nat)
  | .execJavaProcess_impl s d _ => some (s, d)
  | .execNativeProcess_impl s d => some (s, d)
  | _ => Option.none

/-- The call `execNativeCycleInit` is accepted on port `p`: Running, in
sub-state Started or CycleDone. -/
def Port.acceptsCycleInit (p : Port) : Bool :=
  decide (p.state = .running ∧ (p.substate = .started ∨ p.substate = .cycleDone))

/-- The pair passed to the most recent accepted `execNativeCycleInit` of a
sequence of uses that starts on port `p`, `acc` being the answer before the
sequence. -/
def lastAcceptedFrom (h : Hooks) : List Op → Port → Option (Nat × Nat) → Option (Nat × Nat)
  | [], _, acc => acc
  | .doExecNativeCycleInit s d :: ops, p, acc =>
    lastAcceptedFrom h ops (Port.perform h (.doExecNativeCycleInit s d) p).port
      (if p.acceptsCycleInit then some (s, d) else acc)
  | a :: ops, p, acc => lastAcceptedFrom h ops (Port.perform h a p).port acc

/-- The outcome leaves time-code, direction and id of `p` alone and only
adds to its log of hook invocations, every added invocation of a process hook
carrying the time-code of `p`. -/
def Outcome.framed (o : Outcome) (p : Port) : Prop :=
  o.port.timeCodeStart = p.timeCodeStart ∧ o.port.timeCodeDuration = p.timeCodeDuration ∧
  o.port.output = p.output ∧ o.port.internalId = p.internalId ∧
  ∃ cs, o.port.calls = p.calls ++ cs ∧
    ∀ c, c ∈ cs → ∀ x, c.timeCode = some x → x = (p.timeCodeStart, p.timeCodeDuration)

/-- The inductive form of the balance of set-up and teardown hooks: how
far `initialize_impl` is ahead of `uninitialize_impl`, and `register_impl` of
`unregister_impl`, in each main state. -/
def Port.teardownInv (p : Port) : Prop :=
  match p.state with
  | .created =>
    p.count .initialize_impl = p.count .uninitialize_impl ∧
    p.count .register_impl = p.count .unregister_impl
  | .initialized =>
    p.count .initialize_impl = p.count .uninitialize_impl + 1 ∧
    p.count .register_impl = p.count .unregister_impl
  | .unregistered =>
    p.count .initialize_impl = p.count .uninitialize_impl + 1 ∧
    p.count .register_impl = p.count .unregister_impl
  | .deletable =>
    p.count .initialize_impl = p.count .uninitialize_impl ∧
    p.count .register_impl = p.count .unregister_impl
  | _ =>
    p.count .initialize_impl = p.count .uninitialize_impl + 1 ∧
    p.count .register_impl = p.count .unregister_impl + 1

/-- The state of the chain, `enum State` of `PortChain`. -/
inductive ChainState
  | created
  | initialized
  | registered
  | running
  | stopped
  | unregistered
  | deletable
  deriving DecidableEq, Repr

/-- What leaves a member of `PortChain` as an exception: the `runtime_error`
of a `THROW` of `portchain.hpp`, the exception of a member of a port, or the
exception of a member of an envelope. -/
inductive ChainExc
  | runtimeError (message : String)
  | ofPort (e : Exc)
  | ofEnvelope (e : EnvelopeExc)
  deriving DecidableEq

/-- The fields of `class PortChain`. -/
structure PortChain where
  portList : List PtrEnvelope
  portCount : Int
  state : ChainState
  lastCycle : Bool
  deriving DecidableEq

/-- How a member function of `PortChain` ends. -/
inductive ChainOutcome
  | returned (c : PortChain)
  | raised (e : ChainExc) (c : PortChain)
  | blocked (c : PortChain)
  deriving DecidableEq

/-- The chain the function ended on. -/
def ChainOutcome.chain : ChainOutcome → PortChain
  | .returned c => c
  | .raised _ c => c
  | .blocked c => c

/-- Sequencing: the rest of a function body runs when the first part returned. -/
def ChainOutcome.andThen (o : ChainOutcome) (k : PortChain → ChainOutcome) : ChainOutcome :=
  match o with
  | .returned c => k c
  | .raised e c => .raised e c
  | .blocked c => .blocked c

/-- The constructor `PortChain()`: `MAX_PORTS` empty envelopes. -/
def PortChain.construct : PortChain :=
  { portList := List.replicate MAX_PORTS PtrEnvelope.construct, portCount := 0,
    state := .created, lastCycle := false }

/-- The array element `portList[i]`; every index the source uses is within
the array. -/
def PortChain.entry (c : PortChain) (i : Nat) : PtrEnvelope :=
  c.portList.getD i PtrEnvelope.construct

/-- The chain with the array element `portList[i]` as a member of the envelope
left it. -/
def PortChain.setEntry (c : PortChain) (i : Nat) (e : PtrEnvelope) : PortChain :=
  { c with portList := c.portList.set i e }

/-- The test `isEmpty()` through an accessor of `portList[i]`. -/
def PortChain.emptyAt (c : PortChain) (i : Nat) : Bool := (c.entry i).isEmpty

/-- The test `hasItem()` and then `get()->isInput()` through an accessor of
`portList[i]`. -/
def PortChain.inputAt (c : PortChain) (i : Nat) : Bool :=
  match (c.entry i).item with
  | some port => port.isInput
  | Option.none => false

/-- The test `hasItem()` and then `get()->isOutput()` through an accessor of
`portList[i]`. -/
def PortChain.outputAt (c : PortChain) (i : Nat) : Bool :=
  match (c.entry i).item with
  | some port => port.isOutput
  | Option.none => false

/-- The loop `for (int i = start; i < start + count; i++)` that returns the
first `i` it finds. -/
def firstFrom (found : Nat → Bool) : Nat → Nat → Option Nat
  | _, 0 => Option.none
  | start, count + 1 =>
    if found start then some start else firstFrom found (start + 1) count

/-- The loop `for (int i = top - 1; i >= 0; i--)` that returns the first `i`
it finds. -/
def lastBelow (found : Nat → Bool) : Nat → Option Nat
  | 0 => Option.none
  | top + 1 => if found top then some top else lastBelow found top

/-- Member `findSlotForOutputPort`. -/
def PortChain.findSlotForOutputPort (c : PortChain) : Except ChainExc Nat :=
  if c.emptyAt (MAX_PORTS - 2) then .ok (MAX_PORTS - 2)
  else
    match lastBelow (fun i => c.emptyAt i && c.outputAt (i + 1)) (MAX_PORTS - 2) with
    | some i => .ok i
    | Option.none => .error (.runtimeError "Cannot findSlotForOutputPort.")

/-- Member `findSlotForInputPort`. -/
def PortChain.findSlotForInputPort (c : PortChain) : Except ChainExc Nat :=
  if c.emptyAt 1 then .ok 1
  else
    match firstFrom (fun i => c.emptyAt i && c.inputAt (i - 1)) 1 (MAX_PORTS - 1) with
    | some i => .ok i
    | Option.none => .error (.runtimeError "Cannot findSlotForInputPort.")

/-- The test `hasItem()` and then `get()->getId() == internalId` through an
accessor of `portList[i]`. -/
def PortChain.holdsId (c : PortChain) (internalId : Int) (i : Nat) : Bool :=
  match (c.entry i).item with
  | some port => decide (port.internalId = internalId)
  | Option.none => false

/-- Member `findSlotOfPort`: the index of the first entry that holds a port
with the given id, or -1. -/
def PortChain.findSlotOfPort (c : PortChain) (internalId : Int) : Int :=
  match firstFrom (c.holdsId internalId) 0 MAX_PORTS with
  | some i => (i : Int)
  | Option.none => -1

/-- Member `findSlotForNewPort`. -/
def PortChain.findSlotForNewPort (c : PortChain) (newPort : Port) : Except ChainExc Nat :=
  if newPort.isOutput then c.findSlotForOutputPort else c.findSlotForInputPort

/-- Member `portExists`. -/
def PortChain.portExists (c : PortChain) (internalId : Int) : Bool :=
  c.findSlotOfPort internalId != -1

/-- Member `registerAndStart`. -/
def PortChain.registerAndStart (h : Hooks) (c : PortChain) (newPort : Port) : Outcome :=
  (if c.state = .registered then Port.registerAtServer h newPort
   else .returned newPort).andThen fun newPort =>
    if c.state = .running then ( Port.registerAtServer h newPort).andThen ( Port.start h)
    else .returned newPort

/-- Member `addPort_impl`: the pointer the caller is left with, and how the
function ends.  `setItemWait` takes the pointer only when it succeeds. -/
def PortChain.addPort_impl (h : Hooks) (newPort : Port) (newIdx : Nat) (c : PortChain) :
    Option Port × ChainOutcome :=
  match c.registerAndStart h newPort with
  | .returned newPort =>
    match (c.entry newIdx).setItemWait (some newPort) [] with
    | .ok e => (Option.none, .returned (c.setEntry newIdx e))
    | .error x => (some newPort, .raised (.ofEnvelope x) c)
  | .raised x newPort => (some newPort, .raised (.ofPort x) c)
  | .blocked newPort => (some newPort, .blocked c)

/-- Member `addPort`: the pointer the caller is left with, and how the
function ends.  `client` is `Option.none` for the null pointer. -/
def PortChain.addPort (h : Hooks) (newPort : Option Port) (client : Option Nat)
    (c : PortChain) : Option Port × ChainOutcome :=
  match newPort with
  | Option.none => (Option.none, .raised (.runtimeError "Cannot add Port from empty pointer.") c)
  | some port =>
    if port.state ≠ .initialized then
      (newPort, .raised (.runtimeError "Attempt to add an uninitialized Port.") c)
    else if port.internalId < -2 then
      (newPort, .raised (.runtimeError "Cannot add Port with invalid Id.") c)
    else if c.state ≠ .created ∧ c.state ≠ .initialized ∧ c.state ≠ .registered ∧
        c.state ≠ .running then
      (newPort, .raised (.runtimeError
        "Cannot add a new port when the port-chain is about to shutdown.") c)
    else if c.state ≠ .initialized ∧ c.state ≠ .created ∧ client = Option.none then
      (newPort, .raised (.runtimeError "Need client pointer to register new port.") c)
    else
      match c.findSlotForNewPort port with
      | .error x => (newPort, .raised x c)
      | .ok newIdx => c.addPort_impl h port newIdx

/-- Member `removePort`: the pointer returned, and how the function ends. -/
def PortChain.removePort (h : Hooks) (internalId : Int) (c : PortChain) :
    Option Port × ChainOutcome :=
  let removeIdx := c.findSlotOfPort internalId
  if removeIdx < 0 then
    (Option.none, .raised (.runtimeError "Cannot removePort, port not found.") c)
  else
    match (c.entry removeIdx.toNat).item with
    | Option.none => (Option.none, .raised (.runtimeError "Programming error: port has no item.") c)
    | some port =>
      match Port.shutdown h false [] port with
      | .raised x port =>
        (Option.none, .raised (.ofPort x)
          (c.setEntry removeIdx.toNat { c.entry removeIdx.toNat with item := some port }))
      | .blocked port =>
        (Option.none, .blocked (c.setEntry removeIdx.toNat
          { (c.entry removeIdx.toNat).makeAccessor with item := some port }))
      | .returned port =>
        let c := c.setEntry removeIdx.toNat { c.entry removeIdx.toNat with item := some port }
        match (c.entry removeIdx.toNat).removeItemWait [] with
        | .error x => (Option.none, .raised (.ofEnvelope x) c)
        | .ok (Option.none, _) =>
          (Option.none, .raised (.runtimeError "Programming error: portToRemove is null.") c)
        | .ok (some portToRemove, e) =>
          (some portToRemove,
            .returned { c.setEntry removeIdx.toNat e with portCount := c.portCount - 1 })

/-- How the loop over `portList` of a life-cycle member ends. -/
inductive LoopEnd
  | completed
  | raised (e : Exc)
  | blocked
  deriving DecidableEq

/-- The loop
`for (auto &entry : portList) { auto accessor = entry.makeAccessor(); if (accessor.hasItem()) accessor.get()->f(); }`
for a member `f` of `Port`: how it ends and the array it leaves.  An exception
of `f` leaves the loop and destroys the accessor on its way. -/
def forEachPort (f : Port → Outcome) : List PtrEnvelope → LoopEnd × List PtrEnvelope
  | [] => (.completed, [])
  | entry :: rest =>
    match entry.makeAccessor.item with
    | some port =>
      match f port with
      | .returned port =>
        ((forEachPort f rest).1,
          PtrEnvelope.decrementUseCount { entry.makeAccessor with item := some port } ::
            (forEachPort f rest).2)
      | .raised e port =>
        (.raised e,
          PtrEnvelope.decrementUseCount { entry.makeAccessor with item := some port } :: rest)
      | .blocked port => (.blocked, { entry.makeAccessor with item := some port } :: rest)
    | Option.none =>
      ((forEachPort f rest).1, entry.makeAccessor.decrementUseCount :: (forEachPort f rest).2)

/-- A life-cycle member of the chain after its guard: the loop over the
ports, then the assignment of the new state. -/
def PortChain.forAllPorts (f : Port → Outcome) (next : ChainState) (c : PortChain) :
    ChainOutcome :=
  match forEachPort f c.portList with
  | (.completed, l) => .returned { c with portList := l, state := next }
  | (.raised e, l) => .raised (.ofPort e) { c with portList := l }
  | (.blocked, l) => .blocked { c with portList := l }

/-- The `TimeoutException` of `THROW_TIMEOUT`. -/
structure TimeoutException where
  message : String
  deriving DecidableEq

/-- The loop `while (substate != terminated)` of `waitForTerminatedSubstate`,
with `wait_for(lock, maxWaitingTime)`. -/
def waitTerminated (p : Port) : List Port → Except TimeoutException Unit
  | [] =>
    if p.substate ≠ .terminated then
      .error { message := "Timeout in waitForTerminatedSubstate()." }
    else .ok ()
  | q :: env =>
    if p.substate ≠ .terminated then
      if (p.wake q).state ≠ .running then .ok () else waitTerminated (p.wake q) env
    else .ok ()

/-- Member `waitForTerminatedSubstate` of `Port`. -/
def Port.waitForTerminatedSubstate (env : List Port) (p : Port) :
    Except TimeoutException Unit :=
  if p.state ≠ .running then .ok () else waitTerminated p env

/-- Member `registerAtServer_impl` of the chain. -/
def PortChain.registerAtServer_impl (h : Hooks) (c : PortChain) : ChainOutcome :=
  if c.state ≠ .initialized then
    .raised (.runtimeError "Cannot registerAtServer in wrong state.") c
  else c.forAllPorts ( Port.registerAtServer h) .registered

/-- Member `initialize_impl` of the chain: the two pointers the caller is
left with, and how the function ends. -/
def PortChain.initialize_impl (h : Hooks) (startControl endControl : Port) (c : PortChain) :
    (Option Port × Option Port) × ChainOutcome :=
  if c.state ≠ .created then
    ((some startControl, some endControl),
      .raised (.runtimeError "Cannot initialize in wrong state.") c)
  else if !startControl.isInput then
    ((some startControl, some endControl),
      .raised (.runtimeError "Start control must be an input port.") c)
  else if startControl.state ≠ .created then
    ((some startControl, some endControl),
      .raised (.runtimeError "Start control must be in created state.") c)
  else if !endControl.isOutput then
    ((some startControl, some endControl),
      .raised (.runtimeError "Start control port must be an output port.") c)
  else if endControl.state ≠ .created then
    ((some startControl, some endControl),
      .raised (.runtimeError "End control must be in created state.") c)
  else
    match Port.initialize h startControl with
    | .raised x startControl => ((some startControl, some endControl), .raised (.ofPort x) c)
    | .blocked startControl => ((some startControl, some endControl), .blocked c)
    | .returned startControl =>
      match Port.initialize h endControl with
      | .raised x endControl => ((some startControl, some endControl), .raised (.ofPort x) c)
      | .blocked endControl => ((some startControl, some endControl), .blocked c)
      | .returned endControl =>
        match c.addPort_impl h startControl 0 with
        | (left, .returned c) =>
          (match c.addPort_impl h endControl (MAX_PORTS - 1) with
            | (right, .returned c) => ((left, right), .returned { c with state := .initialized })
            | (right, .raised x c) => ((left, right), .raised x c)
            | (right, .blocked c) => ((left, right), .blocked c))
        | (left, .raised x c) => ((left, some endControl), .raised x c)
        | (left, .blocked c) => ((left, some endControl), .blocked c)

/-- Member `start_impl` of the chain. -/
def PortChain.start_impl (h : Hooks) (c : PortChain) : ChainOutcome :=
  if c.state ≠ .registered then .raised (.runtimeError "Cannot start in wrong state.") c
  else c.forAllPorts ( Port.start h) .running

/-- Member `stop_impl` of the chain.  The chain waits for the end control
port to terminate; a timeout of this wait makes the stop of every port a
forced one.  The timed acquisition of `javaMutex` that ends the function is a
matter of real time and is outside the embedding. -/
def PortChain.stop_impl (h : Hooks) (c : PortChain) : ChainOutcome :=
  if c.state ≠ .running then .raised (.runtimeError "Cannot stop in wrong state.") c
  else
    match (c.entry (MAX_PORTS - 1)).item with
    | Option.none =>
      .raised (.runtimeError "No End-Control port in port-chain.") { c with lastCycle := true }
    | some endControl =>
      PortChain.forAllPorts
        (fun port =>
          Port.stop h
            (match endControl.waitForTerminatedSubstate [] with
              | .ok _ => false
              | .error _ => true) [] port)
        .stopped { c with lastCycle := true }

/-- Member `unregisterAtServer_impl` of the chain. -/
def PortChain.unregisterAtServer_impl (h : Hooks) (c : PortChain) : ChainOutcome :=
  if c.state ≠ .stopped ∧ c.state ≠ .registered then
    .raised (.runtimeError "Cannot unregisterAtServer in wrong state.") c
  else c.forAllPorts ( Port.unregisterAtServer h) .unregistered

/-- Member `uninitialize_impl` of the chain. -/
def PortChain.uninitialize_impl (h : Hooks) (c : PortChain) : ChainOutcome :=
  if c.state ≠ .unregistered ∧ c.state ≠ .initialized ∧ c.state ≠ .created then
    .raised (.runtimeError "Cannot un-initialize in wrong state.") c
  else c.forAllPorts ( Port.uninitialize h) .deletable

/-- Member `shutdown_impl` of the chain. -/
def PortChain.shutdown_impl (h : Hooks) (c : PortChain) : ChainOutcome :=
  match c.state with
  | .created => (c.uninitialize_impl h).andThen fun c => .returned { c with state := .deletable }
  | .initialized => c.uninitialize_impl h
  | .registered => (c.unregisterAtServer_impl h).andThen (PortChain.uninitialize_impl h)
  | .running =>
    ((c.stop_impl h).andThen (PortChain.unregisterAtServer_impl h)).andThen
      (PortChain.uninitialize_impl h)
  | .stopped => (c.unregisterAtServer_impl h).andThen (PortChain.uninitialize_impl h)
  | .unregistered => c.uninitialize_impl h
  | .deletable => .returned c

/-- Member `initialize` of the chain. -/
def PortChain.initialize (h : Hooks) (startControl endControl : Port) (c : PortChain) :
    (Option Port × Option Port) × ChainOutcome :=
  c.initialize_impl h startControl endControl

/-- Member `registerAtServer` of the chain. -/
def PortChain.registerAtServer (h : Hooks) (c : PortChain) : ChainOutcome :=
  c.registerAtServer_impl h

/-- Member `start` of the chain. -/
def PortChain.start (h : Hooks) (c : PortChain) : ChainOutcome := c.start_impl h

/-- Member `stop` of the chain. -/
def PortChain.stop (h : Hooks) (c : PortChain) : ChainOutcome := c.stop_impl h

/-- Member `unregisterAtServer` of the chain. -/
def PortChain.unregisterAtServer (h : Hooks) (c : PortChain) : ChainOutcome :=
  c.unregisterAtServer_impl h

/-- Member `uninitialize` of the chain. -/
def PortChain.uninitialize (h : Hooks) (c : PortChain) : ChainOutcome :=
  c.uninitialize_impl h

/-- Member `shutdown` of the chain. -/
def PortChain.shutdown (h : Hooks) (c : PortChain) : ChainOutcome := c.shutdown_impl h

/-- Slot `i` can take an input port: it is empty, and it is slot 1 or its
predecessor holds an input port. -/
def PortChain.fitsInput (c : PortChain) (i : Nat) : Bool :=
  c.emptyAt i && (decide (i = 1) || c.inputAt (i - 1))

/-- Slot `i` can take an output port: it is empty, and it is slot
`MAX_PORTS - 2` or its successor holds an output port. -/
def PortChain.fitsOutput (c : PortChain) (i : Nat) : Bool :=
  c.emptyAt i && (decide (i = MAX_PORTS - 2) || c.outputAt (i + 1))

/-- A port as `addPort` accepts it: constructed, then initialized with hooks
that return. -/
def userPort (isOutput : Bool) (internalId : Int) : Port :=
  ( Port.initialize quietHooks (Port.construct isOutput internalId)).port

/-- The chain of the tests: constructed, then initialized with a start
control of id -2 and an end control of id -1, hooks that return. -/
def controlledChain : PortChain :=
  ( PortChain.initialize quietHooks (Port.construct false (-2)) (Port.construct true (-1))
    PortChain.construct).2.chain

/-- A call of `addPort` or of `removePort`. -/
inductive ChainCall
  | addPort (newPort : Port) (client : Option Nat)
  | removePort (internalId : Int)
  deriving DecidableEq

/-- How the call ends on the chain. -/
def PortChain.call (h : Hooks) (a : ChainCall) (c : PortChain) : ChainOutcome :=
  match a with
  | .addPort newPort client => (c.addPort h (some newPort) client).2
  | .removePort internalId => (c.removePort h internalId).2

/-- A sequence of calls, each made when the one before it has returned; the
sequence ends with the first call that does not return. -/
def PortChain.calls (h : Hooks) : List ChainCall → PortChain → ChainOutcome
  | [], c => .returned c
  | a :: rest, c => (c.call h a).andThen (PortChain.calls h rest)

/-- The chain between two calls of a thread that is alone: the array has its
`MAX_PORTS` entries and no accessor is alive. -/
def PortChain.atRest (c : PortChain) : Prop :=
  c.portList.length = MAX_PORTS ∧ ∀ e ∈ c.portList, e.useCount = 0

/-- The user slots without a hole: the slots 1 to `a` hold input ports, the
`b` slots up to `MAX_PORTS - 2` hold output ports, and the slots between them
are empty. -/
def PortChain.packed (c : PortChain) (a b : Nat) : Prop :=
  a + b ≤ MAX_PORTS - 2 ∧
  (∀ j, 1 ≤ j → j ≤ a → c.inputAt j = true) ∧
  (∀ j, a < j → j < MAX_PORTS - 1 - b → c.emptyAt j = true) ∧
  (∀ j, MAX_PORTS - 1 - b ≤ j → j ≤ MAX_PORTS - 2 → c.outputAt j = true)

/-- Every held input port sits at a smaller index than every held output
port. -/
def PortChain.ordered (c : PortChain) : Prop :=
  ∀ i j, c.inputAt i = true → c.outputAt j = true → i < j

/-- The chain of the tests after `registerAtServer`, hooks that return. -/
def registeredChain : PortChain := (controlledChain.registerAtServer quietHooks).chain

/-- The chain of the tests after `registerAtServer` and `start`, hooks that
return. -/
def runningChain : PortChain := (registeredChain.start quietHooks).chain

/-- The ports of a test loop: `n` ports of one direction as `addPort` accepts
them, with the ids `first`, `first + 1`, and so on. -/
def userPorts (isOutput : Bool) (first : Int) : Nat → List Port
  | 0 => []
  | n + 1 => userPort isOutput first :: userPorts isOutput (first + 1) n

/-- The calls of `addPort` for the ports of the list in turn. -/
def addCalls (client : Option Nat) (ports : List Port) : List ChainCall :=
  ports.map fun p => ChainCall.addPort p client

/-- The chain holds its control ports: the array has its `MAX_PORTS` entries,
slot 0 holds an input port and slot `MAX_PORTS - 1` holds an output port. -/
def PortChain.controlled (c : PortChain) : Prop :=
  c.portList.length = MAX_PORTS ∧ c.inputAt 0 = true ∧ c.outputAt (MAX_PORTS - 1) = true

/-- No `removePort` of the sequence is for a control port: each finds its port
in a slot other than 0 and `MAX_PORTS - 1`. -/
def PortChain.keepsControls (h : Hooks) : List ChainCall → PortChain → Bool
  | [], _ => true
  | a :: rest, c =>
    (match a with
      | .removePort internalId =>
        decide (c.findSlotOfPort internalId ≠ 0 ∧
          c.findSlotOfPort internalId ≠ ((MAX_PORTS - 1 : Nat) : Int))
      | .addPort _ _ => true) &&
      PortChain.keepsControls h rest (c.call h a).chain

/-- A sequence of calls as in the tests: two input ports and an output port
are added, the first input port is removed, another output port is added. -/
def mixedCalls : List ChainCall :=
  [.addPort (userPort false 11) Option.none, .addPort (userPort true 21) Option.none,
    .addPort (userPort false 12) Option.none, .removePort 11,
    .addPort (userPort true 22) Option.none]

/-- Every port the array holds satisfies `P`. -/
def allHeld (P : Port → Prop) (l : List PtrEnvelope) : Prop :=
  ∀ e ∈ l, ∀ p, e.item = some p → P p

/-- The ports the chain holds are in a state that goes with the state of the
chain: Initialized in a Created chain (as `addPort` leaves them there), the
state of the same name otherwise, a Running chain also holding ports that
stopped on an error, and holding its end control port. -/
def PortChain.compatible (c : PortChain) : Prop :=
  (c.state = .created ∨ c.state = .initialized →
    allHeld (fun p => p.state = .initialized) c.portList) ∧
  (c.state = .registered → allHeld (fun p => p.state = .registered) c.portList) ∧
  (c.state = .running →
    allHeld (fun p => p.state = .running ∨ p.state = .stoppedOnError) c.portList ∧
      (c.entry (MAX_PORTS - 1)).item ≠ Option.none) ∧
  (c.state = .stopped → allHeld (fun p => p.state = .stopped) c.portList) ∧
  (c.state = .unregistered → allHeld (fun p => p.state = .unregistered) c.portList) ∧
  (c.state = .deletable → allHeld (fun p => p.state = .deletable) c.portList)

/-- A sequence of calls that removes the start control port (id -2), adds
`MAX_PORTS - 1` output ports with the ids 1, 2, ..., removes the output port
of id `MAX_PORTS - 2` and adds an input port. -/
def overflowCalls : List ChainCall :=
  .removePort (-2) ::
    (addCalls Option.none (userPorts true 1 (MAX_PORTS - 3)) ++
      [.addPort (userPort true 510) Option.none, .addPort (userPort true 511) Option.none,
        .removePort 510, .addPort (userPort false 600) Option.none])

/-! ### The cycle of the chain and the wait for its end -/

/-- The value of an enumerator of `enum State` of `Port`, by which the
source compares states (`state > running`). -/
def State.toNat : State → Nat
  | .created => 0
  | .initialized => 1
  | .registered => 2
  | .running => 3
  | .stoppedOnError => 4
  | .stopped => 5
  | .unregistered => 6
  | .deletable => 7

/-- The loop `while (substate != cycleDone)` of `waitForCycleDone2`, with
`wait_for(lock, maxWaitingTime)`: a wake-up that shows a state above
`running` ends the function, without wake-up the wait times out. -/
def waitCycleDone (p : Port) : List Port → Except TimeoutException Unit
  | [] =>
    if p.substate ≠ .cycleDone then .error { message := "Timeout in waitForCycleDone2()." }
    else .ok ()
  | q :: env =>
    if p.substate ≠ .cycleDone then
      if (p.wake q).state.toNat > State.running.toNat then .ok ()
      else waitCycleDone (p.wake q) env
    else .ok ()

/-- Member `waitForCycleDone2` of `Port`. -/
def Port.waitForCycleDone2 (env : List Port) (p : Port) : Except TimeoutException Unit :=
  if p.state.toNat > State.running.toNat then .ok () else waitCycleDone p env

/-- What leaves `waitForCycleDone` of the chain as an exception: the
`runtime_error` of its `THROW`, or the `TimeoutException` of the port. -/
inductive WaitExc
  | runtimeError (message : String)
  | timeout (e : TimeoutException)
  deriving DecidableEq

/-- Member `waitForCycleDone` of the chain; `env` are the wake-ups the end
control port sees while it waits. -/
def PortChain.waitForCycleDone (env : List Port) (c : PortChain) : Except WaitExc Unit :=
  match (c.entry (MAX_PORTS - 1)).item with
  | Option.none => .error (.runtimeError "No End-Control port in port-chain.")
  | some endControl =>
    match endControl.waitForCycleDone2 env with
    | .ok _ => .ok ()
    | .error e => .error (.timeout e)

/-- The loop over `portList` of a member of the chain that does not assign
the state of the chain. -/
def PortChain.forPorts (f : Port → Outcome) (c : PortChain) : ChainOutcome :=
  match forEachPort f c.portList with
  | (.completed, l) => .returned { c with portList := l }
  | (.raised e, l) => .raised (.ofPort e) { c with portList := l }
  | (.blocked, l) => .blocked { c with portList := l }

/-- Member `execNativeCycle` of the chain.  The function takes no lock of
the chain.  The tests on the end control port read one snapshot of it (no
other thread changes the port between two of them); `wake port` are the
wake-ups that `execNativeProcess` sees on `port` while it waits for the java
thread. -/
def PortChain.execNativeCycle (h : Hooks) (timeCodeStart timeCodeDuration : Nat)
    (wake : Port → List Port) (c : PortChain) : ChainOutcome :=
  match (c.entry (MAX_PORTS - 1)).item with
  | some endControl =>
    if endControl.state ≠ .running then .returned c
    else if endControl.substate = .terminated then .returned c
    else if endControl.substate ≠ .cycleDone ∧ endControl.substate ≠ .started then
      if endControl.state = .running then .raised (.runtimeError "XRUN.") c
      else .returned c
    else
      (c.forPorts ( Port.execNativeCycleInit h timeCodeStart timeCodeDuration)).andThen
        (PortChain.forPorts fun port => Port.execNativeProcess h (wake port) port)
  | Option.none => .raised (.runtimeError "No End-Control port in port-chain.") c

/-- Member `execJavaCycle` of the chain; `wake port` are the wake-ups that
`execJavaProcess` sees on `port` while it waits for the native thread. -/
def PortChain.execJavaCycle (h : Hooks) (lastCycle : Bool) (wake : Port → List Port)
    (c : PortChain) : ChainOutcome :=
  c.forPorts fun port => Port.execJavaProcess h lastCycle (wake port) port

/-- The wake-ups of a use are states of the port itself as other threads
left it: they have its direction, which is `const`. -/
def sameDirection (a : Op) (p : Port) : Prop := ∀ q, q ∈ a.env → q.output = p.output

/-- On an input port the sub-state is not NativeToTerminate. -/
def Port.inputInv (p : Port) : Prop := p.output = false → p.substate ≠ .nativeToTerminate

/-- The running chain of the tests after `execNativeCycleInit` on its ports:
the native thread is in the middle of a cycle. -/
def midCycleChain : PortChain :=
  (runningChain.forPorts ( Port.execNativeCycleInit quietHooks 0 64)).chain

/-- The wake-up of a port that waits for the java thread: the port as the
java half, run with hooks that return, leaves it. -/
def javaWake (port : Port) : List Port :=
  [( Port.execJavaProcess quietHooks false [] port).port]

/-! ### The system listener, `src/native/JackSystemListener.hpp`

The members are embedded for a calling thread that owns `stateMutex`.  A
pointer is `Option.none` when it is NULL; what the JNI functions and the JACK
function answer is a parameter of the member that calls them. -/

/-- The state of the system listener, `enum State` of `JackSystemListener`. -/
inductive ListenerState
  | uninitialized
  | initialized
  | activated
  | deactivateted
  deriving DecidableEq

/-- What leaves a member of `JackSystemListener` as an exception: the
`runtime_error` built by `throwCannot`, or the one of a `THROW`. -/
inductive ListenerExc
  | cannot (attemptedAction : String) (lineNumber : Nat) (state : ListenerState)
  | runtimeError (message : String)
  deriving DecidableEq

/-- The fields of `JackSystemListener` that its life-cycle reads or writes,
and the file-level flag `ignoreCallback`. -/
structure JackSystemListener where
  systemListener : Option Nat
  onConnectionChangedMid : Option Nat
  jvm : Option Nat
  state : ListenerState
  ignoreCallback : Bool
  deriving DecidableEq

/-- What the JNI functions called by `initialize_impl` answer: the global
reference, the class, the method identifier, and the error code and pointer of
`GetJavaVM`. -/
structure ListenerJni where
  newGlobalRef : Option Nat
  getObjectClass : Option Nat
  getMethodID : Option Nat
  getJavaVMError : Int
  getJavaVM : Option Nat
  deriving DecidableEq

/-- How a member function of `JackSystemListener` ends. -/
inductive ListenerOutcome
  | returned (l : JackSystemListener)
  | raised (e : ListenerExc) (l : JackSystemListener)
  deriving DecidableEq

/-- The listener the function ended on. -/
def ListenerOutcome.listener : ListenerOutcome → JackSystemListener
  | .returned l => l
  | .raised _ l => l

/-- Sequencing: the rest of a function body runs when the first part returned. -/
def ListenerOutcome.andThen (o : ListenerOutcome)
    (k : JackSystemListener → ListenerOutcome) : ListenerOutcome :=
  match o with
  | .returned l => k l
  | .raised e l => .raised e l

/-- The constructor `JackSystemListener()`; `ignoreCallback` is initialised
to `true` at file level. -/
def JackSystemListener.construct : JackSystemListener :=
  { systemListener := Option.none, onConnectionChangedMid := Option.none, jvm := Option.none,
    state := .uninitialized, ignoreCallback := true }

/-- Member `initialize_impl` of the system listener. -/
def JackSystemListener.initialize_impl (jni : ListenerJni) (l : JackSystemListener) :
    ListenerOutcome :=
  let l := { l with systemListener := jni.newGlobalRef }
  if l.systemListener = Option.none then
    .raised (.runtimeError "Call to NewGlobalRef function failed.") l
  else if jni.getObjectClass = Option.none then
    .raised (.runtimeError "MidiSystemListener class not found.") l
  else
    let l := { l with onConnectionChangedMid := jni.getMethodID }
    if l.onConnectionChangedMid = Option.none then
      .raised (.runtimeError "Method-identifier not found.") l
    else
      let l := { l with jvm := jni.getJavaVM }
      if jni.getJavaVMError ≠ 0 then
        .raised (.runtimeError "Attaching the JVM pointer failed.") l
      else .returned l

/-- Member `activate_impl` of the system listener; `err` is what
`jack_set_port_connect_callback` answers. -/
def JackSystemListener.activate_impl (err : Int) (l : JackSystemListener) : ListenerOutcome :=
  if err ≠ 0 then .raised (.runtimeError "jack_set_port_connect_callback failed.") l
  else .returned { l with ignoreCallback := false }

/-- Member `uninitialize_impl` of the system listener. -/
def JackSystemListener.uninitialize_impl (l : JackSystemListener) : ListenerOutcome :=
  if l.systemListener = Option.none then .raised (.runtimeError "Invalid null pointer.") l
  else .returned { l with systemListener := Option.none, onConnectionChangedMid := Option.none }

/-- Member `deactivate_impl` of the system listener. -/
def JackSystemListener.deactivate_impl (l : JackSystemListener) : ListenerOutcome :=
  .returned { l with ignoreCallback := true }

/-- Member `shutdown_impl` of the system listener. -/
def JackSystemListener.shutdown_impl (l : JackSystemListener) : ListenerOutcome :=
  match l.state with
  | .uninitialized => .returned l
  | .initialized => l.uninitialize_impl
  | .activated => l.deactivate_impl.andThen JackSystemListener.uninitialize_impl
  | .deactivateted => l.uninitialize_impl

/-- Member `throwCannot` of the system listener. -/
def JackSystemListener.throwCannot (attemptedAction : String) (lineNumber : Nat)
    (state : ListenerState) (l : JackSystemListener) : ListenerOutcome :=
  .raised (.cannot attemptedAction lineNumber state) l

/-- Member `initialize` of the system listener. -/
def JackSystemListener.initialize (jni : ListenerJni) (l : JackSystemListener) :
    ListenerOutcome :=
  if l.state ≠ .uninitialized then l.throwCannot "initialize" 294 l.state
  else (l.initialize_impl jni).andThen fun l => .returned { l with state := .initialized }

/-- Member `activate` of the system listener. -/
def JackSystemListener.activate (err : Int) (l : JackSystemListener) : ListenerOutcome :=
  if l.state ≠ .initialized then l.throwCannot "activate" 312 l.state
  else (l.activate_impl err).andThen fun l => .returned { l with state := .activated }

/-- Member `deactivate` of the system listener. -/
def JackSystemListener.deactivate (l : JackSystemListener) : ListenerOutcome :=
  if l.state ≠ .activated then l.throwCannot "deactivate" 326 l.state
  else l.deactivate_impl.andThen fun l => .returned { l with state := .deactivateted }

/-- Member `uninitialize` of the system listener. -/
def JackSystemListener.uninitialize (l : JackSystemListener) : ListenerOutcome :=
  if l.state ≠ .deactivateted ∧ l.state ≠ .initialized then
    l.throwCannot "un-initialize" 342 l.state
  else l.uninitialize_impl.andThen fun l => .returned { l with state := .uninitialized }

/-- Member `shutdown` of the system listener. -/
def JackSystemListener.shutdown (l : JackSystemListener) : ListenerOutcome :=
  l.shutdown_impl.andThen fun l => .returned { l with state := .uninitialized }

/-- A call of a public member of the system listener, with what the
environment answers during the call. -/
inductive ListenerCall
  | doInitialize (jni : ListenerJni)
  | doActivate (err : Int)
  | doDeactivate
  | doUnInitialize
  | doShutdown
  deriving DecidableEq

/-- The outcome of a call on listener `l`. -/
def JackSystemListener.perform (a : ListenerCall) (l : JackSystemListener) :
    ListenerOutcome :=
  match a with
  | .doInitialize jni => l.initialize jni
  | .doActivate err => l.activate err
  | .doDeactivate => l.deactivate
  | .doUnInitialize => l.uninitialize
  | .doShutdown => l.shutdown

/-- The listener after a sequence of calls; a call that raised leaves the
listener as its outcome shows it. -/
def JackSystemListener.run : List ListenerCall → JackSystemListener → JackSystemListener
  | [], l => l
  | a :: calls, l => JackSystemListener.run calls (l.perform a).listener

/-- The listeners that can be met: the listener as constructed, and the
listener left by a call on a listener that can be met. -/
inductive ListenerReachable : JackSystemListener → Prop
  | construct : ListenerReachable JackSystemListener.construct
  | perform (a : ListenerCall) (l : JackSystemListener) :
      ListenerReachable l → ListenerReachable (l.perform a).listener

/-- The JNI functions called by `initialize_impl` all succeed. -/
def ListenerJni.succeeds (jni : ListenerJni) : Prop :=
  jni.newGlobalRef ≠ Option.none ∧ jni.getObjectClass ≠ Option.none ∧
    jni.getMethodID ≠ Option.none ∧ jni.getJavaVMError = 0

/-- Answers of the JNI functions that all succeed. -/
def sampleJni : ListenerJni :=
  { newGlobalRef := some 1, getObjectClass := some 2, getMethodID := some 3,
    getJavaVMError := 0, getJavaVM := some 4 }

/-! ### The event buffers of the JACK ports, `src/native/JackInputPort.hpp` and `src/native/JackOutputPort.hpp`

The native arrays are lists of their declared length; an access outside an
array is undefined behaviour in the source and is a way of ending of its own
in the embedding.  What JACK and the java listener deliver is a parameter of
the hook that asks for it. -/

/-- The macro `MaxMidiEvents`. -/
def MaxMidiEvents : Nat := 255

/-- A `jack_midi_event_t`: its frame time and its bytes (`jack_midi_data_t`,
an `unsigned char`, so below 256); `size` is the number of the bytes. -/
structure JackMidiEvent where
  time : Nat
  buffer : List Nat
  deriving DecidableEq

/-- The field `size` of a `jack_midi_event_t`. -/
def JackMidiEvent.size (e : JackMidiEvent) : Nat := e.buffer.length

/-- The conversion of a `jack_nframes_t` (`uint32_t` in the JACK headers) to
`jint` (32 bits, signed). -/
def toJint (n : Nat) : Int :=
  if n % 2 ^ 32 < 2 ^ 31 then ((n % 2 ^ 32 : Nat) : Int) else ((n % 2 ^ 32 : Nat) : Int) - 2 ^ 32

/-- How a hook implementation of a JACK port ends: it returns, it throws a
`runtime_error`, or it accesses an array outside its bounds. -/
inductive ImplEnd (α : Type)
  | returned (s : α)
  | raised (message : String) (s : α)
  | outOfBounds (s : α)
  deriving DecidableEq

/-- The assignment `buffer[i] = v` to a native array. -/
def storeAt (buffer : List Int) (i : Nat) (v : Int) : Option (List Int) :=
  if i < buffer.length then some (buffer.set i v) else Option.none

/-- The fields of `JackInputPort` that its process hooks read or write. -/
structure JackInputPort where
  jackPort : Option Nat
  bufferRawMidi : List Int
  bufferDeltaTimes : List Int
  bufferEventCount : Nat
  deriving DecidableEq

/-- The constructor of `JackInputPort`; the arrays are not initialised by
it and are taken as filled with 0. -/
def JackInputPort.construct : JackInputPort :=
  { jackPort := Option.none, bufferRawMidi := List.replicate (3 * MaxMidiEvents) 0,
    bufferDeltaTimes := List.replicate MaxMidiEvents 0, bufferEventCount := 0 }

/-- The four assignments and the increment by which `execNativeProcess_impl`
of `JackInputPort` buffers an event of size 3. -/
def JackInputPort.store (jackEvent : JackMidiEvent) (s : JackInputPort) :
    Option JackInputPort :=
  let rawIdx := 3 * s.bufferEventCount
  (storeAt s.bufferDeltaTimes s.bufferEventCount (toJint jackEvent.time)).bind fun deltaTimes =>
    (storeAt s.bufferRawMidi rawIdx (jackEvent.buffer.getD 0 0 : Nat)).bind fun raw =>
      (storeAt raw (rawIdx + 1) (jackEvent.buffer.getD 1 0 : Nat)).bind fun raw =>
        (storeAt raw (rawIdx + 2) (jackEvent.buffer.getD 2 0 : Nat)).bind fun raw =>
          some { s with bufferDeltaTimes := deltaTimes, bufferRawMidi := raw,
                        bufferEventCount := s.bufferEventCount + 1 }

/-- The loop of `execNativeProcess_impl` of `JackInputPort` over what
`jack_midi_event_get` delivers for the indices from `i` on: its error code and
the event. -/
def JackInputPort.bufferEvents :
    List (Int × JackMidiEvent) → JackInputPort → ImplEnd JackInputPort
  | [], s => .returned s
  | (error, jackEvent) :: rest, s =>
    if error = 0 then
      if jackEvent.size = 3 then
        if s.bufferEventCount ≥ MaxMidiEvents then .raised "Buffer overflow." s
        else
          match s.store jackEvent with
          | some s => JackInputPort.bufferEvents rest s
          | Option.none => .outOfBounds s
      else JackInputPort.bufferEvents rest s
    else .raised "Error retrieving Midi Events." s

/-- Member `execNativeProcess_impl` of `JackInputPort`; `delivered` is what
`jack_midi_event_get` answers for the indices below
`jack_midi_get_event_count`. -/
def JackInputPort.execNativeProcess_impl (delivered : List (Int × JackMidiEvent))
    (s : JackInputPort) : ImplEnd JackInputPort :=
  if s.jackPort = Option.none then .raised "jackPort was NULL." s
  else JackInputPort.bufferEvents delivered { s with bufferEventCount := 0 }

/-- Member `execJavaProcess_impl` of `JackInputPort`: the arrays `rawEvents`
and `deltaTimes` that the listener receives.  `allocated` tells whether
`NewIntArray` succeeds, `thrown` whether the listener throws. -/
def JackInputPort.execJavaProcess_impl (allocated thrown : Bool) (s : JackInputPort) :
    ImplEnd (List Int × List Int) :=
  if s.bufferEventCount > MaxMidiEvents then .raised "Buffer overflow." ([], [])
  else if !allocated then .raised "Out of memory." ([], [])
  else if thrown then
    .raised "Java call failed."
      (s.bufferRawMidi.take (3 * s.bufferEventCount), s.bufferDeltaTimes.take s.bufferEventCount)
  else
    .returned
      (s.bufferRawMidi.take (3 * s.bufferEventCount), s.bufferDeltaTimes.take s.bufferEventCount)

/-- The fields of `JackOutputPort` that its process hooks read or write. -/
structure JackOutputPort where
  jackPort : Option Nat
  bufferRawMidi : List Int
  bufferDeltaTimes : List Int
  bufferEventSizes : List Int
  bufferEventCount : Int
  deriving DecidableEq

/-- The constructor of `JackOutputPort`; the arrays are not initialised by
it and are taken as filled with 0. -/
def JackOutputPort.construct : JackOutputPort :=
  { jackPort := Option.none, bufferRawMidi := List.replicate (3 * MaxMidiEvents) 0,
    bufferDeltaTimes := List.replicate MaxMidiEvents 0,
    bufferEventSizes := List.replicate MaxMidiEvents 0, bufferEventCount := 0 }

/-- What the call of the method `process` of the java listener of an output
port yields: the `int` it returns, whether it throws, and the three java
arrays (of `3 * MaxMidiEvents`, `MaxMidiEvents` and `MaxMidiEvents` elements)
as it leaves them. -/
structure ProcessAnswer where
  count : Int
  thrown : Bool
  javaRawMidi : List Int
  javaDeltaTimes : List Int
  javaEventSizes : List Int
  deriving DecidableEq

/-- Member `execJavaProcess_impl` of `JackOutputPort`. -/
def JackOutputPort.execJavaProcess_impl (answer : ProcessAnswer) (s : JackOutputPort) :
    ImplEnd JackOutputPort :=
  let s := { s with bufferEventCount := answer.count }
  if answer.thrown then .raised "Java call failed." { s with bufferEventCount := 0 }
  else
    .returned { s with
      bufferRawMidi := answer.javaRawMidi.take (3 * MaxMidiEvents)
      bufferDeltaTimes := answer.javaDeltaTimes.take MaxMidiEvents
      bufferEventSizes := answer.javaEventSizes.take MaxMidiEvents }

/-- The loop `for (int j = 0; j < eventSize; j++)` of `execNativeProcess_impl`
of `JackOutputPort`: the bytes `static_cast<jack_midi_data_t>(bufferRawMidi[rawMidiIdx + j])`. -/
def readBytes (buffer : List Int) (rawMidiIdx : Nat) : Nat → Option (List Nat)
  | 0 => some []
  | eventSize + 1 =>
    (readBytes buffer rawMidiIdx eventSize).bind fun bytes =>
      (buffer.get? (rawMidiIdx + eventSize)).map fun v => bytes ++ [(v % 256).toNat]

/-- The loop `for (int i = 0; i < bufferEventCount; i++)` of
`execNativeProcess_impl` of `JackOutputPort`, with `todo` rounds to go, the
locals `i`, `rawMidiIdx` and `offset`, and the events written to the JACK
buffer; `reserves i` tells whether `jack_midi_event_reserve` finds space in
round `i`. -/
def JackOutputPort.writeEvents (s : JackOutputPort) (reserves : Nat → Bool) :
    Nat → Nat → Nat → Int → List (Int × List Nat) → ImplEnd (List (Int × List Nat))
  | 0, _, _, _, written => .returned written
  | todo + 1, i, rawMidiIdx, offset, written =>
    match s.bufferEventSizes.get? i with
    | Option.none => .outOfBounds written
    | some eventSize =>
      match s.bufferDeltaTimes.get? i with
      | Option.none => .outOfBounds written
      | some deltaTime =>
        if deltaTime < offset then .raised "Midi-Event was out of order." written
        else if !reserves i then .raised "Not enough space to write Midi Events." written
        else
          match readBytes s.bufferRawMidi rawMidiIdx eventSize.toNat with
          | Option.none => .outOfBounds written
          | some bytes =>
            JackOutputPort.writeEvents s reserves todo (i + 1) (rawMidiIdx + 3) deltaTime
              (written ++ [(deltaTime, bytes)])

/-- Member `execNativeProcess_impl` of `JackOutputPort`: the events written
to the JACK buffer, which is cleared first. -/
def JackOutputPort.execNativeProcess_impl (reserves : Nat → Bool) (s : JackOutputPort) :
    ImplEnd (List (Int × List Nat)) :=
  if s.jackPort = Option.none then .raised "jackPort is NULL." []
  else JackOutputPort.writeEvents s reserves s.bufferEventCount.toNat 0 0 0 []

/-- An incoming note-on event of three bytes at frame `time`. -/
def noteOn (time : Nat) : Int × JackMidiEvent := (0, { time := time, buffer := [144, 60, 100] })

/-- The answer of a listener that reports `count` events and has filled the
arrays with events of one byte at frame 0. -/
def answerOf (count : Int) : ProcessAnswer :=
  { count := count, thrown := false,
    javaRawMidi := List.replicate (3 * MaxMidiEvents) 248,
    javaDeltaTimes := List.replicate MaxMidiEvents 0,
    javaEventSizes := List.replicate MaxMidiEvents 1 }

/-- What the hook ended on. -/
def ImplEnd.state {α : Type} : ImplEnd α → α
  | .returned s => s
  | .raised _ s => s
  | .outOfBounds s => s

/-- The message of the error the hook raised, if it raised one. -/
def ImplEnd.message {α : Type} : ImplEnd α → Option String
  | .raised message _ => some message
  | _ => Option.none

/-- The hook accessed an array outside its bounds. -/
def ImplEnd.pastBounds {α : Type} : ImplEnd α → Bool
  | .outOfBounds _ => true
  | _ => false

/-! ### The control ports, `src/native/ControllPort.hpp`

`ControlPort` implements the hooks of `Port`.  Its private fields and the
callbacks it has delivered to the system listener are a function of the hook
invocations logged on the port: they are obtained by running the hook
implementations over the log.  A pointer is `Option.none` when it is NULL;
what the JNI functions answer is a parameter, as is the `client` pointer
handed to `register_impl`. -/

/-- A callback of the java system listener invoked by a control port:
`onOpen`, `onCycleStart` (start control) or `onCycleEnd` (end control) with
its arguments, `onClose`. -/
inductive ListenerEvent
  | onOpen
  | onCycle (timeCodeStart timeCodeDuration : Nat) (lastCycle : Bool)
  | onClose
  deriving DecidableEq

/-- The private fields of `ControlPort`, and the callbacks delivered so far. -/
structure ControlFields where
  systemListener : Option Nat
  onOpenMid : Option Nat
  onCycleMid : Option Nat
  onCloseMid : Option Nat
  events : List ListenerEvent
  deriving DecidableEq

/-- What the JNI functions called by `initialize_impl` of a control port
answer: the global reference, the class, and the identifiers of the four
methods. -/
structure ControlJni where
  newGlobalRef : Option Nat
  getObjectClass : Option Nat
  onOpen : Option Nat
  onCycleStart : Option Nat
  onCycleEnd : Option Nat
  onClose : Option Nat
  deriving DecidableEq

/-- The fields as the constructor of `ControlPort` sets them. -/
def ControlFields.construct : ControlFields :=
  { systemListener := Option.none, onOpenMid := Option.none, onCycleMid := Option.none,
    onCloseMid := Option.none, events := [] }

/-- The hook implementations of `ControlPort`: the exception raised, if any
(`thrown n` for the `THROW` of line `n`), and the fields left. -/
def ControlPort.hook (jni : ControlJni) (client : Option Nat) (isInput : Bool)
    (f : ControlFields) : HookCall → Option Exc × ControlFields
  | .initialize_impl =>
    let f := { f with systemListener := jni.newGlobalRef }
    if f.systemListener = Option.none then (some (.thrown 94), f)
    else if jni.getObjectClass = Option.none then (some (.thrown 100), f)
    else
      let f := { f with onOpenMid := jni.onOpen }
      let f := { f with onCycleMid := if isInput then jni.onCycleStart else jni.onCycleEnd }
      let f := { f with onCloseMid := jni.onClose }
      if f.onOpenMid = Option.none ∨ f.onCycleMid = Option.none ∨ f.onCloseMid = Option.none then
        (some (.thrown 115), f)
      else if isInput then (Option.none, { f with events := f.events ++ [.onOpen] })
      else (Option.none, f)
  | .register_impl =>
    if client = Option.none then (some (.thrown 126), f) else (Option.none, f)
  | .start_impl => (Option.none, f)
  | .execJavaProcess_impl timeCodeStart timeCodeDuration lastCycle =>
    (Option.none,
      { f with events := f.events ++ [.onCycle timeCodeStart timeCodeDuration lastCycle] })
  | .execNativeProcess_impl _ _ => (Option.none, f)
  | .stop_impl => (Option.none, f)
  | .unregister_impl => (Option.none, f)
  | .uninitialize_impl =>
    if f.systemListener = Option.none ∨ f.onCloseMid = Option.none then (some (.thrown 161), f)
    else
      let f := if !isInput then { f with events := f.events ++ [.onClose] } else f
      (Option.none,
        { f with systemListener := Option.none, onOpenMid := Option.none,
                 onCycleMid := Option.none, onCloseMid := Option.none })

/-- The fields of a control port after the hook invocations `calls`. -/
def ControlPort.replay (jni : ControlJni) (client : Option Nat) (isInput : Bool)
    (calls : List HookCall) : ControlFields :=
  calls.foldl (fun f c => (ControlPort.hook jni client isInput f c).2) ControlFields.construct

/-- The fields of the control port `p`. -/
def ControlPort.fields (jni : ControlJni) (client : Option Nat) (p : Port) : ControlFields :=
  ControlPort.replay jni client p.isInput p.calls

/-- The callbacks the control port `p` has delivered to the system listener. -/
def ControlPort.events (jni : ControlJni) (client : Option Nat) (p : Port) :
    List ListenerEvent :=
  (ControlPort.fields jni client p).events

/-- The hooks of `Port` as `ControlPort` implements them. -/
def controlHooks (jni : ControlJni) (client : Option Nat) : Hooks :=
  fun p c => (ControlPort.hook jni client p.isInput (ControlPort.fields jni client p) c).1

/-- The hooks `h` are those of `ControlPort` on the ports with the ids of
the two control ports. -/
def Hooks.controls (h : Hooks) (jni : ControlJni) (client : Option Nat)
    (startId endId : Int) : Prop :=
  ∀ (p : Port) (c : HookCall), p.internalId = startId ∨ p.internalId = endId →
    h p c = controlHooks jni client p c

/-- The hooks other than `initialize_impl` and `uninitialize_impl`. -/
def HookCall.quiet : HookCall → Bool
  | .initialize_impl => false
  | .uninitialize_impl => false
  | _ => true

/-- Port `q` is port `p` after hook invocations other than `initialize_impl`
and `uninitialize_impl`, and is Created or Deletable only if `p` is. -/
def Port.quietStep (p q : Port) : Prop :=
  q.output = p.output ∧ q.internalId = p.internalId ∧
  (q.state = .created → p.state = .created) ∧
  (q.state = .deletable → p.state = .deletable) ∧
  ∃ cs, q.calls = p.calls ++ cs ∧ ∀ c, c ∈ cs → c.quiet = true

/-- The start control port in the chain: an input port, initialized once,
that has delivered one `onOpen` and no `onClose`, and that holds its listener
until it is Deletable. -/
def ControlPort.startInv (jni : ControlJni) (client : Option Nat) (startId : Int)
    (p : Port) : Prop :=
  p.internalId = startId ∧ p.output = false ∧ p.state ≠ .created ∧
  (ControlPort.events jni client p).count .onOpen = 1 ∧
  (ControlPort.events jni client p).count .onClose = 0 ∧
  (p.state ≠ .deletable →
    (ControlPort.fields jni client p).systemListener ≠ Option.none ∧
    (ControlPort.fields jni client p).onCloseMid ≠ Option.none)

/-- The end control port in the chain before its teardown: an output port
that holds its listener and has delivered neither `onOpen` nor `onClose`. -/
def ControlPort.endLive (jni : ControlJni) (client : Option Nat) (endId : Int)
    (p : Port) : Prop :=
  p.internalId = endId ∧ p.output = true ∧ p.state ≠ .created ∧ p.state ≠ .deletable ∧
  (ControlPort.fields jni client p).systemListener ≠ Option.none ∧
  (ControlPort.fields jni client p).onCloseMid ≠ Option.none ∧
  (ControlPort.events jni client p).count .onOpen = 0 ∧
  (ControlPort.events jni client p).count .onClose = 0

/-- The end control port in the chain after its teardown: Deletable, with
one `onClose` delivered and no `onOpen`. -/
def ControlPort.endDone (jni : ControlJni) (client : Option Nat) (endId : Int)
    (p : Port) : Prop :=
  p.internalId = endId ∧ p.output = true ∧ p.state = .deletable ∧
  (ControlPort.events jni client p).count .onOpen = 0 ∧
  (ControlPort.events jni client p).count .onClose = 1

/-- A call of a member of the chain after `initialize`: a life-cycle call,
a cycle of one of the two worker threads with the wake-ups its ports see
while they wait, or the addition or removal of a port. -/
inductive LifeCall
  | registerAtServer
  | start
  | execNativeCycle (timeCodeStart timeCodeDuration : Nat) (wake : Port → List Port)
  | execJavaCycle (lastCycle : Bool) (wake : Port → List Port)
  | stop
  | unregisterAtServer
  | uninitialize
  | shutdown
  | addPort (newPort : Option Port) (client : Option Nat)
  | removePort (internalId : Int)

/-- The wake-ups that a port sees while it waits during the call. -/
def LifeCall.wake : LifeCall → Port → List Port
  | .execNativeCycle _ _ wake => wake
  | .execJavaCycle _ wake => wake
  | _ => fun _ => []

/-- The threads that run concurrently with the call leave a port they wake
as the port was at the call, but for hook invocations other than
`initialize_impl` and `uninitialize_impl`: they run worker operations. -/
def LifeCall.wakesQuietly (a : LifeCall) : Prop :=
  ∀ p q, q ∈ a.wake p → Port.quietStep p q

/-- The call does not remove a control port: it is no `removePort` with the
id of one of them. -/
def LifeCall.sparesControls (startId endId : Int) : LifeCall → Prop
  | .removePort internalId => internalId ≠ startId ∧ internalId ≠ endId
  | _ => True

/-- The call is a teardown of the chain: `uninitialize` or `shutdown`. -/
def LifeCall.isTeardown : LifeCall → Bool
  | LifeCall.uninitialize => true
  | .shutdown => true
  | _ => false

/-- The outcome of a call on chain `c`. -/
def PortChain.lifeCall (h : Hooks) (a : LifeCall) (c : PortChain) : ChainOutcome :=
  match a with
  | .registerAtServer => c.registerAtServer h
  | .start => c.start h
  | .execNativeCycle s d wake => c.execNativeCycle h s d wake
  | .execJavaCycle l wake => c.execJavaCycle h l wake
  | .stop => c.stop h
  | .unregisterAtServer => c.unregisterAtServer h
  | LifeCall.uninitialize => c.uninitialize h
  | .shutdown => c.shutdown h
  | .addPort newPort client => (c.addPort h newPort client).2
  | .removePort internalId => (c.removePort h internalId).2

/-- The chain after a sequence of calls; a call that raised or that is
blocked leaves the chain as its outcome shows it. -/
def PortChain.life (h : Hooks) : List LifeCall → PortChain → PortChain
  | [], c => c
  | a :: calls, c => PortChain.life h calls (c.lifeCall h a).chain

/-- Slot `i` of the chain holds a port with property `I`. -/
def PortChain.holdsAt (I : Port → Prop) (i : Nat) (c : PortChain) : Prop :=
  ∃ p, (c.entry i).item = some p ∧ I p

/-- The chain after `initialize`, with its control ports: it is not Created,
the first slot holds the start control port, the last slot the end control
port, which is through its teardown when the chain is Deletable. -/
def PortChain.controlInv (jni : ControlJni) (client : Option Nat) (startId endId : Int)
    (c : PortChain) : Prop :=
  c.state ≠ .created ∧
  c.holdsAt (ControlPort.startInv jni client startId) 0 ∧
  c.holdsAt (fun p => ControlPort.endLive jni client endId p ∨
    ControlPort.endDone jni client endId p) (MAX_PORTS - 1) ∧
  (c.state = .deletable → c.holdsAt (ControlPort.endDone jni client endId) (MAX_PORTS - 1))

/-- The callbacks that the port of slot `i` has delivered, if the slot holds
one. -/
def PortChain.eventsAt (jni : ControlJni) (client : Option Nat) (c : PortChain) (i : Nat) :
    List ListenerEvent :=
  match (c.entry i).item with
  | some p => ControlPort.events jni client p
  | Option.none => []

/-- The callbacks that the ports of the first and of the last slot have
delivered to the system listener. -/
def PortChain.controlEvents (jni : ControlJni) (client : Option Nat) (c : PortChain) :
    List ListenerEvent :=
  c.eventsAt jni client 0 ++ c.eventsAt jni client (MAX_PORTS - 1)

/-- Answers of the JNI functions of a control port that all succeed. -/
def sampleControlJni : ControlJni :=
  { newGlobalRef := some 1, getObjectClass := some 2, onOpen := some 3, onCycleStart := some 4,
    onCycleEnd := some 5, onClose := some 6 }

/-- The chain of the library: constructed, then initialized with a start
control port of id -1 and an end control port of id -2 (`jackNative.cpp`), the
hooks being those of `ControlPort` with JNI functions that succeed. -/
def controlChain : PortChain :=
  ( PortChain.initialize (controlHooks sampleControlJni (some 1)) (Port.construct false (-1))
    (Port.construct true (-2)) PortChain.construct).2.chain

/-- The calls of a life from `registerAtServer` to `unregisterAtServer`, with
a port added to the Registered chain and removed from the Running one. -/
def quietLife : List LifeCall :=
  [.registerAtServer, .addPort (some (userPort false 5)) (some 1), .start, .removePort 5, .stop,
    .unregisterAtServer]

/-! ### What a call of `setItemWait` or `removeItemWait` leaves behind

`setItemWait` and `removeItemWait` above give the result of a call that
returns.  A call that throws leaves the envelope and the pointer of the caller
behind as well; the following definitions follow the same two function bodies
and record them. -/

/-- How a call of `setItemWait` or of `removeItemWait` ends: the exception
thrown, if any; the envelope as the call leaves it; and the pointer the caller
holds after the call (for `setItemWait` its argument `newItem`, which only
`item = move(newItem)` takes from the caller; for `removeItemWait` the
result). -/
structure SlotEnd where
  thrown : Option EnvelopeExc
  envelope : PtrEnvelope
  caller : Option Port
  deriving DecidableEq

/-- The envelope as the loop
`while (useCount != 0) { wait_for(lock, maxWaitingTime); ... }` sees it last:
at the call, or at the last wake-up it gets.  The loop is left with the use
count seen at zero, or by the timeout that follows the last wake-up. -/
def PtrEnvelope.lastSeen (e : PtrEnvelope) : List PtrEnvelope → PtrEnvelope
  | [] => e
  | w :: env =>
    if e.useCount ≠ 0 then
      PtrEnvelope.lastSeen { w with maxWaitingTime := e.maxWaitingTime } env
    else e

/-- Member `setItemWait`, with what it leaves behind. -/
def PtrEnvelope.setItemWaitEnd (newItem : Option Port) (env : List PtrEnvelope)
    (e : PtrEnvelope) : SlotEnd :=
  if newItem.isSome = false then
    { thrown := some (.runtimeError "Programming error: newItem is null (nothing to add).")
      envelope := e
      caller := newItem }
  else if e.item.isSome then
    { thrown :=
        some (.runtimeError "Programming error: envelope not empty, cannot add a new item.")
      envelope := e
      caller := newItem }
  else if (e.lastSeen env).useCount ≠ 0 then
    { thrown := some (.timeout "Timeout in setItemWait().")
      envelope := e.lastSeen env
      caller := newItem }
  else
    { thrown := Option.none
      envelope := { e.lastSeen env with item := newItem }
      caller := Option.none }

/-- Member `removeItemWait`, with what it leaves behind. -/
def PtrEnvelope.removeItemWaitEnd (env : List PtrEnvelope) (e : PtrEnvelope) : SlotEnd :=
  if e.item.isSome = false then
    { thrown :=
        some (.runtimeError "Programming error: envelope is empty, cannot remove the item.")
      envelope := e
      caller := Option.none }
  else if (e.lastSeen env).useCount ≠ 0 then
    { thrown := some (.timeout "Timeout in removeItemWait().")
      envelope := e.lastSeen env
      caller := Option.none }
  else
    { thrown := Option.none
      envelope := { e.lastSeen env with item := Option.none }
      caller := (e.lastSeen env).item }

/-- The envelope that the readers leave at the end of the waiting time:
the one of the last wake-up, or the envelope of the call when there is no
wake-up. -/
def PtrEnvelope.afterReaders (e : PtrEnvelope) (env : List PtrEnvelope) : PtrEnvelope :=
  match env.getLast? with
  | some w => { w with maxWaitingTime := e.maxWaitingTime }
  | Option.none => e

/-- The call ended by an exception. -/
def ChainOutcome.raises : ChainOutcome → Bool
  | .raised _ _ => true
  | _ => false

/-- The hooks of a chain whose two control ports are `ControlPort` objects,
`others` being the hooks of the classes of the other ports: the virtual call
goes to the class of the port. -/
def controlledHooks (jni : ControlJni) (client : Option Nat) (startId endId : Int)
    (others : Hooks) : Hooks :=
  fun p c =>
    if p.internalId = startId ∨ p.internalId = endId then controlHooks jni client p c
    else others p c

/-- The hooks `stop_impl`, `unregister_impl` and `uninitialize_impl`, which
the teardown of a chain invokes. -/
def HookCall.isTeardown : HookCall → Bool
  | .stop_impl => true
  | .unregister_impl => true
  | .uninitialize_impl => true
  | _ => false

/-- The hooks of the teardown do not raise on the ports other than the
control ports. -/
def Hooks.othersReturn (h : Hooks) (startId endId : Int) : Prop :=
  ∀ (p : Port) (c : HookCall), p.internalId ≠ startId → p.internalId ≠ endId →
    c.isTeardown = true → h p c = Option.none

/-- A port on which `uninitialize_impl` can run: if it is a control port, it
holds its listener and the identifier of `onClose`. -/
def ControlPort.ready (jni : ControlJni) (client : Option Nat) (startId endId : Int)
    (p : Port) : Prop :=
  p.internalId = startId ∨ p.internalId = endId →
    (ControlPort.fields jni client p).systemListener ≠ Option.none ∧
    (ControlPort.fields jni client p).onCloseMid ≠ Option.none

/-- The ids of the control ports are those of the control ports only: a port
of the chain with one of them is the port of the first or of the last slot. -/
def PortChain.controlIdsUnique (startId endId : Int) (c : PortChain) : Prop :=
  ∀ e ∈ c.portList, ∀ p, e.item = some p →
    p.internalId = startId ∨ p.internalId = endId →
    e = c.entry 0 ∨ e = c.entry (MAX_PORTS - 1)

/-- The hooks of the chain of the library with ports of another class whose
hooks return. -/
def libraryHooks : Hooks := controlledHooks sampleControlJni (some 1) (-1) (-2) quietHooks

/-- The hooks of the chain of the library with ports of another class whose
`uninitialize_impl` raises. -/
def brokenTeardownHooks : Hooks :=
  controlledHooks sampleControlJni (some 1) (-1) (-2)
    (faultyHooks (fun c => decide (c = .uninitialize_impl)) (.thrown 1))

/-- The calls that take the chain to Running with one more input port. -/
def runningLife : List LifeCall :=
  [.registerAtServer, .addPort (some (userPort false 5)) (some 1), .start]

/-! ## Helper lemmas -/

theorem callHook_quiet (h : Hooks) (c : HookCall) (p : Port) (hq : h p c = Option.none) :
    callHook h c p = .returned { p with calls := p.calls ++ [c] } := by
  simp [callHook, hq]

theorem callHook_raises (h : Hooks) (c : HookCall) (p : Port) (e : Exc) (hq : h p c = some e) :
    callHook h c p = .raised e { p with calls := p.calls ++ [c] } := by
  simp [callHook, hq]

theorem callHook_cases (h : Hooks) (c : HookCall) (p : Port) :
    callHook h c p = .returned { p with calls := p.calls ++ [c] } ∨
    ∃ e, callHook h c p = .raised e { p with calls := p.calls ++ [c] } := by
  cases hq : h p c with
  | none => exact Or.inl (callHook_quiet h c p hq)
  | some e => exact Or.inr ⟨e, callHook_raises h c p e hq⟩

theorem emergencyStop_quiet (h : Hooks) (cause : Exc) (p : Port)
    (hq : h p .stop_impl = Option.none) :
    emergencyStop h cause p =
      .returned (setProcessException cause
        { p with state := .stoppedOnError, substate := .none,
                 calls := p.calls ++ [.stop_impl] }) := by
  simp [emergencyStop, callHook, hq, Outcome.andThen]

theorem emergencyStop_raises (h : Hooks) (cause e : Exc) (p : Port)
    (hq : h p .stop_impl = some e) :
    emergencyStop h cause p = .raised e { p with calls := p.calls ++ [.stop_impl] } := by
  simp [emergencyStop, callHook, hq, Outcome.andThen]

theorem emergencyStop_cases (h : Hooks) (cause : Exc) (p : Port) :
    emergencyStop h cause p =
        .returned (setProcessException cause
          { p with state := .stoppedOnError, substate := .none,
                   calls := p.calls ++ [.stop_impl] }) ∨
    ∃ e, emergencyStop h cause p = .raised e { p with calls := p.calls ++ [.stop_impl] } := by
  cases hq : h p .stop_impl with
  | none => exact Or.inl (emergencyStop_quiet h cause p hq)
  | some e => exact Or.inr ⟨e, emergencyStop_raises h cause e p hq⟩

theorem setProcessException_slot (ex : Exc) (p : Port) :
    (setProcessException ex p).processException =
      if p.processException.isSome then p.processException else some ex := by
  unfold setProcessException
  split <;> simp_all

theorem setProcessException_fields (ex : Exc) (p : Port) :
    (setProcessException ex p).state = p.state ∧
    (setProcessException ex p).substate = p.substate ∧
    (setProcessException ex p).calls = p.calls ∧
    (setProcessException ex p).lastCycle = p.lastCycle ∧
    (setProcessException ex p).timeCodeStart = p.timeCodeStart ∧
    (setProcessException ex p).timeCodeDuration = p.timeCodeDuration ∧
    (setProcessException ex p).output = p.output ∧
    (setProcessException ex p).internalId = p.internalId := by
  unfold setProcessException
  split <;> simp

/-- The timed loop does not wait on a port that is not running. -/
theorem waitForTermination_idle (force : Bool) (p : Port) (env : List Port)
    (hs : force = true ∨ p.state ≠ .running ∨ p.substate = .terminated ∨ p.substate = .none) :
    waitForTermination force p env = p := by
  cases env with
  | nil => rfl
  | cons q env =>
    unfold waitForTermination
    rcases hs with hs | hs | hs | hs <;> simp [hs]

theorem callHook_keeps (h : Hooks) (c : HookCall) (p : Port) : (callHook h c p).keeps p := by
  unfold callHook Outcome.keeps
  split
  · right
    exact ⟨_, _, rfl, rfl⟩
  · left
    exact ⟨_, rfl, rfl⟩

theorem keeps_andThen (o : Outcome) (k : Port → Outcome) (p : Port) (ho : o.keeps p)
    (hk : ∀ q, (k q).keeps q) : (o.andThen k).keeps p := by
  rcases ho with ⟨q, rfl, hq⟩ | ⟨e, q, rfl, hq⟩
  · have := hk q
    simp only [Outcome.andThen]
    rcases this with ⟨r, hr, hr2⟩ | ⟨e, r, hr, hr2⟩
    · left
      refine ⟨r, hr, ?_⟩
      rw [hr2, hq]
    · right
      refine ⟨e, r, hr, ?_⟩
      rw [hr2, hq]
  · right
    exact ⟨e, q, rfl, hq⟩

theorem shutdown_impl_keeps (h : Hooks) (p : Port) : (shutdown_impl h p).keeps p := by
  unfold shutdown_impl
  split
  · left; exact ⟨p, rfl, rfl⟩
  · exact callHook_keeps h _ p
  · exact keeps_andThen _ _ p (callHook_keeps h _ p) (callHook_keeps h _)
  · exact keeps_andThen _ _ p
      (keeps_andThen _ _ p (callHook_keeps h _ p) (callHook_keeps h _)) (callHook_keeps h _)
  · exact keeps_andThen _ _ p (callHook_keeps h _ p) (callHook_keeps h _)
  · exact keeps_andThen _ _ p (callHook_keeps h _ p) (callHook_keeps h _)
  · exact callHook_keeps h _ p
  · left; exact ⟨p, rfl, rfl⟩

theorem waitForTermination_lastCycle (force : Bool) (env : List Port) :
    ∀ p : Port, p.lastCycle = true → (waitForTermination force p env).lastCycle = true := by
  induction env with
  | nil => intro p hp; exact hp
  | cons q env ih =>
    intro p hp
    unfold waitForTermination
    split
    · exact ih _ (by simp [Port.wake, hp])
    · exact hp

/-- The port `shutdown` returns: Deletable, sub-state None, flag set. -/
theorem shutdown_returns (h : Hooks) (force : Bool) (env : List Port) (p : Port) :
    ∃ r, Port.shutdown h force env p = .returned r ∧ r.state = .deletable ∧
      r.substate = .none ∧ r.lastCycle = true := by
  have hk := shutdown_impl_keeps h (waitForTermination force { p with lastCycle := true } env)
  have hl := waitForTermination_lastCycle force env { p with lastCycle := true } rfl
  unfold Port.shutdown
  rcases hk with ⟨q1, hq1, hq2⟩ | ⟨e, q1, hq1, hq2⟩
  · refine ⟨{ q1 with state := .deletable, substate := .none }, ?_, rfl, rfl, ?_⟩
    · rw [hq1]; rfl
    · show q1.lastCycle = true
      rw [hq2]; exact hl
  · refine ⟨{ setProcessException e q1 with state := .deletable, substate := .none }, ?_,
      rfl, rfl, ?_⟩
    · rw [hq1]; rfl
    · show (setProcessException e q1).lastCycle = true
      rw [(setProcessException_fields e q1).2.2.2.1, hq2]; exact hl

/-- On a Deletable port `shutdown` only sets the flag and the sub-state. -/
theorem shutdown_deletable (h : Hooks) (force : Bool) (env : List Port) (p : Port)
    (hs : p.state = .deletable) :
    Port.shutdown h force env p = .returned { p with lastCycle := true, substate := .none } := by
  have hw : waitForTermination force { p with lastCycle := true } env
      = { p with lastCycle := true } :=
    waitForTermination_idle _ _ _ (Or.inr (Or.inl (by simp [hs])))
  unfold Port.shutdown
  rw [hw]
  simp [shutdown_impl, hs, Outcome.catchAll, Outcome.andThen]

/-! ## Administrative transitions -/

/-- C1: with hooks that do not raise, `initialize` takes Created to
Initialized, `registerAtServer` Initialized to Registered, `start` Registered
to Running/Started, `unregisterAtServer` Stopped or Registered to
Unregistered, `uninitialize` Unregistered or Initialized to Deletable; each
call appends exactly its own hook to the log of hook invocations and changes
nothing else. -/
theorem C1_admin_transitions (h : Hooks) (hh : ∀ q c, h q c = Option.none) (p : Port) :
    (p.state = .created →
      Port.initialize h p =
        .returned { p with state := .initialized, calls := p.calls ++ [.initialize_impl] }) ∧
    (p.state = .initialized →
      Port.registerAtServer h p =
        .returned { p with state := .registered, calls := p.calls ++ [.register_impl] }) ∧
    (p.state = .registered →
      Port.start h p =
        .returned { p with state := .running, substate := .started,
                           calls := p.calls ++ [.start_impl] }) ∧
    (p.state = .stopped ∨ p.state = .registered →
      Port.unregisterAtServer h p =
        .returned { p with state := .unregistered, calls := p.calls ++ [.unregister_impl] }) ∧
    (p.state = .unregistered ∨ p.state = .initialized →
      Port.uninitialize h p =
        .returned { p with state := .deletable, calls := p.calls ++ [.uninitialize_impl] }) := by
  refine ⟨?_, ?_, ?_, ?_, ?_⟩
  · intro hs
    simp [ Port.initialize, hs, callHook, hh, Outcome.andThen]
  · intro hs
    simp [Port.registerAtServer, hs, callHook, hh, Outcome.andThen]
  · intro hs
    simp [Port.start, hs, callHook, hh, Outcome.andThen]
  · intro hs
    rcases hs with hs | hs <;>
      simp [Port.unregisterAtServer, hs, callHook, hh, Outcome.andThen]
  · intro hs
    rcases hs with hs | hs <;>
      simp [ Port.uninitialize, hs, callHook, hh, Outcome.andThen]

/-- Witness of C1: the five transitions on input port 7 with quiet hooks. -/
theorem C1_admin_transitions_witness :
    Port.initialize quietHooks (samplePort false .created .none) =
        .returned { samplePort false .initialized .none with calls := [.initialize_impl] } ∧
    Port.registerAtServer quietHooks (samplePort false .initialized .none) =
        .returned { samplePort false .registered .none with calls := [.register_impl] } ∧
    Port.start quietHooks (samplePort false .registered .none) =
        .returned { samplePort false .running .started with calls := [.start_impl] } ∧
    Port.unregisterAtServer quietHooks (samplePort false .stopped .none) =
        .returned { samplePort false .unregistered .none with calls := [.unregister_impl] } ∧
    Port.uninitialize quietHooks (samplePort false .unregistered .none) =
        .returned { samplePort false .deletable .none with calls := [.uninitialize_impl] } :=
  ⟨(C1_admin_transitions quietHooks (fun _ _ => rfl) (samplePort false .created .none)).1 rfl,
   (C1_admin_transitions quietHooks (fun _ _ => rfl) (samplePort false .initialized .none)).2.1 rfl,
   (C1_admin_transitions quietHooks (fun _ _ => rfl) (samplePort false .registered .none)).2.2.1
     rfl,
   (C1_admin_transitions quietHooks (fun _ _ => rfl) (samplePort false .stopped .none)).2.2.2.1
     (Or.inl rfl),
   (C1_admin_transitions quietHooks (fun _ _ => rfl) (samplePort false .unregistered .none)).2.2.2.2
     (Or.inl rfl)⟩

/-- C2: `initialize`, `registerAtServer`, `start`, `unregisterAtServer` and
`uninitialize`, called in a main state that is not a source state of the
transition, raise the error of `throwCannot` (attempted action, current
state) and leave the port, log of hook invocations included, as it was. -/
theorem C2_wrong_state_rejected (h : Hooks) (p : Port) :
    (p.state ≠ .created →
      Port.initialize h p =
        .raised (.cannot "initialize" 438 p.internalId p.state .none) p) ∧
    (p.state ≠ .initialized →
      Port.registerAtServer h p =
        .raised (.cannot "register" 457 p.internalId p.state .none) p) ∧
    (p.state ≠ .registered →
      Port.start h p = .raised (.cannot "start" 473 p.internalId p.state .none) p) ∧
    (p.state ≠ .stopped ∧ p.state ≠ .registered →
      Port.unregisterAtServer h p =
        .raised (.cannot "unregister" 701 p.internalId p.state .none) p) ∧
    (p.state ≠ .unregistered ∧ p.state ≠ .initialized →
      Port.uninitialize h p =
        .raised (.cannot "un-initialize" 721 p.internalId p.state .none) p) := by
  refine ⟨?_, ?_, ?_, ?_, ?_⟩
  · intro hs
    simp [ Port.initialize, hs, throwCannot]
  · intro hs
    simp [Port.registerAtServer, hs, throwCannot]
  · intro hs
    simp [Port.start, hs, throwCannot]
  · intro hs
    simp [Port.unregisterAtServer, hs, throwCannot]
  · intro hs
    simp [ Port.uninitialize, hs, throwCannot]

/-- Witness of C2: each of the five calls on a running port is rejected and
the port is untouched. -/
theorem C2_wrong_state_rejected_witness :
    Port.initialize quietHooks (samplePort true .running .cycleDone) =
        .raised (.cannot "initialize" 438 7 .running .none)
          (samplePort true .running .cycleDone) ∧
    Port.registerAtServer quietHooks (samplePort true .running .cycleDone) =
        .raised (.cannot "register" 457 7 .running .none)
          (samplePort true .running .cycleDone) ∧
    Port.start quietHooks (samplePort true .running .cycleDone) =
        .raised (.cannot "start" 473 7 .running .none) (samplePort true .running .cycleDone) ∧
    Port.unregisterAtServer quietHooks (samplePort true .running .cycleDone) =
        .raised (.cannot "unregister" 701 7 .running .none)
          (samplePort true .running .cycleDone) ∧
    Port.uninitialize quietHooks (samplePort true .running .cycleDone) =
        .raised (.cannot "un-initialize" 721 7 .running .none)
          (samplePort true .running .cycleDone) :=
  ⟨(C2_wrong_state_rejected quietHooks (samplePort true .running .cycleDone)).1 (by decide),
   (C2_wrong_state_rejected quietHooks (samplePort true .running .cycleDone)).2.1 (by decide),
   (C2_wrong_state_rejected quietHooks (samplePort true .running .cycleDone)).2.2.1 (by decide),
   (C2_wrong_state_rejected quietHooks (samplePort true .running .cycleDone)).2.2.2.1
     (by decide),
   (C2_wrong_state_rejected quietHooks (samplePort true .running .cycleDone)).2.2.2.2
     (by decide)⟩

/-- C3, as stated, fails: `stop` called on a Registered port raises no
error, invokes `stop_impl` and moves the port to Stopped. -/
theorem C3_stop_accepts_registered :
    (samplePort false .registered .none).state = .registered ∧
    Port.stop quietHooks false [] (samplePort false .registered .none) =
      .returned { samplePort false .stopped .none with
                    lastCycle := true, calls := [.stop_impl] } ∧
    (samplePort false .registered .none).calls = [] := by
  decide

/-- C3, amended: `stop` passes its state guard in Running, StoppedOnError
and Registered.  From StoppedOnError it only sets the main state to Stopped;
from Running and Registered it invokes `stop_impl` once and, when that hook
returns, leaves the port in Stopped with sub-state None.  In Created,
Initialized, Stopped, Unregistered and Deletable it raises the error of
`throwCannot` and leaves the port, log of hook invocations included, as it
was. -/
theorem C3_stop_transitions (h : Hooks) (force : Bool) (env : List Port) (p : Port) :
    (p.state = .created ∨ p.state = .initialized ∨ p.state = .stopped
        ∨ p.state = .unregistered ∨ p.state = .deletable →
      Port.stop h force env p =
        .raised (.cannot "stop" 667 p.internalId p.state p.substate) p) ∧
    (p.state = .stoppedOnError →
      Port.stop h force env p = .returned { p with state := .stopped }) ∧
    (p.state = .running ∨ p.state = .registered → (∀ q, h q .stop_impl = Option.none) →
      ∃ r, Port.stop h force env p = .returned r ∧ r.state = .stopped ∧ r.substate = .none ∧
        r.calls = (waitForTermination force { p with lastCycle := true } env).calls
          ++ [.stop_impl]) ∧
    (p.state = .registered → (∀ q, h q .stop_impl = Option.none) →
      ∃ r, Port.stop h force env p = .returned r ∧ r.state = .stopped ∧ r.substate = .none ∧
        r.calls = p.calls ++ [.stop_impl]) := by
  have key : (p.state = .running ∨ p.state = .registered) →
      (∀ q, h q .stop_impl = Option.none) →
      ∃ r, Port.stop h force env p = .returned r ∧ r.state = .stopped ∧ r.substate = .none ∧
        r.calls = (waitForTermination force { p with lastCycle := true } env).calls
          ++ [.stop_impl] := by
    intro hs hq
    have h1 : p.state ≠ .stoppedOnError := by rcases hs with hs | hs <;> simp [hs]
    have h2 : ¬ (p.state ≠ .running ∧ p.state ≠ .registered) := by
      rcases hs with hs | hs <;> simp [hs]
    unfold Port.stop
    rw [if_neg h1, if_neg h2]
    simp only []
    split
    · rw [emergencyStop_quiet h _ _ (hq _)]
      simp [Outcome.andThen, (setProcessException_fields _ _).2.2.1]
    · rw [callHook_quiet h _ _ (hq _)]
      simp [Outcome.andThen]
  refine ⟨?_, ?_, key, ?_⟩
  · intro hs
    rcases hs with hs | hs | hs | hs | hs <;> simp [Port.stop, hs, throwCannot]
  · intro hs
    simp [Port.stop, hs]
  · intro hs hq
    obtain ⟨r, hr, h3, h4, h5⟩ := key (Or.inr hs) hq
    refine ⟨r, hr, h3, h4, ?_⟩
    rw [h5, waitForTermination_idle]
    right; left
    simp [hs]

/-- Witness of amended C3 on output port 7: rejected in Stopped, accepted
in Registered, and a forced stop of a running port in mid-cycle. -/
theorem C3_stop_transitions_witness :
    Port.stop quietHooks true [] (samplePort true .stopped .none) =
        .raised (.cannot "stop" 667 7 .stopped .none) (samplePort true .stopped .none) ∧
    Port.stop quietHooks true [] (samplePort true .stoppedOnError .none) =
        .returned (samplePort true .stopped .none) ∧
    (∃ r, Port.stop quietHooks true [] (samplePort true .running .javaToExec) = .returned r ∧
        r.state = .stopped ∧ r.substate = .none ∧
        r.calls = (waitForTermination true
          { samplePort true .running .javaToExec with lastCycle := true } []).calls
            ++ [.stop_impl]) ∧
    (∃ r, Port.stop quietHooks true [] (samplePort true .registered .none) = .returned r ∧
        r.state = .stopped ∧ r.substate = .none ∧
        r.calls = (samplePort true .registered .none).calls ++ [.stop_impl]) :=
  ⟨(C3_stop_transitions quietHooks true [] (samplePort true .stopped .none)).1
      (Or.inr (Or.inr (Or.inl rfl))),
   (C3_stop_transitions quietHooks true [] (samplePort true .stoppedOnError .none)).2.1 rfl,
   (C3_stop_transitions quietHooks true [] (samplePort true .running .javaToExec)).2.2.1
      (Or.inl rfl) (fun _ => rfl),
   (C3_stop_transitions quietHooks true [] (samplePort true .registered .none)).2.2.2
      rfl (fun _ => rfl)⟩

/-! ## Shutdown -/

/-- C4: whatever the main state, the sub-state, `force`, the wake-ups seen
while waiting and the behaviour of the hooks, `shutdown` returns, and the port
is then Deletable with sub-state None.  With `q` the port on which the
teardown starts: when no teardown hook raises the exception slot is that of
`q`; when one raises `e`, the slot is that of `q` if it was occupied and holds
`e` if it was empty.  The teardown starts on the port as passed (last-cycle
flag set) when `force` is set or no other thread signals. -/
theorem C4_shutdown_reaches_deletable (h : Hooks) (force : Bool) (env : List Port) (p : Port) :
    ∃ r, Port.shutdown h force env p = .returned r ∧ r.state = .deletable ∧
      r.substate = .none ∧
      (∀ q, q = waitForTermination force { p with lastCycle := true } env →
        (∀ q1, shutdown_impl h q = .returned q1 → r.processException = q.processException) ∧
        (∀ e q1, shutdown_impl h q = .raised e q1 →
          r.processException = if q.processException.isSome then q.processException
            else some e)) ∧
      (force = true ∨ env = [] →
        waitForTermination force { p with lastCycle := true } env
          = { p with lastCycle := true }) := by
  have hk := shutdown_impl_keeps h (waitForTermination force { p with lastCycle := true } env)
  have hidle : force = true ∨ env = [] →
      waitForTermination force { p with lastCycle := true } env
        = { p with lastCycle := true } := by
    intro hf
    rcases hf with hf | hf
    · exact waitForTermination_idle _ _ _ (Or.inl hf)
    · subst hf; rfl
  unfold Port.shutdown
  rcases hk with ⟨q1, hq1, hq2⟩ | ⟨e, q1, hq1, hq2⟩
  · refine ⟨{ q1 with state := .deletable, substate := .none }, ?_, rfl, rfl, ?_, hidle⟩
    · rw [hq1]; rfl
    · intro q hq
      subst hq
      rw [hq1]
      constructor
      · intro _ _
        show q1.processException = _
        rw [hq2]
      · intro _ _ hc
        cases hc
  · refine ⟨{ setProcessException e q1 with state := .deletable, substate := .none }, ?_,
      rfl, rfl, ?_, hidle⟩
    · rw [hq1]; rfl
    · intro q hq
      subst hq
      rw [hq1]
      constructor
      · intro _ hc
        cases hc
      · intro e1 _ hc
        cases hc
        show (setProcessException e q1).processException = _
        rw [setProcessException_slot, hq2]

/-- Witness of C4: forced shutdown of a running output port in mid-cycle
whose `stop_impl` raises; the exception is latched in the empty slot and is
discarded when the slot is occupied. -/
theorem C4_shutdown_reaches_deletable_witness :
    Port.shutdown (faultyHooks HookCall.isStop (.thrown 1)) true []
        (samplePort true .running .javaToExec) =
      .returned { samplePort true .deletable .none with
                    lastCycle := true, processException := some (.thrown 1),
                    calls := [.stop_impl] } ∧
    Port.shutdown (faultyHooks HookCall.isStop (.thrown 1)) false []
        { samplePort true .running .javaToExec with processException := some (.thrown 0) } =
      .returned { samplePort true .deletable .none with
                    lastCycle := true, processException := some (.thrown 0),
                    calls := [.stop_impl] } ∧
    (∃ r, Port.shutdown quietHooks false [samplePort true .running .terminated]
        (samplePort true .running .nativeToExec) = .returned r ∧ r.state = .deletable ∧
      r.substate = .none) := by
  refine ⟨by decide, by decide, ?_⟩
  obtain ⟨r, hr, h1, h2, _⟩ :=
    C4_shutdown_reaches_deletable quietHooks false [samplePort true .running .terminated]
      (samplePort true .running .nativeToExec)
  exact ⟨r, hr, h1, h2⟩

/-- C5: `shutdown` on a Deletable port returns without invoking a hook and
leaves the port Deletable with sub-state None, its exception slot and log of
hook invocations unchanged (the last-cycle flag is set); and a `shutdown`
after a `shutdown` ends exactly as the first one did, for any `force` flags,
wake-ups and hooks. -/
theorem C5_shutdown_idempotent (h : Hooks) (force force2 : Bool) (env env2 : List Port)
    (p : Port) :
    (p.state = .deletable →
      Port.shutdown h force env p = .returned { p with lastCycle := true, substate := .none } ∧
      (Port.shutdown h force env p).port.state = .deletable ∧
      (Port.shutdown h force env p).port.substate = .none ∧
      (Port.shutdown h force env p).port.processException = p.processException ∧
      (Port.shutdown h force env p).port.calls = p.calls) ∧
    (Port.shutdown h force env p).andThen (Port.shutdown h force2 env2) =
      Port.shutdown h force env p := by
  constructor
  · intro hs
    have h1 := shutdown_deletable h force env p hs
    rw [h1]
    simp [Outcome.port, hs]
  · obtain ⟨r, hr, h1, h2, h3⟩ := shutdown_returns h force env p
    rw [hr]
    simp only [Outcome.andThen]
    rw [shutdown_deletable h force2 env2 r h1]
    cases r
    simp_all

/-- Witness of C5: `shutdown` of Deletable input port 7, and two shutdowns
of a running one. -/
theorem C5_shutdown_idempotent_witness :
    Port.shutdown quietHooks false [] (samplePort false .deletable .none) =
      .returned { samplePort false .deletable .none with lastCycle := true } ∧
    (Port.shutdown quietHooks false [] (samplePort false .running .cycleDone)).andThen
        (Port.shutdown quietHooks true []) =
      Port.shutdown quietHooks false [] (samplePort false .running .cycleDone) :=
  ⟨((C5_shutdown_idempotent quietHooks false true [] []
      (samplePort false .deletable .none)).1 rfl).1,
   (C5_shutdown_idempotent quietHooks false true [] []
      (samplePort false .running .cycleDone)).2⟩

/-! ## The rendezvous automaton -/

/-- C6, as stated, fails: `execNativeCycleInit` on a running port in
sub-state JavaToExec whose `stop_impl` raises lets that exception out; the
port stays Running/JavaToExec and nothing is latched. -/
theorem C6_cycleInit_error_escapes :
    Port.execNativeCycleInit (faultyHooks HookCall.isStop (.thrown 1)) 223 100
        (samplePort true .running .javaToExec) =
      .raised (.thrown 1) { samplePort true .running .javaToExec with calls := [.stop_impl] } := by
  decide

/-- C6, amended: on a Running port `execNativeCycleInit(start, duration)`
in Started or CycleDone stores the pair and sets the sub-state to NativeToExec
(input) or JavaToExec (output), invoking no hook; in Terminated it changes
nothing; in every other sub-state (JavaToExec, NativeToExec,
NativeToTerminate, None) it invokes `stop_impl` once and, provided `stop_impl`
does not raise, returns with the port in StoppedOnError, sub-state None, the
time-code as before and the exception slot occupied: by what it held, or else
by the wrong-state error. -/
theorem C6_execNativeCycleInit (h : Hooks) (start duration : Nat) (p : Port)
    (hr : p.state = .running) :
    (p.substate = .started ∨ p.substate = .cycleDone →
      Port.execNativeCycleInit h start duration p =
        .returned { p with timeCodeStart := start, timeCodeDuration := duration,
                           substate := if p.output then .javaToExec else .nativeToExec }) ∧
    (p.substate = .terminated → Port.execNativeCycleInit h start duration p = .returned p) ∧
    (p.substate ≠ .started ∧ p.substate ≠ .cycleDone ∧ p.substate ≠ .terminated →
      h p .stop_impl = Option.none →
      Port.execNativeCycleInit h start duration p =
        .returned { p with
          state := .stoppedOnError, substate := .none, calls := p.calls ++ [.stop_impl],
          processException :=
            if p.processException.isSome then p.processException
            else some (.cannot "execNativeCycleInit" 560 p.internalId .running p.substate) }) := by
  refine ⟨?_, ?_, ?_⟩
  · intro hs
    cases ho : p.output <;> rcases hs with hs | hs <;>
      simp [Port.execNativeCycleInit, hr, hs, ho, Port.isInput, Outcome.catchAll]
  · intro hs
    simp [Port.execNativeCycleInit, hr, hs, Outcome.catchAll]
  · intro hs hq
    obtain ⟨h1, h2, h3⟩ := hs
    simp [Port.execNativeCycleInit, hr, h1, h2, h3, Outcome.catchAll, throwCannot,
      emergencyStop_quiet h _ p hq, setProcessException]
    split <;> simp_all

/-- Witness of amended C6: the second cycle-init of the input-port life
cycle, and a cycle-init that comes while the java half is still due. -/
theorem C6_execNativeCycleInit_witness :
    Port.execNativeCycleInit quietHooks 223 100 (samplePort false .running .cycleDone) =
      .returned { samplePort false .running .nativeToExec with
                    timeCodeStart := 223, timeCodeDuration := 100 } ∧
    Port.execNativeCycleInit quietHooks 223 100 (samplePort true .running .javaToExec) =
      .returned { samplePort true .stoppedOnError .none with
                    calls := [.stop_impl],
                    processException :=
                      some (.cannot "execNativeCycleInit" 560 7 .running .javaToExec) } :=
  ⟨(C6_execNativeCycleInit quietHooks 223 100 (samplePort false .running .cycleDone) rfl).1
      (Or.inr rfl),
   (C6_execNativeCycleInit quietHooks 223 100 (samplePort true .running .javaToExec) rfl).2.2
      (by decide) rfl⟩

/-- C7: `execJavaProcess(l)` on a Running port in sub-state JavaToExec does
not wait; it latches `lastCycle := lastCycle || l` and invokes the java hook
exactly once, with the stored time-code and the latched flag (after it only
`stop_impl` can follow, when the java hook raised).  When the java hook
returns, the call returns and the sub-state is CycleDone (input) or
NativeToExec (output) if the latched flag is false, Terminated (input) or
NativeToTerminate (output) if it is true; nothing else changes. -/
theorem C7_execJavaProcess (h : Hooks) (l : Bool) (env : List Port) (p : Port)
    (hr : p.state = .running) (hs : p.substate = .javaToExec) :
    (Port.execJavaProcess h l env p).port.lastCycle = (p.lastCycle || l) ∧
    (∃ rest, (Port.execJavaProcess h l env p).port.calls =
        p.calls ++ HookCall.execJavaProcess_impl p.timeCodeStart p.timeCodeDuration
          (p.lastCycle || l) :: rest ∧ (rest = [] ∨ rest = [.stop_impl])) ∧
    (h { p with lastCycle := p.lastCycle || l }
        (.execJavaProcess_impl p.timeCodeStart p.timeCodeDuration (p.lastCycle || l))
        = Option.none →
      Port.execJavaProcess h l env p =
        .returned { p with
          lastCycle := p.lastCycle || l,
          calls := p.calls ++
            [.execJavaProcess_impl p.timeCodeStart p.timeCodeDuration (p.lastCycle || l)],
          substate :=
            if (p.lastCycle || l) = true then
              (if p.output then .nativeToTerminate else .terminated)
            else (if p.output then .nativeToExec else .cycleDone) }) := by
  have hw : waitJavaToExec p env = .proceed p := by
    cases env <;> simp [waitJavaToExec, hs]
  have hbody : Port.execJavaProcess h l env p =
      (execJavaWork h l p).catchAll (emergencyStop h) := by
    simp [Port.execJavaProcess, hr, hs, hw]
  rw [hbody]
  unfold execJavaWork
  simp only []
  cases hj : h { p with lastCycle := p.lastCycle || l }
      (.execJavaProcess_impl p.timeCodeStart p.timeCodeDuration (p.lastCycle || l)) with
  | none =>
    rw [callHook_quiet h _ _ hj]
    cases ho : p.output <;> cases hl : (p.lastCycle || l) <;>
      simp [Outcome.andThen, Outcome.catchAll, Outcome.port, Port.isOutput, ho, hl]
  | some e =>
    rw [callHook_raises h _ _ e hj]
    simp only [Outcome.andThen, Outcome.catchAll]
    rcases emergencyStop_cases h e _ with hq | ⟨e1, hq⟩ <;> rw [hq] <;>
      simp [Outcome.port, (setProcessException_fields _ _).2.2.1,
        (setProcessException_fields _ _).2.2.2.1]

/-- Witness of C7: the last java half of the output-port life cycle (flag
latched by an earlier `stop`, `l = false`) and an ordinary java half of an
input port. -/
theorem C7_execJavaProcess_witness :
    Port.execJavaProcess quietHooks false []
        { samplePort true .running .javaToExec with lastCycle := true } =
      .returned { samplePort true .running .nativeToTerminate with
                    lastCycle := true, calls := [.execJavaProcess_impl 0 0 true] } ∧
    Port.execJavaProcess quietHooks false [] (samplePort false .running .javaToExec) =
      .returned { samplePort false .running .cycleDone with
                    calls := [.execJavaProcess_impl 0 0 false] } :=
  ⟨(C7_execJavaProcess quietHooks false []
      { samplePort true .running .javaToExec with lastCycle := true } rfl rfl).2.2 rfl,
   (C7_execJavaProcess quietHooks false [] (samplePort false .running .javaToExec)
      rfl rfl).2.2 rfl⟩

/-- C8, as stated, fails: `execNativeProcess` on a running input port in
sub-state NativeToTerminate whose `stop_impl` raises lets that exception out;
the port stays Running/NativeToTerminate and nothing is latched. -/
theorem C8_native_error_escapes :
    Port.execNativeProcess (faultyHooks HookCall.isStop (.thrown 1)) []
        (samplePort false .running .nativeToTerminate) =
      .raised (.thrown 1)
        { samplePort false .running .nativeToTerminate with calls := [.stop_impl] } := by
  decide

/-- C8, amended: on a Running port in NativeToExec, or on a Running output
port in NativeToTerminate, `execNativeProcess` does not wait and invokes the
native hook exactly once, with the stored time-code (after it only `stop_impl`
can follow, when the native hook raised); when the native hook returns, the
call returns with the sub-state JavaToExec on an input port, CycleDone on an
output port that was in NativeToExec and Terminated on an output port that was
in NativeToTerminate.  On a Running input port in NativeToTerminate the native
hook is not invoked: `stop_impl` is the only hook invoked and, provided
`stop_impl` does not raise, the call returns with the port in StoppedOnError,
sub-state None and the exception slot occupied, by what it held or else by the
wrong-state error. -/
theorem C8_execNativeProcess (h : Hooks) (env : List Port) (p : Port)
    (hr : p.state = .running) :
    (p.substate = .nativeToExec ∨ (p.substate = .nativeToTerminate ∧ p.output = true) →
      (∃ rest, (Port.execNativeProcess h env p).port.calls =
          p.calls ++ HookCall.execNativeProcess_impl p.timeCodeStart p.timeCodeDuration :: rest
          ∧ (rest = [] ∨ rest = [.stop_impl])) ∧
      (h p (.execNativeProcess_impl p.timeCodeStart p.timeCodeDuration) = Option.none →
        Port.execNativeProcess h env p =
          .returned { p with
            calls := p.calls ++ [.execNativeProcess_impl p.timeCodeStart p.timeCodeDuration],
            substate :=
              if p.output then
                (if p.substate = .nativeToTerminate then .terminated else .cycleDone)
              else .javaToExec })) ∧
    (p.substate = .nativeToTerminate ∧ p.output = false →
      (Port.execNativeProcess h env p).port.calls = p.calls ++ [.stop_impl] ∧
      (h p .stop_impl = Option.none →
        Port.execNativeProcess h env p =
          .returned { p with
            state := .stoppedOnError, substate := .none, calls := p.calls ++ [.stop_impl],
            processException :=
              if p.processException.isSome then p.processException
              else some (.cannot "execNativeProcess on Input" 624 p.internalId .running
                .nativeToTerminate) })) := by
  constructor
  · intro hs
    have hw : waitNativeToExec p env = .proceed p := by
      rcases hs with hs | ⟨hs, _⟩ <;> cases env <;> simp [waitNativeToExec, hs]
    have hin : ¬ (p.isInput = true ∧ p.substate = .nativeToTerminate) := by
      rcases hs with hs | ⟨hs, ho⟩
      · simp [hs]
      · simp [Port.isInput, ho]
    have hbody : Port.execNativeProcess h env p =
        ((callHook h (.execNativeProcess_impl p.timeCodeStart p.timeCodeDuration) p).andThen
          fun p =>
            if p.isInput then .returned { p with substate := .javaToExec }
            else if p.substate = .nativeToTerminate then
              .returned { p with substate := .terminated }
            else .returned { p with substate := .cycleDone }).catchAll (emergencyStop h) := by
      unfold Port.execNativeProcess
      rw [hw]
      simp only [execNativeWork]
      rw [if_neg hin]
      rcases hs with hs | ⟨hs, _⟩ <;> simp [hr, hs]
    rw [hbody]
    cases hj : h p (.execNativeProcess_impl p.timeCodeStart p.timeCodeDuration) with
    | none =>
      rw [callHook_quiet h _ _ hj]
      cases ho : p.output <;> rcases hs with hs | ⟨hs, ho1⟩ <;>
        simp_all [Outcome.andThen, Outcome.catchAll, Outcome.port, Port.isInput]
    | some e =>
      rw [callHook_raises h _ _ e hj]
      simp only [Outcome.andThen, Outcome.catchAll]
      rcases emergencyStop_cases h e
        { p with calls := p.calls ++
            [.execNativeProcess_impl p.timeCodeStart p.timeCodeDuration] } with hq | ⟨e1, hq⟩ <;>
        rw [hq] <;> simp [Outcome.port, (setProcessException_fields _ _).2.2.1]
  · intro hs
    obtain ⟨hs, ho⟩ := hs
    have hw : waitNativeToExec p env = .proceed p := by
      cases env <;> simp [waitNativeToExec, hs]
    have hbody : Port.execNativeProcess h env p =
        emergencyStop h (.cannot "execNativeProcess on Input" 624 p.internalId .running
          .nativeToTerminate) p := by
      unfold Port.execNativeProcess
      rw [hw]
      simp [execNativeWork, hr, hs, ho, Port.isInput, throwCannot, Outcome.catchAll]
    rw [hbody]
    constructor
    · rcases emergencyStop_cases h (.cannot "execNativeProcess on Input" 624 p.internalId
        .running .nativeToTerminate) p with hq | ⟨e1, hq⟩ <;>
        rw [hq] <;> simp [Outcome.port, (setProcessException_fields _ _).2.2.1]
    · intro hq
      rw [emergencyStop_quiet h _ p hq]
      simp only [setProcessException]
      split <;> simp_all

/-- Witness of amended C8: the native halves of the two life cycles, and
the illegal NativeToTerminate on an input port. -/
theorem C8_execNativeProcess_witness :
    Port.execNativeProcess quietHooks [] (samplePort false .running .nativeToExec) =
      .returned { samplePort false .running .javaToExec with
                    calls := [.execNativeProcess_impl 0 0] } ∧
    Port.execNativeProcess quietHooks [] (samplePort true .running .nativeToTerminate) =
      .returned { samplePort true .running .terminated with
                    calls := [.execNativeProcess_impl 0 0] } ∧
    Port.execNativeProcess quietHooks [] (samplePort false .running .nativeToTerminate) =
      .returned { samplePort false .stoppedOnError .none with
                    calls := [.stop_impl],
                    processException :=
                      some (.cannot "execNativeProcess on Input" 624 7 .running
                        .nativeToTerminate) } :=
  ⟨((C8_execNativeProcess quietHooks [] (samplePort false .running .nativeToExec) rfl).1
      (Or.inl rfl)).2 rfl,
   ((C8_execNativeProcess quietHooks [] (samplePort true .running .nativeToTerminate) rfl).1
      (Or.inr ⟨rfl, rfl⟩)).2 rfl,
   ((C8_execNativeProcess quietHooks [] (samplePort false .running .nativeToTerminate) rfl).2
      ⟨rfl, rfl⟩).2 rfl⟩

/-- C9: `execNativeCycleInit`, `execNativeProcess` and `execJavaProcess` on
a port that is not Running, or that is Running in sub-state Terminated (for
the two process operations also in Started), return at once: no hook is
invoked and the port is returned as it was, field by field. -/
theorem C9_worker_noops (h : Hooks) (l : Bool) (start duration : Nat) (env : List Port)
    (p : Port) :
    (p.state ≠ .running ∨ p.substate = .terminated →
      Port.execNativeCycleInit h start duration p = .returned p) ∧
    (p.state ≠ .running ∨ p.substate = .terminated ∨ p.substate = .started →
      Port.execNativeProcess h env p = .returned p) ∧
    (p.state ≠ .running ∨ p.substate = .terminated ∨ p.substate = .started →
      Port.execJavaProcess h l env p = .returned p) := by
  refine ⟨?_, ?_, ?_⟩
  · intro hs
    by_cases hr : p.state = .running
    · rcases hs with hs | hs
      · exact absurd hr hs
      · simp [Port.execNativeCycleInit, hr, hs, Outcome.catchAll]
    · simp [Port.execNativeCycleInit, hr, Outcome.catchAll]
  · intro hs
    by_cases hr : p.state = .running
    · rcases hs with hs | hs | hs
      · exact absurd hr hs
      · simp [Port.execNativeProcess, hr, hs, Outcome.catchAll]
      · simp [Port.execNativeProcess, hr, hs, Outcome.catchAll]
    · simp [Port.execNativeProcess, hr, Outcome.catchAll]
  · intro hs
    by_cases hr : p.state = .running
    · rcases hs with hs | hs | hs
      · exact absurd hr hs
      · simp [Port.execJavaProcess, hr, hs, Outcome.catchAll]
      · simp [Port.execJavaProcess, hr, hs, Outcome.catchAll]
    · simp [Port.execJavaProcess, hr, Outcome.catchAll]

/-- Witness of C9: the worker operations on a port whose `initialize`
failed (still Created), and on a terminated running port. -/
theorem C9_worker_noops_witness :
    Port.execJavaProcess quietHooks false [] (samplePort true .created .none) =
      .returned (samplePort true .created .none) ∧
    Port.execNativeProcess quietHooks [] (samplePort true .running .terminated) =
      .returned (samplePort true .running .terminated) ∧
    Port.execNativeCycleInit quietHooks 323 100 (samplePort true .running .terminated) =
      .returned (samplePort true .running .terminated) :=
  ⟨(C9_worker_noops quietHooks false 0 0 [] (samplePort true .created .none)).2.2
      (Or.inl (by decide)),
   (C9_worker_noops quietHooks false 0 0 [] (samplePort true .running .terminated)).2.1
      (Or.inr (Or.inl rfl)),
   (C9_worker_noops quietHooks false 323 100 [] (samplePort true .running .terminated)).1
      (Or.inr rfl)⟩

/-! ## Capture of worker exceptions -/

/-- C10, as stated, fails: when the java hook raises (`thrown 1`) and
`stop_impl`, invoked by the emergency stop, raises too (`thrown 2`), the
second exception leaves `execJavaProcess`; the port stays Running/JavaToExec
and the exception slot stays empty. -/
theorem C10_java_exception_escapes :
    Port.execJavaProcess
        (fun _ c => if c.isJava then some (.thrown 1)
          else if c.isStop then some (.thrown 2) else Option.none)
        false [] (samplePort true .running .javaToExec) =
      .raised (.thrown 2)
        { samplePort true .running .javaToExec with
            calls := [.execJavaProcess_impl 0 0 false, .stop_impl] } := by
  decide

/-- C10, amended: provided `stop_impl` does not raise, an exception `e`
raised by the java hook inside `execJavaProcess` (Running, JavaToExec), or by
the native hook inside `execNativeProcess` (Running, NativeToExec, or
NativeToTerminate on an output port), does not leave the call: the call
returns, the port is in StoppedOnError with sub-state None, `stop_impl` has
been invoked once, right after the failing hook, and the exception slot keeps
what it held if it was occupied and holds `e` if it was empty. -/
theorem C10_worker_exception_captured (h : Hooks) (l : Bool) (env : List Port) (p : Port)
    (e : Exc) (hr : p.state = .running) (hstop : ∀ q, h q .stop_impl = Option.none) :
    (p.substate = .javaToExec →
      h { p with lastCycle := p.lastCycle || l }
        (.execJavaProcess_impl p.timeCodeStart p.timeCodeDuration (p.lastCycle || l)) = some e →
      Port.execJavaProcess h l env p =
        .returned { p with
          lastCycle := p.lastCycle || l, state := .stoppedOnError, substate := .none,
          calls := p.calls ++
            [.execJavaProcess_impl p.timeCodeStart p.timeCodeDuration (p.lastCycle || l),
             .stop_impl],
          processException :=
            if p.processException.isSome then p.processException else some e }) ∧
    (p.substate = .nativeToExec ∨ (p.substate = .nativeToTerminate ∧ p.output = true) →
      h p (.execNativeProcess_impl p.timeCodeStart p.timeCodeDuration) = some e →
      Port.execNativeProcess h env p =
        .returned { p with
          state := .stoppedOnError, substate := .none,
          calls := p.calls ++
            [.execNativeProcess_impl p.timeCodeStart p.timeCodeDuration, .stop_impl],
          processException :=
            if p.processException.isSome then p.processException else some e }) := by
  constructor
  · intro hs hj
    have hw : waitJavaToExec p env = .proceed p := by
      cases env <;> simp [waitJavaToExec, hs]
    have hbody : Port.execJavaProcess h l env p =
        (execJavaWork h l p).catchAll (emergencyStop h) := by
      simp [Port.execJavaProcess, hr, hs, hw]
    rw [hbody]
    unfold execJavaWork
    simp only []
    rw [callHook_raises h _ _ e hj]
    simp only [Outcome.andThen, Outcome.catchAll]
    rw [emergencyStop_quiet h _ _ (hstop _)]
    simp only [setProcessException]
    split <;> simp_all
  · intro hs hj
    have hw : waitNativeToExec p env = .proceed p := by
      rcases hs with hs | ⟨hs, _⟩ <;> cases env <;> simp [waitNativeToExec, hs]
    have hin : ¬ (p.isInput = true ∧ p.substate = .nativeToTerminate) := by
      rcases hs with hs | ⟨hs, ho⟩
      · simp [hs]
      · simp [Port.isInput, ho]
    have hbody : Port.execNativeProcess h env p =
        emergencyStop h e
          { p with calls := p.calls ++
              [.execNativeProcess_impl p.timeCodeStart p.timeCodeDuration] } := by
      unfold Port.execNativeProcess
      rw [hw]
      simp only [execNativeWork]
      rw [if_neg hin, callHook_raises h _ _ e hj]
      rcases hs with hs | ⟨hs, _⟩ <;> simp [hr, hs, Outcome.andThen, Outcome.catchAll]
    rw [hbody, emergencyStop_quiet h _ _ (hstop _)]
    simp only [setProcessException]
    split <;> simp_all

/-- Witness of amended C10: an injected fault in the java hook and in the
native hook of output port 7; in the second case the slot is occupied and the
new exception is discarded. -/
theorem C10_worker_exception_captured_witness :
    Port.execJavaProcess (faultyHooks HookCall.isJava (.thrown 1)) false []
        (samplePort true .running .javaToExec) =
      .returned { samplePort true .stoppedOnError .none with
                    calls := [.execJavaProcess_impl 0 0 false, .stop_impl],
                    processException := some (.thrown 1) } ∧
    Port.execNativeProcess (faultyHooks HookCall.isNative (.thrown 1)) []
        { samplePort true .running .nativeToExec with processException := some (.thrown 0) } =
      .returned { samplePort true .stoppedOnError .none with
                    calls := [.execNativeProcess_impl 0 0, .stop_impl],
                    processException := some (.thrown 0) } :=
  ⟨(C10_worker_exception_captured (faultyHooks HookCall.isJava (.thrown 1)) false []
      (samplePort true .running .javaToExec) (.thrown 1) rfl (fun _ => rfl)).1 rfl rfl,
   (C10_worker_exception_captured (faultyHooks HookCall.isNative (.thrown 1)) false []
      { samplePort true .running .nativeToExec with processException := some (.thrown 0) }
      (.thrown 1) rfl (fun _ => rfl)).2 (Or.inl rfl) rfl⟩

/-! ## Move construction -/

/-- C18: move construction hands over id, direction, main state, sub-state
and exception slot of the source to the new port, and leaves the moved-from
port with id `PortInvalidId` (-100000), main state Deletable and sub-state
None. -/
theorem C18_move_construction (other : Port) (lastCycle : Bool)
    (timeCodeStart timeCodeDuration : Nat) :
    (other.moveConstruct lastCycle timeCodeStart timeCodeDuration).1.internalId
        = other.internalId ∧
    (other.moveConstruct lastCycle timeCodeStart timeCodeDuration).1.output = other.output ∧
    (other.moveConstruct lastCycle timeCodeStart timeCodeDuration).1.state = other.state ∧
    (other.moveConstruct lastCycle timeCodeStart timeCodeDuration).1.substate
        = other.substate ∧
    (other.moveConstruct lastCycle timeCodeStart timeCodeDuration).1.processException
        = other.processException ∧
    (other.moveConstruct lastCycle timeCodeStart timeCodeDuration).2.internalId
        = PortInvalidId ∧
    (other.moveConstruct lastCycle timeCodeStart timeCodeDuration).2.state = .deletable ∧
    (other.moveConstruct lastCycle timeCodeStart timeCodeDuration).2.substate = .none ∧
    PortInvalidId = -100000 := by
  simp [Port.moveConstruct, PortInvalidId]

/-! ## The guarded slot -/

theorem accessorEvents_useCount (evs : List AccessorEvent) :
    ∀ (e : PtrEnvelope) (k n : Nat), liveAccessors evs k = some n →
      (e.accessorEvents evs).useCount = e.useCount - k + n ∧
      (e.accessorEvents evs).item = e.item ∧
      (e.accessorEvents evs).maxWaitingTime = e.maxWaitingTime := by
  induction evs with
  | nil =>
    intro e k n hl
    simp only [liveAccessors, Option.some.injEq] at hl
    subst hl
    simp [PtrEnvelope.accessorEvents]
  | cons a evs ih =>
    intro e k n hl
    cases a with
    | make =>
      simp only [liveAccessors] at hl
      obtain ⟨h1, h2, h3⟩ := ih e.makeAccessor (k + 1) n hl
      simp only [PtrEnvelope.accessorEvents, PtrEnvelope.accessorEvent]
      refine ⟨?_, h2, h3⟩
      rw [h1]
      simp only [PtrEnvelope.makeAccessor]
      push_cast
      ring
    | destroy =>
      cases k with
      | zero => simp [liveAccessors] at hl
      | succ k =>
        simp only [liveAccessors] at hl
        obtain ⟨h1, h2, h3⟩ := ih e.decrementUseCount k n hl
        simp only [PtrEnvelope.accessorEvents, PtrEnvelope.accessorEvent]
        refine ⟨?_, h2, h3⟩
        rw [h1]
        simp only [PtrEnvelope.decrementUseCount]
        push_cast
        ring

theorem liveAccessors_prefix (evs1 evs2 : List AccessorEvent) :
    ∀ (k n : Nat), liveAccessors (evs1 ++ evs2) k = some n →
      ∃ m, liveAccessors evs1 k = some m := by
  induction evs1 with
  | nil => intro k n _; exact ⟨k, rfl⟩
  | cons a evs1 ih =>
    intro k n hl
    cases a with
    | make => exact ih (k + 1) n (by simpa [liveAccessors] using hl)
    | destroy =>
      cases k with
      | zero => simp [liveAccessors] at hl
      | succ k => exact ih k n (by simpa [liveAccessors] using hl)

/-- C19: a new envelope has use count 0; `makeAccessor` adds exactly one
and the destruction of an accessor takes exactly one away, neither touching
the held item; over any scoped sequence of creations and destructions on a new
envelope the use count is the number of accessors alive, so it is never
negative at any point of the sequence and is 0 again when no accessor is
left, and the item is as before. -/
theorem C19_use_count (e : PtrEnvelope) (t : Int) (evs1 evs2 : List AccessorEvent) (n : Nat)
    (hs : liveAccessors (evs1 ++ evs2) 0 = some n) :
    PtrEnvelope.construct.getUseCount = 0 ∧ (PtrEnvelope.constructWith t).getUseCount = 0 ∧
    (e.makeAccessor.getUseCount = e.getUseCount + 1 ∧ e.makeAccessor.item = e.item) ∧
    (e.decrementUseCount.getUseCount = e.getUseCount - 1 ∧
      e.decrementUseCount.item = e.item) ∧
    ((PtrEnvelope.constructWith t).accessorEvents (evs1 ++ evs2)).getUseCount = n ∧
    ((PtrEnvelope.constructWith t).accessorEvents (evs1 ++ evs2)).item = Option.none ∧
    0 ≤ ((PtrEnvelope.constructWith t).accessorEvents evs1).getUseCount ∧
    (n = 0 → ((PtrEnvelope.constructWith t).accessorEvents (evs1 ++ evs2)).getUseCount = 0) := by
  obtain ⟨h1, h2, _⟩ := accessorEvents_useCount (evs1 ++ evs2) (PtrEnvelope.constructWith t) 0 n hs
  obtain ⟨m, hm⟩ := liveAccessors_prefix evs1 evs2 0 n hs
  obtain ⟨h3, _, _⟩ := accessorEvents_useCount evs1 (PtrEnvelope.constructWith t) 0 m hm
  have h0 : (PtrEnvelope.constructWith t).useCount = 0 := rfl
  refine ⟨rfl, rfl, ⟨rfl, rfl⟩, ⟨rfl, rfl⟩, ?_, ?_, ?_, ?_⟩
  · simp [PtrEnvelope.getUseCount, h1, h0]
  · rw [h2]; rfl
  · simp [PtrEnvelope.getUseCount, h3, h0]
  · intro hn
    simp [PtrEnvelope.getUseCount, h1, h0, hn]

/-- Witness of C19: the nesting of `testUsecount`, two accessors, the inner
one destroyed first. -/
theorem C19_use_count_witness :
    (PtrEnvelope.construct.accessorEvents [.make, .make]).getUseCount = 2 ∧
    (PtrEnvelope.construct.accessorEvents [.make, .make, .destroy]).getUseCount = 1 ∧
    (PtrEnvelope.construct.accessorEvents [.make, .make, .destroy, .destroy]).getUseCount
      = 0 :=
  ⟨(C19_use_count PtrEnvelope.construct 500 [.make, .make] [] 2 rfl).2.2.2.2.1,
   (C19_use_count PtrEnvelope.construct 500 [.make, .make, .destroy] [] 1 rfl).2.2.2.2.1,
   (C19_use_count PtrEnvelope.construct 500 [.make, .make, .destroy, .destroy] [] 0
      rfl).2.2.2.2.2.2.2 rfl⟩

/-- C20: on an empty envelope with use count 0, `setItemWait(p)` of a
non-null `p` succeeds without waiting and makes `hasItem` true and `isEmpty`
false; a following `removeItemWait` succeeds, returns that same port and leaves
the envelope empty (`hasItem` false, `isEmpty` true) and otherwise as it
was. -/
theorem C20_set_remove_round_trip (e : PtrEnvelope) (p : Port) (env env2 : List PtrEnvelope)
    (he : e.item = Option.none) (hu : e.useCount = 0) :
    e.setItemWait (some p) env = .ok { e with item := some p } ∧
    PtrEnvelope.hasItem { e with item := some p } = true ∧
    PtrEnvelope.isEmpty { e with item := some p } = false ∧
    PtrEnvelope.removeItemWait env2 { e with item := some p } = .ok (some p, e) ∧
    e.hasItem = false ∧ e.isEmpty = true := by
  have hw : ∀ (w : List PtrEnvelope) (x : PtrEnvelope), x.useCount = 0 →
      x.waitUnused w = some x := by
    intro w x hx
    cases w <;> simp [PtrEnvelope.waitUnused, hx]
  refine ⟨?_, rfl, rfl, ?_, ?_, ?_⟩
  · simp [PtrEnvelope.setItemWait, he, hw env e hu]
  · have := hw env2 { e with item := some p } hu
    simp only [PtrEnvelope.removeItemWait, this]
    cases e
    simp_all
  · simp [PtrEnvelope.hasItem, he]
  · simp [PtrEnvelope.isEmpty, he]

/-- Witness of C20: port 7 put into a new envelope and taken out again. -/
theorem C20_set_remove_round_trip_witness :
    PtrEnvelope.construct.setItemWait (some (samplePort false .initialized .none)) [] =
      .ok (PtrEnvelope.holding (samplePort false .initialized .none)) ∧
    (PtrEnvelope.holding (samplePort false .initialized .none)).removeItemWait [] =
      .ok (some (samplePort false .initialized .none), PtrEnvelope.construct) :=
  ⟨(C20_set_remove_round_trip PtrEnvelope.construct (samplePort false .initialized .none)
      [] [] rfl rfl).1,
   (C20_set_remove_round_trip PtrEnvelope.construct (samplePort false .initialized .none)
      [] [] rfl rfl).2.2.2.1⟩

/-! ## Retrieval of the process exception -/

theorem accessor_scope (entry : PtrEnvelope) :
    entry.makeAccessor.decrementUseCount = entry := by
  cases entry
  simp [PtrEnvelope.makeAccessor, PtrEnvelope.decrementUseCount]

theorem retrieveProcessException_none (l : List PtrEnvelope) :
    pendingExceptions l = 0 → retrieveProcessException l = (Option.none, l) := by
  induction l with
  | nil => intro _; rfl
  | cons entry rest ih =>
    intro hp
    unfold pendingExceptions at hp
    have hrest : pendingExceptions rest = 0 := by omega
    unfold retrieveProcessException
    rw [ih hrest, accessor_scope]
    cases hi : entry.item with
    | none => simp [PtrEnvelope.makeAccessor, hi]
    | some port =>
      have hx : port.hasProcessException = false := by
        cases hx : port.hasProcessException with
        | false => rfl
        | true => simp [hi, hx] at hp
      simp [PtrEnvelope.makeAccessor, hi, hx]

theorem retrieveProcessException_first (pre : List PtrEnvelope) :
    ∀ (post : List PtrEnvelope) (entry : PtrEnvelope) (port : Port) (e : Exc),
      pendingExceptions pre = 0 → entry.item = some port → port.processException = some e →
      retrieveProcessException (pre ++ entry :: post) =
        (some e, pre ++ { entry with item := some { port with processException := Option.none } }
          :: post) := by
  induction pre with
  | nil =>
    intro post entry port e _ hi hx
    have hh : port.hasProcessException = true := by simp [Port.hasProcessException, hx]
    cases entry
    simp_all [retrieveProcessException, PtrEnvelope.makeAccessor,
      PtrEnvelope.decrementUseCount]
  | cons first pre ih =>
    intro post entry port e hp hi hx
    unfold pendingExceptions at hp
    have hrest : pendingExceptions pre = 0 := by omega
    have hrec := ih post entry port e hrest hi hx
    simp only [List.cons_append]
    unfold retrieveProcessException
    rw [hrec, accessor_scope]
    cases hf : first.item with
    | none => simp [PtrEnvelope.makeAccessor, hf]
    | some fp =>
      have hfx : fp.hasProcessException = false := by
        cases hfx : fp.hasProcessException with
        | false => rfl
        | true => simp [hf, hfx] at hp
      simp [PtrEnvelope.makeAccessor, hf, hfx]

theorem pendingExceptions_append (l1 l2 : List PtrEnvelope) :
    pendingExceptions (l1 ++ l2) = pendingExceptions l1 + pendingExceptions l2 := by
  induction l1 with
  | nil => simp [pendingExceptions]
  | cons entry rest ih =>
    show pendingExceptions (entry :: (rest ++ l2)) = _
    simp only [pendingExceptions, ih]
    omega

/-- C11: `retrieveProcessException` returns the exception of the
lowest-indexed held port whose exception slot is occupied and empties that
slot, every envelope and every other port staying as it was; it returns
nothing and changes nothing when no held port has an exception.  Hence, when
one port only holds an exception, the first call returns it and every later
call returns nothing. -/
theorem C11_retrieveProcessException (pre post : List PtrEnvelope) (entry : PtrEnvelope)
    (port : Port) (e : Exc) (hpre : pendingExceptions pre = 0)
    (hitem : entry.item = some port) (hex : port.processException = some e) :
    retrieveProcessException (pre ++ entry :: post) =
      (some e, pre ++ { entry with item := some { port with processException := Option.none } }
        :: post) ∧
    (pendingExceptions post = 0 →
      ∀ n : Nat, (retrieveProcessException
        (Nat.iterate (fun l => (retrieveProcessException l).2) (n + 1)
          (pre ++ entry :: post))).1 = Option.none) ∧
    (∀ l, pendingExceptions l = 0 → retrieveProcessException l = (Option.none, l)) := by
  have hfirst := retrieveProcessException_first pre post entry port e hpre hitem hex
  refine ⟨hfirst, ?_, retrieveProcessException_none⟩
  intro hpost n
  have hclean : pendingExceptions
      (pre ++ { entry with item := some { port with processException := Option.none } }
        :: post) = 0 := by
    rw [pendingExceptions_append]
    simp [pendingExceptions, hpre, hpost, Port.hasProcessException]
  have hiter : ∀ (k : Nat) (l : List PtrEnvelope), pendingExceptions l = 0 →
      Nat.iterate (fun l => (retrieveProcessException l).2) k l = l := by
    intro k
    induction k with
    | zero => intro l _; rfl
    | succ k ih =>
      intro l hl
      rw [Function.iterate_succ_apply, retrieveProcessException_none l hl]
      exact ih l hl
  rw [Function.iterate_succ_apply, hfirst]
  simp only []
  rw [hiter n _ hclean, retrieveProcessException_none _ hclean]

/-- Witness of C11: a chain of three slots, the last one holding an output
port whose java half has just raised. -/
theorem C11_retrieveProcessException_witness :
    retrieveProcessException
        [PtrEnvelope.holding (samplePort false .running .cycleDone), PtrEnvelope.construct,
         PtrEnvelope.holding
           (Port.execJavaProcess (faultyHooks HookCall.isJava (.thrown 1)) false []
             (samplePort true .running .javaToExec)).port] =
      (some (.thrown 1),
        [PtrEnvelope.holding (samplePort false .running .cycleDone), PtrEnvelope.construct,
         PtrEnvelope.holding
           { samplePort true .stoppedOnError .none with
               calls := [.execJavaProcess_impl 0 0 false, .stop_impl] }]) ∧
    (retrieveProcessException
        (retrieveProcessException
          [PtrEnvelope.holding (samplePort false .running .cycleDone), PtrEnvelope.construct,
           PtrEnvelope.holding
             (Port.execJavaProcess (faultyHooks HookCall.isJava (.thrown 1)) false []
               (samplePort true .running .javaToExec)).port]).2).1 = Option.none :=
  ⟨(C11_retrieveProcessException
      [PtrEnvelope.holding (samplePort false .running .cycleDone), PtrEnvelope.construct] []
      (PtrEnvelope.holding
        (Port.execJavaProcess (faultyHooks HookCall.isJava (.thrown 1)) false []
          (samplePort true .running .javaToExec)).port)
      (Port.execJavaProcess (faultyHooks HookCall.isJava (.thrown 1)) false []
        (samplePort true .running .javaToExec)).port
      (.thrown 1) rfl rfl rfl).1,
   (C11_retrieveProcessException
      [PtrEnvelope.holding (samplePort false .running .cycleDone), PtrEnvelope.construct] []
      (PtrEnvelope.holding
        (Port.execJavaProcess (faultyHooks HookCall.isJava (.thrown 1)) false []
          (samplePort true .running .javaToExec)).port)
      (Port.execJavaProcess (faultyHooks HookCall.isJava (.thrown 1)) false []
        (samplePort true .running .javaToExec)).port
      (.thrown 1) rfl rfl rfl).2.1 rfl 0⟩

/-! ## The waits of the worker halves -/

/-- C12, as stated, fails: `execJavaProcess` on a running output port in
sub-state NativeToExec that nobody signals does not end with a Timeout error;
it stays blocked in the untimed `onStateChanged.wait`, the port Running and
its exception slot empty. -/
theorem C12_java_wait_unbounded :
    Port.execJavaProcess quietHooks false [] (samplePort true .running .nativeToExec) =
      .blocked (samplePort true .running .nativeToExec) ∧
    (samplePort true .running .nativeToExec).state = .running ∧
    (samplePort true .running .nativeToExec).processException = Option.none := by
  decide

/-- C12, amended: the rendezvous waits inside `execJavaProcess` and
`execNativeProcess` are untimed.  When a Running port is in a sub-state the
operation has to wait on (`execJavaProcess` in NativeToExec or CycleDone,
`execNativeProcess` in JavaToExec or CycleDone) and no other thread ever
signals, the operation stays blocked: it neither returns nor raises, invokes
no hook and leaves the port as it is. -/
theorem C12_worker_waits_unbounded (h : Hooks) (l : Bool) (p : Port)
    (hr : p.state = .running) :
    (p.substate = .nativeToExec ∨ p.substate = .cycleDone →
      Port.execJavaProcess h l [] p = .blocked p) ∧
    (p.substate = .javaToExec ∨ p.substate = .cycleDone →
      Port.execNativeProcess h [] p = .blocked p) := by
  constructor
  · intro hs
    rcases hs with hs | hs <;>
      simp [Port.execJavaProcess, waitJavaToExec, hr, hs, Outcome.catchAll]
  · intro hs
    rcases hs with hs | hs <;>
      simp [Port.execNativeProcess, waitNativeToExec, hr, hs, Outcome.catchAll]

/-- Witness of amended C12: the java half of an input port whose native
half is due, and the native half of an input port whose java half is due. -/
theorem C12_worker_waits_unbounded_witness :
    Port.execJavaProcess quietHooks false [] (samplePort false .running .nativeToExec) =
      .blocked (samplePort false .running .nativeToExec) ∧
    Port.execNativeProcess quietHooks [] (samplePort false .running .javaToExec) =
      .blocked (samplePort false .running .javaToExec) :=
  ⟨(C12_worker_waits_unbounded quietHooks false (samplePort false .running .nativeToExec)
      rfl).1 (Or.inl rfl),
   (C12_worker_waits_unbounded quietHooks false (samplePort false .running .javaToExec)
      rfl).2 (Or.inl rfl)⟩

/-! ## The invariant of main state and sub-state -/

theorem subStateInv_wake (p q : Port) (hq : q.subStateInv) : (p.wake q).subStateInv := hq

theorem subStateInv_emergencyStop (h : Hooks) (cause : Exc) (p : Port) (hp : p.subStateInv) :
    (emergencyStop h cause p).port.subStateInv := by
  rcases emergencyStop_cases h cause p with hq | ⟨e, hq⟩ <;> rw [hq]
  · simp [Outcome.port, Port.subStateInv, (setProcessException_fields _ _).1,
      (setProcessException_fields _ _).2.1]
  · exact hp

theorem subStateInv_waitForTermination (force : Bool) (env : List Port) :
    ∀ p : Port, p.subStateInv → (∀ q, q ∈ env → q.subStateInv) →
      (waitForTermination force p env).subStateInv := by
  induction env with
  | nil => intro p hp _; exact hp
  | cons q env ih =>
    intro p hp henv
    unfold waitForTermination
    split
    · exact ih _ (subStateInv_wake p q (henv q (List.mem_cons_self _ _)))
        (fun r hr => henv r (List.mem_cons_of_mem _ hr))
    · exact hp

theorem subStateInv_waitJavaToExec (env : List Port) :
    ∀ p : Port, p.subStateInv → p.state = .running → (∀ q, q ∈ env → q.subStateInv) →
      (∀ r, waitJavaToExec p env = .proceed r →
        r.subStateInv ∧ r.state = .running ∧ r.substate = .javaToExec) ∧
      (∀ o, waitJavaToExec p env = .finished o →
        o.port.subStateInv ∧ ∀ e r, o ≠ .raised e r) := by
  induction env with
  | nil =>
    intro p hp hr _
    unfold waitJavaToExec
    split
    · simp [Outcome.port, hp]
    · rename_i hc
      simp only [Waited.proceed.injEq, forall_eq', reduceCtorEq, false_implies, implies_true,
        and_true]
      refine ⟨hp, hr, ?_⟩
      by_contra hne
      exact hc ⟨hne, hr⟩
  | cons q env ih =>
    intro p hp hr henv
    have hq := subStateInv_wake p q (henv q (List.mem_cons_self _ _))
    unfold waitJavaToExec
    split
    · split
      · simp [Outcome.port, hq]
      · rename_i hc
        have hrun : (p.wake q).state = .running := by
          by_contra hne
          exact hc (Or.inl hne)
        exact ih _ hq hrun (fun r hr => henv r (List.mem_cons_of_mem _ hr))
    · rename_i hc
      simp only [Waited.proceed.injEq, forall_eq', reduceCtorEq, false_implies, implies_true,
        and_true]
      refine ⟨hp, hr, ?_⟩
      by_contra hne
      exact hc ⟨hne, hr⟩

theorem subStateInv_waitNativeToExec (env : List Port) :
    ∀ p : Port, p.subStateInv → (∀ q, q ∈ env → q.subStateInv) →
      (∀ r, waitNativeToExec p env = .proceed r → r.subStateInv) ∧
      (∀ o, waitNativeToExec p env = .finished o → o.port.subStateInv) := by
  induction env with
  | nil =>
    intro p hp _
    unfold waitNativeToExec
    split <;> simp [Outcome.port, hp]
  | cons q env ih =>
    intro p hp henv
    have hq := subStateInv_wake p q (henv q (List.mem_cons_self _ _))
    unfold waitNativeToExec
    split
    · split
      · simp [Outcome.port, throwCannot, hq]
      · exact ih _ hq (fun r hr => henv r (List.mem_cons_of_mem _ hr))
    · simp [hp]

theorem subStateInv_perform (h : Hooks) (a : Op) (p : Port) (hp : p.subStateInv)
    (henv : ∀ q, q ∈ a.env → q.subStateInv) : (Port.perform h a p).port.subStateInv := by
  cases a with
  | doInitialize =>
    simp only [Port.perform, Port.initialize]
    split
    · exact hp
    · rcases callHook_cases h .initialize_impl p with hq | ⟨e, hq⟩ <;> rw [hq] <;>
        simp_all [Outcome.andThen, Outcome.port, Port.subStateInv]
  | doRegisterAtServer =>
    simp only [Port.perform, Port.registerAtServer]
    split
    · exact hp
    · rcases callHook_cases h .register_impl p with hq | ⟨e, hq⟩ <;> rw [hq] <;>
        simp_all [Outcome.andThen, Outcome.port, Port.subStateInv]
  | doStart =>
    simp only [Port.perform, Port.start]
    split
    · exact hp
    · rcases callHook_cases h .start_impl p with hq | ⟨e, hq⟩ <;> rw [hq] <;>
        simp_all [Outcome.andThen, Outcome.port, Port.subStateInv]
  | doUnregisterAtServer =>
    simp only [Port.perform, Port.unregisterAtServer]
    split
    · exact hp
    · rename_i hs
      have hnr : p.state ≠ .running := by
        intro hr
        exact hs (by simp [hr])
      rcases callHook_cases h .unregister_impl p with hq | ⟨e, hq⟩ <;> rw [hq] <;>
        simp_all [Outcome.andThen, Outcome.port, Port.subStateInv]
  | doUnInitialize =>
    simp only [Port.perform, Port.uninitialize]
    split
    · exact hp
    · rename_i hs
      have hnr : p.state ≠ .running := by
        intro hr
        exact hs (by simp [hr])
      rcases callHook_cases h .uninitialize_impl p with hq | ⟨e, hq⟩ <;> rw [hq] <;>
        simp_all [Outcome.andThen, Outcome.port, Port.subStateInv]
  | doExecNativeCycleInit s d =>
    simp only [Port.perform, Port.execNativeCycleInit]
    split
    · exact hp
    · split
      · exact hp
      · split
        · exact subStateInv_emergencyStop h _ p hp
        · rename_i hr _ _
          simp only [ne_eq, not_not] at hr
          split <;> simp [Outcome.catchAll, Outcome.port, Port.subStateInv, hr]
  | doExecJavaProcess l env =>
    simp only [Port.perform, Port.execJavaProcess]
    split
    · exact hp
    · split
      · exact hp
      · rename_i hr _
        simp only [ne_eq, not_not] at hr
        obtain ⟨h1, h2⟩ := subStateInv_waitJavaToExec env p hp hr henv
        split
        · rename_i o ho
          obtain ⟨h3, h4⟩ := h2 o ho
          cases o with
          | returned r => exact h3
          | blocked r => exact h3
          | raised e r => exact absurd rfl (h4 e r)
        · rename_i r hw
          obtain ⟨h3, h4, h5⟩ := h1 r hw
          unfold execJavaWork
          simp only []
          rcases callHook_cases h
            (.execJavaProcess_impl r.timeCodeStart r.timeCodeDuration (r.lastCycle || l))
            { r with lastCycle := r.lastCycle || l } with hq | ⟨e, hq⟩ <;> rw [hq]
          · simp only [Outcome.andThen]
            split <;> split <;> simp [Outcome.catchAll, Outcome.port, Port.subStateInv, h4]
          · simp only [Outcome.andThen, Outcome.catchAll]
            exact subStateInv_emergencyStop h e _ h3
  | doExecNativeProcess env =>
    simp only [Port.perform, Port.execNativeProcess]
    split
    · exact hp
    · split
      · exact hp
      · obtain ⟨h1, h2⟩ := subStateInv_waitNativeToExec env p hp henv
        split
        · rename_i o ho
          have h3 := h2 o ho
          cases o with
          | returned r => exact h3
          | blocked r => exact h3
          | raised e r => exact subStateInv_emergencyStop h e r h3
        · rename_i r hw
          have h3 := h1 r hw
          unfold execNativeWork
          split
          · exact h3
          · rename_i hr
            simp only [ne_eq, not_not] at hr
            split
            · exact subStateInv_emergencyStop h _ r h3
            · rcases callHook_cases h
                (.execNativeProcess_impl r.timeCodeStart r.timeCodeDuration) r
                with hq | ⟨e, hq⟩ <;> rw [hq]
              · simp only [Outcome.andThen]
                split
                · simp [Outcome.catchAll, Outcome.port, Port.subStateInv, hr]
                · split <;> simp [Outcome.catchAll, Outcome.port, Port.subStateInv, hr]
              · simp only [Outcome.andThen, Outcome.catchAll]
                exact subStateInv_emergencyStop h e _ h3
  | doStop force env =>
    simp only [Port.perform, Port.stop]
    split
    · rename_i hs
      have : p.substate = .none := by
        by_contra hne
        have := hp.mpr hne
        simp [hs] at this
      simp [Outcome.port, Port.subStateInv, this]
    · split
      · exact hp
      · have hw := subStateInv_waitForTermination force env { p with lastCycle := true } hp henv
        split
        · rcases emergencyStop_cases h .didNotTerminate
            (waitForTermination force { p with lastCycle := true } env)
            with hq | ⟨e, hq⟩ <;> rw [hq]
          · simp [Outcome.andThen, Outcome.port, Port.subStateInv]
          · exact hw
        · rcases callHook_cases h .stop_impl
            (waitForTermination force { p with lastCycle := true } env)
            with hq | ⟨e, hq⟩ <;> rw [hq]
          · simp [Outcome.andThen, Outcome.port, Port.subStateInv]
          · exact hw
  | doShutdown force env =>
    obtain ⟨r, hr, h1, h2, _⟩ := shutdown_returns h force env p
    simp [Port.perform, hr, Outcome.port, Port.subStateInv, h1, h2]
  | moveInto l s d => exact hp
  | moveFrom => simp [Port.perform, Port.moveConstruct, Outcome.port, Port.subStateInv]

/-- C13: in every port that can be met from a constructed port by calls of
the public operations (administrative calls, worker operations, `stop`,
`shutdown`, with any wake-ups that are themselves such ports) and by move
constructions (the new port and the moved-from one), for any behaviour of the
hooks, the main state is Running if and only if the sub-state is not None. -/
theorem C13_running_iff_substate (h : Hooks) (p : Port)
    (hp : Reachable h (fun _ _ => True) p) :
    p.state = .running ↔ p.substate ≠ .none := by
  induction hp with
  | construct isOutput internalId => simp [Port.construct]
  | perform a p _ _ _ ih ihenv => exact subStateInv_perform h a p ih ihenv

/-- Witness of C13: input port 7 after `initialize`, `registerAtServer` and
`start` is Running with sub-state Started, and the remains of a move from it
are Deletable with sub-state None. -/
theorem C13_running_iff_substate_witness :
    ((Port.run quietHooks [.doInitialize, .doRegisterAtServer, .doStart]
        (Port.construct false 7)).state = .running ↔
      (Port.run quietHooks [.doInitialize, .doRegisterAtServer, .doStart]
        (Port.construct false 7)).substate ≠ .none) ∧
    ((Port.run quietHooks [.doInitialize, .doRegisterAtServer, .doStart, .moveFrom]
        (Port.construct false 7)).state = .running ↔
      (Port.run quietHooks [.doInitialize, .doRegisterAtServer, .doStart, .moveFrom]
        (Port.construct false 7)).substate ≠ .none) :=
  ⟨C13_running_iff_substate quietHooks _
    (.perform .doStart _
      (.perform .doRegisterAtServer _
        (.perform .doInitialize _ (.construct false 7) trivial (fun _ hq => by cases hq))
        trivial (fun _ hq => by cases hq))
      trivial (fun _ hq => by cases hq)),
   C13_running_iff_substate quietHooks _
    (.perform .moveFrom _
      (.perform .doStart _
        (.perform .doRegisterAtServer _
          (.perform .doInitialize _ (.construct false 7) trivial (fun _ hq => by cases hq))
          trivial (fun _ hq => by cases hq))
        trivial (fun _ hq => by cases hq))
      trivial (fun _ hq => by cases hq))⟩

/-! ## Alternation of the two halves -/

theorem execJavaProcess_ready (h : Hooks) (l : Bool) (env : List Port) (p : Port)
    (hr : p.state = .running) (hs : p.substate = .javaToExec) :
    Port.execJavaProcess h l env p = (execJavaWork h l p).catchAll (emergencyStop h) := by
  have hw : waitJavaToExec p env = .proceed p := by
    cases env <;> simp [waitJavaToExec, hs]
  simp [Port.execJavaProcess, hr, hs, hw]

theorem execJavaWork_cases (h : Hooks) (l : Bool) (p : Port) :
    execJavaWork h l p =
      .returned { p with
        lastCycle := p.lastCycle || l,
        calls := p.calls ++
          [.execJavaProcess_impl p.timeCodeStart p.timeCodeDuration (p.lastCycle || l)],
        substate :=
          if (p.lastCycle || l) = true then
            (if p.output then .nativeToTerminate else .terminated)
          else (if p.output then .nativeToExec else .cycleDone) } ∨
    ∃ e, execJavaWork h l p =
      .raised e { p with
        lastCycle := p.lastCycle || l,
        calls := p.calls ++
          [.execJavaProcess_impl p.timeCodeStart p.timeCodeDuration (p.lastCycle || l)] } := by
  unfold execJavaWork
  simp only []
  rcases callHook_cases h
    (.execJavaProcess_impl p.timeCodeStart p.timeCodeDuration (p.lastCycle || l))
    { p with lastCycle := p.lastCycle || l } with hq | ⟨e, hq⟩ <;> rw [hq]
  · left
    cases ho : p.output <;> cases hl : (p.lastCycle || l) <;>
      simp [Outcome.andThen, Port.isOutput, ho, hl]
  · right
    exact ⟨e, rfl⟩

theorem execNativeProcess_ready (h : Hooks) (env : List Port) (p : Port)
    (hr : p.state = .running)
    (hs : p.substate = .nativeToExec ∨ p.substate = .nativeToTerminate) :
    Port.execNativeProcess h env p = (execNativeWork h p).catchAll (emergencyStop h) := by
  have hw : waitNativeToExec p env = .proceed p := by
    rcases hs with hs | hs <;> cases env <;> simp [waitNativeToExec, hs]
  rcases hs with hs | hs <;> simp [Port.execNativeProcess, hr, hs, hw]

theorem execNativeWork_cases (h : Hooks) (p : Port) (hr : p.state = .running) :
    (¬ (p.output = false ∧ p.substate = .nativeToTerminate) ∧
      execNativeWork h p =
        .returned { p with
          calls := p.calls ++ [.execNativeProcess_impl p.timeCodeStart p.timeCodeDuration],
          substate :=
            if p.output then
              (if p.substate = .nativeToTerminate then .terminated else .cycleDone)
            else .javaToExec }) ∨
    (∃ e, ¬ (p.output = false ∧ p.substate = .nativeToTerminate) ∧
      execNativeWork h p =
        .raised e { p with
          calls := p.calls ++
            [.execNativeProcess_impl p.timeCodeStart p.timeCodeDuration] }) ∨
    ((p.output = false ∧ p.substate = .nativeToTerminate) ∧
      execNativeWork h p =
        throwCannot "execNativeProcess on Input" 624 p.state p.substate p) := by
  unfold execNativeWork
  by_cases hin : p.output = false ∧ p.substate = .nativeToTerminate
  · right; right
    refine ⟨hin, ?_⟩
    simp [hr, hin, Port.isInput]
  · have hin2 : ¬ (p.isInput = true ∧ p.substate = .nativeToTerminate) := by
      simpa [Port.isInput] using hin
    rw [if_neg (by simp [hr]), if_neg hin2]
    rcases callHook_cases h (.execNativeProcess_impl p.timeCodeStart p.timeCodeDuration) p
      with hq | ⟨e, hq⟩ <;> rw [hq]
    · left
      refine ⟨hin, ?_⟩
      cases ho : p.output <;> by_cases hb : p.substate = .nativeToTerminate <;>
        simp [Outcome.andThen, Port.isInput, ho, hb]
    · right; left
      exact ⟨e, hin, rfl⟩

@[simp] theorem setProcessException_state (ex : Exc) (p : Port) :
    (setProcessException ex p).state = p.state := (setProcessException_fields ex p).1

@[simp] theorem setProcessException_substate (ex : Exc) (p : Port) :
    (setProcessException ex p).substate = p.substate := (setProcessException_fields ex p).2.1

@[simp] theorem setProcessException_calls (ex : Exc) (p : Port) :
    (setProcessException ex p).calls = p.calls := (setProcessException_fields ex p).2.2.1

@[simp] theorem setProcessException_output (ex : Exc) (p : Port) :
    (setProcessException ex p).output = p.output :=
  (setProcessException_fields ex p).2.2.2.2.2.2.1

@[simp] theorem setProcessException_timeCodeStart (ex : Exc) (p : Port) :
    (setProcessException ex p).timeCodeStart = p.timeCodeStart :=
  (setProcessException_fields ex p).2.2.2.2.1

@[simp] theorem setProcessException_timeCodeDuration (ex : Exc) (p : Port) :
    (setProcessException ex p).timeCodeDuration = p.timeCodeDuration :=
  (setProcessException_fields ex p).2.2.2.2.2.1

theorem alternationInv_perform (h : Hooks) (hstop : ∀ q, h q .stop_impl = Option.none)
    (a : Op) (hw : a.isWorker = true) (he : a.env = []) (p : Port)
    (hp : p.alternationInv) : (Port.perform h a p).port.alternationInv := by
  cases a with
  | doExecNativeCycleInit s d =>
    by_cases hr : p.state = .running
    · cases hb : p.substate <;> cases ho : p.output <;>
        simp_all [Port.perform, Port.execNativeCycleInit, Port.alternationInv,
          Outcome.catchAll, Outcome.port, throwCannot, emergencyStop, callHook,
          Outcome.andThen, Port.isInput, Port.javaCount, Port.nativeCount,
          Port.halvesInStep, HookCall.isJava, HookCall.isNative]
    · simp [Port.perform, Port.execNativeCycleInit, hr, Outcome.catchAll, Outcome.port, hp]
  | doExecJavaProcess l env =>
    simp only [Op.env] at he
    subst he
    by_cases hr : p.state = .running
    · by_cases hb : p.substate = .javaToExec
      · simp only [Port.perform]
        rw [execJavaProcess_ready h l [] p hr hb]
        rcases execJavaWork_cases h l p with hq | ⟨e, hq⟩ <;> rw [hq]
        · cases ho : p.output <;> cases hl : (p.lastCycle || l) <;>
            simp_all [Port.alternationInv, Outcome.catchAll, Outcome.port, Port.javaCount,
              Port.nativeCount, HookCall.isJava, HookCall.isNative]
        · simp only [Outcome.catchAll]
          rw [emergencyStop_quiet h _ _ (hstop _)]
          cases ho : p.output <;>
            simp_all [Port.alternationInv, Outcome.port, Port.javaCount, Port.nativeCount,
              Port.halvesInStep, HookCall.isJava, HookCall.isNative]
      · cases hs : p.substate <;>
          simp_all [Port.perform, Port.execJavaProcess, waitJavaToExec, Outcome.catchAll,
            Outcome.port]
    · simp [Port.perform, Port.execJavaProcess, hr, Outcome.catchAll, Outcome.port, hp]
  | doExecNativeProcess env =>
    simp only [Op.env] at he
    subst he
    by_cases hr : p.state = .running
    · by_cases hb : p.substate = .nativeToExec ∨ p.substate = .nativeToTerminate
      · simp only [Port.perform]
        rw [execNativeProcess_ready h [] p hr hb]
        rcases execNativeWork_cases h p hr with ⟨hin, hq⟩ | ⟨e, hin, hq⟩ | ⟨hin, hq⟩ <;> rw [hq]
        · cases ho : p.output <;> rcases hb with hb | hb <;>
            simp_all [Port.alternationInv, Outcome.catchAll, Outcome.port, Port.javaCount,
              Port.nativeCount, HookCall.isJava, HookCall.isNative]
        · simp only [Outcome.catchAll]
          rw [emergencyStop_quiet h _ _ (hstop _)]
          cases ho : p.output <;> rcases hb with hb | hb <;>
            simp_all [Port.alternationInv, Outcome.port, Port.javaCount, Port.nativeCount,
              Port.halvesInStep, HookCall.isJava, HookCall.isNative]
        · simp only [Outcome.catchAll, throwCannot]
          rw [emergencyStop_quiet h _ _ (hstop _)]
          cases ho : p.output <;> rcases hb with hb | hb <;>
            simp_all [Port.alternationInv, Outcome.port, Port.javaCount, Port.nativeCount,
              Port.halvesInStep, HookCall.isJava, HookCall.isNative]
      · cases hs : p.substate <;>
          simp_all [Port.perform, Port.execNativeProcess, waitNativeToExec, Outcome.catchAll,
            Outcome.port]
    · simp [Port.perform, Port.execNativeProcess, hr, Outcome.catchAll, Outcome.port, hp]
  | doInitialize => simp [Op.isWorker] at hw
  | doRegisterAtServer => simp [Op.isWorker] at hw
  | doStart => simp [Op.isWorker] at hw
  | doStop _ _ => simp [Op.isWorker] at hw
  | doUnregisterAtServer => simp [Op.isWorker] at hw
  | doUnInitialize => simp [Op.isWorker] at hw
  | doShutdown _ _ => simp [Op.isWorker] at hw
  | moveInto _ _ _ => simp [Op.isWorker] at hw
  | moveFrom => simp [Op.isWorker] at hw

theorem alternationInv_spec (p : Port) (hp : p.alternationInv) :
    p.halvesInStep ∧
    (p.substate = .started ∨ p.substate = .cycleDone ∨ p.substate = .terminated →
      p.javaCount = p.nativeCount) := by
  unfold Port.alternationInv at hp
  cases hs : p.state <;> cases hb : p.substate <;> cases ho : p.output <;>
    simp_all [Port.halvesInStep]

theorem alternationInv_run (h : Hooks) (hstop : ∀ q, h q .stop_impl = Option.none)
    (ops : List Op) :
    ∀ p : Port, (∀ a, a ∈ ops → a.isWorker = true ∧ a.env = []) → p.alternationInv →
      (Port.run h ops p).alternationInv := by
  induction ops with
  | nil => intro p _ hp; exact hp
  | cons a ops ih =>
    intro p hops hp
    have ha := hops a (List.mem_cons_self _ _)
    exact ih _ (fun b hb => hops b (List.mem_cons_of_mem _ hb))
      (alternationInv_perform h hstop a ha.1 ha.2 p hp)

/-- C14, as stated, fails: on an output port whose java hook and whose
`stop_impl` raise, the exception of `stop_impl` leaves `execJavaProcess` and
the port stays Running/JavaToExec, so a second `execJavaProcess` invokes the
java hook again: two java invocations, no native one. -/
theorem C14_java_half_twice :
    (Port.run (faultyHooks (fun c => c.isJava || c.isStop) (.thrown 1))
        [.doExecNativeCycleInit 123 100, .doExecJavaProcess false [],
         .doExecJavaProcess false []]
        (samplePort true .running .started)).javaCount = 2 ∧
    (Port.run (faultyHooks (fun c => c.isJava || c.isStop) (.thrown 1))
        [.doExecNativeCycleInit 123 100, .doExecJavaProcess false [],
         .doExecJavaProcess false []]
        (samplePort true .running .started)).nativeCount = 0 ∧
    (Port.run (faultyHooks (fun c => c.isJava || c.isStop) (.thrown 1))
        [.doExecNativeCycleInit 123 100, .doExecJavaProcess false [],
         .doExecJavaProcess false []]
        (samplePort true .running .started)).output = true := by
  decide

/-- C14, amended: for a port whose `stop_impl` does not raise, started
(Running/Started, the two counts equal) and then driven by any sequence of
`execNativeCycleInit`, `execNativeProcess` and `execJavaProcess` calls that
nobody signals while they wait (a call that has to wait stays blocked and
changes nothing), whatever the java and native hooks do: on an input port the
native count is the java count or one more, on an output port the java count
is the native count or one more, and in sub-state Started, CycleDone or
Terminated the two counts are equal. -/
theorem C14_alternation (h : Hooks) (hstop : ∀ q, h q .stop_impl = Option.none)
    (p0 : Port) (ops : List Op) (hr : p0.state = .running) (hs : p0.substate = .started)
    (hc : p0.javaCount = p0.nativeCount)
    (hops : ∀ a, a ∈ ops → a.isWorker = true ∧ a.env = []) :
    ((Port.run h ops p0).output = false →
      (Port.run h ops p0).nativeCount = (Port.run h ops p0).javaCount ∨
      (Port.run h ops p0).nativeCount = (Port.run h ops p0).javaCount + 1) ∧
    ((Port.run h ops p0).output = true →
      (Port.run h ops p0).javaCount = (Port.run h ops p0).nativeCount ∨
      (Port.run h ops p0).javaCount = (Port.run h ops p0).nativeCount + 1) ∧
    ((Port.run h ops p0).substate = .started ∨ (Port.run h ops p0).substate = .cycleDone
        ∨ (Port.run h ops p0).substate = .terminated →
      (Port.run h ops p0).javaCount = (Port.run h ops p0).nativeCount) := by
  have h0 : p0.alternationInv := by
    simp [Port.alternationInv, hr, hs, hc]
  obtain ⟨h1, h2⟩ := alternationInv_spec _ (alternationInv_run h hstop ops p0 hops h0)
  unfold Port.halvesInStep at h1
  refine ⟨?_, ?_, h2⟩
  · intro ho
    simpa [ho] using h1
  · intro ho
    simpa [ho] using h1

/-- Witness of amended C14: the two cycles of the input-port life cycle, and
an output port whose java hook raises in the first cycle. -/
theorem C14_alternation_witness :
    ((Port.run quietHooks
        [.doExecNativeCycleInit 123 100, .doExecNativeProcess [], .doExecJavaProcess false [],
         .doExecNativeCycleInit 223 100, .doExecNativeProcess []]
        (samplePort false .running .started)).nativeCount =
      (Port.run quietHooks
        [.doExecNativeCycleInit 123 100, .doExecNativeProcess [], .doExecJavaProcess false [],
         .doExecNativeCycleInit 223 100, .doExecNativeProcess []]
        (samplePort false .running .started)).javaCount ∨
     (Port.run quietHooks
        [.doExecNativeCycleInit 123 100, .doExecNativeProcess [], .doExecJavaProcess false [],
         .doExecNativeCycleInit 223 100, .doExecNativeProcess []]
        (samplePort false .running .started)).nativeCount =
      (Port.run quietHooks
        [.doExecNativeCycleInit 123 100, .doExecNativeProcess [], .doExecJavaProcess false [],
         .doExecNativeCycleInit 223 100, .doExecNativeProcess []]
        (samplePort false .running .started)).javaCount + 1) ∧
    ((Port.run (faultyHooks HookCall.isJava (.thrown 1))
        [.doExecNativeCycleInit 123 100, .doExecJavaProcess false [],
         .doExecJavaProcess false [], .doExecNativeProcess []]
        (samplePort true .running .started)).javaCount =
      (Port.run (faultyHooks HookCall.isJava (.thrown 1))
        [.doExecNativeCycleInit 123 100, .doExecJavaProcess false [],
         .doExecJavaProcess false [], .doExecNativeProcess []]
        (samplePort true .running .started)).nativeCount ∨
     (Port.run (faultyHooks HookCall.isJava (.thrown 1))
        [.doExecNativeCycleInit 123 100, .doExecJavaProcess false [],
         .doExecJavaProcess false [], .doExecNativeProcess []]
        (samplePort true .running .started)).javaCount =
      (Port.run (faultyHooks HookCall.isJava (.thrown 1))
        [.doExecNativeCycleInit 123 100, .doExecJavaProcess false [],
         .doExecJavaProcess false [], .doExecNativeProcess []]
        (samplePort true .running .started)).nativeCount + 1) :=
  ⟨(C14_alternation quietHooks (fun _ => rfl) (samplePort false .running .started)
      [.doExecNativeCycleInit 123 100, .doExecNativeProcess [], .doExecJavaProcess false [],
       .doExecNativeCycleInit 223 100, .doExecNativeProcess []] rfl rfl rfl
      (by decide)).1 rfl,
   (C14_alternation (faultyHooks HookCall.isJava (.thrown 1)) (fun _ => rfl)
      (samplePort true .running .started)
      [.doExecNativeCycleInit 123 100, .doExecJavaProcess false [],
       .doExecJavaProcess false [], .doExecNativeProcess []] rfl rfl rfl
      (by decide)).2.1 rfl⟩

/-! ## The time-code of a cycle -/

theorem framed_returned (p q : Port) (h1 : q.timeCodeStart = p.timeCodeStart)
    (h2 : q.timeCodeDuration = p.timeCodeDuration) (h3 : q.output = p.output)
    (h4 : q.internalId = p.internalId) (h5 : q.calls = p.calls) :
    (Outcome.returned q).framed p :=
  ⟨h1, h2, h3, h4, [], by simp [Outcome.port, h5], fun _ hc => by cases hc⟩

theorem framed_raised (e : Exc) (p : Port) : (Outcome.raised e p).framed p :=
  ⟨rfl, rfl, rfl, rfl, [], by simp [Outcome.port], fun _ hc => by cases hc⟩

theorem framed_blocked (p : Port) : (Outcome.blocked p).framed p :=
  ⟨rfl, rfl, rfl, rfl, [], by simp [Outcome.port], fun _ hc => by cases hc⟩

theorem framed_trans (o : Outcome) (p q : Port) (hq : (Outcome.returned q).framed p)
    (ho : o.framed q) : o.framed p := by
  obtain ⟨a1, a2, a3, a4, cs, a5, a6⟩ := hq
  obtain ⟨b1, b2, b3, b4, ds, b5, b6⟩ := ho
  simp only [Outcome.port] at a1 a2 a3 a4 a5
  refine ⟨b1.trans a1, b2.trans a2, b3.trans a3, b4.trans a4, cs ++ ds, ?_, ?_⟩
  · rw [b5, a5, List.append_assoc]
  · intro c hc x hx
    rcases List.mem_append.mp hc with hc | hc
    · exact a6 c hc x hx
    · rw [b6 c hc x hx, a1, a2]

theorem framed_callHook (h : Hooks) (c : HookCall) (p : Port)
    (hc : ∀ x, c.timeCode = some x → x = (p.timeCodeStart, p.timeCodeDuration)) :
    (callHook h c p).framed p := by
  rcases callHook_cases h c p with hq | ⟨e, hq⟩ <;> rw [hq] <;>
    exact ⟨rfl, rfl, rfl, rfl, [c], rfl, fun d hd x hx => by
      simp only [List.mem_singleton] at hd
      subst hd
      exact hc x hx⟩

theorem framed_andThen (o : Outcome) (k : Port → Outcome) (p : Port) (ho : o.framed p)
    (hk : ∀ q, (k q).framed q) : (o.andThen k).framed p := by
  cases o with
  | returned q => exact framed_trans _ p q ho (hk q)
  | raised e q => exact ho
  | blocked q => exact ho

theorem framed_catchAll (o : Outcome) (handler : Exc → Port → Outcome) (p : Port)
    (ho : o.framed p) (hk : ∀ e q, (handler e q).framed q) : (o.catchAll handler).framed p := by
  cases o with
  | returned q => exact ho
  | raised e q => exact framed_trans _ p q ho (hk e q)
  | blocked q => exact ho

theorem framed_emergencyStop (h : Hooks) (cause : Exc) (p : Port) :
    (emergencyStop h cause p).framed p := by
  unfold emergencyStop
  refine framed_andThen _ _ p (framed_callHook h _ p (fun x hx => by cases hx)) ?_
  intro q
  exact framed_returned q _ (by simp) (by simp) (by simp)
    (by simp [(setProcessException_fields _ _).2.2.2.2.2.2.2]) (by simp)

theorem waitJavaToExec_nil (p : Port) :
    waitJavaToExec p [] = .finished (.blocked p) ∨ waitJavaToExec p [] = .proceed p := by
  unfold waitJavaToExec
  split
  · exact Or.inl rfl
  · exact Or.inr rfl

theorem waitNativeToExec_nil (p : Port) :
    waitNativeToExec p [] = .finished (.blocked p) ∨ waitNativeToExec p [] = .proceed p := by
  unfold waitNativeToExec
  split
  · exact Or.inl rfl
  · exact Or.inr rfl

theorem framed_guarded (h : Hooks) (c : HookCall) (p : Port) (k : Port → Port)
    (hc : c.timeCode = Option.none)
    (hk : ∀ q, (k q).timeCodeStart = q.timeCodeStart ∧
      (k q).timeCodeDuration = q.timeCodeDuration ∧ (k q).output = q.output ∧
      (k q).internalId = q.internalId ∧ (k q).calls = q.calls) :
    ((callHook h c p).andThen fun q => .returned (k q)).framed p := by
  refine framed_andThen _ _ p (framed_callHook h c p (fun x hx => by simp [hc] at hx)) ?_
  intro q
  obtain ⟨h1, h2, h3, h4, h5⟩ := hk q
  exact framed_returned q _ h1 h2 h3 h4 h5

theorem framed_shutdown_impl (h : Hooks) (p : Port) : (shutdown_impl h p).framed p := by
  have hc : ∀ (c : HookCall) (q : Port), c.timeCode = Option.none → (callHook h c q).framed q :=
    fun c q hc => framed_callHook h c q (fun x hx => by simp [hc] at hx)
  unfold shutdown_impl
  split
  · exact framed_returned p p rfl rfl rfl rfl rfl
  · exact hc _ p rfl
  · exact framed_andThen _ _ p (hc _ p rfl) (fun q => hc _ q rfl)
  · exact framed_andThen _ _ p (framed_andThen _ _ p (hc _ p rfl) (fun q => hc _ q rfl))
      (fun q => hc _ q rfl)
  · exact framed_andThen _ _ p (hc _ p rfl) (fun q => hc _ q rfl)
  · exact framed_andThen _ _ p (hc _ p rfl) (fun q => hc _ q rfl)
  · exact hc _ p rfl
  · exact framed_returned p p rfl rfl rfl rfl rfl

theorem framed_execJavaWork (h : Hooks) (l : Bool) (p : Port) :
    (execJavaWork h l p).framed p := by
  rcases execJavaWork_cases h l p with hq | ⟨e, hq⟩ <;> rw [hq] <;>
    exact ⟨rfl, rfl, rfl, rfl, _, rfl, fun d hd x hx => by
      simp only [List.mem_singleton] at hd
      subst hd
      simp only [HookCall.timeCode, Option.some.injEq] at hx
      exact hx.symm⟩

theorem framed_execNativeWork (h : Hooks) (p : Port) : (execNativeWork h p).framed p := by
  unfold execNativeWork
  split
  · exact framed_returned p p rfl rfl rfl rfl rfl
  · split
    · exact framed_raised _ p
    · refine framed_andThen _ _ p (framed_callHook h _ p (fun x hx => ?_)) ?_
      · simp only [HookCall.timeCode, Option.some.injEq] at hx
        exact hx.symm
      · intro q
        split
        · exact framed_returned q _ rfl rfl rfl rfl rfl
        · split <;> exact framed_returned q _ rfl rfl rfl rfl rfl

/-- Every call of a member function that nobody signals while it waits,
`execNativeCycleInit` apart, leaves the stored time-code alone and passes it
to the process hooks it invokes. -/
theorem perform_framed (h : Hooks) (a : Op) (hs : a.sequential = true)
    (hn : ∀ s d, a ≠ .doExecNativeCycleInit s d) (p : Port) :
    (Port.perform h a p).framed p := by
  cases a with
  | doInitialize =>
    simp only [Port.perform, Port.initialize]
    split
    · exact framed_raised _ p
    · exact framed_guarded h _ p (fun q => { q with state := .initialized }) rfl
        (fun q => ⟨rfl, rfl, rfl, rfl, rfl⟩)
  | doRegisterAtServer =>
    simp only [Port.perform, Port.registerAtServer]
    split
    · exact framed_raised _ p
    · exact framed_guarded h _ p (fun q => { q with state := .registered }) rfl
        (fun q => ⟨rfl, rfl, rfl, rfl, rfl⟩)
  | doStart =>
    simp only [Port.perform, Port.start]
    split
    · exact framed_raised _ p
    · exact framed_guarded h _ p (fun q => { q with state := .running, substate := .started })
        rfl (fun q => ⟨rfl, rfl, rfl, rfl, rfl⟩)
  | doUnregisterAtServer =>
    simp only [Port.perform, Port.unregisterAtServer]
    split
    · exact framed_raised _ p
    · exact framed_guarded h _ p (fun q => { q with state := .unregistered }) rfl
        (fun q => ⟨rfl, rfl, rfl, rfl, rfl⟩)
  | doUnInitialize =>
    simp only [Port.perform, Port.uninitialize]
    split
    · exact framed_raised _ p
    · exact framed_guarded h _ p (fun q => { q with state := .deletable }) rfl
        (fun q => ⟨rfl, rfl, rfl, rfl, rfl⟩)
  | doExecNativeCycleInit s d => exact absurd rfl (hn s d)
  | doExecJavaProcess l env =>
    have he : env = [] := by simpa [Op.sequential, Op.isMove, Op.env] using hs
    subst he
    simp only [Port.perform, Port.execJavaProcess]
    refine framed_catchAll _ _ p ?_ (fun e q => framed_emergencyStop h e q)
    split
    · exact framed_returned p p rfl rfl rfl rfl rfl
    · split
      · exact framed_returned p p rfl rfl rfl rfl rfl
      · rcases waitJavaToExec_nil p with hw | hw <;> rw [hw]
        · exact framed_blocked p
        · exact framed_execJavaWork h l p
  | doExecNativeProcess env =>
    have he : env = [] := by simpa [Op.sequential, Op.isMove, Op.env] using hs
    subst he
    simp only [Port.perform, Port.execNativeProcess]
    refine framed_catchAll _ _ p ?_ (fun e q => framed_emergencyStop h e q)
    split
    · exact framed_returned p p rfl rfl rfl rfl rfl
    · split
      · exact framed_returned p p rfl rfl rfl rfl rfl
      · rcases waitNativeToExec_nil p with hw | hw <;> rw [hw]
        · exact framed_blocked p
        · exact framed_execNativeWork h p
  | doStop force env =>
    have he : env = [] := by simpa [Op.sequential, Op.isMove, Op.env] using hs
    subst he
    simp only [Port.perform, Port.stop]
    split
    · exact framed_returned p _ rfl rfl rfl rfl rfl
    · split
      · exact framed_raised _ p
      · simp only [waitForTermination]
        refine framed_trans _ p { p with lastCycle := true }
          (framed_returned p _ rfl rfl rfl rfl rfl) ?_
        refine framed_andThen _ _ _ ?_
          (fun q => framed_returned q _ rfl rfl rfl rfl rfl)
        split
        · exact framed_emergencyStop h _ _
        · exact framed_callHook h _ _ (fun x hx => by cases hx)
  | doShutdown force env =>
    have he : env = [] := by simpa [Op.sequential, Op.isMove, Op.env] using hs
    subst he
    simp only [Port.perform, Port.shutdown, waitForTermination]
    refine framed_trans _ p { p with lastCycle := true }
      (framed_returned p _ rfl rfl rfl rfl rfl) ?_
    refine framed_andThen _ _ _ ?_ (fun q => framed_returned q _ rfl rfl rfl rfl rfl)
    refine framed_catchAll _ _ _ (framed_shutdown_impl h _) ?_
    intro e q
    exact framed_returned q _ (by simp) (by simp) (by simp)
      (by simp [(setProcessException_fields _ _).2.2.2.2.2.2.2]) (by simp)
  | moveInto _ _ _ => simp [Op.sequential, Op.isMove] at hs
  | moveFrom => simp [Op.sequential, Op.isMove] at hs

theorem cycleInit_accepted (h : Hooks) (s d : Nat) (p : Port)
    (ha : p.acceptsCycleInit = true) :
    Port.execNativeCycleInit h s d p =
      .returned { p with timeCodeStart := s, timeCodeDuration := d,
                         substate := if p.output then .javaToExec else .nativeToExec } := by
  simp only [Port.acceptsCycleInit, decide_eq_true_eq] at ha
  obtain ⟨hr, hs⟩ := ha
  cases ho : p.output <;> rcases hs with hs | hs <;>
    simp [Port.execNativeCycleInit, hr, hs, ho, Port.isInput, Outcome.catchAll]

theorem cycleInit_rejected (h : Hooks) (s d : Nat) (p : Port)
    (ha : p.acceptsCycleInit = false) :
    (Port.execNativeCycleInit h s d p).framed p := by
  simp only [Port.acceptsCycleInit, decide_eq_false_iff_not] at ha
  unfold Port.execNativeCycleInit
  refine framed_catchAll _ _ p ?_ (fun e q => framed_emergencyStop h e q)
  split
  · exact framed_returned p p rfl rfl rfl rfl rfl
  · split
    · exact framed_returned p p rfl rfl rfl rfl rfl
    · split
      · exact framed_raised _ p
      · rename_i hr _ hs
        exfalso
        apply ha
        refine ⟨by simpa using hr, ?_⟩
        by_contra hne
        exact hs ⟨fun hc => hne (Or.inr hc), fun hc => hne (Or.inl hc)⟩

theorem run_append (h : Hooks) (ops : List Op) (a : Op) :
    ∀ p : Port, Port.run h (ops ++ [a]) p = (Port.perform h a (Port.run h ops p)).port := by
  induction ops with
  | nil => intro p; rfl
  | cons b ops ih => intro p; exact ih _

theorem lastAcceptedFrom_run (h : Hooks) (ops : List Op) :
    ∀ (p : Port) (acc : Option (Nat × Nat)), (∀ a, a ∈ ops → a.sequential = true) →
      (∀ x, acc = some x → x = (p.timeCodeStart, p.timeCodeDuration)) →
      ∀ x, lastAcceptedFrom h ops p acc = some x →
        x = ((Port.run h ops p).timeCodeStart, (Port.run h ops p).timeCodeDuration) := by
  induction ops with
  | nil =>
    intro p acc _ hacc x hx
    exact hacc x hx
  | cons a ops ih =>
    intro p acc hops hacc x hx
    have hrest : ∀ b, b ∈ ops → b.sequential = true :=
      fun b hb => hops b (List.mem_cons_of_mem _ hb)
    have hframe : (∀ s d, a ≠ .doExecNativeCycleInit s d) →
        lastAcceptedFrom h (a :: ops) p acc
          = lastAcceptedFrom h ops (Port.perform h a p).port acc := by
      intro hn
      cases a <;> first | rfl | exact absurd rfl (hn _ _)
    by_cases hn : ∀ s d, a ≠ .doExecNativeCycleInit s d
    · rw [hframe hn] at hx
      obtain ⟨h1, h2, _⟩ := perform_framed h a (hops a (List.mem_cons_self _ _)) hn p
      refine ih _ acc hrest ?_ x hx
      intro y hy
      rw [hacc y hy, h1, h2]
    · push_neg at hn
      obtain ⟨s, d, rfl⟩ := hn
      simp only [lastAcceptedFrom] at hx
      refine ih _ _ hrest ?_ x hx
      cases ha : p.acceptsCycleInit with
      | true =>
        intro y hy
        simp only [ha, if_true, Option.some.injEq] at hy
        subst hy
        simp [Port.perform, cycleInit_accepted h s d p ha, Outcome.port]
      | false =>
        intro y hy
        simp only [ha, Bool.false_eq_true, if_false] at hy
        obtain ⟨h1, h2, _⟩ := cycleInit_rejected h s d p ha
        simp only [Port.perform]
        rw [hacc y hy, h1, h2]

/-- The time-code along the calls of one thread: along any sequence of
calls of the member functions of one port (each by a thread that nobody
signals while it waits, with any behaviour of the hooks), once an `execNativeCycleInit(s, d)` has been accepted (issued on
the Running port in sub-state Started or CycleDone) the stored time-code is
the pair of the most recent accepted one: no other call modifies it; and every
invocation of the java hook or of the native hook made by the next call
receives exactly that pair. -/
theorem time_code_sequential (h : Hooks) (p0 : Port) (ops : List Op) (a : Op) (s d : Nat)
    (hops : ∀ b, b ∈ ops → b.sequential = true) (ha : a.sequential = true)
    (hl : lastAcceptedFrom h ops p0 Option.none = some (s, d)) :
    (Port.run h ops p0).timeCodeStart = s ∧ (Port.run h ops p0).timeCodeDuration = d ∧
    ∃ cs, (Port.run h (ops ++ [a]) p0).calls = (Port.run h ops p0).calls ++ cs ∧
      ∀ c, c ∈ cs → ∀ x, c.timeCode = some x → x = (s, d) := by
  have hpair := lastAcceptedFrom_run h ops p0 Option.none hops (fun x hx => by cases hx) (s, d) hl
  simp only [Prod.mk.injEq] at hpair
  obtain ⟨hs, hd⟩ := hpair
  refine ⟨hs.symm, hd.symm, ?_⟩
  rw [run_append]
  by_cases hn : ∀ s1 d1, a ≠ .doExecNativeCycleInit s1 d1
  · obtain ⟨_, _, _, _, cs, h5, h6⟩ := perform_framed h a ha hn (Port.run h ops p0)
    refine ⟨cs, h5, ?_⟩
    intro c hc x hx
    rw [h6 c hc x hx, ← hs, ← hd]
  · push_neg at hn
    obtain ⟨s1, d1, rfl⟩ := hn
    cases hacc : (Port.run h ops p0).acceptsCycleInit with
    | true =>
      refine ⟨[], ?_, fun c hc => by cases hc⟩
      simp [Port.perform, cycleInit_accepted h s1 d1 _ hacc, Outcome.port]
    | false =>
      obtain ⟨_, _, _, _, cs, h5, h6⟩ := cycleInit_rejected h s1 d1 _ hacc
      refine ⟨cs, h5, ?_⟩
      intro c hc x hx
      rw [h6 c hc x hx, ← hs, ← hd]

/-- In the second cycle of the input-port life cycle the native hook and the
java hook both receive (223, 100). -/
theorem time_code_sequential_witness :
    (Port.run quietHooks
        [.doExecNativeCycleInit 123 100, .doExecNativeProcess [], .doExecJavaProcess false [],
         .doExecNativeCycleInit 223 100, .doExecNativeProcess []]
        (samplePort false .running .started)).timeCodeStart = 223 ∧
    (Port.run quietHooks
        [.doExecNativeCycleInit 123 100, .doExecNativeProcess [], .doExecJavaProcess false [],
         .doExecNativeCycleInit 223 100, .doExecNativeProcess []]
        (samplePort false .running .started)).timeCodeDuration = 100 ∧
    ∃ cs, (Port.run quietHooks
        ([.doExecNativeCycleInit 123 100, .doExecNativeProcess [], .doExecJavaProcess false [],
          .doExecNativeCycleInit 223 100, .doExecNativeProcess []]
          ++ [.doExecJavaProcess true []])
        (samplePort false .running .started)).calls =
      (Port.run quietHooks
        [.doExecNativeCycleInit 123 100, .doExecNativeProcess [], .doExecJavaProcess false [],
         .doExecNativeCycleInit 223 100, .doExecNativeProcess []]
        (samplePort false .running .started)).calls ++ cs ∧
      ∀ c, c ∈ cs → ∀ x, c.timeCode = some x → x = (223, 100) :=
  time_code_sequential quietHooks (samplePort false .running .started)
    [.doExecNativeCycleInit 123 100, .doExecNativeProcess [], .doExecJavaProcess false [],
     .doExecNativeCycleInit 223 100, .doExecNativeProcess []]
    (.doExecJavaProcess true []) 223 100 (by decide) rfl (by decide)

/-- C15 on the code: an output port is initialized, registered and started,
`execNativeCycleInit(123, 100)` is accepted (the port is Running in sub-state
Started, afterwards in JavaToExec with the pair stored), and the port is then
move-constructed into a new port before the java half runs.  The move
constructor takes over the sub-state JavaToExec but initialises neither
`timeCodeStart` nor `timeCodeDuration` (nor `lastCycle`) of the new port; with
`s`, `d` and `l` the values these members happen to have, `execJavaProcess` on
the new port invokes the java hook with `(s, d)` and `l`, not with the pair
(123, 100) of the most recent accepted `execNativeCycleInit`, which the same
call receives on the port that was not moved. -/
theorem C15_move_loses_time_code (l : Bool) (s d : Nat) :
    (Port.run quietHooks
      [.doInitialize, .doRegisterAtServer, .doStart, .doExecNativeCycleInit 123 100]
      (Port.construct true 7)).acceptsCycleInit = false ∧
    (Port.run quietHooks [.doInitialize, .doRegisterAtServer, .doStart]
      (Port.construct true 7)).acceptsCycleInit = true ∧
    (Port.run quietHooks
      [.doInitialize, .doRegisterAtServer, .doStart, .doExecNativeCycleInit 123 100]
      (Port.construct true 7)).substate = .javaToExec ∧
    (Port.run quietHooks
      [.doInitialize, .doRegisterAtServer, .doStart, .doExecNativeCycleInit 123 100]
      (Port.construct true 7)).timeCodeStart = 123 ∧
    (Port.run quietHooks
      [.doInitialize, .doRegisterAtServer, .doStart, .doExecNativeCycleInit 123 100]
      (Port.construct true 7)).timeCodeDuration = 100 ∧
    (Port.run quietHooks
      [.doInitialize, .doRegisterAtServer, .doStart, .doExecNativeCycleInit 123 100,
        .moveInto l s d]
      (Port.construct true 7)).substate = .javaToExec ∧
    (Port.run quietHooks
      [.doInitialize, .doRegisterAtServer, .doStart, .doExecNativeCycleInit 123 100,
        .moveInto l s d, .doExecJavaProcess false []]
      (Port.construct true 7)).calls =
      [.initialize_impl, .register_impl, .start_impl, .execJavaProcess_impl s d l] ∧
    (Port.run quietHooks
      [.doInitialize, .doRegisterAtServer, .doStart, .doExecNativeCycleInit 123 100,
        .doExecJavaProcess false []]
      (Port.construct true 7)).calls =
      [.initialize_impl, .register_impl, .start_impl, .execJavaProcess_impl 123 100 false] := by
  refine ⟨by decide, by decide, by decide, by decide, by decide, ?_, ?_, by decide⟩
  · cases l <;> rfl
  · cases l <;> simp [Port.run, Port.perform, Port.initialize, Port.registerAtServer, Port.start,
      Port.execNativeCycleInit, Port.execJavaProcess, Port.construct, callHook, quietHooks,
      Outcome.andThen, Outcome.port, Outcome.catchAll, Port.moveConstruct, waitJavaToExec,
      execJavaWork, Port.isInput, Port.isOutput]

/-! ## Balance of the set-up and teardown hooks -/

/-- The ways `stop`, called by a thread that nobody signals, ends on a port
whose `stop_impl` does not raise. -/
theorem stop_cases (h : Hooks) (hstop : ∀ q, h q .stop_impl = Option.none) (force : Bool)
    (p : Port) :
    (p.state = .stoppedOnError ∧
      Port.stop h force [] p = .returned { p with state := .stopped }) ∨
    ((p.state ≠ .stoppedOnError ∧ p.state ≠ .running ∧ p.state ≠ .registered) ∧
      ∃ e, Port.stop h force [] p = .raised e p) ∨
    ((p.state = .running ∨ p.state = .registered) ∧
      ∃ r, Port.stop h force [] p = .returned r ∧ r.state = .stopped ∧ r.substate = .none ∧
        r.calls = p.calls ++ [.stop_impl]) := by
  by_cases h1 : p.state = .stoppedOnError
  · left
    exact ⟨h1, by simp [Port.stop, h1]⟩
  · by_cases h2 : p.state ≠ .running ∧ p.state ≠ .registered
    · right; left
      exact ⟨⟨h1, h2.1, h2.2⟩, .cannot "stop" 667 p.internalId p.state p.substate,
        by simp [Port.stop, h1, h2, throwCannot]⟩
    · right; right
      have h3 : p.state = .running ∨ p.state = .registered := by
        by_contra hne
        push_neg at hne
        exact h2 hne
      refine ⟨h3, ?_⟩
      unfold Port.stop
      rw [if_neg h1, if_neg h2]
      simp only [waitForTermination]
      split
      · rw [emergencyStop_quiet h _ _ (hstop _)]
        exact ⟨_, rfl, rfl, rfl, by simp⟩
      · rw [callHook_quiet h _ _ (hstop _)]
        exact ⟨_, rfl, rfl, rfl, rfl⟩

/-- What a worker operation that nobody signals does to a port whose
`stop_impl` does not raise: it appends to the log only invocations of the
process hooks and of `stop_impl`, and it either leaves the main state alone
without invoking `stop_impl`, or it takes a Running port to StoppedOnError and
invokes `stop_impl` once. -/
theorem worker_summary (h : Hooks) (hstop : ∀ q, h q .stop_impl = Option.none) (a : Op)
    (hw : a.isWorker = true) (he : a.env = []) (p : Port) :
    ∃ cs, (Port.perform h a p).port.calls = p.calls ++ cs ∧
      (∀ c, c ∈ cs → c.isJava = true ∨ c.isNative = true ∨ c = .stop_impl) ∧
      (((Port.perform h a p).port.state = p.state ∧ cs.count .stop_impl = 0) ∨
        (p.state = .running ∧ (Port.perform h a p).port.state = .stoppedOnError ∧
          cs.count .stop_impl = 1)) := by
  have hsame : ∀ o : Outcome, o.port = p → ∃ cs, o.port.calls = p.calls ++ cs ∧
      (∀ c, c ∈ cs → c.isJava = true ∨ c.isNative = true ∨ c = .stop_impl) ∧
      ((o.port.state = p.state ∧ cs.count .stop_impl = 0) ∨
        (p.state = .running ∧ o.port.state = .stoppedOnError ∧
          cs.count .stop_impl = 1)) := by
    intro o ho
    exact ⟨[], by simp [ho], fun c hc => absurd hc (List.not_mem_nil c),
      Or.inl ⟨by rw [ho], rfl⟩⟩
  cases a with
  | doExecNativeCycleInit s d =>
    by_cases hr : p.state = .running
    · by_cases hacc : p.acceptsCycleInit = true
      · simp only [Port.perform, cycleInit_accepted h s d p hacc, Outcome.port]
        exact ⟨[], by simp, fun c hc => absurd hc (List.not_mem_nil c), Or.inl (by simp)⟩
      · by_cases hb : p.substate = .terminated
        · exact hsame _ (by simp [Port.perform, Port.execNativeCycleInit, hr, hb,
            Outcome.catchAll, Outcome.port])
        · have hne : p.substate ≠ .cycleDone ∧ p.substate ≠ .started := by
            simp only [Port.acceptsCycleInit, decide_eq_true_eq, hr, true_and, not_or]
              at hacc
            exact ⟨hacc.2, hacc.1⟩
          have hout : Port.execNativeCycleInit h s d p =
              emergencyStop h (.cannot "execNativeCycleInit" 560 p.internalId p.state
                p.substate) p := by
            simp [Port.execNativeCycleInit, hr, hb, hne, Outcome.catchAll, throwCannot]
          simp only [Port.perform, hout, emergencyStop_quiet h _ p (hstop p), Outcome.port]
          exact ⟨[.stop_impl], by simp, fun c hc => Or.inr (Or.inr (List.mem_singleton.mp hc)),
            Or.inr ⟨hr, by simp, rfl⟩⟩
    · exact hsame _ (by simp [Port.perform, Port.execNativeCycleInit, hr, Outcome.catchAll,
        Outcome.port])
  | doExecJavaProcess l env =>
    simp only [Op.env] at he
    subst he
    by_cases hr : p.state = .running
    · by_cases hb : p.substate = .javaToExec
      · simp only [Port.perform]
        rw [execJavaProcess_ready h l [] p hr hb]
        rcases execJavaWork_cases h l p with hq | ⟨e, hq⟩ <;> rw [hq]
        · exact ⟨[.execJavaProcess_impl p.timeCodeStart p.timeCodeDuration (p.lastCycle || l)],
            by simp [Outcome.catchAll, Outcome.port],
            fun c hc => Or.inl (by rw [List.mem_singleton.mp hc]; rfl),
            Or.inl ⟨by simp [Outcome.catchAll, Outcome.port], by simp⟩⟩
        · simp only [Outcome.catchAll]
          rw [emergencyStop_quiet h _ _ (hstop _)]
          exact ⟨[.execJavaProcess_impl p.timeCodeStart p.timeCodeDuration (p.lastCycle || l),
              .stop_impl],
            by simp [Outcome.port],
            (fun c hc => by
              simp only [List.mem_cons, List.mem_singleton, List.not_mem_nil, or_false] at hc
              rcases hc with hc | hc <;> simp [hc, HookCall.isJava]),
            Or.inr ⟨hr, by simp [Outcome.port], by simp⟩⟩
      · cases hs : p.substate <;>
          first
          | exact absurd hs hb
          | exact hsame _ (by simp [Port.perform, Port.execJavaProcess, waitJavaToExec, hr, hs,
              Outcome.catchAll, Outcome.port])
    · exact hsame _ (by simp [Port.perform, Port.execJavaProcess, hr, Outcome.catchAll,
        Outcome.port])
  | doExecNativeProcess env =>
    simp only [Op.env] at he
    subst he
    by_cases hr : p.state = .running
    · by_cases hb : p.substate = .nativeToExec ∨ p.substate = .nativeToTerminate
      · simp only [Port.perform]
        rw [execNativeProcess_ready h [] p hr hb]
        rcases execNativeWork_cases h p hr with ⟨hin, hq⟩ | ⟨e, hin, hq⟩ | ⟨hin, hq⟩ <;> rw [hq]
        · exact ⟨[.execNativeProcess_impl p.timeCodeStart p.timeCodeDuration],
            by simp [Outcome.catchAll, Outcome.port],
            fun c hc => Or.inr (Or.inl (by rw [List.mem_singleton.mp hc]; rfl)),
            Or.inl ⟨by simp [Outcome.catchAll, Outcome.port], by simp⟩⟩
        · simp only [Outcome.catchAll]
          rw [emergencyStop_quiet h _ _ (hstop _)]
          exact ⟨[.execNativeProcess_impl p.timeCodeStart p.timeCodeDuration, .stop_impl],
            by simp [Outcome.port],
            (fun c hc => by
              simp only [List.mem_cons, List.mem_singleton, List.not_mem_nil, or_false] at hc
              rcases hc with hc | hc <;> simp [hc, HookCall.isNative]),
            Or.inr ⟨hr, by simp [Outcome.port], by simp⟩⟩
        · simp only [Outcome.catchAll, throwCannot]
          rw [emergencyStop_quiet h _ _ (hstop _)]
          exact ⟨[.stop_impl], by simp [Outcome.port],
            fun c hc => Or.inr (Or.inr (List.mem_singleton.mp hc)),
            Or.inr ⟨hr, by simp [Outcome.port], rfl⟩⟩
      · cases hs : p.substate <;>
          first
          | exact absurd (Or.inl hs) hb
          | exact absurd (Or.inr hs) hb
          | exact hsame _ (by simp [Port.perform, Port.execNativeProcess, waitNativeToExec, hr,
              hs, Outcome.catchAll, Outcome.port])
    · exact hsame _ (by simp [Port.perform, Port.execNativeProcess, hr, Outcome.catchAll,
        Outcome.port])
  | doInitialize => simp [Op.isWorker] at hw
  | doRegisterAtServer => simp [Op.isWorker] at hw
  | doStart => simp [Op.isWorker] at hw
  | doStop _ _ => simp [Op.isWorker] at hw
  | doUnregisterAtServer => simp [Op.isWorker] at hw
  | doUnInitialize => simp [Op.isWorker] at hw
  | doShutdown _ _ => simp [Op.isWorker] at hw
  | moveInto _ _ _ => simp [Op.isWorker] at hw
  | moveFrom => simp [Op.isWorker] at hw

theorem worker_count (h : Hooks) (hstop : ∀ q, h q .stop_impl = Option.none) (a : Op)
    (hw : a.isWorker = true) (he : a.env = []) (p : Port) (c : HookCall)
    (hj : c.isJava = false) (hn : c.isNative = false) (hs : c ≠ .stop_impl) :
    (Port.perform h a p).port.count c = p.count c := by
  obtain ⟨cs, h1, h2, _⟩ := worker_summary h hstop a hw he p
  unfold Port.count
  rw [h1, List.count_append]
  have : cs.count c = 0 := by
    rw [List.count_eq_zero]
    intro hc
    rcases h2 c hc with h3 | h3 | h3
    · rw [hj] at h3; cases h3
    · rw [hn] at h3; cases h3
    · exact hs h3
  omega

theorem teardownInv_worker (h : Hooks) (hstop : ∀ q, h q .stop_impl = Option.none) (a : Op)
    (hw : a.isWorker = true) (he : a.env = []) (p : Port) (hp : p.teardownInv) :
    (Port.perform h a p).port.teardownInv := by
  obtain ⟨cs, _, _, h2⟩ := worker_summary h hstop a hw he p
  have e1 := worker_count h hstop a hw he p .initialize_impl rfl rfl (by decide)
  have e2 := worker_count h hstop a hw he p .uninitialize_impl rfl rfl (by decide)
  have e3 := worker_count h hstop a hw he p .register_impl rfl rfl (by decide)
  have e4 := worker_count h hstop a hw he p .unregister_impl rfl rfl (by decide)
  unfold Port.teardownInv at hp ⊢
  rcases h2 with ⟨h3, _⟩ | ⟨h3, h4, _⟩
  · rw [h3, e1, e2, e3, e4]
    exact hp
  · rw [h4, e1, e2, e3, e4]
    rw [h3] at hp
    exact hp

theorem teardownInv_perform (h : Hooks) (hq : ∀ q c, h q c = Option.none) (a : Op)
    (hs : a.sequential = true) (p : Port) (hp : p.teardownInv) :
    (Port.perform h a p).port.teardownInv := by
  cases a with
  | doInitialize =>
    cases hst : p.state <;>
      simp_all [Port.perform, Port.initialize, Port.teardownInv, callHook, Outcome.andThen,
        Outcome.port, throwCannot, Port.count]
  | doRegisterAtServer =>
    cases hst : p.state <;>
      simp_all [Port.perform, Port.registerAtServer, Port.teardownInv, callHook,
        Outcome.andThen, Outcome.port, throwCannot, Port.count]
  | doStart =>
    cases hst : p.state <;>
      simp_all [Port.perform, Port.start, Port.teardownInv, callHook, Outcome.andThen,
        Outcome.port, throwCannot, Port.count]
  | doUnregisterAtServer =>
    cases hst : p.state <;>
      simp_all [Port.perform, Port.unregisterAtServer, Port.teardownInv, callHook,
        Outcome.andThen, Outcome.port, throwCannot, Port.count]
  | doUnInitialize =>
    cases hst : p.state <;>
      simp_all [Port.perform, Port.uninitialize, Port.teardownInv, callHook, Outcome.andThen,
        Outcome.port, throwCannot, Port.count]
  | doExecNativeCycleInit s d =>
    exact teardownInv_worker h (fun q => hq q _) (.doExecNativeCycleInit s d) rfl rfl p hp
  | doExecJavaProcess l env =>
    have he : env = [] := by simpa [Op.sequential, Op.isMove, Op.env] using hs
    subst he
    exact teardownInv_worker h (fun q => hq q _) (.doExecJavaProcess l []) rfl rfl p hp
  | doExecNativeProcess env =>
    have he : env = [] := by simpa [Op.sequential, Op.isMove, Op.env] using hs
    subst he
    exact teardownInv_worker h (fun q => hq q _) (.doExecNativeProcess []) rfl rfl p hp
  | doStop force env =>
    have he : env = [] := by simpa [Op.sequential, Op.isMove, Op.env] using hs
    subst he
    simp only [Port.perform]
    rcases stop_cases h (fun q => hq q _) force p with
      ⟨h1, h2⟩ | ⟨h1, e, h2⟩ | ⟨h1, r, h2, h3, h4, h5⟩
    · rw [h2]
      simp_all [Port.teardownInv, Outcome.port, Port.count]
    · rw [h2]
      exact hp
    · rw [h2]
      simp only [Outcome.port]
      unfold Port.teardownInv at hp ⊢
      rcases h1 with h1 | h1 <;> simp_all [Port.count, List.count_append]
  | doShutdown force env =>
    have he : env = [] := by simpa [Op.sequential, Op.isMove, Op.env] using hs
    subst he
    cases hst : p.state <;>
      simp_all [Port.perform, Port.shutdown, shutdown_impl, Port.teardownInv,
        waitForTermination, callHook, Outcome.andThen, Outcome.catchAll, Outcome.port,
        Port.count]
  | moveInto _ _ _ => simp [Op.sequential, Op.isMove] at hs
  | moveFrom => simp [Op.sequential, Op.isMove] at hs

theorem teardownInv_reachable (h : Hooks) (hq : ∀ q c, h q c = Option.none) (p : Port)
    (hp : Reachable h (fun a _ => a.sequential = true) p) : p.teardownInv := by
  induction hp with
  | construct isOutput internalId => simp [Port.teardownInv, Port.construct, Port.count]
  | perform a p _ ha _ ih _ => exact teardownInv_perform h hq a ha p ih

theorem reachable_run (h : Hooks) (ops : List Op) :
    ∀ p : Port, (∀ a, a ∈ ops → a.sequential = true) →
      Reachable h (fun a _ => a.sequential = true) p →
      Reachable h (fun a _ => a.sequential = true) (Port.run h ops p) := by
  induction ops with
  | nil => intro p _ hp; exact hp
  | cons a ops ih =>
    intro p hops hp
    have ha := hops a (List.mem_cons_self _ _)
    have he : a.env = [] := by
      simp only [Op.sequential, Bool.and_eq_true, List.isEmpty_iff] at ha
      exact ha.2
    exact ih _ (fun b hb => hops b (List.mem_cons_of_mem _ hb))
      (.perform a p hp ha (fun q hq => by rw [he] at hq; cases hq))

/-- C16: a port that is met in Deletable, from construction through calls
of the administrative and worker operations (`stop` and `shutdown` included,
each call by a thread that nobody signals while it waits) whose hooks do not
raise, has had as many invocations of `initialize_impl` as of
`uninitialize_impl`, and as many of `register_impl` as of `unregister_impl`. -/
theorem C16_setup_teardown_balance (h : Hooks) (hq : ∀ q c, h q c = Option.none) (p : Port)
    (hp : Reachable h (fun a _ => a.sequential = true) p) (hd : p.state = .deletable) :
    p.count .initialize_impl = p.count .uninitialize_impl ∧
    p.count .register_impl = p.count .unregister_impl := by
  have hinv := teardownInv_reachable h hq p hp
  unfold Port.teardownInv at hinv
  rw [hd] at hinv
  exact hinv

/-- Witness of C16: input port 7 initialized, registered, started, run for
one cycle and shut down while Running. -/
theorem C16_setup_teardown_balance_witness :
    (Port.run quietHooks
        [.doInitialize, .doRegisterAtServer, .doStart, .doExecNativeCycleInit 123 100,
         .doExecNativeProcess [], .doExecJavaProcess false [], .doShutdown false []]
        (Port.construct false 7)).state = .deletable ∧
    (Port.run quietHooks
        [.doInitialize, .doRegisterAtServer, .doStart, .doExecNativeCycleInit 123 100,
         .doExecNativeProcess [], .doExecJavaProcess false [], .doShutdown false []]
        (Port.construct false 7)).count .initialize_impl = 1 ∧
    (Port.run quietHooks
        [.doInitialize, .doRegisterAtServer, .doStart, .doExecNativeCycleInit 123 100,
         .doExecNativeProcess [], .doExecJavaProcess false [], .doShutdown false []]
        (Port.construct false 7)).count .initialize_impl =
      (Port.run quietHooks
        [.doInitialize, .doRegisterAtServer, .doStart, .doExecNativeCycleInit 123 100,
         .doExecNativeProcess [], .doExecJavaProcess false [], .doShutdown false []]
        (Port.construct false 7)).count .uninitialize_impl ∧
    (Port.run quietHooks
        [.doInitialize, .doRegisterAtServer, .doStart, .doExecNativeCycleInit 123 100,
         .doExecNativeProcess [], .doExecJavaProcess false [], .doShutdown false []]
        (Port.construct false 7)).count .register_impl =
      (Port.run quietHooks
        [.doInitialize, .doRegisterAtServer, .doStart, .doExecNativeCycleInit 123 100,
         .doExecNativeProcess [], .doExecJavaProcess false [], .doShutdown false []]
        (Port.construct false 7)).count .unregister_impl :=
  ⟨by decide, by decide,
   C16_setup_teardown_balance quietHooks (fun _ _ => rfl) _
    (reachable_run quietHooks
      [.doInitialize, .doRegisterAtServer, .doStart, .doExecNativeCycleInit 123 100,
       .doExecNativeProcess [], .doExecJavaProcess false [], .doShutdown false []]
      (Port.construct false 7) (by decide) (.construct false 7))
    (by decide)⟩

/-! ## Balance of `start_impl` and `stop_impl` -/

/-- The wait for exclusive access times out when the use count is not zero
at any wake-up. -/
theorem waitUnused_busy (e : PtrEnvelope) (env : List PtrEnvelope)
    (hu : e.useCount ≠ 0) (henv : ∀ w ∈ env, w.useCount ≠ 0) :
    e.waitUnused env = Option.none := by
  induction env generalizing e with
  | nil => simp [PtrEnvelope.waitUnused, hu]
  | cons w env ih =>
    simp only [PtrEnvelope.waitUnused, hu, ne_eq, not_false_eq_true, if_true]
    exact ih _ (henv w (List.mem_cons_self w env)) (fun v hv => henv v (List.mem_cons_of_mem w hv))

/-- The loop of the wait returns the envelope it saw last when the use count
is zero there, and times out otherwise. -/
theorem waitUnused_lastSeen (e : PtrEnvelope) (env : List PtrEnvelope) :
    e.waitUnused env =
      if (e.lastSeen env).useCount ≠ 0 then Option.none else some (e.lastSeen env) := by
  induction env generalizing e with
  | nil => simp [PtrEnvelope.waitUnused, PtrEnvelope.lastSeen]
  | cons w env ih =>
    simp only [PtrEnvelope.waitUnused, PtrEnvelope.lastSeen]
    by_cases hu : e.useCount ≠ 0
    · rw [if_pos hu, if_pos hu]
      exact ih _
    · rw [if_neg hu, if_neg hu, if_neg hu]

/-- The two descriptions of `setItemWait` agree. -/
theorem setItemWait_end (newItem : Option Port) (env : List PtrEnvelope) (e : PtrEnvelope) :
    e.setItemWait newItem env =
      match (e.setItemWaitEnd newItem env).thrown with
      | some x => .error x
      | Option.none => .ok (e.setItemWaitEnd newItem env).envelope := by
  unfold PtrEnvelope.setItemWait PtrEnvelope.setItemWaitEnd
  rw [waitUnused_lastSeen]
  by_cases h1 : newItem.isSome = false
  · simp [h1]
  · by_cases h2 : e.item.isSome = true
    · simp [h1, h2]
    · by_cases h3 : (e.lastSeen env).useCount ≠ 0
      · simp [h1, h2, h3]
      · simp [h1, h2, h3]

/-- The two descriptions of `removeItemWait` agree. -/
theorem removeItemWait_end (env : List PtrEnvelope) (e : PtrEnvelope) :
    e.removeItemWait env =
      match (e.removeItemWaitEnd env).thrown with
      | some x => .error x
      | Option.none =>
        .ok ((e.removeItemWaitEnd env).caller, (e.removeItemWaitEnd env).envelope) := by
  unfold PtrEnvelope.removeItemWait PtrEnvelope.removeItemWaitEnd
  rw [waitUnused_lastSeen]
  by_cases h1 : e.item.isSome = false
  · simp [h1]
  · by_cases h3 : (e.lastSeen env).useCount ≠ 0
    · simp [h1, h3]
    · simp [h1, h3]

/-- While the use count is not zero the wait goes through every wake-up: it
sees the envelope last as the readers leave it at the end. -/
theorem lastSeen_busy (e : PtrEnvelope) (env : List PtrEnvelope)
    (hu : e.useCount ≠ 0) (henv : ∀ w ∈ env, w.useCount ≠ 0) :
    e.lastSeen env = e.afterReaders env ∧ (e.lastSeen env).useCount ≠ 0 := by
  induction env generalizing e with
  | nil => exact ⟨rfl, hu⟩
  | cons w env ih =>
    have hw : w.useCount ≠ 0 := henv w (List.mem_cons_self w env)
    obtain ⟨h1, h2⟩ := ih { w with maxWaitingTime := e.maxWaitingTime } hw
      (fun v hv => henv v (List.mem_cons_of_mem w hv))
    simp only [PtrEnvelope.lastSeen, hu, if_true, ne_eq, not_false_eq_true]
    refine ⟨?_, h2⟩
    rw [h1]
    cases env with
    | nil => rfl
    | cons v rest =>
      simp only [PtrEnvelope.afterReaders, List.getLast?_cons_cons]
      cases hl : (v :: rest).getLast? with
      | none => simp at hl
      | some u => rfl

/-- What the readers leave has the property that the envelope of the call
and every wake-up have. -/
theorem afterReaders_cases (e : PtrEnvelope) (env : List PtrEnvelope) :
    e.afterReaders env = e ∨
    ∃ w, w ∈ env ∧ e.afterReaders env = { w with maxWaitingTime := e.maxWaitingTime } := by
  unfold PtrEnvelope.afterReaders
  cases hl : env.getLast? with
  | none => exact Or.inl rfl
  | some w => exact Or.inr ⟨w, List.mem_of_getLast?_eq_some hl, rfl⟩

/-- C21: mutation of a slot while readers exist fails without a change.  When
the use count is above zero at the call and at every wake-up of the waiting
time, `removeItemWait` on an envelope that holds a port and `setItemWait` on
an empty envelope end in the Timeout error, and the call has written neither
the item nor the use count: the envelope it leaves is the envelope as the
readers leave it at the end of the waiting time (the envelope of the call when
no reader signalled).  So, the readers not touching the pointer, after
`removeItemWait` the envelope still holds the port and the caller has got
nothing; after `setItemWait` the envelope is still empty and the caller still
holds the port it offered; and in both cases the use count is the one the
readers left, the one of the call when they left it. -/
theorem C21_mutation_times_out (e : PtrEnvelope) (env : List PtrEnvelope) (port : Port)
    (hu : 0 < e.useCount) (henv : ∀ w ∈ env, 0 < w.useCount) :
    (e.item = some port →
      e.removeItemWait env = .error (.timeout "Timeout in removeItemWait().") ∧
      (e.removeItemWaitEnd env).thrown = some (.timeout "Timeout in removeItemWait().") ∧
      (e.removeItemWaitEnd env).caller = Option.none ∧
      (e.removeItemWaitEnd env).envelope = e.afterReaders env ∧
      ((∀ w ∈ env, w.item = e.item) → (e.removeItemWaitEnd env).envelope.item = some port) ∧
      ((∀ w ∈ env, w.useCount = e.useCount) →
        (e.removeItemWaitEnd env).envelope.useCount = e.useCount) ∧
      ((∀ w ∈ env, w.item = e.item ∧ w.useCount = e.useCount) →
        (e.removeItemWaitEnd env).envelope = e)) ∧
    (e.item = Option.none →
      e.setItemWait (some port) env = .error (.timeout "Timeout in setItemWait().") ∧
      (e.setItemWaitEnd (some port) env).thrown = some (.timeout "Timeout in setItemWait().") ∧
      (e.setItemWaitEnd (some port) env).caller = some port ∧
      (e.setItemWaitEnd (some port) env).envelope = e.afterReaders env ∧
      ((∀ w ∈ env, w.item = e.item) →
        (e.setItemWaitEnd (some port) env).envelope.item = Option.none) ∧
      ((∀ w ∈ env, w.useCount = e.useCount) →
        (e.setItemWaitEnd (some port) env).envelope.useCount = e.useCount) ∧
      ((∀ w ∈ env, w.item = e.item ∧ w.useCount = e.useCount) →
        (e.setItemWaitEnd (some port) env).envelope = e)) := by
  have hw : e.waitUnused env = Option.none :=
    waitUnused_busy e env (by omega) (fun w hw => by have := henv w hw; omega)
  obtain ⟨hl, hnz⟩ := lastSeen_busy e env (by omega)
    (fun w hw => by have := henv w hw; omega)
  have hitem : (∀ w ∈ env, w.item = e.item) → (e.afterReaders env).item = e.item := by
    intro hall
    rcases afterReaders_cases e env with h | ⟨w, hw, h⟩ <;> rw [h]
    exact hall w hw
  have hcount : (∀ w ∈ env, w.useCount = e.useCount) →
      (e.afterReaders env).useCount = e.useCount := by
    intro hall
    rcases afterReaders_cases e env with h | ⟨w, hw, h⟩ <;> rw [h]
    exact hall w hw
  have hsame : (∀ w ∈ env, w.item = e.item ∧ w.useCount = e.useCount) →
      e.afterReaders env = e := by
    intro hall
    rcases afterReaders_cases e env with h | ⟨w, hw, h⟩ <;> rw [h]
    obtain ⟨h1, h2⟩ := hall w hw
    cases e
    cases w
    simp_all
  constructor
  · intro hi
    have hr : e.removeItemWaitEnd env =
        { thrown := some (.timeout "Timeout in removeItemWait().")
          envelope := e.lastSeen env
          caller := Option.none } := by
      simp [PtrEnvelope.removeItemWaitEnd, hi, hnz]
    refine ⟨by simp [PtrEnvelope.removeItemWait, hi, hw], by rw [hr], by rw [hr],
      by rw [hr]; exact hl, ?_, ?_, ?_⟩
    · intro hall
      rw [hr]
      show (e.lastSeen env).item = some port
      rw [hl, hitem hall, hi]
    · intro hall
      rw [hr]
      show (e.lastSeen env).useCount = e.useCount
      rw [hl, hcount hall]
    · intro hall
      rw [hr]
      show e.lastSeen env = e
      rw [hl, hsame hall]
  · intro hi
    have hr : e.setItemWaitEnd (some port) env =
        { thrown := some (.timeout "Timeout in setItemWait().")
          envelope := e.lastSeen env
          caller := some port } := by
      simp [PtrEnvelope.setItemWaitEnd, hi, hnz]
    refine ⟨by simp [PtrEnvelope.setItemWait, hi, hw], by rw [hr], by rw [hr],
      by rw [hr]; exact hl, ?_, ?_, ?_⟩
    · intro hall
      rw [hr]
      show (e.lastSeen env).item = Option.none
      rw [hl, hitem hall, hi]
    · intro hall
      rw [hr]
      show (e.lastSeen env).useCount = e.useCount
      rw [hl, hcount hall]
    · intro hall
      rw [hr]
      show e.lastSeen env = e
      rw [hl, hsame hall]

/-- C21 at an envelope with one live accessor.  Without a wake-up
`removeItemWait` times out, hands nothing to the caller and leaves the
envelope as it was, holding the port with use count 1.  With one wake-up that
shows a second accessor `setItemWait` times out, the caller keeps the port,
and the envelope is left empty with the use count 2 of the readers. -/
theorem C21_mutation_times_out_witness :
    (({ PtrEnvelope.holding (samplePort false .initialized .none) with useCount := 1 } :
        PtrEnvelope).removeItemWait [] = .error (.timeout "Timeout in removeItemWait().") ∧
      (PtrEnvelope.removeItemWaitEnd []
        { PtrEnvelope.holding (samplePort false .initialized .none) with useCount := 1 }).caller =
          Option.none ∧
      (PtrEnvelope.removeItemWaitEnd []
        { PtrEnvelope.holding (samplePort false .initialized .none) with useCount := 1 }).envelope =
          { PtrEnvelope.holding (samplePort false .initialized .none) with useCount := 1 }) ∧
    (({ PtrEnvelope.construct with useCount := 1 } : PtrEnvelope).setItemWait
        (some (samplePort false .initialized .none))
        [{ PtrEnvelope.construct with useCount := 2 }] =
        .error (.timeout "Timeout in setItemWait().") ∧
      (PtrEnvelope.setItemWaitEnd (some (samplePort false .initialized .none))
        [{ PtrEnvelope.construct with useCount := 2 }]
        { PtrEnvelope.construct with useCount := 1 }).caller =
          some (samplePort false .initialized .none) ∧
      (PtrEnvelope.setItemWaitEnd (some (samplePort false .initialized .none))
        [{ PtrEnvelope.construct with useCount := 2 }]
        { PtrEnvelope.construct with useCount := 1 }).envelope =
          { PtrEnvelope.construct with useCount := 2 }) := by
  have R := (C21_mutation_times_out
    { PtrEnvelope.holding (samplePort false .initialized .none) with useCount := 1 } []
    (samplePort false .initialized .none) (by decide)
    (fun w hw => absurd hw (List.not_mem_nil w))).1 rfl
  have S := (C21_mutation_times_out { PtrEnvelope.construct with useCount := 1 }
    [{ PtrEnvelope.construct with useCount := 2 }]
    (samplePort false .initialized .none) (by decide)
    (fun w hw => by rw [List.mem_singleton.mp hw]; decide)).2 rfl
  exact ⟨⟨R.1, R.2.2.1, R.2.2.2.2.2.2 (fun w hw => absurd hw (List.not_mem_nil w))⟩,
    ⟨S.1, S.2.2.1, S.2.2.2.1⟩⟩

/-! ## The search for a slot -/

/-- The upward loop returns the first index of its range that is found. -/
theorem firstFrom_some (found : Nat → Bool) (start count i : Nat) :
    firstFrom found start count = some i ↔
      start ≤ i ∧ i < start + count ∧ found i = true ∧
        ∀ j, start ≤ j → j < i → found j = false := by
  induction count generalizing start with
  | zero =>
    simp only [firstFrom]
    constructor
    · intro hc; cases hc
    · rintro ⟨h1, h2, _, _⟩; omega
  | succ n ih =>
    simp only [firstFrom]
    by_cases hf : found start = true
    · simp only [hf, if_true, Option.some.injEq]
      constructor
      · intro he
        subst he
        exact ⟨Nat.le_refl _, by omega, hf, fun j h1 h2 => by omega⟩
      · rintro ⟨h1, _, _, h4⟩
        by_contra hne
        have := h4 start (Nat.le_refl _) (by omega)
        rw [hf] at this
        cases this
    · simp only [hf, if_false, Bool.false_eq_true]
      rw [ih]
      have hf' : found start = false := by simpa using hf
      constructor
      · rintro ⟨h1, h2, h3, h4⟩
        refine ⟨by omega, by omega, h3, fun j hj1 hj2 => ?_⟩
        by_cases hjs : j = start
        · rw [hjs]; exact hf'
        · exact h4 j (by omega) hj2
      · rintro ⟨h1, h2, h3, h4⟩
        have hne : i ≠ start := by
          intro he
          rw [he, hf'] at h3
          cases h3
        exact ⟨by omega, by omega, h3, fun j hj1 hj2 => h4 j (by omega) hj2⟩

/-- The upward loop finds nothing exactly when nothing of its range is found. -/
theorem firstFrom_none (found : Nat → Bool) (start count : Nat) :
    firstFrom found start count = Option.none ↔
      ∀ j, start ≤ j → j < start + count → found j = false := by
  induction count generalizing start with
  | zero =>
    simp only [firstFrom, true_iff]
    intro j h1 h2
    omega
  | succ n ih =>
    simp only [firstFrom]
    by_cases hf : found start = true
    · simp only [hf, if_true]
      constructor
      · intro hc; cases hc
      · intro hall
        have := hall start (Nat.le_refl _) (by omega)
        rw [hf] at this
        cases this
    · simp only [hf, if_false, Bool.false_eq_true]
      rw [ih]
      have hf' : found start = false := by simpa using hf
      constructor
      · intro hall j h1 h2
        by_cases hjs : j = start
        · rw [hjs]; exact hf'
        · exact hall j (by omega) (by omega)
      · intro hall j h1 h2
        exact hall j (by omega) (by omega)

/-- The downward loop returns the last index below `top` that is found. -/
theorem lastBelow_some (found : Nat → Bool) (top i : Nat) :
    lastBelow found top = some i ↔
      i < top ∧ found i = true ∧ ∀ j, i < j → j < top → found j = false := by
  induction top with
  | zero =>
    simp only [lastBelow]
    constructor
    · intro hc; cases hc
    · rintro ⟨h1, _, _⟩; omega
  | succ n ih =>
    simp only [lastBelow]
    by_cases hf : found n = true
    · simp only [hf, if_true, Option.some.injEq]
      constructor
      · intro he
        subst he
        exact ⟨by omega, hf, fun j h1 h2 => by omega⟩
      · rintro ⟨h1, _, h4⟩
        by_contra hne
        have := h4 n (by omega) (by omega)
        rw [hf] at this
        cases this
    · simp only [hf, if_false, Bool.false_eq_true]
      rw [ih]
      have hf' : found n = false := by simpa using hf
      constructor
      · rintro ⟨h1, h3, h4⟩
        refine ⟨by omega, h3, fun j hj1 hj2 => ?_⟩
        by_cases hjs : j = n
        · rw [hjs]; exact hf'
        · exact h4 j hj1 (by omega)
      · rintro ⟨h1, h3, h4⟩
        have hne : i ≠ n := by
          intro he
          rw [he, hf'] at h3
          cases h3
        exact ⟨by omega, h3, fun j hj1 hj2 => h4 j hj1 (by omega)⟩

/-- The downward loop finds nothing exactly when nothing below `top` is found. -/
theorem lastBelow_none (found : Nat → Bool) (top : Nat) :
    lastBelow found top = Option.none ↔ ∀ j, j < top → found j = false := by
  induction top with
  | zero =>
    simp only [lastBelow, true_iff]
    intro j h
    omega
  | succ n ih =>
    simp only [lastBelow]
    by_cases hf : found n = true
    · simp only [hf, if_true]
      constructor
      · intro hc; cases hc
      · intro hall
        have := hall n (by omega)
        rw [hf] at this
        cases this
    · simp only [hf, if_false, Bool.false_eq_true]
      rw [ih]
      have hf' : found n = false := by simpa using hf
      constructor
      · intro hall j h1
        by_cases hjs : j = n
        · rw [hjs]; exact hf'
        · exact hall j (by omega)
      · intro hall j h1
        exact hall j (by omega)

/-- The input search returns the smallest slot that can take an input port. -/
theorem findSlotForInputPort_ok (c : PortChain) (i : Nat) :
    c.findSlotForInputPort = .ok i ↔
      1 ≤ i ∧ i < MAX_PORTS ∧ c.fitsInput i = true ∧
        ∀ j, 1 ≤ j → j < i → c.fitsInput j = false := by
  unfold PortChain.findSlotForInputPort
  by_cases h1 : c.emptyAt 1 = true
  · simp only [h1, if_true, Except.ok.injEq]
    constructor
    · intro he
      subst he
      refine ⟨Nat.le_refl _, by decide, by simp [PortChain.fitsInput, h1], fun j a b => by omega⟩
    · rintro ⟨a, _, _, hmin⟩
      by_contra hne
      have := hmin 1 (Nat.le_refl _) (by omega)
      simp [PortChain.fitsInput, h1] at this
  · have h1' : c.emptyAt 1 = false := by simpa using h1
    have hfit : ∀ j, 1 ≤ j → (c.emptyAt j && c.inputAt (j - 1)) = c.fitsInput j := by
      intro j hj
      by_cases hj1 : j = 1
      · subst hj1
        simp [PortChain.fitsInput, h1']
      · simp [PortChain.fitsInput, hj1]
    simp only [h1, if_false, Bool.false_eq_true]
    have hs := firstFrom_some (fun i => c.emptyAt i && c.inputAt (i - 1)) 1 (MAX_PORTS - 1) i
    cases hr : firstFrom (fun i => c.emptyAt i && c.inputAt (i - 1)) 1 (MAX_PORTS - 1) with
    | none =>
      simp only [false_iff, reduceCtorEq]
      rintro ⟨a, b, hq, hmin⟩
      have hn := (firstFrom_none _ _ _).mp hr i a (by simpa [MAX_PORTS] using b)
      simp only [] at hn
      rw [hfit i a, hq] at hn
      cases hn
    | some k =>
      rw [hr] at hs
      simp only [Except.ok.injEq]
      constructor
      · intro he
        subst he
        obtain ⟨a, b, hq, hmin⟩ := hs.mp rfl
        refine ⟨a, by simpa [MAX_PORTS] using b, by rw [← hfit k a]; exact hq, fun j hj1 hj2 => ?_⟩
        rw [← hfit j hj1]
        exact hmin j hj1 hj2
      · rintro ⟨a, b, hq, hmin⟩
        have := hs.mpr ⟨a, by simpa [MAX_PORTS] using b, by
            show (c.emptyAt i && c.inputAt (i - 1)) = true
            rw [hfit i a]; exact hq,
          fun j hj1 hj2 => by
            show (c.emptyAt j && c.inputAt (j - 1)) = false
            rw [hfit j hj1]; exact hmin j hj1 hj2⟩
        exact Option.some.inj this

/-- The input search fails exactly when no slot can take an input port. -/
theorem findSlotForInputPort_error (c : PortChain) (e : ChainExc) :
    c.findSlotForInputPort = .error e ↔
      e = .runtimeError "Cannot findSlotForInputPort." ∧
        ∀ j, 1 ≤ j → j < MAX_PORTS → c.fitsInput j = false := by
  constructor
  · intro he
    have hall : ∀ j, 1 ≤ j → j < MAX_PORTS → c.fitsInput j = false := by
      intro j hj1 hj2
      by_contra hq
      have hq' : c.fitsInput j = true := by simpa using hq
      -- the smallest fitting slot would be returned
      have hex : ∃ k, 1 ≤ k ∧ c.fitsInput k = true := ⟨j, hj1, hq'⟩
      classical
      let P : Nat → Prop := fun k => 1 ≤ k ∧ c.fitsInput k = true
      have hP : ∃ k, P k := hex
      have hm := Nat.find_spec hP
      have hmin := fun k (hk : k < Nat.find hP) => Nat.find_min hP hk
      have hle : Nat.find hP ≤ j := Nat.find_min' hP ⟨hj1, hq'⟩
      have hok := (findSlotForInputPort_ok c (Nat.find hP)).mpr
        ⟨hm.1, by omega, hm.2, fun k hk1 hk2 => by
          have := hmin k hk2
          simp only [P, not_and] at this
          simpa using this hk1⟩
      rw [hok] at he
      cases he
    refine ⟨?_, hall⟩
    unfold PortChain.findSlotForInputPort at he
    split at he
    · cases he
    · split at he
      · cases he
      · exact (Except.error.inj he).symm
  · rintro ⟨he, hall⟩
    subst he
    cases hr : c.findSlotForInputPort with
    | ok i =>
      obtain ⟨a, b, hq, _⟩ := (findSlotForInputPort_ok c i).mp hr
      rw [hall i a b] at hq
      cases hq
    | error e =>
      unfold PortChain.findSlotForInputPort at hr
      split at hr
      · cases hr
      · split at hr
        · cases hr
        · rw [← Except.error.inj hr]

/-- The output search returns the largest slot that can take an output port. -/
theorem findSlotForOutputPort_ok (c : PortChain) (i : Nat) :
    c.findSlotForOutputPort = .ok i ↔
      i ≤ MAX_PORTS - 2 ∧ c.fitsOutput i = true ∧
        ∀ j, i < j → j ≤ MAX_PORTS - 2 → c.fitsOutput j = false := by
  unfold PortChain.findSlotForOutputPort
  by_cases h1 : c.emptyAt (MAX_PORTS - 2) = true
  · simp only [h1, if_true, Except.ok.injEq]
    constructor
    · intro he
      subst he
      refine ⟨Nat.le_refl _, by simp [PortChain.fitsOutput, h1], fun j a b => by omega⟩
    · rintro ⟨a, _, hmin⟩
      by_contra hne
      have := hmin (MAX_PORTS - 2) (by omega) (Nat.le_refl _)
      simp [PortChain.fitsOutput, h1] at this
  · have h1' : c.emptyAt (MAX_PORTS - 2) = false := by simpa using h1
    have hfit : ∀ j, j < MAX_PORTS - 2 →
        (c.emptyAt j && c.outputAt (j + 1)) = c.fitsOutput j := by
      intro j hj
      have hj1 : j ≠ MAX_PORTS - 2 := by omega
      simp [PortChain.fitsOutput, hj1]
    have hlast : c.fitsOutput (MAX_PORTS - 2) = false := by
      simp [PortChain.fitsOutput, h1']
    simp only [h1, if_false, Bool.false_eq_true]
    have hs := lastBelow_some (fun i => c.emptyAt i && c.outputAt (i + 1)) (MAX_PORTS - 2) i
    cases hr : lastBelow (fun i => c.emptyAt i && c.outputAt (i + 1)) (MAX_PORTS - 2) with
    | none =>
      simp only [false_iff, reduceCtorEq]
      rintro ⟨a, hq, hmin⟩
      have hlt : i < MAX_PORTS - 2 := by
        rcases Nat.lt_or_ge i (MAX_PORTS - 2) with hlt | hge
        · exact hlt
        · have : i = MAX_PORTS - 2 := by omega
          rw [this, hlast] at hq
          cases hq
      have hn := (lastBelow_none _ _).mp hr i hlt
      have hn' : (c.emptyAt i && c.outputAt (i + 1)) = false := hn
      rw [hfit i hlt, hq] at hn'
      cases hn'
    | some k =>
      rw [hr] at hs
      simp only [Except.ok.injEq]
      constructor
      · intro he
        subst he
        obtain ⟨a, hq, hmin⟩ := hs.mp rfl
        refine ⟨by omega, by rw [← hfit k a]; exact hq, fun j hj1 hj2 => ?_⟩
        rcases Nat.lt_or_ge j (MAX_PORTS - 2) with hlt | hge
        · rw [← hfit j hlt]
          exact hmin j hj1 hlt
        · have : j = MAX_PORTS - 2 := by omega
          rw [this]
          exact hlast
      · rintro ⟨a, hq, hmin⟩
        have hlt : i < MAX_PORTS - 2 := by
          rcases Nat.lt_or_ge i (MAX_PORTS - 2) with hlt | hge
          · exact hlt
          · have : i = MAX_PORTS - 2 := by omega
            rw [this, hlast] at hq
            cases hq
        have := hs.mpr ⟨hlt, by
            show (c.emptyAt i && c.outputAt (i + 1)) = true
            rw [hfit i hlt]; exact hq,
          fun j hj1 hj2 => by
            show (c.emptyAt j && c.outputAt (j + 1)) = false
            rw [hfit j hj2]; exact hmin j hj1 (by omega)⟩
        exact Option.some.inj this

/-- The output search fails exactly when no slot can take an output port. -/
theorem findSlotForOutputPort_error (c : PortChain) (e : ChainExc) :
    c.findSlotForOutputPort = .error e ↔
      e = .runtimeError "Cannot findSlotForOutputPort." ∧
        ∀ j, j ≤ MAX_PORTS - 2 → c.fitsOutput j = false := by
  unfold PortChain.findSlotForOutputPort
  by_cases h1 : c.emptyAt (MAX_PORTS - 2) = true
  · simp only [h1, if_true, reduceCtorEq, false_iff, not_and]
    intro _ hall
    have := hall (MAX_PORTS - 2) (Nat.le_refl _)
    simp [PortChain.fitsOutput, h1] at this
  · have h1' : c.emptyAt (MAX_PORTS - 2) = false := by simpa using h1
    have hfit : ∀ j, j < MAX_PORTS - 2 →
        (c.emptyAt j && c.outputAt (j + 1)) = c.fitsOutput j := by
      intro j hj
      have hj1 : j ≠ MAX_PORTS - 2 := by omega
      simp [PortChain.fitsOutput, hj1]
    have hlast : c.fitsOutput (MAX_PORTS - 2) = false := by
      simp [PortChain.fitsOutput, h1']
    simp only [h1, if_false, Bool.false_eq_true]
    cases hr : lastBelow (fun i => c.emptyAt i && c.outputAt (i + 1)) (MAX_PORTS - 2) with
    | none =>
      simp only [Except.error.injEq]
      constructor
      · intro he
        refine ⟨he.symm, fun j hj => ?_⟩
        rcases Nat.lt_or_ge j (MAX_PORTS - 2) with hlt | hge
        · rw [← hfit j hlt]
          exact (lastBelow_none _ _).mp hr j hlt
        · have : j = MAX_PORTS - 2 := by omega
          rw [this]
          exact hlast
      · rintro ⟨he, _⟩
        exact he.symm
    | some k =>
      simp only [reduceCtorEq, false_iff, not_and]
      intro _ hall
      obtain ⟨a, hq, _⟩ := (lastBelow_some _ _ _).mp hr
      have hq' : (c.emptyAt k && c.outputAt (k + 1)) = true := hq
      rw [hfit k a, hall k (by omega)] at hq'
      cases hq'

/-- A slot that holds an input port is not empty. -/
theorem inputAt_not_empty (c : PortChain) (i : Nat) (h : c.inputAt i = true) :
    c.emptyAt i = false := by
  unfold PortChain.inputAt at h
  unfold PortChain.emptyAt PtrEnvelope.isEmpty
  cases hi : (c.entry i).item with
  | none => rw [hi] at h; cases h
  | some p => rfl

/-- A slot that holds an output port is not empty. -/
theorem outputAt_not_empty (c : PortChain) (i : Nat) (h : c.outputAt i = true) :
    c.emptyAt i = false := by
  unfold PortChain.outputAt at h
  unfold PortChain.emptyAt PtrEnvelope.isEmpty
  cases hi : (c.entry i).item with
  | none => rw [hi] at h; cases h
  | some p => rfl

/-- An input port goes to the first empty slot behind a row of input ports
that starts at slot 1. -/
theorem findSlotForInputPort_row (c : PortChain) (k : Nat) (h1 : 1 ≤ k) (h2 : k < MAX_PORTS)
    (hrow : ∀ j, 1 ≤ j → j < k → c.emptyAt j = false)
    (hprev : k = 1 ∨ c.inputAt (k - 1) = true) (he : c.emptyAt k = true) :
    c.findSlotForInputPort = .ok k := by
  rw [findSlotForInputPort_ok]
  refine ⟨h1, h2, ?_, fun j hj1 hj2 => ?_⟩
  · rcases hprev with hp | hp
    · subst hp
      simp [PortChain.fitsInput, he]
    · simp [PortChain.fitsInput, he, hp]
  · simp [PortChain.fitsInput, hrow j hj1 hj2]

/-- An output port goes to the last empty slot before a row of output ports
that ends at slot `MAX_PORTS - 2`. -/
theorem findSlotForOutputPort_row (c : PortChain) (k : Nat) (h2 : k ≤ MAX_PORTS - 2)
    (hrow : ∀ j, k < j → j ≤ MAX_PORTS - 2 → c.emptyAt j = false)
    (hnext : k = MAX_PORTS - 2 ∨ c.outputAt (k + 1) = true) (he : c.emptyAt k = true) :
    c.findSlotForOutputPort = .ok k := by
  rw [findSlotForOutputPort_ok]
  refine ⟨h2, ?_, fun j hj1 hj2 => ?_⟩
  · rcases hnext with hp | hp
    · subst hp
      simp [PortChain.fitsOutput, he]
    · simp [PortChain.fitsOutput, he, hp]
  · simp [PortChain.fitsOutput, hrow j hj1 hj2]

/-- C22: for an input port `findSlotForNewPort` returns the smallest index
`i ≥ 1` such that slot `i` is empty and `i = 1` or slot `i - 1` holds an input
port; it raises an error exactly when there is no such index; in particular,
when the slots 1 to `k - 1` hold input ports and slot `k` is empty (the `k`-th
input port of a chain without holes, or the hole a removed input port left)
the slot chosen is `k`. -/
theorem C22_input_slot (c : PortChain) (newPort : Port) (hin : newPort.isInput = true) :
    (∀ i, c.findSlotForNewPort newPort = .ok i ↔
      1 ≤ i ∧ i < MAX_PORTS ∧ c.fitsInput i = true ∧
        ∀ j, 1 ≤ j → j < i → c.fitsInput j = false) ∧
    ((∃ e, c.findSlotForNewPort newPort = .error e) ↔
      ∀ j, 1 ≤ j → j < MAX_PORTS → c.fitsInput j = false) ∧
    (∀ k, 1 ≤ k → k < MAX_PORTS → (∀ j, 1 ≤ j → j < k → c.inputAt j = true) →
      c.emptyAt k = true → c.findSlotForNewPort newPort = .ok k) := by
  have hout : newPort.isOutput = false := by
    simpa [Port.isInput, Port.isOutput] using hin
  have hf : c.findSlotForNewPort newPort = c.findSlotForInputPort := by
    simp [PortChain.findSlotForNewPort, hout]
  rw [hf]
  refine ⟨fun i => findSlotForInputPort_ok c i, ?_, fun k h1 h2 hrow he => ?_⟩
  · constructor
    · rintro ⟨e, he⟩
      exact ((findSlotForInputPort_error c e).mp he).2
    · intro hall
      exact ⟨_, (findSlotForInputPort_error c _).mpr ⟨rfl, hall⟩⟩
  · refine findSlotForInputPort_row c k h1 h2
      (fun j hj1 hj2 => inputAt_not_empty c j (hrow j hj1 hj2)) ?_ he
    rcases Nat.lt_or_ge 1 k with hk | hk
    · exact Or.inr (hrow (k - 1) (by omega) (by omega))
    · exact Or.inl (by omega)

/-- C22 at the chain of the tests after two input ports were added: the
third input port goes to slot 3. -/
theorem C22_input_slot_witness :
    (userPort false 13).isInput = true ∧
    (PortChain.calls quietHooks
      [.addPort (userPort false 11) Option.none, .addPort (userPort false 12) Option.none]
      controlledChain).chain.findSlotForNewPort (userPort false 13) = .ok 3 :=
  ⟨rfl, (C22_input_slot
      (PortChain.calls quietHooks
        [.addPort (userPort false 11) Option.none, .addPort (userPort false 12) Option.none]
        controlledChain).chain
      (userPort false 13) rfl).2.2 3 (by decide) (by decide)
      (fun j hj1 hj2 => by
        have hj : j = 1 ∨ j = 2 := by omega
        rcases hj with hj | hj <;> subst hj <;> decide!) (by decide!)⟩

/-- C23: for an output port `findSlotForNewPort` returns the largest index
`i ≤ MAX_PORTS - 2` such that slot `i` is empty and `i = MAX_PORTS - 2` or
slot `i + 1` holds an output port; it raises an error exactly when there is no
such index; in particular, when the `k - 1` slots from `MAX_PORTS - k` to
`MAX_PORTS - 2` hold output ports and slot `MAX_PORTS - 1 - k` is empty (the
`k`-th output port of a chain without holes, or the hole a removed output port
left) the slot chosen is `MAX_PORTS - 1 - k`. -/
theorem C23_output_slot (c : PortChain) (newPort : Port) (hout : newPort.isOutput = true) :
    (∀ i, c.findSlotForNewPort newPort = .ok i ↔
      i ≤ MAX_PORTS - 2 ∧ c.fitsOutput i = true ∧
        ∀ j, i < j → j ≤ MAX_PORTS - 2 → c.fitsOutput j = false) ∧
    ((∃ e, c.findSlotForNewPort newPort = .error e) ↔
      ∀ j, j ≤ MAX_PORTS - 2 → c.fitsOutput j = false) ∧
    (∀ k, 1 ≤ k → k ≤ MAX_PORTS - 1 →
      (∀ j, MAX_PORTS - 1 - k < j → j ≤ MAX_PORTS - 2 → c.outputAt j = true) →
      c.emptyAt (MAX_PORTS - 1 - k) = true →
      c.findSlotForNewPort newPort = .ok (MAX_PORTS - 1 - k)) := by
  have hf : c.findSlotForNewPort newPort = c.findSlotForOutputPort := by
    simp [PortChain.findSlotForNewPort, hout]
  rw [hf]
  refine ⟨fun i => findSlotForOutputPort_ok c i, ?_, fun k h1 h2 hrow he => ?_⟩
  · constructor
    · rintro ⟨e, he⟩
      exact ((findSlotForOutputPort_error c e).mp he).2
    · intro hall
      exact ⟨_, (findSlotForOutputPort_error c _).mpr ⟨rfl, hall⟩⟩
  · refine findSlotForOutputPort_row c (MAX_PORTS - 1 - k) (by omega)
      (fun j hj1 hj2 => outputAt_not_empty c j (hrow j hj1 hj2)) ?_ he
    rcases Nat.lt_or_ge 1 k with hk | hk
    · refine Or.inr (hrow (MAX_PORTS - 1 - k + 1) (by omega) ?_)
      have : MAX_PORTS = 512 := rfl
      omega
    · refine Or.inl ?_
      have : MAX_PORTS = 512 := rfl
      omega

/-- C23 at the chain of the tests after two output ports were added: the
third output port goes to slot `MAX_PORTS - 4`. -/
theorem C23_output_slot_witness :
    (userPort true 23).isOutput = true ∧
    (PortChain.calls quietHooks
      [.addPort (userPort true 21) Option.none, .addPort (userPort true 22) Option.none]
      controlledChain).chain.findSlotForNewPort (userPort true 23) = .ok (MAX_PORTS - 1 - 3) :=
  ⟨rfl, (C23_output_slot
      (PortChain.calls quietHooks
        [.addPort (userPort true 21) Option.none, .addPort (userPort true 22) Option.none]
        controlledChain).chain
      (userPort true 23) rfl).2.2 3 (by decide) (by decide)
      (fun j hj1 hj2 => by
        have h512 : MAX_PORTS = 512 := rfl
        have hj : j = 509 ∨ j = 510 := by omega
        rcases hj with hj | hj <;> subst hj <;> decide!) (by decide!)⟩

/-! ## The array of the chain -/

/-- Writing entry `k` leaves the other entries alone. -/
theorem entry_setEntry_ne (c : PortChain) (k i : Nat) (e : PtrEnvelope) (h : i ≠ k) :
    (c.setEntry k e).entry i = c.entry i := by
  simp only [PortChain.entry, PortChain.setEntry, List.getD_eq_getElem?_getD]
  rw [List.getElem?_set_ne (Ne.symm h)]

/-- Writing entry `k` of the array. -/
theorem entry_setEntry_eq (c : PortChain) (k : Nat) (e : PtrEnvelope)
    (h : k < c.portList.length) : (c.setEntry k e).entry k = e := by
  simp only [PortChain.entry, PortChain.setEntry, List.getD_eq_getElem?_getD]
  rw [List.getElem?_set_self h]
  rfl

/-- An entry outside the array reads as an empty envelope. -/
theorem entry_outside (c : PortChain) (i : Nat) (h : c.portList.length ≤ i) :
    c.entry i = PtrEnvelope.construct := by
  simp only [PortChain.entry, List.getD_eq_getElem?_getD]
  rw [List.getElem?_eq_none h]
  rfl

/-- An entry of the array is a member of the list. -/
theorem entry_mem (c : PortChain) (i : Nat) (h : i < c.portList.length) :
    c.entry i ∈ c.portList := by
  simp only [PortChain.entry, List.getD_eq_getElem?_getD]
  rw [List.getElem?_eq_getElem h]
  exact List.getElem_mem h

/-- No accessor is alive on any entry of a chain at rest. -/
theorem atRest_useCount (c : PortChain) (hc : c.atRest) (i : Nat) :
    (c.entry i).useCount = 0 := by
  rcases Nat.lt_or_ge i c.portList.length with h | h
  · exact hc.2 _ (entry_mem c i h)
  · rw [entry_outside c i h]
    rfl

/-- Writing an unused envelope into the array keeps the chain at rest. -/
theorem atRest_setEntry (c : PortChain) (hc : c.atRest) (k : Nat) (e : PtrEnvelope)
    (he : e.useCount = 0) : (c.setEntry k e).atRest := by
  refine ⟨by simp [PortChain.setEntry, hc.1], fun x hx => ?_⟩
  simp only [PortChain.setEntry] at hx
  rcases List.mem_or_eq_of_mem_set hx with h | h
  · exact hc.2 x h
  · rw [h]; exact he

/-! ## `addPort` and `removePort` -/

/-- Without a wake-up the wait for exclusive access ends at once on an unused
envelope. -/
theorem waitUnused_nil_unused (e : PtrEnvelope) (h : e.useCount = 0) :
    e.waitUnused [] = some e := by
  simp [PtrEnvelope.waitUnused, h]

/-- Without a wake-up the wait for exclusive access times out on an envelope
in use. -/
theorem waitUnused_nil_busy (e : PtrEnvelope) (h : e.useCount ≠ 0) :
    e.waitUnused [] = Option.none := by
  simp [PtrEnvelope.waitUnused, h]

/-- What `registerAndStart` does to an Initialized port when it returns. -/
theorem registerAndStart_returned (h : Hooks) (c : PortChain) (p q : Port)
    (hp : p.state = .initialized) (hr : c.registerAndStart h p = .returned q) :
    (c.state = .registered →
      q = { p with calls := p.calls ++ [.register_impl], state := .registered }) ∧
    (c.state = .running →
      q = { p with calls := p.calls ++ [.register_impl, .start_impl], state := .running,
                   substate := .started }) ∧
    (c.state ≠ .registered → c.state ≠ .running → q = p) := by
  unfold PortChain.registerAndStart at hr
  by_cases h1 : c.state = .registered
  · have h2 : c.state ≠ .running := by rw [h1]; decide
    simp only [h1, if_true, Port.registerAtServer, hp, ne_eq, not_true_eq_false, if_false,
      reduceCtorEq] at hr
    refine ⟨fun _ => ?_, fun hc => absurd hc h2, fun hc => absurd h1 hc⟩
    rcases callHook_cases h .register_impl p with hq | ⟨e, hq⟩
    · rw [hq] at hr
      simp only [Outcome.andThen, Outcome.returned.injEq] at hr
      rw [← hr]
    · rw [hq] at hr
      simp [Outcome.andThen] at hr
  · by_cases h2 : c.state = .running
    · simp only [h2, if_true, Port.registerAtServer, hp, ne_eq, not_true_eq_false, if_false,
        reduceCtorEq, Outcome.andThen] at hr
      refine ⟨fun hc => absurd hc h1, fun _ => ?_, fun _ hc => absurd h2 hc⟩
      rcases callHook_cases h .register_impl p with hq | ⟨e, hq⟩
      · rw [hq] at hr
        simp only [Port.start, ne_eq, not_true_eq_false, if_false] at hr
        rcases callHook_cases h .start_impl
            { p with calls := p.calls ++ [.register_impl], state := .registered } with hs | ⟨e, hs⟩
        · rw [hs] at hr
          simp only [Outcome.andThen, Outcome.returned.injEq] at hr
          rw [← hr]
          simp
        · rw [hs] at hr
          simp [Outcome.andThen] at hr
      · rw [hq] at hr
        simp at hr
    · simp only [h1, h2, if_false, Outcome.andThen, Outcome.returned.injEq] at hr
      exact ⟨fun hc => absurd hc h1, fun hc => absurd hc h2, fun _ _ => hr.symm⟩

/-- With hooks that return `registerAndStart` returns on an Initialized port. -/
theorem registerAndStart_quiet (h : Hooks) (hq : ∀ q c, h q c = Option.none) (c : PortChain)
    (p : Port) (hp : p.state = .initialized) :
    ∃ q, c.registerAndStart h p = .returned q := by
  unfold PortChain.registerAndStart
  by_cases h1 : c.state = .registered
  · have h2 : c.state ≠ .running := by rw [h1]; decide
    simp [h1, Port.registerAtServer, hp, callHook, hq, Outcome.andThen]
  · by_cases h2 : c.state = .running
    · simp [h2, Port.registerAtServer, Port.start, hp, callHook, hq, Outcome.andThen]
    · simp [h1, h2, Outcome.andThen]

/-- `registerAndStart` keeps the direction and the id of the port. -/
theorem registerAndStart_same (h : Hooks) (c : PortChain) (p q : Port)
    (hp : p.state = .initialized) (hr : c.registerAndStart h p = .returned q) :
    q.output = p.output ∧ q.internalId = p.internalId := by
  obtain ⟨h1, h2, h3⟩ := registerAndStart_returned h c p q hp hr
  by_cases hc1 : c.state = .registered
  · rw [h1 hc1]; exact ⟨rfl, rfl⟩
  · by_cases hc2 : c.state = .running
    · rw [h2 hc2]; exact ⟨rfl, rfl⟩
    · rw [h3 hc1 hc2]; exact ⟨rfl, rfl⟩

/-- The slot `findSlotForNewPort` returns is empty. -/
theorem findSlotForNewPort_empty (c : PortChain) (p : Port) (i : Nat)
    (hf : c.findSlotForNewPort p = .ok i) : (c.entry i).item = Option.none := by
  have he : c.emptyAt i = true := by
    unfold PortChain.findSlotForNewPort at hf
    split at hf
    · have := ((findSlotForOutputPort_ok c i).mp hf).2.1
      simp only [PortChain.fitsOutput, Bool.and_eq_true] at this
      exact this.1
    · have := ((findSlotForInputPort_ok c i).mp hf).2.2.1
      simp only [PortChain.fitsInput, Bool.and_eq_true] at this
      exact this.1
  simpa [PortChain.emptyAt, PtrEnvelope.isEmpty] using he

/-- A call of `addPort` that returns: the port was Initialized with an id of
at least -2, the chain was in a state that accepts ports, the port was driven
by `registerAndStart` and then put into the slot `findSlotForNewPort` chose;
the caller is left with the null pointer. -/
theorem addPort_returned (h : Hooks) (p : Port) (client : Option Nat) (c c1 : PortChain)
    (r : Option Port) (hr : c.addPort h (some p) client = (r, .returned c1)) :
    p.state = .initialized ∧ -2 ≤ p.internalId ∧
    (c.state = .created ∨ c.state = .initialized ∨
      ((c.state = .registered ∨ c.state = .running) ∧ client ≠ Option.none)) ∧
    r = Option.none ∧
    ∃ i q, c.findSlotForNewPort p = .ok i ∧ c.registerAndStart h p = .returned q ∧
      (c.entry i).useCount = 0 ∧
      c1 = c.setEntry i { c.entry i with item := some q } := by
  unfold PortChain.addPort at hr
  simp only at hr
  split at hr
  · simp at hr
  · split at hr
    · simp at hr
    · split at hr
      · simp at hr
      · split at hr
        · simp at hr
        · rename_i hs hid hst hcl
          cases hf : c.findSlotForNewPort p with
          | error x =>
            rw [hf] at hr
            simp at hr
          | ok i =>
            rw [hf] at hr
            simp only [PortChain.addPort_impl] at hr
            have hempty := findSlotForNewPort_empty c p i hf
            cases hq : c.registerAndStart h p with
            | raised x q => rw [hq] at hr; simp at hr
            | blocked q => rw [hq] at hr; simp at hr
            | returned q =>
              rw [hq] at hr
              simp only [PtrEnvelope.setItemWait, Option.isSome_some, hempty, Option.isSome_none,
                Bool.true_eq_false, if_false, Bool.false_eq_true] at hr
              by_cases hu0 : (c.entry i).useCount = 0
              · rw [waitUnused_nil_unused _ hu0] at hr
                simp only [Prod.mk.injEq, ChainOutcome.returned.injEq] at hr
                refine ⟨by simpa using hs, by omega, ?_, hr.1.symm, i, q, rfl, rfl, hu0,
                  hr.2.symm⟩
                simp only [ne_eq, not_and, Classical.not_imp, not_not] at hst hcl
                cases hcs : c.state <;> simp_all
              · rw [waitUnused_nil_busy _ hu0] at hr
                simp at hr

/-- A call of `addPort` whose checks pass, whose port is driven without an
exception and whose slot is not in use returns. -/
theorem addPort_accepts (h : Hooks) (p : Port) (client : Option Nat) (c : PortChain)
    (i : Nat) (q : Port) (hs : p.state = .initialized) (hid : -2 ≤ p.internalId)
    (hst : c.state = .created ∨ c.state = .initialized ∨
      ((c.state = .registered ∨ c.state = .running) ∧ client ≠ Option.none))
    (hf : c.findSlotForNewPort p = .ok i) (hq : c.registerAndStart h p = .returned q)
    (hu : (c.entry i).useCount = 0) :
    c.addPort h (some p) client =
      (Option.none, .returned (c.setEntry i { c.entry i with item := some q })) := by
  have hempty := findSlotForNewPort_empty c p i hf
  have hid' : ¬ p.internalId < -2 := by omega
  have h1 : ¬ (c.state ≠ .created ∧ c.state ≠ .initialized ∧ c.state ≠ .registered ∧
      c.state ≠ .running) := by
    rcases hst with hc | hc | ⟨hc | hc, _⟩ <;> simp [hc]
  have h2 : ¬ (c.state ≠ .initialized ∧ c.state ≠ .created ∧ client = Option.none) := by
    rcases hst with hc | hc | ⟨_, hc⟩ <;> simp [hc]
  unfold PortChain.addPort
  simp only [hs, ne_eq, not_true_eq_false, if_false, hid', h1, h2, hf, PortChain.addPort_impl, hq,
    PtrEnvelope.setItemWait, Option.isSome_some, hempty, Option.isSome_none,
    Bool.true_eq_false, Bool.false_eq_true]
  rw [waitUnused_nil_unused _ hu]

/-- A call of `addPort` that does not return leaves the chain as it was. -/
theorem addPort_chain (h : Hooks) (newPort : Option Port) (client : Option Nat)
    (c : PortChain) :
    (∃ c1, (c.addPort h newPort client).2 = .returned c1) ∨
      (c.addPort h newPort client).2.chain = c := by
  unfold PortChain.addPort
  cases newPort with
  | none => exact Or.inr rfl
  | some p =>
    simp only
    split
    · exact Or.inr rfl
    · split
      · exact Or.inr rfl
      · split
        · exact Or.inr rfl
        · split
          · exact Or.inr rfl
          · split
            · exact Or.inr rfl
            · unfold PortChain.addPort_impl
              split
              · split
                · exact Or.inl ⟨_, rfl⟩
                · exact Or.inr rfl
              · exact Or.inr rfl
              · exact Or.inr rfl

/-- A slot holds the id when it holds a port of this id. -/
theorem holdsId_true (c : PortChain) (internalId : Int) (j : Nat) :
    c.holdsId internalId j = true ↔
      ∃ port, (c.entry j).item = some port ∧ port.internalId = internalId := by
  unfold PortChain.holdsId
  cases (c.entry j).item with
  | none => simp
  | some port => simp

/-- A slot does not hold the id when it is empty or holds a port of another id. -/
theorem holdsId_false (c : PortChain) (internalId : Int) (j : Nat) :
    c.holdsId internalId j = false ↔
      ∀ port, (c.entry j).item = some port → port.internalId ≠ internalId := by
  unfold PortChain.holdsId
  cases (c.entry j).item with
  | none => simp
  | some port => simp

/-- The search by id returns the first slot that holds a port of this id. -/
theorem findSlotOfPort_found (c : PortChain) (internalId : Int) (i : Nat) :
    c.findSlotOfPort internalId = (i : Int) ↔
      i < MAX_PORTS ∧ (∃ port, (c.entry i).item = some port ∧ port.internalId = internalId) ∧
        ∀ j, j < i → ∀ port, (c.entry j).item = some port → port.internalId ≠ internalId := by
  unfold PortChain.findSlotOfPort
  have hs := firstFrom_some (c.holdsId internalId) 0 MAX_PORTS i
  cases hr : firstFrom (c.holdsId internalId) 0 MAX_PORTS with
  | none =>
    have hn := (firstFrom_none _ _ _).mp hr
    constructor
    · intro he
      exfalso
      have he' : (-1 : Int) = (i : Int) := he
      omega
    · rintro ⟨hi, hex, _⟩
      have := hn i (Nat.zero_le _) (by omega)
      rw [(holdsId_true c internalId i).mpr hex] at this
      cases this
  | some k =>
    rw [hr] at hs
    show ((k : Int) = (i : Int)) ↔ _
    rw [Nat.cast_inj]
    constructor
    · intro he
      subst he
      obtain ⟨_, hb, hq, hmin⟩ := hs.mp rfl
      exact ⟨by omega, (holdsId_true c internalId k).mp hq,
        fun j hj => (holdsId_false c internalId j).mp (hmin j (Nat.zero_le _) hj)⟩
    · rintro ⟨hi, hex, hmin⟩
      have := hs.mpr ⟨Nat.zero_le _, by omega, (holdsId_true c internalId i).mpr hex,
        fun j _ hj => (holdsId_false c internalId j).mpr (hmin j hj)⟩
      exact Option.some.inj this

/-- The search by id returns -1 exactly when no slot holds a port of this id. -/
theorem findSlotOfPort_missing (c : PortChain) (internalId : Int) :
    c.findSlotOfPort internalId = -1 ↔
      ∀ j, j < MAX_PORTS → ∀ port, (c.entry j).item = some port →
        port.internalId ≠ internalId := by
  unfold PortChain.findSlotOfPort
  cases hr : firstFrom (c.holdsId internalId) 0 MAX_PORTS with
  | none =>
    have hn := (firstFrom_none _ _ _).mp hr
    refine ⟨fun _ j hj => ?_, fun _ => rfl⟩
    exact (holdsId_false c internalId j).mp (hn j (Nat.zero_le _) (by omega))
  | some k =>
    obtain ⟨_, hb, hq, _⟩ := (firstFrom_some _ _ _ _).mp hr
    constructor
    · intro he
      exfalso
      have he' : (k : Int) = -1 := he
      omega
    · intro hall
      have := (holdsId_false c internalId k).mpr (hall k (by omega))
      rw [this] at hq
      cases hq

/-- The search by id returns -1 or an index of the array. -/
theorem findSlotOfPort_cases (c : PortChain) (internalId : Int) :
    c.findSlotOfPort internalId = -1 ∨ ∃ i : Nat, c.findSlotOfPort internalId = (i : Int) := by
  unfold PortChain.findSlotOfPort
  split
  · exact Or.inr ⟨_, rfl⟩
  · exact Or.inl rfl

/-- The `shutdown` of a port returns, with the port Deletable and its id and
direction as before. -/
theorem shutdown_same (h : Hooks) (port : Port) :
    ∃ q, Port.shutdown h false [] port = .returned q ∧ q.state = .deletable ∧
      q.internalId = port.internalId ∧ q.output = port.output := by
  obtain ⟨q, hq, hs, _, _⟩ := shutdown_returns h false [] port
  have hf := perform_framed h (.doShutdown false []) rfl (fun s d => by simp) port
  have hp : Port.perform h (.doShutdown false []) port = .returned q := hq
  rw [hp] at hf
  exact ⟨q, hq, hs, hf.2.2.2.1, hf.2.2.1⟩

/-- Writing the same entry twice. -/
theorem setEntry_setEntry (c : PortChain) (i : Nat) (e1 e2 : PtrEnvelope) :
    (c.setEntry i e1).setEntry i e2 = c.setEntry i e2 := by
  simp [PortChain.setEntry, List.set_set]

/-- An entry that holds a port is within the array. -/
theorem entry_inside (c : PortChain) (i : Nat) (port : Port)
    (hp : (c.entry i).item = some port) : i < c.portList.length := by
  by_contra hge
  rw [entry_outside c i (by omega)] at hp
  cases hp

/-- The call of `removePort` for an id that the chain holds in a slot that is not
in use: the port is shut down and returned, and its slot is left empty. -/
theorem removePort_held (h : Hooks) (c : PortChain) (internalId : Int) (i : Nat) (port : Port)
    (hi : c.findSlotOfPort internalId = (i : Int)) (hp : (c.entry i).item = some port)
    (hu : (c.entry i).useCount = 0) :
    ∃ q, Port.shutdown h false [] port = .returned q ∧
      c.removePort h internalId =
        (some q, .returned
          { c.setEntry i { c.entry i with item := Option.none } with
              portCount := c.portCount - 1 }) := by
  obtain ⟨q, hq, _⟩ := shutdown_same h port
  refine ⟨q, hq, ?_⟩
  have hlen := entry_inside c i port hp
  have hneg : ¬ ((i : Int) < 0) := by omega
  unfold PortChain.removePort
  simp only [hi, hneg, if_false, Int.toNat_ofNat, hp, hq]
  rw [entry_setEntry_eq c i _ hlen]
  simp only [PtrEnvelope.removeItemWait, Option.isSome_some, Bool.true_eq_false, if_false]
  rw [waitUnused_nil_unused { c.entry i with item := some q } hu]
  simp only [setEntry_setEntry]
  rfl

/-- The call of `removePort` for an id that the chain does not hold. -/
theorem removePort_missing (h : Hooks) (c : PortChain) (internalId : Int)
    (hm : c.findSlotOfPort internalId = -1) :
    c.removePort h internalId =
      (Option.none, .raised (.runtimeError "Cannot removePort, port not found.") c) := by
  unfold PortChain.removePort
  simp [hm]

/-- A call of `removePort` that returns has emptied the slot of the port it
found and has changed no other slot. -/
theorem removePort_returned (h : Hooks) (c c1 : PortChain) (internalId : Int)
    (r : Option Port) (hr : c.removePort h internalId = (r, .returned c1)) :
    ∃ (i : Nat) (port q : Port), c.findSlotOfPort internalId = (i : Int) ∧
      (c.entry i).item = some port ∧
      Port.shutdown h false [] port = .returned q ∧ r = some q ∧
      c1 = { c.setEntry i { c.entry i with item := Option.none } with
              portCount := c.portCount - 1 } := by
  rcases findSlotOfPort_cases c internalId with hm | ⟨i, hi⟩
  · rw [removePort_missing h c internalId hm] at hr
    simp at hr
  · obtain ⟨_, ⟨port, hp, _⟩, _⟩ := (findSlotOfPort_found c internalId i).mp hi
    by_cases hu : (c.entry i).useCount = 0
    · obtain ⟨q, hq, hrem⟩ := removePort_held h c internalId i port hi hp hu
      rw [hrem] at hr
      simp only [Prod.mk.injEq, ChainOutcome.returned.injEq] at hr
      exact ⟨i, port, q, hi, hp, hq, hr.1.symm, hr.2.symm⟩
    · exfalso
      obtain ⟨q, hq, _⟩ := shutdown_same h port
      have hlen := entry_inside c i port hp
      have hneg : ¬ ((i : Int) < 0) := by omega
      unfold PortChain.removePort at hr
      simp only [hi, hneg, if_false, Int.toNat_ofNat, hp, hq] at hr
      rw [entry_setEntry_eq c i _ hlen] at hr
      simp only [PtrEnvelope.removeItemWait, Option.isSome_some, Bool.true_eq_false,
        if_false] at hr
      rw [waitUnused_nil_busy { c.entry i with item := some q } hu] at hr
      simp at hr

/-- C27: `addPort` accepts only a port in state Initialized and drives it to
the state of the chain before it is placed in a slot.  A port in another
state is refused with an error, without a hook and with the chain unchanged.
When the call returns, the slot `findSlotForNewPort` chose receives the port
as `registerAndStart` left it: unchanged (Initialized) in a Created or
Initialized chain; Registered with `register_impl` invoked once in a
Registered chain; Running in sub-state Started with `register_impl` and
`start_impl` invoked once each in a Running chain. -/
theorem C27_addPort_drives (h : Hooks) (p : Port) (client : Option Nat) (c : PortChain) :
    (p.state ≠ .initialized →
      c.addPort h (some p) client =
        (some p, .raised (.runtimeError "Attempt to add an uninitialized Port.") c)) ∧
    (∀ r c1, c.addPort h (some p) client = (r, .returned c1) →
      p.state = .initialized ∧
      ∃ i q, c.findSlotForNewPort p = .ok i ∧
        c1 = c.setEntry i { c.entry i with item := some q } ∧
        (c.state = .created ∨ c.state = .initialized → q = p) ∧
        (c.state = .registered →
          q = { p with calls := p.calls ++ [.register_impl], state := .registered }) ∧
        (c.state = .running →
          q = { p with calls := p.calls ++ [.register_impl, .start_impl], state := .running,
                       substate := .started })) := by
  constructor
  · intro hs
    simp [PortChain.addPort, hs]
  · intro r c1 hr
    obtain ⟨hs, _, _, _, i, q, hf, hq, _, hc1⟩ := addPort_returned h p client c c1 r hr
    obtain ⟨h1, h2, h3⟩ := registerAndStart_returned h c p q hs hq
    refine ⟨hs, i, q, hf, hc1, fun hc => h3 ?_ ?_, h1, h2⟩
    · rcases hc with hc | hc <;> rw [hc] <;> decide
    · rcases hc with hc | hc <;> rw [hc] <;> decide

/-- C27 on the Running chain of the tests: the call returns, and the input
port is Running in sub-state Started, after one `register_impl` and one
`start_impl`, when it is in its slot. -/
theorem C27_addPort_drives_witness :
    runningChain.addPort quietHooks (some (userPort false 11)) (some 1) =
      (Option.none, .returned
        (runningChain.addPort quietHooks (some (userPort false 11)) (some 1)).2.chain) ∧
    ∃ i q, runningChain.findSlotForNewPort (userPort false 11) = .ok i ∧
      (runningChain.addPort quietHooks (some (userPort false 11)) (some 1)).2.chain =
        runningChain.setEntry i { runningChain.entry i with item := some q } ∧
      q = { userPort false 11 with
              calls := (userPort false 11).calls ++ [.register_impl, .start_impl],
              state := .running, substate := .started } :=
  ⟨by decide!,
    match (C27_addPort_drives quietHooks (userPort false 11) (some 1) runningChain).2
        Option.none
        (runningChain.addPort quietHooks (some (userPort false 11)) (some 1)).2.chain
        (by decide!) with
    | ⟨_, i, q, hf, hc, _, _, hq⟩ => ⟨i, q, hf, hc, hq (by decide!)⟩⟩

/-- C28: on a chain at rest, `removePort(id)` for an id held by the chain
returns the port of the first slot that holds this id, shut down: it has the
id and is Deletable; afterwards the slot is empty, every other slot and the
state of the chain are unchanged, and when no other slot holds the id
`portExists(id)` is false.  For an id that no held port has, `removePort`
raises an error and leaves the chain unchanged. -/
theorem C28_removePort (h : Hooks) (c : PortChain) (internalId : Int) (hc : c.atRest) :
    ((∃ j port, (c.entry j).item = some port ∧ port.internalId = internalId) →
      ∃ (i : Nat) (port q : Port) (c1 : PortChain),
        c.findSlotOfPort internalId = (i : Int) ∧ (c.entry i).item = some port ∧
        port.internalId = internalId ∧ Port.shutdown h false [] port = .returned q ∧
        c.removePort h internalId = (some q, .returned c1) ∧
        q.internalId = internalId ∧ q.state = .deletable ∧
        c1.emptyAt i = true ∧ (∀ j, j ≠ i → c1.entry j = c.entry j) ∧ c1.state = c.state ∧
        ((∀ j port1, j ≠ i → (c.entry j).item = some port1 → port1.internalId ≠ internalId) →
          c1.portExists internalId = false)) ∧
    ((∀ j port, (c.entry j).item = some port → port.internalId ≠ internalId) →
      c.removePort h internalId =
        (Option.none, .raised (.runtimeError "Cannot removePort, port not found.") c)) := by
  constructor
  · rintro ⟨j, port0, hj, hid0⟩
    have hne : c.findSlotOfPort internalId ≠ -1 := by
      intro hm
      have hlen := entry_inside c j port0 hj
      rw [hc.1] at hlen
      exact (findSlotOfPort_missing c internalId).mp hm j hlen port0 hj hid0
    rcases findSlotOfPort_cases c internalId with hm | ⟨i, hi⟩
    · exact absurd hm hne
    · obtain ⟨_, ⟨port, hp, hid⟩, _⟩ := (findSlotOfPort_found c internalId i).mp hi
      obtain ⟨q, hq, hrem⟩ := removePort_held h c internalId i port hi hp (atRest_useCount c hc i)
      obtain ⟨q1, hq1, hdel, hsame, _⟩ := shutdown_same h port
      have hqq : q1 = q := by
        rw [hq1] at hq
        exact Outcome.returned.inj hq
      subst hqq
      have hlen := entry_inside c i port hp
      have hent : ∀ k, k ≠ i →
          ({ c.setEntry i { c.entry i with item := Option.none } with
              portCount := c.portCount - 1 } : PortChain).entry k = c.entry k :=
        fun k hk => entry_setEntry_ne c i k _ hk
      have hself : ({ c.setEntry i { c.entry i with item := Option.none } with
              portCount := c.portCount - 1 } : PortChain).entry i =
            { c.entry i with item := Option.none } :=
        entry_setEntry_eq c i _ hlen
      refine ⟨i, port, q1, _, hi, hp, hid, hq1, hrem, by rw [hsame, hid], hdel, ?_, hent, rfl, ?_⟩
      · simp only [PortChain.emptyAt, hself]
        rfl
      · intro huniq
        simp only [PortChain.portExists, bne_eq_false_iff_eq]
        rw [findSlotOfPort_missing]
        intro k _ port1 hk
        by_cases hki : k = i
        · subst hki
          rw [hself] at hk
          cases hk
        · rw [hent k hki] at hk
          exact huniq k port1 hki hk
  · intro hall
    exact removePort_missing h c internalId
      ((findSlotOfPort_missing c internalId).mpr (fun j _ port hj => hall j port hj))

/-- The chain of the tests is at rest. -/
theorem controlledChain_atRest : controlledChain.atRest := by
  constructor
  · decide!
  · decide!

/-- C28 on the chain of the tests with one input port of id 11 added: the
removal of this port. -/
theorem C28_removePort_witness :
    (PortChain.calls quietHooks [.addPort (userPort false 11) Option.none]
      controlledChain).chain.atRest ∧
    ∃ (i : Nat) (port q : Port) (c1 : PortChain),
      (PortChain.calls quietHooks [.addPort (userPort false 11) Option.none]
        controlledChain).chain.findSlotOfPort 11 = (i : Int) ∧
      ((PortChain.calls quietHooks [.addPort (userPort false 11) Option.none]
        controlledChain).chain.entry i).item = some port ∧
      port.internalId = 11 ∧ Port.shutdown quietHooks false [] port = .returned q ∧
      (PortChain.calls quietHooks [.addPort (userPort false 11) Option.none]
        controlledChain).chain.removePort quietHooks 11 = (some q, .returned c1) ∧
      q.internalId = 11 ∧ q.state = .deletable ∧
      c1.emptyAt i = true ∧
      (∀ j, j ≠ i → c1.entry j =
        (PortChain.calls quietHooks [.addPort (userPort false 11) Option.none]
          controlledChain).chain.entry j) ∧
      c1.state = (PortChain.calls quietHooks [.addPort (userPort false 11) Option.none]
        controlledChain).chain.state ∧
      ((∀ j port1, j ≠ i →
          ((PortChain.calls quietHooks [.addPort (userPort false 11) Option.none]
            controlledChain).chain.entry j).item = some port1 → port1.internalId ≠ 11) →
        c1.portExists 11 = false) :=
  ⟨⟨by decide!, by decide!⟩,
    (C28_removePort quietHooks
      (PortChain.calls quietHooks [.addPort (userPort false 11) Option.none]
        controlledChain).chain 11 ⟨by decide!, by decide!⟩).1
      ⟨1, userPort false 11, by decide!, rfl⟩⟩

/-! ## Chains without a hole -/

theorem emptyAt_setEntry_ne (c : PortChain) (k i : Nat) (e : PtrEnvelope) (h : i ≠ k) :
    (c.setEntry k e).emptyAt i = c.emptyAt i := by
  simp [PortChain.emptyAt, entry_setEntry_ne c k i e h]

theorem inputAt_setEntry_ne (c : PortChain) (k i : Nat) (e : PtrEnvelope) (h : i ≠ k) :
    (c.setEntry k e).inputAt i = c.inputAt i := by
  simp [PortChain.inputAt, entry_setEntry_ne c k i e h]

theorem outputAt_setEntry_ne (c : PortChain) (k i : Nat) (e : PtrEnvelope) (h : i ≠ k) :
    (c.setEntry k e).outputAt i = c.outputAt i := by
  simp [PortChain.outputAt, entry_setEntry_ne c k i e h]

theorem inputAt_setEntry_eq (c : PortChain) (k : Nat) (e : PtrEnvelope) (q : Port)
    (h : k < c.portList.length) (he : e.item = some q) :
    (c.setEntry k e).inputAt k = q.isInput := by
  simp [PortChain.inputAt, entry_setEntry_eq c k e h, he]

theorem outputAt_setEntry_eq (c : PortChain) (k : Nat) (e : PtrEnvelope) (q : Port)
    (h : k < c.portList.length) (he : e.item = some q) :
    (c.setEntry k e).outputAt k = q.isOutput := by
  simp [PortChain.outputAt, entry_setEntry_eq c k e h, he]

theorem emptyAt_setEntry_eq (c : PortChain) (k : Nat) (e : PtrEnvelope)
    (h : k < c.portList.length) :
    (c.setEntry k e).emptyAt k = e.isEmpty := by
  simp [PortChain.emptyAt, entry_setEntry_eq c k e h]

/-- In a chain without a hole that is not full an input port goes behind the
input ports. -/
theorem packed_input_slot (c : PortChain) (a b : Nat) (hp : c.packed a b)
    (hlt : a + b < MAX_PORTS - 2) : c.findSlotForInputPort = .ok (a + 1) := by
  obtain ⟨_, hin, hem, _⟩ := hp
  have h512 : MAX_PORTS = 512 := rfl
  refine findSlotForInputPort_row c (a + 1) (by omega) (by omega)
    (fun j hj1 hj2 => inputAt_not_empty c j (hin j hj1 (by omega))) ?_
    (hem (a + 1) (by omega) (by omega))
  rcases Nat.eq_zero_or_pos a with ha | ha
  · exact Or.inl (by omega)
  · exact Or.inr (by simpa using hin a ha (Nat.le_refl _))

/-- In a chain without a hole that is not full an output port goes before the
output ports. -/
theorem packed_output_slot (c : PortChain) (a b : Nat) (hp : c.packed a b)
    (hlt : a + b < MAX_PORTS - 2) : c.findSlotForOutputPort = .ok (MAX_PORTS - 2 - b) := by
  obtain ⟨_, _, hem, hout⟩ := hp
  have h512 : MAX_PORTS = 512 := rfl
  refine findSlotForOutputPort_row c (MAX_PORTS - 2 - b) (by omega)
    (fun j hj1 hj2 => outputAt_not_empty c j (hout j (by omega) hj2)) ?_
    (hem (MAX_PORTS - 2 - b) (by omega) (by omega))
  rcases Nat.eq_zero_or_pos b with hb | hb
  · exact Or.inl (by omega)
  · refine Or.inr (hout (MAX_PORTS - 2 - b + 1) (by omega) (by omega))

/-- Every user slot of a full chain without a hole is taken. -/
theorem packed_full_taken (c : PortChain) (a b : Nat) (hp : c.packed a b)
    (hfull : a + b = MAX_PORTS - 2) (j : Nat) (h1 : 1 ≤ j) (h2 : j ≤ MAX_PORTS - 2) :
    c.emptyAt j = false := by
  obtain ⟨_, hin, _, hout⟩ := hp
  rcases Nat.lt_or_ge a j with hj | hj
  · exact outputAt_not_empty c j (hout j (by omega) h2)
  · exact inputAt_not_empty c j (hin j h1 hj)

/-- A full chain without a hole whose last slot is taken has no slot for an
input port. -/
theorem packed_full_input (c : PortChain) (a b : Nat) (hp : c.packed a b)
    (hfull : a + b = MAX_PORTS - 2) (hlast : c.emptyAt (MAX_PORTS - 1) = false) :
    c.findSlotForInputPort = .error (.runtimeError "Cannot findSlotForInputPort.") := by
  rw [findSlotForInputPort_error]
  refine ⟨rfl, fun j hj1 hj2 => ?_⟩
  have hj : c.emptyAt j = false := by
    rcases Nat.lt_or_ge j (MAX_PORTS - 1) with hlt | hge
    · exact packed_full_taken c a b hp hfull j hj1 (by omega)
    · have : j = MAX_PORTS - 1 := by omega
      rw [this]; exact hlast
  simp [PortChain.fitsInput, hj]

/-- A full chain without a hole whose first slot is taken has no slot for an
output port. -/
theorem packed_full_output (c : PortChain) (a b : Nat) (hp : c.packed a b)
    (hfull : a + b = MAX_PORTS - 2) (hfirst : c.emptyAt 0 = false) :
    c.findSlotForOutputPort = .error (.runtimeError "Cannot findSlotForOutputPort.") := by
  rw [findSlotForOutputPort_error]
  refine ⟨rfl, fun j hj => ?_⟩
  have hj : c.emptyAt j = false := by
    rcases Nat.eq_zero_or_pos j with h0 | h0
    · rw [h0]; exact hfirst
    · exact packed_full_taken c a b hp hfull j h0 hj
  simp [PortChain.fitsOutput, hj]

/-- When the user slots are full of input ports and the last slot is empty,
the input search returns the last slot. -/
theorem packed_inputs_overflow (c : PortChain) (hp : c.packed (MAX_PORTS - 2) 0)
    (hlast : c.emptyAt (MAX_PORTS - 1) = true) :
    c.findSlotForInputPort = .ok (MAX_PORTS - 1) := by
  have h512 : MAX_PORTS = 512 := rfl
  refine findSlotForInputPort_row c (MAX_PORTS - 1) (by omega) (by omega)
    (fun j hj1 hj2 => packed_full_taken c _ 0 hp rfl j hj1 (by omega))
    (Or.inr ?_) hlast
  exact hp.2.1 (MAX_PORTS - 1 - 1) (by omega) (by omega)

/-- When the user slots are full of output ports and the first slot is empty,
the output search returns the first slot. -/
theorem packed_outputs_overflow (c : PortChain) (hp : c.packed 0 (MAX_PORTS - 2))
    (hfirst : c.emptyAt 0 = true) :
    c.findSlotForOutputPort = .ok 0 := by
  have h512 : MAX_PORTS = 512 := rfl
  refine findSlotForOutputPort_row c 0 (by omega)
    (fun j hj1 hj2 => packed_full_taken c 0 _ hp (by omega) j hj1 hj2)
    (Or.inr ?_) hfirst
  exact hp.2.2.2 (0 + 1) (by omega) (by omega)

/-- An input port put behind the input ports keeps the chain without a hole. -/
theorem packed_add_input (c : PortChain) (a b : Nat) (hp : c.packed a b)
    (hlen : c.portList.length = MAX_PORTS) (hlt : a + b < MAX_PORTS - 2) (q : Port)
    (hq : q.output = false) :
    (c.setEntry (a + 1) { c.entry (a + 1) with item := some q }).packed (a + 1) b := by
  obtain ⟨_, hin, hem, hout⟩ := hp
  have h512 : MAX_PORTS = 512 := rfl
  refine ⟨by omega, fun j hj1 hj2 => ?_, fun j hj1 hj2 => ?_, fun j hj1 hj2 => ?_⟩
  · by_cases hj : j = a + 1
    · subst hj
      rw [inputAt_setEntry_eq c (a + 1) _ q (by omega) rfl]
      simp [Port.isInput, hq]
    · rw [inputAt_setEntry_ne c (a + 1) j _ hj]
      exact hin j hj1 (by omega)
  · rw [emptyAt_setEntry_ne c (a + 1) j _ (by omega)]
    exact hem j (by omega) hj2
  · rw [outputAt_setEntry_ne c (a + 1) j _ (by omega)]
    exact hout j hj1 hj2

/-- An output port put before the output ports keeps the chain without a
hole. -/
theorem packed_add_output (c : PortChain) (a b : Nat) (hp : c.packed a b)
    (hlen : c.portList.length = MAX_PORTS) (hlt : a + b < MAX_PORTS - 2) (q : Port)
    (hq : q.output = true) :
    (c.setEntry (MAX_PORTS - 2 - b)
      { c.entry (MAX_PORTS - 2 - b) with item := some q }).packed a (b + 1) := by
  obtain ⟨_, hin, hem, hout⟩ := hp
  have h512 : MAX_PORTS = 512 := rfl
  refine ⟨by omega, fun j hj1 hj2 => ?_, fun j hj1 hj2 => ?_, fun j hj1 hj2 => ?_⟩
  · rw [inputAt_setEntry_ne c _ j _ (by omega)]
    exact hin j hj1 hj2
  · rw [emptyAt_setEntry_ne c _ j _ (by omega)]
    exact hem j hj1 (by omega)
  · by_cases hj : j = MAX_PORTS - 2 - b
    · subst hj
      rw [outputAt_setEntry_eq c _ _ q (by omega) rfl]
      simp [Port.isOutput, hq]
    · rw [outputAt_setEntry_ne c _ j _ hj]
      exact hout j (by omega) hj2

/-- A chain without a hole that is not full takes one more port, of either
direction, and stays without a hole. -/
theorem addPort_packed (h : Hooks) (hq : ∀ q c, h q c = Option.none) (p : Port)
    (client : Option Nat) (c : PortChain) (a b : Nat) (hc : c.atRest) (hp : c.packed a b)
    (hlt : a + b < MAX_PORTS - 2) (hs : p.state = .initialized) (hid : -2 ≤ p.internalId)
    (hst : c.state = .created ∨ c.state = .initialized ∨
      ((c.state = .registered ∨ c.state = .running) ∧ client ≠ Option.none)) :
    ∃ c1, c.addPort h (some p) client = (Option.none, .returned c1) ∧ c1.atRest ∧
      c1.state = c.state ∧
      c1.packed (a + (if p.output then 0 else 1)) (b + (if p.output then 1 else 0)) ∧
      ∀ j, (j ≤ a ∨ MAX_PORTS - 1 - b ≤ j) → c1.entry j = c.entry j := by
  obtain ⟨q, hreg⟩ := registerAndStart_quiet h hq c p hs
  obtain ⟨hqo, _⟩ := registerAndStart_same h c p q hs hreg
  have h512 : MAX_PORTS = 512 := rfl
  by_cases ho : p.output = true
  · have hf : c.findSlotForNewPort p = .ok (MAX_PORTS - 2 - b) := by
      simp only [PortChain.findSlotForNewPort, Port.isOutput, ho, if_true]
      exact packed_output_slot c a b hp hlt
    refine ⟨_, addPort_accepts h p client c _ q hs hid hst hf hreg (atRest_useCount c hc _),
      atRest_setEntry c hc _ _ (atRest_useCount c hc _), rfl, ?_, fun j hj => ?_⟩
    · simp only [ho, if_true, Nat.add_zero]
      exact packed_add_output c a b hp hc.1 hlt q (by rw [hqo, ho])
    · exact entry_setEntry_ne c _ j _ (by omega)
  · have ho' : p.output = false := by simpa using ho
    have hf : c.findSlotForNewPort p = .ok (a + 1) := by
      simp only [PortChain.findSlotForNewPort, Port.isOutput, ho', Bool.false_eq_true, if_false]
      exact packed_input_slot c a b hp hlt
    refine ⟨_, addPort_accepts h p client c _ q hs hid hst hf hreg (atRest_useCount c hc _),
      atRest_setEntry c hc _ _ (atRest_useCount c hc _), rfl, ?_, fun j hj => ?_⟩
    · simp only [ho', Bool.false_eq_true, if_false, Nat.add_zero]
      exact packed_add_input c a b hp hc.1 hlt q (by rw [hqo, ho'])
    · exact entry_setEntry_ne c _ j _ (by omega)

/-- A chain without a hole takes as many ports, of any directions, as it has
empty user slots. -/
theorem calls_packed (h : Hooks) (hq : ∀ q c, h q c = Option.none) (client : Option Nat)
    (ports : List Port) (c : PortChain) (a b : Nat) (hc : c.atRest) (hp : c.packed a b)
    (hst : c.state = .created ∨ c.state = .initialized ∨
      ((c.state = .registered ∨ c.state = .running) ∧ client ≠ Option.none))
    (hall : ∀ p ∈ ports, p.state = .initialized ∧ -2 ≤ p.internalId)
    (hn : a + b + ports.length ≤ MAX_PORTS - 2) :
    ∃ c1, PortChain.calls h (ports.map fun p => ChainCall.addPort p client) c = .returned c1 ∧
      c1.atRest ∧ c1.state = c.state ∧
      c1.packed (a + ports.countP fun p => !p.output) (b + ports.countP fun p => p.output) ∧
      ∀ j, (j ≤ a ∨ MAX_PORTS - 1 - b ≤ j) → c1.entry j = c.entry j := by
  induction ports generalizing c a b with
  | nil => exact ⟨c, rfl, hc, rfl, by simpa using hp, fun _ _ => rfl⟩
  | cons p ports ih =>
    have hp1 := hall p (List.mem_cons_self p ports)
    simp only [List.length_cons] at hn
    obtain ⟨c1, hadd, hc1, hs1, hpk1, hent1⟩ :=
      addPort_packed h hq p client c a b hc hp (by omega) hp1.1 hp1.2 hst
    obtain ⟨c2, hcalls, hc2, hs2, hpk2, hent2⟩ :=
      ih c1 _ _ hc1 hpk1 (by rw [hs1]; exact hst)
        (fun x hx => hall x (List.mem_cons_of_mem p hx))
        (by by_cases ho : p.output = true <;> simp [ho] <;> omega)
    refine ⟨c2, ?_, hc2, by rw [hs2, hs1], ?_, fun j hj => ?_⟩
    · simp only [List.map_cons, PortChain.calls, PortChain.call, hadd, ChainOutcome.andThen]
      exact hcalls
    · by_cases ho : p.output = true
      · simp only [ho, if_true, Nat.add_zero] at hpk2
        simp only [List.countP_cons, ho, Bool.not_true, Bool.false_eq_true, if_false,
          Nat.add_zero, if_true]
        have e : b + ((List.countP (fun p => p.output) ports) + 1) =
            b + 1 + List.countP (fun p => p.output) ports := by omega
        rw [e]
        exact hpk2
      · have ho' : p.output = false := by simpa using ho
        simp only [ho', Bool.false_eq_true, if_false, Nat.add_zero] at hpk2
        simp only [List.countP_cons, ho', Bool.not_false, if_true, Bool.false_eq_true,
          if_false, Nat.add_zero]
        have e : a + ((List.countP (fun p => !p.output) ports) + 1) =
            a + 1 + List.countP (fun p => !p.output) ports := by omega
        rw [e]
        exact hpk2
    · rw [hent2 j (by by_cases ho : p.output = true <;> simp [ho] <;> omega)]
      exact hent1 j hj

/-! ## The reserved slots -/

/-- The ports of a test loop are Initialized, have ids from `first` on and
the direction asked for. -/
theorem userPorts_all (o : Bool) (n : Nat) (first : Int) (hf : -2 ≤ first) :
    ∀ p ∈ userPorts o first n, p.state = .initialized ∧ -2 ≤ p.internalId ∧ p.output = o := by
  induction n generalizing first with
  | zero => intro p hp; cases hp
  | succ n ih =>
    intro p hp
    rcases List.mem_cons.mp hp with he | hm
    · subst he
      exact ⟨rfl, hf, rfl⟩
    · exact ih (first + 1) (by omega) p hm

theorem userPorts_length (o : Bool) (n : Nat) (first : Int) :
    (userPorts o first n).length = n := by
  induction n generalizing first with
  | zero => rfl
  | succ n ih => simp [userPorts, ih]

theorem userPorts_countP_output (o : Bool) (n : Nat) (first : Int) :
    (userPorts o first n).countP (fun p => p.output) = if o then n else 0 := by
  induction n generalizing first with
  | zero => simp [userPorts]
  | succ n ih =>
    have hu : (userPort o first).output = o := rfl
    cases o <;> simp [userPorts, List.countP_cons, ih, hu]

theorem userPorts_countP_input (o : Bool) (n : Nat) (first : Int) :
    (userPorts o first n).countP (fun p => !p.output) = if o then 0 else n := by
  induction n generalizing first with
  | zero => simp [userPorts]
  | succ n ih =>
    have hu : (userPort o first).output = o := rfl
    cases o <;> simp [userPorts, List.countP_cons, ih, hu]

/-- Every entry of a constructed chain is an empty, unused envelope. -/
theorem construct_entry (j : Nat) : PortChain.construct.entry j = PtrEnvelope.construct := by
  simp only [PortChain.entry, PortChain.construct, List.getD_eq_getElem?_getD]
  rcases Nat.lt_or_ge j MAX_PORTS with h | h
  · rw [List.getElem?_eq_getElem (by simpa using h)]
    simp
  · rw [List.getElem?_eq_none (by simpa using h)]
    rfl

theorem construct_atRest : PortChain.construct.atRest := by
  refine ⟨by simp [PortChain.construct], fun e he => ?_⟩
  simp only [PortChain.construct] at he
  rw [List.eq_of_mem_replicate he]
  rfl

theorem construct_packed : PortChain.construct.packed 0 0 := by
  refine ⟨by decide, fun j h1 h2 => by omega, fun j _ _ => ?_, fun j h1 h2 => ?_⟩
  · simp [PortChain.emptyAt, construct_entry, PtrEnvelope.isEmpty, PtrEnvelope.construct]
  · have h512 : MAX_PORTS = 512 := rfl
    omega

/-- C24 fails on the code: the slots 0 and `MAX_PORTS - 1` are not reserved in
a chain without control ports.  A constructed chain (state Created, which `addPort` accepts) takes
`MAX_PORTS - 2` input ports into the slots 1 to `MAX_PORTS - 2`; for the next
input port `findSlotForNewPort` returns `MAX_PORTS - 1`.  In the same way,
after `MAX_PORTS - 2` output ports, it returns 0 for the next output port. -/
theorem C24_reserved_slot_returned :
    (∃ c, PortChain.calls quietHooks
          (addCalls Option.none (userPorts false 1 (MAX_PORTS - 2))) PortChain.construct =
        .returned c ∧ c.state = .created ∧
      c.findSlotForNewPort (userPort false 0) = .ok (MAX_PORTS - 1)) ∧
    (∃ c, PortChain.calls quietHooks
          (addCalls Option.none (userPorts true 1 (MAX_PORTS - 2))) PortChain.construct =
        .returned c ∧ c.state = .created ∧
      c.findSlotForNewPort (userPort true 0) = .ok 0) := by
  have h512 : MAX_PORTS = 512 := rfl
  constructor
  · obtain ⟨c, hcalls, _, hs, hpk, hent⟩ :=
      calls_packed quietHooks (fun _ _ => rfl) Option.none (userPorts false 1 (MAX_PORTS - 2))
        PortChain.construct 0 0 construct_atRest construct_packed (Or.inl rfl)
        (fun p hp => ⟨(userPorts_all false _ 1 (by decide) p hp).1,
          (userPorts_all false _ 1 (by decide) p hp).2.1⟩)
        (by rw [userPorts_length]; omega)
    rw [userPorts_countP_input, userPorts_countP_output] at hpk
    simp only [Bool.false_eq_true, if_false, Nat.zero_add] at hpk
    refine ⟨c, hcalls, hs, ?_⟩
    have hlast : c.emptyAt (MAX_PORTS - 1) = true := by
      simp only [PortChain.emptyAt]
      rw [hent (MAX_PORTS - 1) (Or.inr (by omega)), construct_entry]
      rfl
    have hf : c.findSlotForNewPort (userPort false 0) = c.findSlotForInputPort := rfl
    rw [hf]
    exact packed_inputs_overflow c hpk hlast
  · obtain ⟨c, hcalls, _, hs, hpk, hent⟩ :=
      calls_packed quietHooks (fun _ _ => rfl) Option.none (userPorts true 1 (MAX_PORTS - 2))
        PortChain.construct 0 0 construct_atRest construct_packed (Or.inl rfl)
        (fun p hp => ⟨(userPorts_all true _ 1 (by decide) p hp).1,
          (userPorts_all true _ 1 (by decide) p hp).2.1⟩)
        (by rw [userPorts_length]; omega)
    rw [userPorts_countP_input, userPorts_countP_output] at hpk
    simp only [if_true, Nat.zero_add] at hpk
    refine ⟨c, hcalls, hs, ?_⟩
    have hfirst : c.emptyAt 0 = true := by
      simp only [PortChain.emptyAt]
      rw [hent 0 (Or.inl (Nat.le_refl _)), construct_entry]
      rfl
    have hf : c.findSlotForNewPort (userPort true 0) = c.findSlotForOutputPort := rfl
    rw [hf]
    exact packed_outputs_overflow c hpk hfirst

/-! ## The capacity of the chain -/

/-- With both control slots taken the search for a slot returns a user slot. -/
theorem findSlotForNewPort_user_slot (c : PortChain) (p : Port) (i : Nat)
    (h0 : c.emptyAt 0 = false) (h1 : c.emptyAt (MAX_PORTS - 1) = false)
    (hf : c.findSlotForNewPort p = .ok i) : 1 ≤ i ∧ i ≤ MAX_PORTS - 2 := by
  have h512 : MAX_PORTS = 512 := rfl
  have hempty : c.emptyAt i = true := by
    have := findSlotForNewPort_empty c p i hf
    simp [PortChain.emptyAt, PtrEnvelope.isEmpty, this]
  have hne0 : i ≠ 0 := by
    intro h; rw [h, h0] at hempty; cases hempty
  have hne1 : i ≠ MAX_PORTS - 1 := by
    intro h; rw [h, h1] at hempty; cases hempty
  unfold PortChain.findSlotForNewPort at hf
  split at hf
  · have := ((findSlotForOutputPort_ok c i).mp hf).1
    omega
  · have := ((findSlotForInputPort_ok c i).mp hf).2.1
    omega

/-- A slot that holds an input port does not hold an output port. -/
theorem inputAt_not_output (c : PortChain) (i : Nat) (h : c.inputAt i = true) :
    c.outputAt i = false := by
  unfold PortChain.inputAt at h
  unfold PortChain.outputAt
  cases hi : (c.entry i).item with
  | none => rfl
  | some p =>
    rw [hi] at h
    simpa [Port.isInput, Port.isOutput] using h

/-- A slot that holds an output port does not hold an input port. -/
theorem outputAt_not_input (c : PortChain) (i : Nat) (h : c.outputAt i = true) :
    c.inputAt i = false := by
  unfold PortChain.outputAt at h
  unfold PortChain.inputAt
  cases hi : (c.entry i).item with
  | none => rfl
  | some p =>
    rw [hi] at h
    simpa [Port.isInput, Port.isOutput] using h

/-- A full chain without a hole, its control slots taken, refuses every port. -/
theorem addPort_full (h : Hooks) (p : Port) (client : Option Nat) (c : PortChain) (a b : Nat)
    (hp : c.packed a b) (hfull : a + b = MAX_PORTS - 2) (h0 : c.emptyAt 0 = false)
    (h1 : c.emptyAt (MAX_PORTS - 1) = false) :
    ∃ e, c.addPort h (some p) client = (some p, .raised e c) := by
  unfold PortChain.addPort
  simp only
  split
  · exact ⟨_, rfl⟩
  · split
    · exact ⟨_, rfl⟩
    · split
      · exact ⟨_, rfl⟩
      · split
        · exact ⟨_, rfl⟩
        · have hf : ∃ x, c.findSlotForNewPort p = .error x := by
            unfold PortChain.findSlotForNewPort
            split
            · exact ⟨_, packed_full_output c a b hp hfull h0⟩
            · exact ⟨_, packed_full_input c a b hp hfull h1⟩
          obtain ⟨x, hx⟩ := hf
          rw [hx]
          exact ⟨_, rfl⟩

/-- The hole a removed port left in a full chain without a hole takes a port
of the direction of the removed port. -/
theorem readd_after_remove (h : Hooks) (hq : ∀ q c, h q c = Option.none) (client : Option Nat)
    (c : PortChain) (a b : Nat) (hc : c.atRest) (hp : c.packed a b)
    (hfull : a + b = MAX_PORTS - 2)
    (hst : c.state = .created ∨ c.state = .initialized ∨
      ((c.state = .registered ∨ c.state = .running) ∧ client ≠ Option.none))
    (internalId : Int) (i : Nat) (hi : c.findSlotOfPort internalId = (i : Int)) (hi1 : 1 ≤ i)
    (hi2 : i ≤ MAX_PORTS - 2) :
    ∃ removed c1, c.removePort h internalId = (some removed, .returned c1) ∧
      ∀ p : Port, p.state = .initialized → -2 ≤ p.internalId → p.output = removed.output →
        ∃ c2, c1.addPort h (some p) client = (Option.none, .returned c2) ∧
          c2.emptyAt i = false := by
  have h512 : MAX_PORTS = 512 := rfl
  obtain ⟨_, ⟨port, hport, _⟩, _⟩ := (findSlotOfPort_found c internalId i).mp hi
  obtain ⟨q, hq1, hrem⟩ := removePort_held h c internalId i port hi hport (atRest_useCount c hc i)
  obtain ⟨q2, hq2, _, _, hout⟩ := shutdown_same h port
  have hqq : q2 = q := by
    rw [hq2] at hq1
    exact Outcome.returned.inj hq1
  subst hqq
  have hlen : i < c.portList.length := entry_inside c i port hport
  refine ⟨q2, _, hrem, fun p hs hid hdir => ?_⟩
  -- the chain with the hole
  have hent : ∀ k, k ≠ i →
      ({ c.setEntry i { c.entry i with item := Option.none } with
          portCount := c.portCount - 1 } : PortChain).entry k = c.entry k :=
    fun k hk => entry_setEntry_ne c i k _ hk
  have hself : ({ c.setEntry i { c.entry i with item := Option.none } with
          portCount := c.portCount - 1 } : PortChain).entry i =
        { c.entry i with item := Option.none } :=
    entry_setEntry_eq c i _ hlen
  generalize hc1 : ({ c.setEntry i { c.entry i with item := Option.none } with
          portCount := c.portCount - 1 } : PortChain) = c1 at hent hself
  have hstate : c1.state = c.state := by rw [← hc1]; rfl
  have hlen1 : c1.portList.length = c.portList.length := by
    rw [← hc1]; simp [PortChain.setEntry]
  have hempty : c1.emptyAt i = true := by
    simp only [PortChain.emptyAt, hself]
    rfl
  have htaken : ∀ k, 1 ≤ k → k ≤ MAX_PORTS - 2 → k ≠ i → c1.emptyAt k = false := by
    intro k hk1 hk2 hki
    simp only [PortChain.emptyAt, hent k hki]
    exact packed_full_taken c a b hp hfull k hk1 hk2
  have huse : (c1.entry i).useCount = 0 := by
    rw [hself]
    exact atRest_useCount c hc i
  obtain ⟨q3, hreg⟩ := registerAndStart_quiet h hq c1 p hs
  have hf : c1.findSlotForNewPort p = .ok i := by
    unfold PortChain.findSlotForNewPort
    by_cases ho : p.output = true
    · simp only [Port.isOutput, ho, if_true]
      -- the removed port was an output port: it sat behind the input ports
      have hia : a < i := by
        by_contra hle
        have hin := hp.2.1 i hi1 (by omega)
        simp only [PortChain.inputAt, hport, Port.isInput] at hin
        rw [hdir, hout] at ho
        rw [ho] at hin
        cases hin
      refine findSlotForOutputPort_row c1 i hi2
        (fun k hk1 hk2 => htaken k (by omega) hk2 (by omega)) ?_ hempty
      rcases Nat.lt_or_ge i (MAX_PORTS - 2) with hlt | hge
      · right
        simp only [PortChain.outputAt, hent (i + 1) (by omega)]
        exact hp.2.2.2 (i + 1) (by omega) (by omega)
      · exact Or.inl (by omega)
    · have ho' : p.output = false := by simpa using ho
      simp only [Port.isOutput, ho', Bool.false_eq_true, if_false]
      have hia : i ≤ a := by
        by_contra hgt
        have hou := hp.2.2.2 i (by omega) hi2
        simp only [PortChain.outputAt, hport, Port.isOutput] at hou
        rw [hdir, hout] at ho'
        rw [ho'] at hou
        cases hou
      refine findSlotForInputPort_row c1 i hi1 (by omega)
        (fun k hk1 hk2 => htaken k hk1 (by omega) (by omega)) ?_ hempty
      rcases Nat.lt_or_ge 1 i with hlt | hge
      · right
        simp only [PortChain.inputAt, hent (i - 1) (by omega)]
        exact hp.2.1 (i - 1) (by omega) (by omega)
      · exact Or.inl (by omega)
  refine ⟨_, addPort_accepts h p client c1 i q3 hs hid (by rw [hstate]; exact hst) hf hreg huse,
    ?_⟩
  rw [emptyAt_setEntry_eq c1 i _ (by omega)]
  rfl

/-- The chain of the tests is a constructed chain with the two control
ports, Initialized, in the first and in the last slot. -/
theorem controlledChain_eq :
    controlledChain =
      { (PortChain.construct.setEntry 0 (PtrEnvelope.holding (userPort false (-2)))).setEntry
          (MAX_PORTS - 1) (PtrEnvelope.holding (userPort true (-1))) with
        state := .initialized } := by
  decide!

/-- The user slots of the chain of the tests are empty. -/
theorem controlledChain_entry (j : Nat) (h1 : 0 < j) (h2 : j < MAX_PORTS - 1) :
    controlledChain.entry j = PtrEnvelope.construct := by
  rw [controlledChain_eq]
  show ((PortChain.construct.setEntry 0 _).setEntry (MAX_PORTS - 1) _).entry j = _
  rw [entry_setEntry_ne _ _ j _ (by omega), entry_setEntry_ne _ _ j _ (by omega),
    construct_entry]

/-- The chain of the tests holds its two control ports and nothing else. -/
theorem controlledChain_packed : controlledChain.packed 0 0 := by
  have h512 : MAX_PORTS = 512 := rfl
  refine ⟨by decide, fun j h1 h2 => by omega, fun j h1 h2 => ?_, fun j h1 h2 => by omega⟩
  simp only [PortChain.emptyAt, controlledChain_entry j h1 (by omega)]
  rfl

/-- A sequence of calls that starts with an `addPort` that returns. -/
theorem calls_cons_add (h : Hooks) (p : Port) (client : Option Nat) (rest : List ChainCall)
    (c c1 : PortChain) (r : Option Port)
    (hadd : c.addPort h (some p) client = (r, .returned c1)) :
    PortChain.calls h (.addPort p client :: rest) c = PortChain.calls h rest c1 := by
  simp [PortChain.calls, PortChain.call, hadd, ChainOutcome.andThen]

/-- The original wording of C26 fails on the code: the hole a removed port
left does not take a port of the other direction unless it borders the ports
of that direction.  The chain of the tests is filled with `MAX_PORTS - 2`
input ports of ids 1, 2, ...; the port of id 1 is removed from slot 1; the
`addPort` of an output port then raises an error, because slot 2 holds an
input port. -/
theorem C26_hole_refuses_other_direction :
    ∃ full removed hole,
      PortChain.calls quietHooks (addCalls Option.none (userPorts false 1 (MAX_PORTS - 2)))
        controlledChain = .returned full ∧
      full.removePort quietHooks 1 = (some removed, .returned hole) ∧
      hole.addPort quietHooks (some (userPort true 600)) Option.none =
        (some (userPort true 600),
          .raised (.runtimeError "Cannot findSlotForOutputPort.") hole) := by
  have h512 : MAX_PORTS = 512 := rfl
  -- the first call, evaluated
  have hfirst : controlledChain.addPort quietHooks (some (userPort false 1)) Option.none =
      (Option.none, .returned
        (controlledChain.setEntry 1 (PtrEnvelope.holding (userPort false 1)))) := by
    decide!
  have hrest1 : (controlledChain.setEntry 1 (PtrEnvelope.holding (userPort false 1))).atRest :=
    atRest_setEntry controlledChain controlledChain_atRest 1 _ rfl
  have hslot0 : ((controlledChain.setEntry 1
      (PtrEnvelope.holding (userPort false 1))).entry 0).item = some (userPort false (-2)) := by
    decide!
  have hslot1 : ((controlledChain.setEntry 1
      (PtrEnvelope.holding (userPort false 1))).entry 1).item = some (userPort false 1) := by
    decide!
  have hstate1 : (controlledChain.setEntry 1
      (PtrEnvelope.holding (userPort false 1))).state = .initialized := by
    decide!
  have hpk1 : (controlledChain.setEntry 1
      (PtrEnvelope.holding (userPort false 1))).packed 1 0 := by
    refine ⟨by decide, fun j h1 h2 => ?_, fun j h1 h2 => ?_, fun j h1 h2 => by omega⟩
    · have : j = 1 := by omega
      subst this
      simp only [PortChain.inputAt, hslot1]
      rfl
    · simp only [PortChain.emptyAt, entry_setEntry_ne controlledChain 1 j _ (by omega),
        controlledChain_entry j (by omega) (by omega)]
      rfl
  generalize hc1 : controlledChain.setEntry 1 (PtrEnvelope.holding (userPort false 1)) = c1
    at hfirst hrest1 hslot0 hslot1 hstate1 hpk1
  -- the other calls
  obtain ⟨full, hcalls, hrest, hstate, hpk, hent⟩ :=
    calls_packed quietHooks (fun _ _ => rfl) Option.none (userPorts false 2 (MAX_PORTS - 3))
      c1 1 0 hrest1 hpk1 (Or.inr (Or.inl hstate1))
      (fun p hp => ⟨(userPorts_all false _ 2 (by decide) p hp).1,
        (userPorts_all false _ 2 (by decide) p hp).2.1⟩)
      (by rw [userPorts_length]; omega)
  rw [userPorts_countP_input, userPorts_countP_output] at hpk
  simp only [Bool.false_eq_true, if_false, Nat.add_zero] at hpk
  have hpk' : full.packed (MAX_PORTS - 2) 0 := hpk
  have hall : PortChain.calls quietHooks
      (addCalls Option.none (userPorts false 1 (MAX_PORTS - 2))) controlledChain =
        .returned full := by
    have hsplit : userPorts false 1 (MAX_PORTS - 2) =
        userPort false 1 :: userPorts false 2 (MAX_PORTS - 3) := rfl
    rw [hsplit]
    exact (calls_cons_add quietHooks _ _ _ _ _ _ hfirst).trans hcalls
  -- the removal of the port of id 1
  have hfound : full.findSlotOfPort 1 = ((1 : Nat) : Int) := by
    rw [findSlotOfPort_found]
    refine ⟨by omega, ⟨userPort false 1, ?_, rfl⟩, fun j hj port hport => ?_⟩
    · rw [hent 1 (Or.inl (Nat.le_refl _))]
      exact hslot1
    · have hj0 : j = 0 := by omega
      subst hj0
      rw [hent 0 (Or.inl (by omega)), hslot0] at hport
      rw [← Option.some.inj hport]
      decide
  have hport1 : (full.entry 1).item = some (userPort false 1) := by
    rw [hent 1 (Or.inl (Nat.le_refl _))]
    exact hslot1
  obtain ⟨q, _, hrem⟩ :=
    removePort_held quietHooks full 1 1 (userPort false 1) hfound hport1
      (atRest_useCount full hrest 1)
  have hlen : 1 < full.portList.length := entry_inside full 1 _ hport1
  have hentH : ∀ k, k ≠ 1 →
      ({ full.setEntry 1 { full.entry 1 with item := Option.none } with
          portCount := full.portCount - 1 } : PortChain).entry k = full.entry k :=
    fun k hk => entry_setEntry_ne full 1 k _ hk
  have hselfH : ({ full.setEntry 1 { full.entry 1 with item := Option.none } with
          portCount := full.portCount - 1 } : PortChain).entry 1 =
        { full.entry 1 with item := Option.none } :=
    entry_setEntry_eq full 1 _ hlen
  have hstateH : ({ full.setEntry 1 { full.entry 1 with item := Option.none } with
          portCount := full.portCount - 1 } : PortChain).state = .initialized := by
    show full.state = .initialized
    rw [hstate, hstate1]
  generalize hH : ({ full.setEntry 1 { full.entry 1 with item := Option.none } with
          portCount := full.portCount - 1 } : PortChain) = hole at hrem hentH hselfH hstateH
  refine ⟨full, q, hole, hall, hrem, ?_⟩
  -- no slot for an output port
  have hnone : hole.findSlotForOutputPort =
      .error (.runtimeError "Cannot findSlotForOutputPort.") := by
    rw [findSlotForOutputPort_error]
    refine ⟨rfl, fun j hj => ?_⟩
    by_cases hj1 : j = 1
    · subst hj1
      have hin2 : hole.inputAt 2 = true := by
        simp only [PortChain.inputAt, hentH 2 (by decide)]
        exact hpk'.2.1 2 (by decide) (by omega)
      simp [PortChain.fitsOutput, inputAt_not_output hole 2 hin2, h512]
    · have htaken : hole.emptyAt j = false := by
        simp only [PortChain.emptyAt, hentH j hj1]
        rcases Nat.eq_zero_or_pos j with h0 | h0
        · subst h0
          simp [hent 0 (Or.inl (by omega)), hslot0, PtrEnvelope.isEmpty]
        · exact packed_full_taken full _ 0 hpk' rfl j h0 hj
      simp [PortChain.fitsOutput, htaken]
  have hs : (userPort true 600).state = .initialized := rfl
  have hid : ¬ (userPort true 600).internalId < -2 := by decide
  have hf : hole.findSlotForNewPort (userPort true 600) = hole.findSlotForOutputPort := rfl
  unfold PortChain.addPort
  simp only [hs, ne_eq, not_true_eq_false, if_false, hid, hstateH, hf, hnone, reduceCtorEq,
    false_and, and_false]

/-- C26, amended: the capacity boundary.  Take a chain at rest whose control
slots are taken, whose user slots hold `a` input ports and `b` output ports
without a hole, and which is Initialized, or Registered or Running with a
client given; let the hooks never raise.  Then (1) it accepts, one by one and
in any mix of directions, as many Initialized ports of id at least -2 as it
has empty user slots, in particular `MAX_PORTS - 2` when it holds only its
control ports; (2) when it holds `MAX_PORTS - 2` user ports, a further
`addPort` of any port raises an error, leaves the port with the caller and the
chain unchanged; (3) when it holds `MAX_PORTS - 2` user ports and one of them
is removed, the `addPort` of a port of the direction of the removed port
returns, and the port fills the hole. -/
theorem C26_capacity (h : Hooks) (hq : ∀ q c, h q c = Option.none) (client : Option Nat)
    (c : PortChain) (a b : Nat) (hc : c.atRest) (hp : c.packed a b)
    (h0 : c.emptyAt 0 = false) (h1 : c.emptyAt (MAX_PORTS - 1) = false)
    (hst : c.state = .initialized ∨
      ((c.state = .registered ∨ c.state = .running) ∧ client ≠ Option.none)) :
    (∀ ports : List Port, a + b + ports.length ≤ MAX_PORTS - 2 →
      (∀ p ∈ ports, p.state = .initialized ∧ -2 ≤ p.internalId) →
      ∃ c1, PortChain.calls h (addCalls client ports) c = .returned c1 ∧
        c1.packed (a + ports.countP fun p => !p.output)
          (b + ports.countP fun p => p.output)) ∧
    (a + b = MAX_PORTS - 2 →
      ∀ p : Port, ∃ e, c.addPort h (some p) client = (some p, .raised e c)) ∧
    (a + b = MAX_PORTS - 2 →
      ∀ (internalId : Int) (i : Nat), c.findSlotOfPort internalId = (i : Int) → 1 ≤ i →
        i ≤ MAX_PORTS - 2 →
        ∃ removed c1, c.removePort h internalId = (some removed, .returned c1) ∧
          ∀ p : Port, p.state = .initialized → -2 ≤ p.internalId →
            p.output = removed.output →
            ∃ c2, c1.addPort h (some p) client = (Option.none, .returned c2) ∧
              c2.emptyAt i = false) := by
  refine ⟨fun ports hn hall => ?_, fun hfull p => ?_, fun hfull internalId i hi hi1 hi2 => ?_⟩
  · obtain ⟨c1, hcalls, _, _, hpk, _⟩ :=
      calls_packed h hq client ports c a b hc hp (Or.inr hst) hall hn
    exact ⟨c1, hcalls, hpk⟩
  · exact addPort_full h p client c a b hp hfull h0 h1
  · exact readd_after_remove h hq client c a b hc hp hfull (Or.inr hst) internalId i hi hi1 hi2

/-- C26 on the chain of the tests: it takes `MAX_PORTS - 2` output ports. -/
theorem C26_capacity_witness :
    ∃ c1, PortChain.calls quietHooks
        (addCalls Option.none (userPorts true 1 (MAX_PORTS - 2))) controlledChain =
          .returned c1 ∧
      c1.packed (0 + (userPorts true 1 (MAX_PORTS - 2)).countP fun p => !p.output)
        (0 + (userPorts true 1 (MAX_PORTS - 2)).countP fun p => p.output) :=
  (C26_capacity quietHooks (fun _ _ => rfl) Option.none controlledChain 0 0
    controlledChain_atRest controlledChain_packed (by decide!) (by decide!)
    (Or.inl (by decide!))).1 (userPorts true 1 (MAX_PORTS - 2))
    (by rw [userPorts_length]; decide)
    (fun p hp => ⟨(userPorts_all true _ 1 (by decide) p hp).1,
      (userPorts_all true _ 1 (by decide) p hp).2.1⟩)

/-! ## Input ports before output ports -/

/-- An entry beyond the array holds no input port. -/
theorem inputAt_inside (c : PortChain) (i : Nat) (h : c.inputAt i = true) :
    i < c.portList.length := by
  by_contra hge
  simp [PortChain.inputAt, entry_outside c i (by omega), PtrEnvelope.construct] at h

/-- An entry beyond the array holds no output port. -/
theorem outputAt_inside (c : PortChain) (i : Nat) (h : c.outputAt i = true) :
    i < c.portList.length := by
  by_contra hge
  simp [PortChain.outputAt, entry_outside c i (by omega), PtrEnvelope.construct] at h

/-- An `addPort` that returns keeps the control ports in their slots and the
input ports before the output ports. -/
theorem addPort_ordered (h : Hooks) (p : Port) (client : Option Nat) (c c1 : PortChain)
    (r : Option Port) (hctl : c.controlled) (hord : c.ordered)
    (hr : c.addPort h (some p) client = (r, .returned c1)) :
    c1.controlled ∧ c1.ordered := by
  have h512 : MAX_PORTS = 512 := rfl
  obtain ⟨hlen, hin0, hout1⟩ := hctl
  obtain ⟨hs, _, _, _, i, q, hf, hreg, _, hc1⟩ := addPort_returned h p client c c1 r hr
  obtain ⟨hqo, _⟩ := registerAndStart_same h c p q hs hreg
  obtain ⟨hi1, hi2⟩ := findSlotForNewPort_user_slot c p i (inputAt_not_empty c 0 hin0)
    (outputAt_not_empty c _ hout1) hf
  have hempty : c.emptyAt i = true := by
    have := findSlotForNewPort_empty c p i hf
    simp [PortChain.emptyAt, PtrEnvelope.isEmpty, this]
  have hctl1 : c1.controlled := by
    rw [hc1]
    refine ⟨by simp [PortChain.setEntry, hlen], ?_, ?_⟩
    · rw [inputAt_setEntry_ne c i 0 _ (by omega)]; exact hin0
    · rw [outputAt_setEntry_ne c i _ _ (by omega)]; exact hout1
  refine ⟨hctl1, ?_⟩
  by_cases ho : p.output = true
  · -- an output port in slot `i`
    have hfit : c.fitsOutput i = true := by
      have hf' : c.findSlotForOutputPort = .ok i := by
        simpa [PortChain.findSlotForNewPort, Port.isOutput, ho] using hf
      exact ((findSlotForOutputPort_ok c i).mp hf').2.1
    have hnew : ∀ x, c.inputAt x = true → x < i := by
      intro x hx
      have hxi : x ≠ i := by
        intro he
        rw [he] at hx
        rw [inputAt_not_empty c i hx] at hempty
        cases hempty
      simp only [PortChain.fitsOutput, Bool.and_eq_true, Bool.or_eq_true,
        decide_eq_true_eq] at hfit
      rcases hfit.2 with hlast | hnext
      · have hxl := inputAt_inside c x hx
        have hx1 : x ≠ MAX_PORTS - 1 := by
          intro he
          rw [he, outputAt_not_input c _ hout1] at hx
          cases hx
        omega
      · have := hord x (i + 1) hx hnext
        omega
    intro x y hx hy
    rw [hc1] at hx hy
    have hxi : x ≠ i := by
      intro he
      subst he
      rw [inputAt_setEntry_eq c x _ q (by omega) rfl] at hx
      simp [Port.isInput, hqo, ho] at hx
    rw [inputAt_setEntry_ne c i x _ hxi] at hx
    by_cases hyi : y = i
    · rw [hyi]; exact hnew x hx
    · rw [outputAt_setEntry_ne c i y _ hyi] at hy
      exact hord x y hx hy
  · -- an input port in slot `i`
    have ho' : p.output = false := by simpa using ho
    have hfit : c.fitsInput i = true := by
      have hf' : c.findSlotForInputPort = .ok i := by
        simpa [PortChain.findSlotForNewPort, Port.isOutput, ho'] using hf
      exact ((findSlotForInputPort_ok c i).mp hf').2.2.1
    have hnew : ∀ y, c.outputAt y = true → i < y := by
      intro y hy
      have hyi : y ≠ i := by
        intro he
        rw [he] at hy
        rw [outputAt_not_empty c i hy] at hempty
        cases hempty
      simp only [PortChain.fitsInput, Bool.and_eq_true, Bool.or_eq_true,
        decide_eq_true_eq] at hfit
      rcases hfit.2 with hfirst | hprev
      · have hy0 : y ≠ 0 := by
          intro he
          rw [he, inputAt_not_output c _ hin0] at hy
          cases hy
        omega
      · have := hord (i - 1) y hprev hy
        omega
    intro x y hx hy
    rw [hc1] at hx hy
    have hyi : y ≠ i := by
      intro he
      subst he
      rw [outputAt_setEntry_eq c y _ q (by omega) rfl] at hy
      simp [Port.isOutput, hqo, ho'] at hy
    rw [outputAt_setEntry_ne c i y _ hyi] at hy
    by_cases hxi : x = i
    · rw [hxi]; exact hnew y hy
    · rw [inputAt_setEntry_ne c i x _ hxi] at hx
      exact hord x y hx hy

/-- A `removePort` that returns and is not for a control port keeps the control
ports in their slots and the input ports before the output ports. -/
theorem removePort_ordered (h : Hooks) (internalId : Int) (c c1 : PortChain)
    (r : Option Port) (hctl : c.controlled) (hord : c.ordered)
    (hk : c.findSlotOfPort internalId ≠ 0 ∧
      c.findSlotOfPort internalId ≠ ((MAX_PORTS - 1 : Nat) : Int))
    (hr : c.removePort h internalId = (r, .returned c1)) :
    c1.controlled ∧ c1.ordered := by
  obtain ⟨hlen, hin0, hout1⟩ := hctl
  obtain ⟨i, port, q, hi, hport, _, _, hc1⟩ := removePort_returned h c c1 internalId r hr
  have hi0 : i ≠ 0 := by
    intro he
    rw [hi, he] at hk
    exact hk.1 rfl
  have hi1 : i ≠ MAX_PORTS - 1 := by
    intro he
    rw [hi, he] at hk
    exact hk.2 rfl
  have hlen' := entry_inside c i port hport
  have hent : ∀ k, k ≠ i → c1.entry k = c.entry k := by
    intro k hk
    rw [hc1]
    exact entry_setEntry_ne c i k _ hk
  have hself : c1.entry i = { c.entry i with item := Option.none } := by
    rw [hc1]
    exact entry_setEntry_eq c i _ hlen'
  have hsub_in : ∀ x, c1.inputAt x = true → c.inputAt x = true := by
    intro x hx
    by_cases hxi : x = i
    · subst hxi
      simp [PortChain.inputAt, hself] at hx
    · simpa [PortChain.inputAt, hent x hxi] using hx
  have hsub_out : ∀ y, c1.outputAt y = true → c.outputAt y = true := by
    intro y hy
    by_cases hyi : y = i
    · subst hyi
      simp [PortChain.outputAt, hself] at hy
    · simpa [PortChain.outputAt, hent y hyi] using hy
  refine ⟨⟨?_, ?_, ?_⟩, fun x y hx hy => hord x y (hsub_in x hx) (hsub_out y hy)⟩
  · rw [hc1]; simp [PortChain.setEntry, hlen]
  · simpa [PortChain.inputAt, hent 0 (Ne.symm hi0)] using hin0
  · simpa [PortChain.outputAt, hent _ (Ne.symm hi1)] using hout1

/-- A chain without a hole that holds its control ports has its input ports
before its output ports. -/
theorem packed_ordered (c : PortChain) (a b : Nat) (hctl : c.controlled)
    (hp : c.packed a b) : c.ordered := by
  have h512 : MAX_PORTS = 512 := rfl
  obtain ⟨hlen, hin0, hout1⟩ := hctl
  obtain ⟨hab, hin, hem, hout⟩ := hp
  have hleft : ∀ x, c.inputAt x = true → x ≤ a := by
    intro x hx
    by_contra hgt
    have hxl := inputAt_inside c x hx
    rcases Nat.lt_or_ge x (MAX_PORTS - 1 - b) with h1 | h1
    · have := hem x (by omega) h1
      rw [inputAt_not_empty c x hx] at this
      cases this
    · rcases Nat.lt_or_ge x (MAX_PORTS - 1) with h2 | h2
      · rw [outputAt_not_input c x (hout x h1 (by omega))] at hx
        cases hx
      · have hx1 : x = MAX_PORTS - 1 := by omega
        rw [hx1, outputAt_not_input c _ hout1] at hx
        cases hx
  have hright : ∀ y, c.outputAt y = true → MAX_PORTS - 1 - b ≤ y := by
    intro y hy
    by_contra hlt
    rcases Nat.lt_or_ge a y with h1 | h1
    · have := hem y h1 (by omega)
      rw [outputAt_not_empty c y hy] at this
      cases this
    · rcases Nat.eq_zero_or_pos y with h0 | h0
      · rw [h0, inputAt_not_output c _ hin0] at hy
        cases hy
      · rw [inputAt_not_output c y (hin y h0 h1)] at hy
        cases hy
  intro x y hx hy
  have := hleft x hx
  have := hright y hy
  omega

/-- Every sequence of calls of `addPort` and `removePort` that return, none of
them the removal of a control port, keeps the control ports in their slots
and the input ports before the output ports. -/
theorem calls_ordered (h : Hooks) (calls : List ChainCall) (c c1 : PortChain)
    (hctl : c.controlled) (hord : c.ordered) (hk : c.keepsControls h calls = true)
    (hr : PortChain.calls h calls c = .returned c1) : c1.controlled ∧ c1.ordered := by
  induction calls generalizing c with
  | nil =>
    simp only [PortChain.calls, ChainOutcome.returned.injEq] at hr
    rw [← hr]
    exact ⟨hctl, hord⟩
  | cons a rest ih =>
    simp only [PortChain.calls] at hr
    simp only [PortChain.keepsControls, Bool.and_eq_true] at hk
    cases hcall : c.call h a with
    | raised e c2 => rw [hcall] at hr; simp [ChainOutcome.andThen] at hr
    | blocked c2 => rw [hcall] at hr; simp [ChainOutcome.andThen] at hr
    | returned c2 =>
      rw [hcall] at hr hk
      simp only [ChainOutcome.andThen] at hr
      simp only [ChainOutcome.chain] at hk
      have hstep : c2.controlled ∧ c2.ordered := by
        cases a with
        | addPort p client =>
          simp only [PortChain.call] at hcall
          exact addPort_ordered h p client c c2 (c.addPort h (some p) client).1 hctl hord
            (Prod.ext rfl hcall)
        | removePort internalId =>
          simp only [PortChain.call] at hcall
          have hk1 := hk.1
          simp only [decide_eq_true_eq] at hk1
          exact removePort_ordered h internalId c c2 (c.removePort h internalId).1 hctl hord hk1
            (Prod.ext rfl hcall)
      exact ih c2 hstep.1 hstep.2 hk.2 hr

/-- C25, amended: in a chain that holds its control ports in the slots 0 and
`MAX_PORTS - 1` and whose input ports sit before its output ports (as in a
chain that has just been initialized), after any sequence of calls of
`addPort` and `removePort` that returned, none of them the removal of a
control port, every held input port sits at a smaller slot index than every
held output port. -/
theorem C25_inputs_before_outputs (h : Hooks) (calls : List ChainCall) (c c1 : PortChain)
    (hctl : c.controlled) (hord : c.ordered) (hk : c.keepsControls h calls = true)
    (hr : PortChain.calls h calls c = .returned c1) :
    ∀ i j, c1.inputAt i = true → c1.outputAt j = true → i < j :=
  (calls_ordered h calls c c1 hctl hord hk hr).2

/-- The chain of the tests holds its control ports. -/
theorem controlledChain_controlled : controlledChain.controlled :=
  ⟨by decide!, by decide!, by decide!⟩

/-- C25 on the chain of the tests, for two input ports and one output port
added, the first input port removed and another output port added. -/
theorem C25_inputs_before_outputs_witness :
    controlledChain.controlled ∧ controlledChain.ordered ∧
    controlledChain.keepsControls quietHooks mixedCalls = true ∧
    ∀ i j,
      (PortChain.calls quietHooks mixedCalls controlledChain).chain.inputAt i = true →
      (PortChain.calls quietHooks mixedCalls controlledChain).chain.outputAt j = true →
      i < j :=
  ⟨controlledChain_controlled,
    packed_ordered controlledChain 0 0 controlledChain_controlled controlledChain_packed,
    by decide!,
    C25_inputs_before_outputs quietHooks mixedCalls controlledChain
      (PortChain.calls quietHooks mixedCalls controlledChain).chain controlledChain_controlled
      (packed_ordered controlledChain 0 0 controlledChain_controlled controlledChain_packed)
      (by decide!) (by decide!)⟩

/-! ## The life-cycle of the chain -/

/-- When the loop over the ports completes, every held port is one that the
member returned. -/
theorem forEachPort_completed (f : Port → Outcome) (P : Port → Prop)
    (hf : ∀ p q, f p = .returned q → P q) (l l1 : List PtrEnvelope)
    (hr : forEachPort f l = (.completed, l1)) : allHeld P l1 := by
  induction l generalizing l1 with
  | nil =>
    simp only [forEachPort, Prod.mk.injEq, true_and] at hr
    rw [← hr]
    intro e he
    cases he
  | cons entry rest ih =>
    simp only [forEachPort] at hr
    cases hi : entry.makeAccessor.item with
    | none =>
      rw [hi] at hr
      simp only [Prod.mk.injEq] at hr
      obtain ⟨h1, h2⟩ := hr
      have hrest := ih (forEachPort f rest).2 (Prod.ext h1 rfl)
      rw [← h2]
      intro e he p hp
      rcases List.mem_cons.mp he with he1 | he1
      · rw [he1, accessor_scope] at hp
        have hi' : entry.item = Option.none := hi
        rw [hi'] at hp
        cases hp
      · exact hrest e he1 p hp
    | some port =>
      rw [hi] at hr
      simp only at hr
      cases hfp : f port with
      | raised x q => rw [hfp] at hr; simp at hr
      | blocked q => rw [hfp] at hr; simp at hr
      | returned q =>
        rw [hfp] at hr
        simp only [Prod.mk.injEq] at hr
        obtain ⟨h1, h2⟩ := hr
        have hrest := ih (forEachPort f rest).2 (Prod.ext h1 rfl)
        rw [← h2]
        intro e he p hp
        rcases List.mem_cons.mp he with he1 | he1
        · rw [he1] at hp
          have : q = p := Option.some.inj hp
          rw [← this]
          exact hf port q hfp
        · exact hrest e he1 p hp

/-- The loop over the ports completes when the member returns on every held
port. -/
theorem forEachPort_completes (f : Port → Outcome) (Q P : Port → Prop)
    (hf : ∀ p, Q p → ∃ q, f p = .returned q ∧ P q) (l : List PtrEnvelope)
    (hl : allHeld Q l) :
    ∃ l1, forEachPort f l = (.completed, l1) ∧ allHeld P l1 ∧ l1.length = l.length ∧
      ∀ i, (l1.getD i PtrEnvelope.construct).isEmpty = (l.getD i PtrEnvelope.construct).isEmpty := by
  induction l with
  | nil => exact ⟨[], rfl, (fun e he => absurd he (List.not_mem_nil e)), rfl, fun _ => rfl⟩
  | cons entry rest ih =>
    obtain ⟨l1, hl1, hP, hlen, hem⟩ :=
      ih (fun e he => hl e (List.mem_cons_of_mem entry he))
    cases hi : entry.item with
    | none =>
      have hi' : entry.makeAccessor.item = Option.none := hi
      refine ⟨entry :: l1, ?_, ?_, by simp [hlen], ?_⟩
      · simp only [forEachPort, hi', hl1, accessor_scope]
      · intro e he p hp
        rcases List.mem_cons.mp he with he1 | he1
        · rw [he1, hi] at hp
          cases hp
        · exact hP e he1 p hp
      · intro i
        cases i with
        | zero => rfl
        | succ n => simpa using hem n
    | some port =>
      have hi' : entry.makeAccessor.item = some port := hi
      obtain ⟨q, hq, hPq⟩ := hf port (hl entry (List.mem_cons_self entry rest) port hi)
      refine ⟨PtrEnvelope.decrementUseCount { entry.makeAccessor with item := some q } :: l1,
        ?_, ?_, by simp [hlen], ?_⟩
      · simp only [forEachPort, hi', hq, hl1]
      · intro e he p hp
        rcases List.mem_cons.mp he with he1 | he1
        · rw [he1] at hp
          have : q = p := Option.some.inj hp
          rw [← this]
          exact hPq
        · exact hP e he1 p hp
      · intro i
        cases i with
        | zero => simp [PtrEnvelope.isEmpty, PtrEnvelope.decrementUseCount, hi]
        | succ n => simpa using hem n

/-- A life-cycle member of the chain that returns leaves every held port as
the member of the port returned it, and the chain in the new state. -/
theorem forAllPorts_returned (f : Port → Outcome) (P : Port → Prop)
    (hf : ∀ p q, f p = .returned q → P q) (next : ChainState) (c c1 : PortChain)
    (hr : c.forAllPorts f next = .returned c1) :
    c1.state = next ∧ allHeld P c1.portList := by
  unfold PortChain.forAllPorts at hr
  cases hl : forEachPort f c.portList with
  | mk e l =>
    rw [hl] at hr
    cases e with
    | completed =>
      simp only [ChainOutcome.returned.injEq] at hr
      rw [← hr]
      exact ⟨rfl, forEachPort_completed f P hf c.portList l hl⟩
    | raised x => simp at hr
    | blocked => simp at hr

/-- A life-cycle member of the chain returns when the member of the port
returns on every held port. -/
theorem forAllPorts_completes (f : Port → Outcome) (Q P : Port → Prop)
    (hf : ∀ p, Q p → ∃ q, f p = .returned q ∧ P q) (next : ChainState) (c : PortChain)
    (hl : allHeld Q c.portList) :
    ∃ c1, c.forAllPorts f next = .returned c1 ∧ c1.state = next ∧ allHeld P c1.portList ∧
      ∀ i, (c1.entry i).isEmpty = (c.entry i).isEmpty := by
  obtain ⟨l1, hl1, hP, _, hem⟩ := forEachPort_completes f Q P hf c.portList hl
  refine ⟨{ c with portList := l1, state := next }, ?_, rfl, hP, hem⟩
  simp [PortChain.forAllPorts, hl1]

/-- A sequence returned: so did its first part. -/
theorem andThen_returned (o : Outcome) (k : Port → Outcome) (q : Port)
    (hr : o.andThen k = .returned q) : ∃ p, o = .returned p ∧ k p = .returned q := by
  cases o with
  | returned p => exact ⟨p, rfl, hr⟩
  | raised e p => simp [Outcome.andThen] at hr
  | blocked p => simp [Outcome.andThen] at hr

theorem initialize_state (h : Hooks) (p q : Port)
    (hr : Port.initialize h p = .returned q) : q.state = .initialized := by
  unfold Port.initialize at hr
  split at hr
  · simp [throwCannot] at hr
  · obtain ⟨p1, _, hk⟩ := andThen_returned _ _ q hr
    rw [← Outcome.returned.inj hk]

theorem registerAtServer_state (h : Hooks) (p q : Port)
    (hr : Port.registerAtServer h p = .returned q) : q.state = .registered := by
  unfold Port.registerAtServer at hr
  split at hr
  · simp [throwCannot] at hr
  · obtain ⟨p1, _, hk⟩ := andThen_returned _ _ q hr
    rw [← Outcome.returned.inj hk]

theorem start_state (h : Hooks) (p q : Port)
    (hr : Port.start h p = .returned q) : q.state = .running := by
  unfold Port.start at hr
  split at hr
  · simp [throwCannot] at hr
  · obtain ⟨p1, _, hk⟩ := andThen_returned _ _ q hr
    rw [← Outcome.returned.inj hk]

theorem stop_state (h : Hooks) (force : Bool) (env : List Port) (p q : Port)
    (hr : Port.stop h force env p = .returned q) : q.state = .stopped := by
  unfold Port.stop at hr
  split at hr
  · rw [← Outcome.returned.inj hr]
  · split at hr
    · simp [throwCannot] at hr
    · obtain ⟨p1, _, hk⟩ := andThen_returned _ _ q hr
      rw [← Outcome.returned.inj hk]

theorem unregisterAtServer_state (h : Hooks) (p q : Port)
    (hr : Port.unregisterAtServer h p = .returned q) : q.state = .unregistered := by
  unfold Port.unregisterAtServer at hr
  split at hr
  · simp [throwCannot] at hr
  · obtain ⟨p1, _, hk⟩ := andThen_returned _ _ q hr
    rw [← Outcome.returned.inj hk]

theorem uninitialize_state (h : Hooks) (p q : Port)
    (hr : Port.uninitialize h p = .returned q) : q.state = .deletable := by
  unfold Port.uninitialize at hr
  split at hr
  · simp [throwCannot] at hr
  · obtain ⟨p1, _, hk⟩ := andThen_returned _ _ q hr
    rw [← Outcome.returned.inj hk]

/-- Writing an entry whose port satisfies `P` into an array whose ports do. -/
theorem allHeld_set (P : Port → Prop) (l : List PtrEnvelope) (i : Nat) (e : PtrEnvelope)
    (hl : allHeld P l) (he : ∀ p, e.item = some p → P p) : allHeld P (l.set i e) := by
  intro x hx p hp
  rcases List.mem_or_eq_of_mem_set hx with h | h
  · exact hl x h p hp
  · rw [h] at hp
    exact he p hp

/-- A call of `addPort_impl` that returns, on a chain that is neither
Registered nor Running: the port went into the slot as it was. -/
theorem addPort_impl_returned (h : Hooks) (p : Port) (i : Nat) (c c1 : PortChain)
    (r : Option Port) (h1 : c.state ≠ .registered) (h2 : c.state ≠ .running)
    (hr : c.addPort_impl h p i = (r, .returned c1)) :
    r = Option.none ∧ c1 = c.setEntry i { c.entry i with item := some p } ∧
      (c.entry i).item = Option.none ∧ (c.entry i).useCount = 0 := by
  unfold PortChain.addPort_impl at hr
  have hreg : c.registerAndStart h p = .returned p := by
    simp [PortChain.registerAndStart, h1, h2, Outcome.andThen]
  rw [hreg] at hr
  simp only at hr
  cases hi : (c.entry i).item with
  | some x =>
    simp [PtrEnvelope.setItemWait, hi] at hr
  | none =>
    by_cases hu : (c.entry i).useCount = 0
    · simp only [PtrEnvelope.setItemWait, Option.isSome_some, hi, Option.isSome_none,
        Bool.true_eq_false, if_false, Bool.false_eq_true] at hr
      rw [waitUnused_nil_unused _ hu] at hr
      simp only [Prod.mk.injEq, ChainOutcome.returned.injEq] at hr
      exact ⟨hr.1.symm, hr.2.symm, rfl, hu⟩
    · simp only [PtrEnvelope.setItemWait, Option.isSome_some, hi, Option.isSome_none,
        Bool.true_eq_false, if_false, Bool.false_eq_true] at hr
      rw [waitUnused_nil_busy _ hu] at hr
      simp at hr

/-- A call of `initialize` of the chain that returns: the chain was Created,
both controls were initialized and went into the first and the last slot. -/
theorem initialize_returned (h : Hooks) (s e : Port) (c c1 : PortChain)
    (r : Option Port × Option Port) (hr : c.initialize h s e = (r, .returned c1)) :
    c.state = .created ∧ s.isInput = true ∧ s.state = .created ∧ e.isOutput = true ∧
    e.state = .created ∧
    ∃ s1 e1, Port.initialize h s = .returned s1 ∧ Port.initialize h e = .returned e1 ∧
      r = (Option.none, Option.none) ∧
      c1 = { (c.setEntry 0 { c.entry 0 with item := some s1 }).setEntry (MAX_PORTS - 1)
              { (c.setEntry 0 { c.entry 0 with item := some s1 }).entry (MAX_PORTS - 1) with
                  item := some e1 } with state := .initialized } := by
  unfold PortChain.initialize PortChain.initialize_impl at hr
  split at hr
  · simp at hr
  · split at hr
    · simp at hr
    · split at hr
      · simp at hr
      · split at hr
        · simp at hr
        · split at hr
          · simp at hr
          · rename_i hc hsi hss hei hes
            have hc' : c.state = .created := by simpa using hc
            cases hs1 : Port.initialize h s with
            | raised x s1 => rw [hs1] at hr; simp at hr
            | blocked s1 => rw [hs1] at hr; simp at hr
            | returned s1 =>
              rw [hs1] at hr
              simp only at hr
              cases he1 : Port.initialize h e with
              | raised x e1 => rw [he1] at hr; simp at hr
              | blocked e1 => rw [he1] at hr; simp at hr
              | returned e1 =>
                rw [he1] at hr
                simp only at hr
                cases ha : c.addPort_impl h s1 0 with
                | mk left o =>
                  rw [ha] at hr
                  cases o with
                  | raised x c2 => simp at hr
                  | blocked c2 => simp at hr
                  | returned c2 =>
                    simp only at hr
                    obtain ⟨hl, hc2, _, _⟩ := addPort_impl_returned h s1 0 c c2 left
                      (by rw [hc']; decide) (by rw [hc']; decide) ha
                    cases hb : c2.addPort_impl h e1 (MAX_PORTS - 1) with
                    | mk right o2 =>
                      rw [hb] at hr
                      cases o2 with
                      | raised x c3 => simp at hr
                      | blocked c3 => simp at hr
                      | returned c3 =>
                        simp only [Prod.mk.injEq, ChainOutcome.returned.injEq] at hr
                        have hst2 : c2.state = .created := by rw [hc2]; exact hc'
                        obtain ⟨hrr, hc3, _, _⟩ := addPort_impl_returned h e1 _ c2 c3 right
                          (by rw [hst2]; decide) (by rw [hst2]; decide) hb
                        refine ⟨hc', by simpa using hsi, by simpa using hss, by simpa using hei,
                          by simpa using hes, s1, e1, rfl, rfl, ?_, ?_⟩
                        · rw [← hr.1, hl, hrr]
                        · rw [← hr.2, hc3, hc2]

/-- C30: state compatibility between chain and ports.  After each chain
operation `registerAtServer`, `start`, `stop`, `unregisterAtServer` or
`uninitialize` that returned, the chain is in its new state and every port it
holds is in the port state of the same name (Registered, Running, Stopped,
Unregistered, Deletable); after an `initialize` that returned, on a Created
chain whose ports are Initialized as `addPort` left them, the chain is
Initialized and so is every port it holds, the two controls included.  A
chain operation called in a chain state it does not accept raises an error
and leaves the chain, hence every held port and its log of hook invocations,
as it was; a refused `initialize` also leaves the two controls as they were. -/
theorem C30_state_compatibility (h : Hooks) (c : PortChain) :
    (∀ s e r c1, allHeld (fun p => p.state = .initialized) c.portList →
      c.initialize h s e = (r, .returned c1) →
      c1.state = .initialized ∧ allHeld (fun p => p.state = .initialized) c1.portList) ∧
    (∀ c1, c.registerAtServer h = .returned c1 →
      c1.state = .registered ∧ allHeld (fun p => p.state = .registered) c1.portList) ∧
    (∀ c1, c.start h = .returned c1 →
      c1.state = .running ∧ allHeld (fun p => p.state = .running) c1.portList) ∧
    (∀ c1, c.stop h = .returned c1 →
      c1.state = .stopped ∧ allHeld (fun p => p.state = .stopped) c1.portList) ∧
    (∀ c1, c.unregisterAtServer h = .returned c1 →
      c1.state = .unregistered ∧ allHeld (fun p => p.state = .unregistered) c1.portList) ∧
    (∀ c1, c.uninitialize h = .returned c1 →
      c1.state = .deletable ∧ allHeld (fun p => p.state = .deletable) c1.portList) ∧
    (c.state ≠ .created → ∀ s e, c.initialize h s e =
      ((some s, some e), .raised (.runtimeError "Cannot initialize in wrong state.") c)) ∧
    (c.state ≠ .initialized → c.registerAtServer h =
      .raised (.runtimeError "Cannot registerAtServer in wrong state.") c) ∧
    (c.state ≠ .registered → c.start h =
      .raised (.runtimeError "Cannot start in wrong state.") c) ∧
    (c.state ≠ .running → c.stop h =
      .raised (.runtimeError "Cannot stop in wrong state.") c) ∧
    (c.state ≠ .stopped → c.state ≠ .registered → c.unregisterAtServer h =
      .raised (.runtimeError "Cannot unregisterAtServer in wrong state.") c) ∧
    (c.state ≠ .unregistered → c.state ≠ .initialized → c.state ≠ .created →
      c.uninitialize h = .raised (.runtimeError "Cannot un-initialize in wrong state.") c) := by
  refine ⟨?_, ?_, ?_, ?_, ?_, ?_, ?_, ?_, ?_, ?_, ?_, ?_⟩
  · intro s e r c1 hheld hr
    obtain ⟨_, _, _, _, _, s1, e1, hs1, he1, _, hc1⟩ := initialize_returned h s e c c1 r hr
    rw [hc1]
    refine ⟨rfl, ?_⟩
    show allHeld _ ((c.portList.set 0 _).set (MAX_PORTS - 1) _)
    exact allHeld_set _ _ _ _
      (allHeld_set _ _ _ _ hheld (fun p hp => by
        rw [← Option.some.inj hp]; exact initialize_state h s s1 hs1))
      (fun p hp => by rw [← Option.some.inj hp]; exact initialize_state h e e1 he1)
  · intro c1 hr
    unfold PortChain.registerAtServer PortChain.registerAtServer_impl at hr
    split at hr
    · simp at hr
    · exact forAllPorts_returned _ _ (registerAtServer_state h) _ c c1 hr
  · intro c1 hr
    unfold PortChain.start PortChain.start_impl at hr
    split at hr
    · simp at hr
    · exact forAllPorts_returned _ _ (start_state h) _ c c1 hr
  · intro c1 hr
    unfold PortChain.stop PortChain.stop_impl at hr
    split at hr
    · simp at hr
    · split at hr
      · simp at hr
      · exact forAllPorts_returned _ _ (fun p q hq => stop_state h _ [] p q hq) _ _ c1 hr
  · intro c1 hr
    unfold PortChain.unregisterAtServer PortChain.unregisterAtServer_impl at hr
    split at hr
    · simp at hr
    · exact forAllPorts_returned _ _ (unregisterAtServer_state h) _ c c1 hr
  · intro c1 hr
    unfold PortChain.uninitialize PortChain.uninitialize_impl at hr
    split at hr
    · simp at hr
    · exact forAllPorts_returned _ _ (uninitialize_state h) _ c c1 hr
  · intro hs s e
    simp [ PortChain.initialize, PortChain.initialize_impl, hs]
  · intro hs
    simp [PortChain.registerAtServer, PortChain.registerAtServer_impl, hs]
  · intro hs
    simp [PortChain.start, PortChain.start_impl, hs]
  · intro hs
    simp [PortChain.stop, PortChain.stop_impl, hs]
  · intro h1 h2
    simp [PortChain.unregisterAtServer, PortChain.unregisterAtServer_impl, h1, h2]
  · intro h1 h2 h3
    simp [ PortChain.uninitialize, PortChain.uninitialize_impl, h1, h2, h3]

/-- C30 on the chain of the tests: after `registerAtServer` the chain and its
two control ports are Registered. -/
theorem C30_state_compatibility_witness :
    registeredChain.state = .registered ∧
      allHeld (fun p => p.state = .registered) registeredChain.portList :=
  (C30_state_compatibility quietHooks controlledChain).2.1 registeredChain (by decide!)

/-! ## Shutdown of the chain -/

theorem uninitialize_quiet (h : Hooks) (hq : ∀ q c, h q c = Option.none) (p : Port)
    (hs : p.state = .initialized ∨ p.state = .unregistered) :
    ∃ q, Port.uninitialize h p = .returned q ∧ q.state = .deletable := by
  rcases hs with hs | hs <;>
    exact ⟨{ p with calls := p.calls ++ [.uninitialize_impl], state := .deletable },
      by simp [ Port.uninitialize, hs, callHook, hq, Outcome.andThen], rfl⟩

theorem unregisterAtServer_quiet (h : Hooks) (hq : ∀ q c, h q c = Option.none) (p : Port)
    (hs : p.state = .stopped ∨ p.state = .registered) :
    ∃ q, Port.unregisterAtServer h p = .returned q ∧ q.state = .unregistered := by
  rcases hs with hs | hs <;>
    exact ⟨{ p with calls := p.calls ++ [.unregister_impl], state := .unregistered },
      by simp [Port.unregisterAtServer, hs, callHook, hq, Outcome.andThen], rfl⟩

theorem stop_quiet (h : Hooks) (hq : ∀ q c, h q c = Option.none) (force : Bool) (p : Port)
    (hs : p.state = .running ∨ p.state = .stoppedOnError) :
    ∃ q, Port.stop h force [] p = .returned q ∧ q.state = .stopped := by
  rcases stop_cases h (fun q => hq q .stop_impl) force p with ⟨_, hr⟩ | ⟨⟨h1, h2, _⟩, _⟩ |
    ⟨_, r, hr, hst, _⟩
  · exact ⟨_, hr, rfl⟩
  · rcases hs with hs | hs
    · exact absurd hs h2
    · exact absurd hs h1
  · exact ⟨r, hr, hst⟩

/-- With hooks that return, `uninitialize_impl` of the chain returns. -/
theorem uninitialize_impl_quiet (h : Hooks) (hq : ∀ q c, h q c = Option.none) (c : PortChain)
    (hst : c.state = .unregistered ∨ c.state = .initialized ∨ c.state = .created)
    (hl : allHeld (fun p => p.state = .initialized ∨ p.state = .unregistered) c.portList) :
    ∃ c1, c.uninitialize_impl h = .returned c1 ∧ c1.state = .deletable ∧
      allHeld (fun p => p.state = .deletable) c1.portList := by
  have hg : ¬ (c.state ≠ .unregistered ∧ c.state ≠ .initialized ∧ c.state ≠ .created) := by
    rcases hst with hs | hs | hs <;> simp [hs]
  obtain ⟨c1, hr, hs1, hP, _⟩ := forAllPorts_completes ( Port.uninitialize h) _
    (fun p => p.state = .deletable) (uninitialize_quiet h hq) .deletable c hl
  exact ⟨c1, by simp only [PortChain.uninitialize_impl, hg, if_false]; exact hr, hs1, hP⟩

/-- With hooks that return, `unregisterAtServer_impl` of the chain returns. -/
theorem unregisterAtServer_impl_quiet (h : Hooks) (hq : ∀ q c, h q c = Option.none)
    (c : PortChain) (hst : c.state = .stopped ∨ c.state = .registered)
    (hl : allHeld (fun p => p.state = .stopped ∨ p.state = .registered) c.portList) :
    ∃ c1, c.unregisterAtServer_impl h = .returned c1 ∧ c1.state = .unregistered ∧
      allHeld (fun p => p.state = .unregistered) c1.portList := by
  have hg : ¬ (c.state ≠ .stopped ∧ c.state ≠ .registered) := by
    rcases hst with hs | hs <;> simp [hs]
  obtain ⟨c1, hr, hs1, hP, _⟩ := forAllPorts_completes (Port.unregisterAtServer h) _
    (fun p => p.state = .unregistered) (unregisterAtServer_quiet h hq) .unregistered c hl
  exact ⟨c1, by simp only [PortChain.unregisterAtServer_impl, hg, if_false]; exact hr, hs1, hP⟩

/-- With hooks that return, `stop_impl` of a Running chain that holds its end
control port returns. -/
theorem stop_impl_quiet (h : Hooks) (hq : ∀ q c, h q c = Option.none) (c : PortChain)
    (hst : c.state = .running)
    (hl : allHeld (fun p => p.state = .running ∨ p.state = .stoppedOnError) c.portList)
    (hend : (c.entry (MAX_PORTS - 1)).item ≠ Option.none) :
    ∃ c1, c.stop_impl h = .returned c1 ∧ c1.state = .stopped ∧
      allHeld (fun p => p.state = .stopped) c1.portList := by
  cases he : (c.entry (MAX_PORTS - 1)).item with
  | none => exact absurd he hend
  | some endControl =>
    obtain ⟨c1, hr, hs1, hP, _⟩ := forAllPorts_completes
      (fun port =>
        Port.stop h
          (match endControl.waitForTerminatedSubstate [] with
            | .ok _ => false
            | .error _ => true) [] port) _
      (fun p => p.state = .stopped) (fun p hp => stop_quiet h hq _ p hp) .stopped
      { c with lastCycle := true } hl
    refine ⟨c1, ?_, hs1, hP⟩
    have hg : ¬ (c.state ≠ .running) := by simp [hst]
    unfold PortChain.stop_impl
    rw [if_neg hg]
    simp only [he]
    exact hr

/-- Weakening of the property the held ports have. -/
theorem allHeld_mono (P Q : Port → Prop) (hpq : ∀ p, P p → Q p) (l : List PtrEnvelope)
    (hl : allHeld P l) : allHeld Q l :=
  fun e he p hp => hpq p (hl e he p hp)

/-- With hooks that return, `shutdown` of a chain whose ports are in a state
that goes with the state of the chain returns, with the chain and every held
port Deletable. -/
theorem chain_shutdown_quiet (h : Hooks) (hq : ∀ q c, h q c = Option.none) (c : PortChain)
    (hcomp : c.compatible) :
    ∃ c1, c.shutdown h = .returned c1 ∧ c1.state = .deletable ∧
      allHeld (fun p => p.state = .deletable) c1.portList := by
  obtain ⟨hci, hcr, hcu, hcs, hcn, hcd⟩ := hcomp
  unfold PortChain.shutdown PortChain.shutdown_impl
  cases hs : c.state with
  | created =>
    obtain ⟨c1, hr, hs1, hP⟩ := uninitialize_impl_quiet h hq c (Or.inr (Or.inr hs))
      (allHeld_mono _ _ (fun p hp => Or.inl hp) _ (hci (Or.inl hs)))
    exact ⟨{ c1 with state := .deletable }, by simp [hr, ChainOutcome.andThen], rfl, hP⟩
  | initialized =>
    exact uninitialize_impl_quiet h hq c (Or.inr (Or.inl hs))
      (allHeld_mono _ _ (fun p hp => Or.inl hp) _ (hci (Or.inr hs)))
  | registered =>
    obtain ⟨c1, hr, hs1, hP⟩ := unregisterAtServer_impl_quiet h hq c (Or.inr hs)
      (allHeld_mono _ _ (fun p hp => Or.inr hp) _ (hcr hs))
    obtain ⟨c2, hr2, hs2, hP2⟩ := uninitialize_impl_quiet h hq c1 (Or.inl hs1)
      (allHeld_mono _ _ (fun p hp => Or.inr hp) _ hP)
    exact ⟨c2, by simp [hr, ChainOutcome.andThen, hr2], hs2, hP2⟩
  | running =>
    obtain ⟨c0, hr0, hs0, hP0⟩ := stop_impl_quiet h hq c hs (hcu hs).1 (hcu hs).2
    obtain ⟨c1, hr, hs1, hP⟩ := unregisterAtServer_impl_quiet h hq c0 (Or.inl hs0)
      (allHeld_mono _ _ (fun p hp => Or.inl hp) _ hP0)
    obtain ⟨c2, hr2, hs2, hP2⟩ := uninitialize_impl_quiet h hq c1 (Or.inl hs1)
      (allHeld_mono _ _ (fun p hp => Or.inr hp) _ hP)
    exact ⟨c2, by simp [hr0, hr, ChainOutcome.andThen, hr2], hs2, hP2⟩
  | stopped =>
    obtain ⟨c1, hr, hs1, hP⟩ := unregisterAtServer_impl_quiet h hq c (Or.inl hs)
      (allHeld_mono _ _ (fun p hp => Or.inl hp) _ (hcs hs))
    obtain ⟨c2, hr2, hs2, hP2⟩ := uninitialize_impl_quiet h hq c1 (Or.inl hs1)
      (allHeld_mono _ _ (fun p hp => Or.inr hp) _ hP)
    exact ⟨c2, by simp [hr, ChainOutcome.andThen, hr2], hs2, hP2⟩
  | unregistered =>
    exact uninitialize_impl_quiet h hq c (Or.inl hs)
      (allHeld_mono _ _ (fun p hp => Or.inr hp) _ (hcn hs))
  | deletable =>
    exact ⟨c, rfl, hs, hcd hs⟩

/-- The original wording of C29 fails on the code: the `shutdown` of the chain
does not catch what a port raises.  On the chain of the tests, Initialized,
with an `uninitialize_impl` that raises, `shutdown` raises at the start
control port; the chain stays Initialized and its end control port stays
Initialized in the last slot. -/
theorem C29_shutdown_raises :
    ∃ c1,
      controlledChain.shutdown
          (faultyHooks (fun c => decide (c = .uninitialize_impl)) (.thrown 1)) =
        .raised (.ofPort (.thrown 1)) c1 ∧
      c1.state = .initialized ∧
      (c1.entry (MAX_PORTS - 1)).item = some (userPort true (-1)) :=
  ⟨(controlledChain.shutdown
      (faultyHooks (fun c => decide (c = .uninitialize_impl)) (.thrown 1))).chain,
    by decide!, by decide!, by decide!⟩

/-- C29, amended: when no hook raises and the ports of the chain are in a
state that goes with the state of the chain (a Running chain holding its end
control port), `PortChain::shutdown` collapses the chain from any of its
states: it returns, afterwards the chain is Deletable and every port it holds,
control ports included, is Deletable; and a second `shutdown` returns and
changes nothing. -/
theorem C29_chain_shutdown (h : Hooks) (hq : ∀ q c, h q c = Option.none) (c : PortChain)
    (hcomp : c.compatible) :
    ∃ c1, c.shutdown h = .returned c1 ∧ c1.state = .deletable ∧
      allHeld (fun p => p.state = .deletable) c1.portList ∧
      c1.shutdown h = .returned c1 := by
  obtain ⟨c1, hr, hs, hP⟩ := chain_shutdown_quiet h hq c hcomp
  refine ⟨c1, hr, hs, hP, ?_⟩
  simp [PortChain.shutdown, PortChain.shutdown_impl, hs]

/-- The Running chain of the tests holds Running ports and its end control
port. -/
theorem runningChain_compatible : runningChain.compatible := by
  have hs : runningChain.state = .running := by decide!
  have hall : ∀ e ∈ runningChain.portList,
      (match e.item with
        | some q => decide (q.state = .running)
        | Option.none => true) = true := by decide!
  refine ⟨fun hc => ?_, fun hc => ?_, fun _ => ⟨fun e he p hp => Or.inl ?_, by decide!⟩,
    fun hc => ?_, fun hc => ?_, fun hc => ?_⟩
  · rw [hs] at hc; simp at hc
  · rw [hs] at hc; cases hc
  · have he1 := hall e he
    rw [hp] at he1
    exact of_decide_eq_true he1
  · rw [hs] at hc; cases hc
  · rw [hs] at hc; cases hc
  · rw [hs] at hc; cases hc

/-- C29 on the Running chain of the tests. -/
theorem C29_chain_shutdown_witness :
    runningChain.compatible ∧
    ∃ c1, runningChain.shutdown quietHooks = .returned c1 ∧ c1.state = .deletable ∧
      allHeld (fun p => p.state = .deletable) c1.portList ∧
      c1.shutdown quietHooks = .returned c1 :=
  And.intro runningChain_compatible
    (C29_chain_shutdown quietHooks (fun _ _ => rfl) runningChain runningChain_compatible)

/-- A sequence of calls that starts with a `removePort` that returns. -/
theorem calls_cons_remove (h : Hooks) (internalId : Int) (rest : List ChainCall)
    (c c1 : PortChain) (r : Option Port)
    (hrem : c.removePort h internalId = (r, .returned c1)) :
    PortChain.calls h (.removePort internalId :: rest) c = PortChain.calls h rest c1 := by
  simp [PortChain.calls, PortChain.call, hrem, ChainOutcome.andThen]

/-- A sequence of calls after a sequence of calls that returned. -/
theorem calls_append (h : Hooks) (l1 l2 : List ChainCall) (c c1 : PortChain)
    (hr : PortChain.calls h l1 c = .returned c1) :
    PortChain.calls h (l1 ++ l2) c = PortChain.calls h l2 c1 := by
  induction l1 generalizing c with
  | nil =>
    simp only [PortChain.calls, ChainOutcome.returned.injEq] at hr
    rw [hr]
    rfl
  | cons a rest ih =>
    simp only [PortChain.calls] at hr
    simp only [List.cons_append, PortChain.calls]
    cases hcall : c.call h a with
    | raised e c2 => rw [hcall] at hr; simp [ChainOutcome.andThen] at hr
    | blocked c2 => rw [hcall] at hr; simp [ChainOutcome.andThen] at hr
    | returned c2 =>
      rw [hcall] at hr
      simp only [ChainOutcome.andThen] at hr ⊢
      exact ih c2 hr

/-- In a chain that is neither Registered nor Running `registerAndStart`
leaves the port alone. -/
theorem registerAndStart_idle (h : Hooks) (c : PortChain) (p : Port)
    (h1 : c.state ≠ .registered) (h2 : c.state ≠ .running) :
    c.registerAndStart h p = .returned p := by
  simp [PortChain.registerAndStart, h1, h2, Outcome.andThen]

/-- The sequence `overflowCalls` on an Initialized chain at rest that holds
nothing in its user slots and a port of id -2 in slot 0: every call returns,
and in the end an input port sits in slot 1 behind an output port in slot 0. -/
theorem overflow_unordered (c0 : PortChain) (hrest0 : c0.atRest)
    (hstate0 : c0.state = .initialized) (hpk0 : c0.packed 0 0) (start : Port)
    (hstart : (c0.entry 0).item = some start) (hid : start.internalId = -2) :
    ∃ c, PortChain.calls quietHooks overflowCalls c0 = .returned c ∧
      c.inputAt 1 = true ∧ c.outputAt 0 = true := by
  have h512 : MAX_PORTS = 512 := rfl
  -- the start control port is removed
  have hfound0 : c0.findSlotOfPort (-2) = ((0 : Nat) : Int) := by
    rw [findSlotOfPort_found]
    exact ⟨by omega, ⟨start, hstart, hid⟩, fun j hj => by omega⟩
  obtain ⟨q0, _, hrem0⟩ := removePort_held quietHooks c0 (-2) 0 start hfound0 hstart
    (atRest_useCount c0 hrest0 0)
  have hrest1 : ({ c0.setEntry 0 { c0.entry 0 with item := Option.none } with
      portCount := c0.portCount - 1 } : PortChain).atRest :=
    atRest_setEntry c0 hrest0 0 _ (atRest_useCount c0 hrest0 0)
  have hstate1 : ({ c0.setEntry 0 { c0.entry 0 with item := Option.none } with
      portCount := c0.portCount - 1 } : PortChain).state = .initialized := hstate0
  have hent1 : ∀ j, j ≠ 0 → ({ c0.setEntry 0 { c0.entry 0 with item := Option.none } with
      portCount := c0.portCount - 1 } : PortChain).entry j = c0.entry j :=
    fun j hj => entry_setEntry_ne c0 0 j _ hj
  have hzero1 : (({ c0.setEntry 0 { c0.entry 0 with item := Option.none } with
      portCount := c0.portCount - 1 } : PortChain).entry 0).item = Option.none := by
    have : ({ c0.setEntry 0 { c0.entry 0 with item := Option.none } with
      portCount := c0.portCount - 1 } : PortChain).entry 0 =
        { c0.entry 0 with item := Option.none } :=
      entry_setEntry_eq c0 0 _ (by rw [hrest0.1]; decide)
    rw [this]
  generalize hc1 : ({ c0.setEntry 0 { c0.entry 0 with item := Option.none } with
      portCount := c0.portCount - 1 } : PortChain) = c1 at hrem0 hrest1 hstate1 hent1 hzero1
  have hpk1 : c1.packed 0 0 := by
    refine ⟨by decide, fun j h1 h2 => by omega, fun j h1 h2 => ?_, fun j h1 h2 => by omega⟩
    simp only [PortChain.emptyAt, hent1 j (by omega)]
    exact hpk0.2.2.1 j h1 h2
  -- all output ports but two
  obtain ⟨c2, hcalls2, hrest2, hstate2, hpk2, hent2⟩ :=
    calls_packed quietHooks (fun _ _ => rfl) Option.none (userPorts true 1 (MAX_PORTS - 3))
      c1 0 0 hrest1 hpk1 (Or.inr (Or.inl hstate1))
      (fun p hp => ⟨(userPorts_all true _ 1 (by decide) p hp).1,
        (userPorts_all true _ 1 (by decide) p hp).2.1⟩)
      (by rw [userPorts_length]; omega)
  rw [userPorts_countP_input, userPorts_countP_output] at hpk2
  simp only [if_true, Nat.zero_add, Nat.add_zero] at hpk2
  have hstate2' : c2.state = .initialized := by rw [hstate2, hstate1]
  have hzero2 : (c2.entry 0).item = Option.none := by
    rw [hent2 0 (Or.inl (Nat.le_refl _))]; exact hzero1
  -- the output port of id 510 goes to slot 1
  have hslot3 : c2.findSlotForNewPort (userPort true 510) = .ok 1 := by
    have := packed_output_slot c2 0 (MAX_PORTS - 3) hpk2 (by omega)
    exact this
  have hadd3 := addPort_accepts quietHooks (userPort true 510) Option.none c2 1
    (userPort true 510) rfl (by decide) (Or.inr (Or.inl hstate2')) hslot3
    (registerAndStart_idle quietHooks c2 _ (by rw [hstate2']; decide) (by rw [hstate2']; decide))
    (atRest_useCount c2 hrest2 1)
  have hpk3 := packed_add_output c2 0 (MAX_PORTS - 3) hpk2 hrest2.1 (by omega)
    (userPort true 510) rfl
  have hrest3 := atRest_setEntry c2 hrest2 1 { c2.entry 1 with item := some (userPort true 510) }
    (atRest_useCount c2 hrest2 1)
  have hzero3 : ((c2.setEntry 1
      { c2.entry 1 with item := some (userPort true 510) }).entry 0).item = Option.none := by
    rw [entry_setEntry_ne c2 1 0 _ (by decide)]; exact hzero2
  have hone3 : ((c2.setEntry 1
      { c2.entry 1 with item := some (userPort true 510) }).entry 1).item =
        some (userPort true 510) := by
    rw [entry_setEntry_eq c2 1 _ (by rw [hrest2.1]; decide)]
  have hstate3 : (c2.setEntry 1
      { c2.entry 1 with item := some (userPort true 510) }).state = .initialized := hstate2'
  have hpk3' : (c2.setEntry 1
      { c2.entry 1 with item := some (userPort true 510) }).packed 0 (MAX_PORTS - 2) := hpk3
  generalize hc3 : c2.setEntry 1 { c2.entry 1 with item := some (userPort true 510) } = c3
    at hadd3 hrest3 hzero3 hone3 hstate3 hpk3'
  -- the output port of id 511 goes to slot 0
  have hslot4 : c3.findSlotForNewPort (userPort true 511) = .ok 0 :=
    packed_outputs_overflow c3 hpk3' (by simp [PortChain.emptyAt, PtrEnvelope.isEmpty, hzero3])
  have hadd4 := addPort_accepts quietHooks (userPort true 511) Option.none c3 0
    (userPort true 511) rfl (by decide) (Or.inr (Or.inl hstate3)) hslot4
    (registerAndStart_idle quietHooks c3 _ (by rw [hstate3]; decide) (by rw [hstate3]; decide))
    (atRest_useCount c3 hrest3 0)
  have hrest4 := atRest_setEntry c3 hrest3 0 { c3.entry 0 with item := some (userPort true 511) }
    (atRest_useCount c3 hrest3 0)
  have hzero4 : ((c3.setEntry 0
      { c3.entry 0 with item := some (userPort true 511) }).entry 0).item =
        some (userPort true 511) := by
    rw [entry_setEntry_eq c3 0 _ (by rw [hrest3.1]; decide)]
  have hone4 : ((c3.setEntry 0
      { c3.entry 0 with item := some (userPort true 511) }).entry 1).item =
        some (userPort true 510) := by
    rw [entry_setEntry_ne c3 0 1 _ (by decide)]; exact hone3
  have hstate4 : (c3.setEntry 0
      { c3.entry 0 with item := some (userPort true 511) }).state = .initialized := hstate3
  generalize hc4 : c3.setEntry 0 { c3.entry 0 with item := some (userPort true 511) } = c4
    at hadd4 hrest4 hzero4 hone4 hstate4
  -- the output port of slot 1 is removed
  have hfound : c4.findSlotOfPort 510 = ((1 : Nat) : Int) := by
    rw [findSlotOfPort_found]
    refine ⟨by omega, ⟨userPort true 510, hone4, rfl⟩, fun j hj port hport => ?_⟩
    have hj0 : j = 0 := by omega
    subst hj0
    rw [hzero4] at hport
    rw [← Option.some.inj hport]
    decide
  obtain ⟨q5, _, hrem5⟩ := removePort_held quietHooks c4 510 1 (userPort true 510) hfound hone4
    (atRest_useCount c4 hrest4 1)
  have hrest5 : ({ c4.setEntry 1 { c4.entry 1 with item := Option.none } with
      portCount := c4.portCount - 1 } : PortChain).atRest :=
    atRest_setEntry c4 hrest4 1 _ (atRest_useCount c4 hrest4 1)
  have hzero5 : (({ c4.setEntry 1 { c4.entry 1 with item := Option.none } with
      portCount := c4.portCount - 1 } : PortChain).entry 0).item = some (userPort true 511) := by
    have : ({ c4.setEntry 1 { c4.entry 1 with item := Option.none } with
      portCount := c4.portCount - 1 } : PortChain).entry 0 = c4.entry 0 :=
      entry_setEntry_ne c4 1 0 _ (by decide)
    rw [this]; exact hzero4
  have hone5 : ({ c4.setEntry 1 { c4.entry 1 with item := Option.none } with
      portCount := c4.portCount - 1 } : PortChain).entry 1 =
        { c4.entry 1 with item := Option.none } :=
    entry_setEntry_eq c4 1 _ (by rw [hrest4.1]; decide)
  have hstate5 : ({ c4.setEntry 1 { c4.entry 1 with item := Option.none } with
      portCount := c4.portCount - 1 } : PortChain).state = .initialized := hstate4
  generalize hc5 : ({ c4.setEntry 1 { c4.entry 1 with item := Option.none } with
      portCount := c4.portCount - 1 } : PortChain) = c5
    at hrem5 hrest5 hzero5 hone5 hstate5
  -- the input port goes to slot 1
  have hslot6 : c5.findSlotForNewPort (userPort false 600) = .ok 1 := by
    have hempty : c5.emptyAt 1 = true := by
      simp only [PortChain.emptyAt, hone5]
      rfl
    show c5.findSlotForInputPort = .ok 1
    simp [PortChain.findSlotForInputPort, hempty]
  have hadd6 := addPort_accepts quietHooks (userPort false 600) Option.none c5 1
    (userPort false 600) rfl (by decide) (Or.inr (Or.inl hstate5)) hslot6
    (registerAndStart_idle quietHooks c5 _ (by rw [hstate5]; decide) (by rw [hstate5]; decide))
    (atRest_useCount c5 hrest5 1)
  refine ⟨c5.setEntry 1 { c5.entry 1 with item := some (userPort false 600) }, ?_, ?_, ?_⟩
  · exact (calls_cons_remove quietHooks (-2) _ c0 c1 _ hrem0).trans
      ((calls_append quietHooks (addCalls Option.none (userPorts true 1 (MAX_PORTS - 3))) _
          c1 c2 hcalls2).trans
        ((calls_cons_add quietHooks _ _ _ c2 c3 _ hadd3).trans
          ((calls_cons_add quietHooks _ _ _ c3 c4 _ hadd4).trans
            ((calls_cons_remove quietHooks 510 _ c4 c5 _ hrem5).trans
              ((calls_cons_add quietHooks _ _ _ c5 _ _ hadd6).trans rfl)))))
  · rw [inputAt_setEntry_eq c5 1 _ (userPort false 600) (by rw [hrest5.1]; decide) rfl]
    rfl
  · simp only [PortChain.outputAt, entry_setEntry_ne c5 1 0 _ (by decide), hzero5]
    rfl

/-- The original wording of C25 fails on the code when a control port is
removed.  On the chain of the tests the start control port is removed,
`MAX_PORTS - 2` output ports fill the slots `MAX_PORTS - 2` down to 1, the next
output port goes to slot 0, the output port of slot 1 is removed and an input
port is added: the input port sits in slot 1, behind the output port of
slot 0. -/
theorem C25_control_port_removed :
    ∃ c, PortChain.calls quietHooks overflowCalls controlledChain = .returned c ∧
      c.inputAt 1 = true ∧ c.outputAt 0 = true :=
  overflow_unordered controlledChain controlledChain_atRest (by decide!)
    controlledChain_packed (userPort false (-2)) (by decide!) rfl

/-! ## Refused calls of `addPort` -/

/-- C38: a rejected `addPort` is atomic.  When `addPort` is called with the
null pointer, with a port that is not Initialized or whose id is below -2, on
a chain that is past Running (Stopped, Unregistered, Deletable), without
client on a Registered or Running chain, or when no slot is found for the
port, then it raises an error and the caller keeps the pointer it passed, to
a port that is unchanged (no hook is logged on it, and a port that was
Initialized is still Initialized), and the chain, its state and every slot
included, is unchanged. -/
theorem C38_refused_addPort (h : Hooks) (newPort : Option Port) (client : Option Nat)
    (c : PortChain)
    (hrej : newPort = Option.none ∨
      ∃ p, newPort = some p ∧
        (p.state ≠ .initialized ∨ p.internalId < -2 ∨
          (c.state = .stopped ∨ c.state = .unregistered ∨ c.state = .deletable) ∨
          ((c.state = .registered ∨ c.state = .running) ∧ client = Option.none) ∨
          ∃ x, c.findSlotForNewPort p = .error x)) :
    ∃ e, c.addPort h newPort client = (newPort, .raised e c) := by
  rcases hrej with hn | ⟨p, hp, hrej⟩
  · rw [hn]
    exact ⟨_, rfl⟩
  · rw [hp]
    unfold PortChain.addPort
    simp only
    split
    · exact ⟨_, rfl⟩
    · split
      · exact ⟨_, rfl⟩
      · split
        · exact ⟨_, rfl⟩
        · split
          · exact ⟨_, rfl⟩
          · rename_i h1 h2 h3 h4
            rcases hrej with hr | hr | hr | hr | ⟨x, hx⟩
            · exact absurd hr h1
            · exact absurd hr h2
            · exfalso
              apply h3
              rcases hr with hr | hr | hr <;> simp [hr]
            · exfalso
              apply h4
              rcases hr with ⟨hr | hr, hcl⟩ <;> simp [hr, hcl]
            · rw [hx]
              exact ⟨_, rfl⟩

/-- Witness of C38: an Initialized input port offered to a chain that is
Stopped stays with the caller, and the chain is unchanged. -/
theorem C38_refused_addPort_witness :
    ∃ e, PortChain.addPort quietHooks (some (userPort false 5)) Option.none
        { PortChain.construct with state := .stopped } =
      (some (userPort false 5), .raised e { PortChain.construct with state := .stopped }) :=
  C38_refused_addPort quietHooks (some (userPort false 5)) Option.none
    { PortChain.construct with state := .stopped }
    (Or.inr ⟨userPort false 5, rfl, Or.inr (Or.inr (Or.inl (Or.inl rfl)))⟩)

/-! ## The guards of `initialize` of the chain -/

/-- The direction and the id of a port that `initialize` returned. -/
theorem initialize_frame (h : Hooks) (p q : Port)
    (hr : Port.initialize h p = .returned q) :
    q.output = p.output ∧ q.internalId = p.internalId := by
  unfold Port.initialize at hr
  split at hr
  · simp [throwCannot] at hr
  · obtain ⟨p1, h1, hk⟩ := andThen_returned _ _ q hr
    rw [← Outcome.returned.inj hk]
    rcases callHook_cases h .initialize_impl p with hc | ⟨e, hc⟩
    · rw [hc] at h1
      rw [← Outcome.returned.inj h1]
      exact ⟨rfl, rfl⟩
    · rw [hc] at h1
      cases h1

/-- C32: `initialize` of the chain returns only when the chain is Created,
the start control is an input port in state Created and the end control is an
output port in state Created; the chain is then Initialized, it has taken
both pointers, slot 0 holds the start control and slot `MAX_PORTS - 1` the
end control, both Initialized, and every other slot is as it was.  When one
of these conditions fails it raises an error, both controls stay with the
caller as they were (not initialized, no hook invoked) and the chain is left
as it was, state and slots: a Created chain is left in Created. -/
theorem C32_chain_initialize (h : Hooks) (s e : Port) (c : PortChain)
    (hlen : c.portList.length = MAX_PORTS) :
    (∀ r c1, c.initialize h s e = (r, .returned c1) →
      c.state = .created ∧ s.isInput = true ∧ s.state = .created ∧
      e.isOutput = true ∧ e.state = .created ∧
      r = (Option.none, Option.none) ∧ c1.state = .initialized ∧
      (∃ s1, (c1.entry 0).item = some s1 ∧ s1.state = .initialized ∧
        s1.internalId = s.internalId ∧ s1.isInput = true) ∧
      (∃ e1, (c1.entry (MAX_PORTS - 1)).item = some e1 ∧ e1.state = .initialized ∧
        e1.internalId = e.internalId ∧ e1.isOutput = true) ∧
      ∀ j, j ≠ 0 → j ≠ MAX_PORTS - 1 → c1.entry j = c.entry j) ∧
    (¬ (c.state = .created ∧ s.isInput = true ∧ s.state = .created ∧
        e.isOutput = true ∧ e.state = .created) →
      ∃ message, c.initialize h s e =
        ((some s, some e), .raised (.runtimeError message) c)) := by
  have h512 : MAX_PORTS = 512 := rfl
  constructor
  · intro r c1 hr
    obtain ⟨h1, h2, h3, h4, h5, s1, e1, hs1, he1, hr1, hc1⟩ :=
      initialize_returned h s e c c1 r hr
    have hfs := initialize_frame h s s1 hs1
    have hfe := initialize_frame h e e1 he1
    refine ⟨h1, h2, h3, h4, h5, hr1, by rw [hc1], ⟨s1, ?_, initialize_state h s s1 hs1,
      hfs.2, ?_⟩, ⟨e1, ?_, initialize_state h e e1 he1, hfe.2, ?_⟩, ?_⟩
    · rw [hc1]
      show (((c.setEntry 0 _).setEntry (MAX_PORTS - 1) _).entry 0).item = _
      rw [entry_setEntry_ne _ _ _ _ (by omega), entry_setEntry_eq _ _ _ (by omega)]
    · simp only [Port.isInput, hfs.1]
      exact h2
    · rw [hc1]
      show (((c.setEntry 0 _).setEntry (MAX_PORTS - 1) _).entry (MAX_PORTS - 1)).item = _
      rw [entry_setEntry_eq _ _ _ (by simp [PortChain.setEntry]; omega)]
    · simp only [Port.isOutput, hfe.1]
      exact h4
    · intro j hj0 hj1
      rw [hc1]
      show ((c.setEntry 0 _).setEntry (MAX_PORTS - 1) _).entry j = _
      rw [entry_setEntry_ne _ _ _ _ hj1, entry_setEntry_ne _ _ _ _ hj0]
  · intro hn
    unfold PortChain.initialize PortChain.initialize_impl
    split
    · exact ⟨_, rfl⟩
    · split
      · exact ⟨_, rfl⟩
      · split
        · exact ⟨_, rfl⟩
        · split
          · exact ⟨_, rfl⟩
          · split
            · exact ⟨_, rfl⟩
            · rename_i g1 g2 g3 g4 g5
              exfalso
              apply hn
              refine ⟨by simpa using g1, by simpa using g2, by simpa using g3,
                by simpa using g4, by simpa using g5⟩

/-- Witness of C32: `initialize` of a constructed chain with fresh
controls yields the chain of the tests, and a start control that is an output
port is refused. -/
theorem C32_chain_initialize_witness :
    (PortChain.construct.state = .created ∧
      (Port.construct false (-2)).isInput = true ∧
      (Port.construct false (-2)).state = .created ∧
      (Port.construct true (-1)).isOutput = true ∧
      (Port.construct true (-1)).state = .created ∧
      ((Option.none, Option.none) : Option Port × Option Port) = (Option.none, Option.none) ∧
      controlledChain.state = .initialized ∧
      (∃ s1, (controlledChain.entry 0).item = some s1 ∧ s1.state = .initialized ∧
        s1.internalId = (Port.construct false (-2)).internalId ∧ s1.isInput = true) ∧
      (∃ e1, (controlledChain.entry (MAX_PORTS - 1)).item = some e1 ∧
        e1.state = .initialized ∧
        e1.internalId = (Port.construct true (-1)).internalId ∧ e1.isOutput = true) ∧
      ∀ j, j ≠ 0 → j ≠ MAX_PORTS - 1 →
        controlledChain.entry j = PortChain.construct.entry j) ∧
    ∃ message,
      PortChain.initialize quietHooks (Port.construct true (-2)) (Port.construct true (-1))
          PortChain.construct =
        ((some (Port.construct true (-2)), some (Port.construct true (-1))),
          .raised (.runtimeError message) PortChain.construct) :=
  ⟨( C32_chain_initialize quietHooks (Port.construct false (-2)) (Port.construct true (-1))
      PortChain.construct (by simp [PortChain.construct])).1 (Option.none, Option.none)
      controlledChain (by decide!),
   ( C32_chain_initialize quietHooks (Port.construct true (-2)) (Port.construct true (-1))
      PortChain.construct (by simp [PortChain.construct])).2 (by decide)⟩

/-! ## Forced stop -/

/-- Every port that can be met is Running exactly when its sub-state is not
None. -/
theorem subStateInv_reachable (h : Hooks) (p : Port)
    (hp : Reachable h (fun _ _ => True) p) : p.subStateInv := by
  induction hp with
  | construct isOutput internalId => simp [Port.subStateInv, Port.construct]
  | perform a p _ _ _ ih ihenv => exact subStateInv_perform h a p ih ihenv

/-- C35: on a port that can be met from a constructed port by the public
operations.  `stop(true)` on the port when it is Running with a sub-state
other than Terminated invokes `stop_impl` once (whatever the hook does) and,
`stop_impl` returning, ends in Stopped with sub-state None, the exception
slot holding what it held, or 'Port did not terminate' when it was empty.
`stop` on the port when it is Running with sub-state Terminated invokes
`stop_impl` once and, `stop_impl` returning, ends in Stopped with sub-state
None and the exception slot as it was.  `stop` on the port when it is
StoppedOnError returns it with the main state Stopped, sub-state None, and
nothing else changed: no hook is invoked and the exception slot is kept. -/
theorem C35_forced_stop (h : Hooks) (p : Port) (hp : Reachable h (fun _ _ => True) p)
    (force : Bool) (env : List Port) :
    (p.state = .running → p.substate ≠ .terminated →
      (Port.stop h true env p).port.calls = p.calls ++ [.stop_impl] ∧
      (Port.stop h true env p).port.count .stop_impl = p.count .stop_impl + 1 ∧
      ((∀ q, h q .stop_impl = Option.none) →
        ∃ r, Port.stop h true env p = .returned r ∧ r.state = .stopped ∧
          r.substate = .none ∧
          r.processException =
            if p.processException.isSome then p.processException
            else some .didNotTerminate)) ∧
    (p.state = .running → p.substate = .terminated →
      (Port.stop h force env p).port.calls = p.calls ++ [.stop_impl] ∧
      (Port.stop h force env p).port.count .stop_impl = p.count .stop_impl + 1 ∧
      ((∀ q, h q .stop_impl = Option.none) →
        ∃ r, Port.stop h force env p = .returned r ∧ r.state = .stopped ∧
          r.substate = .none ∧ r.processException = p.processException)) ∧
    (p.state = .stoppedOnError →
      Port.stop h force env p = .returned { p with state := .stopped } ∧
      p.substate = .none) := by
  have hinv := subStateInv_reachable h p hp
  have hcount : ∀ o : Outcome, o.port.calls = p.calls ++ [.stop_impl] →
      o.port.count .stop_impl = p.count .stop_impl + 1 := by
    intro o ho
    simp [Port.count, ho, List.count_append]
  refine ⟨?_, ?_, ?_⟩
  · intro hr hnt
    have hnn : p.substate ≠ .none := hinv.mp hr
    have h1 : p.state ≠ .stoppedOnError := by simp [hr]
    have h2 : ¬ (p.state ≠ .running ∧ p.state ≠ .registered) := by simp [hr]
    have hw : waitForTermination true { p with lastCycle := true } env =
        { p with lastCycle := true } := waitForTermination_idle _ _ _ (Or.inl rfl)
    have hb : ({ p with lastCycle := true } : Port).substate ≠ .terminated ∧
        ({ p with lastCycle := true } : Port).substate ≠ .none := ⟨hnt, hnn⟩
    have hcalls : (Port.stop h true env p).port.calls = p.calls ++ [.stop_impl] := by
      unfold Port.stop
      rw [if_neg h1, if_neg h2]
      simp only [hw]
      rw [if_pos hb]
      rcases emergencyStop_cases h .didNotTerminate { p with lastCycle := true }
        with hq | ⟨e, hq⟩ <;> rw [hq]
      · simp [Outcome.andThen, Outcome.port, (setProcessException_fields _ _).2.2.1]
      · simp [Outcome.andThen, Outcome.port]
    refine ⟨hcalls, hcount _ hcalls, ?_⟩
    intro hq
    unfold Port.stop
    rw [if_neg h1, if_neg h2]
    simp only [hw]
    rw [if_pos hb, emergencyStop_quiet h _ _ (hq _)]
    refine ⟨_, rfl, rfl, rfl, ?_⟩
    simp [setProcessException_slot]
  · intro hr ht
    have h1 : p.state ≠ .stoppedOnError := by simp [hr]
    have h2 : ¬ (p.state ≠ .running ∧ p.state ≠ .registered) := by simp [hr]
    have hw : waitForTermination force { p with lastCycle := true } env =
        { p with lastCycle := true } :=
      waitForTermination_idle _ _ _ (Or.inr (Or.inr (Or.inl ht)))
    have hb : ¬ (({ p with lastCycle := true } : Port).substate ≠ .terminated ∧
        ({ p with lastCycle := true } : Port).substate ≠ .none) := by
      simp [ht]
    have hcalls : (Port.stop h force env p).port.calls = p.calls ++ [.stop_impl] := by
      unfold Port.stop
      rw [if_neg h1, if_neg h2]
      simp only [hw]
      rw [if_neg hb]
      rcases callHook_cases h .stop_impl { p with lastCycle := true }
        with hq | ⟨e, hq⟩ <;> rw [hq] <;> simp [Outcome.andThen, Outcome.port]
    refine ⟨hcalls, hcount _ hcalls, ?_⟩
    intro hq
    unfold Port.stop
    rw [if_neg h1, if_neg h2]
    simp only [hw]
    rw [if_neg hb, callHook_quiet h _ _ (hq _)]
    exact ⟨_, rfl, rfl, rfl, rfl⟩
  · intro hs
    refine ⟨by simp [Port.stop, hs], ?_⟩
    by_contra hne
    have := hinv.mpr hne
    rw [hs] at this
    cases this

/-- The port left by a sequence of calls that nobody signals, issued on a
port that can be met, can be met. -/
theorem reachable_run_any (h : Hooks) (ops : List Op) :
    ∀ p : Port, Reachable h (fun _ _ => True) p → (∀ a, a ∈ ops → a.env = []) →
      Reachable h (fun _ _ => True) (Port.run h ops p) := by
  induction ops with
  | nil => intro p hp _; exact hp
  | cons a ops ih =>
    intro p hp henv
    refine ih _ (.perform a p hp trivial (fun q hq => ?_))
      (fun b hb => henv b (List.mem_cons_of_mem _ hb))
    rw [henv a (List.mem_cons_self _ _)] at hq
    cases hq

/-- Witness of C35: a forced stop of output port 7 in mid-cycle (Running,
JavaToExec), a stop of input port 7 after its last cycle (Running,
Terminated), and a stop of input port 7 after a second `execNativeCycleInit`
within one cycle has put it into StoppedOnError. -/
theorem C35_forced_stop_witness :
    (∃ r, Port.stop quietHooks true []
        (Port.run quietHooks [.doInitialize, .doRegisterAtServer, .doStart,
          .doExecNativeCycleInit 0 64] (Port.construct true 7)) = .returned r ∧
      r.state = .stopped ∧ r.substate = .none ∧
      r.processException =
        if (Port.run quietHooks [.doInitialize, .doRegisterAtServer, .doStart,
          .doExecNativeCycleInit 0 64] (Port.construct true 7)).processException.isSome then
          (Port.run quietHooks [.doInitialize, .doRegisterAtServer, .doStart,
            .doExecNativeCycleInit 0 64] (Port.construct true 7)).processException
        else some .didNotTerminate) ∧
    (∃ r, Port.stop quietHooks false []
        (Port.run quietHooks [.doInitialize, .doRegisterAtServer, .doStart,
          .doExecNativeCycleInit 0 64, .doExecNativeProcess [], .doExecJavaProcess true []]
          (Port.construct false 7)) = .returned r ∧
      r.state = .stopped ∧ r.substate = .none ∧
      r.processException =
        (Port.run quietHooks [.doInitialize, .doRegisterAtServer, .doStart,
          .doExecNativeCycleInit 0 64, .doExecNativeProcess [], .doExecJavaProcess true []]
          (Port.construct false 7)).processException) ∧
    (Port.stop quietHooks false []
        (Port.run quietHooks [.doInitialize, .doRegisterAtServer, .doStart,
          .doExecNativeCycleInit 0 64, .doExecNativeCycleInit 64 64]
          (Port.construct false 7)) =
      .returned { Port.run quietHooks [.doInitialize, .doRegisterAtServer, .doStart,
          .doExecNativeCycleInit 0 64, .doExecNativeCycleInit 64 64]
          (Port.construct false 7) with state := .stopped } ∧
      (Port.run quietHooks [.doInitialize, .doRegisterAtServer, .doStart,
          .doExecNativeCycleInit 0 64, .doExecNativeCycleInit 64 64]
          (Port.construct false 7)).substate = .none) :=
  ⟨((C35_forced_stop quietHooks _
      (reachable_run_any quietHooks [.doInitialize, .doRegisterAtServer, .doStart,
        .doExecNativeCycleInit 0 64] _ (.construct true 7) (by decide)) true []).1
      (by decide) (by decide)).2.2 (fun _ => rfl),
   ((C35_forced_stop quietHooks _
      (reachable_run_any quietHooks [.doInitialize, .doRegisterAtServer, .doStart,
        .doExecNativeCycleInit 0 64, .doExecNativeProcess [], .doExecJavaProcess true []] _
        (.construct false 7) (by decide)) false []).2.1
      (by decide) (by decide)).2.2 (fun _ => rfl),
   (C35_forced_stop quietHooks _
      (reachable_run_any quietHooks [.doInitialize, .doRegisterAtServer, .doStart,
        .doExecNativeCycleInit 0 64, .doExecNativeCycleInit 64 64] _
        (.construct false 7) (by decide)) false []).2.2 (by decide)⟩

/-! ## NativeToTerminate on input ports -/

theorem inputInv_wake (p q : Port) (hq : q.inputInv) (hd : q.output = p.output) :
    (p.wake q).inputInv := by
  intro ho
  exact hq (by rw [hd]; exact ho)

theorem inputInv_emergencyStop (h : Hooks) (cause : Exc) (p : Port) (hp : p.inputInv) :
    (emergencyStop h cause p).port.inputInv := by
  rcases emergencyStop_cases h cause p with hq | ⟨e, hq⟩ <;> rw [hq]
  · simp [Outcome.port, Port.inputInv, (setProcessException_fields _ _).2.1]
  · exact hp

theorem inputInv_waitForTermination (force : Bool) (env : List Port) :
    ∀ p : Port, p.inputInv → (∀ q, q ∈ env → q.inputInv ∧ q.output = p.output) →
      (waitForTermination force p env).inputInv := by
  induction env with
  | nil => intro p hp _; exact hp
  | cons q env ih =>
    intro p hp henv
    unfold waitForTermination
    split
    · obtain ⟨hq, hd⟩ := henv q (List.mem_cons_self _ _)
      exact ih _ (inputInv_wake p q hq hd)
        (fun r hr => henv r (List.mem_cons_of_mem _ hr))
    · exact hp

theorem inputInv_waitJavaToExec (env : List Port) :
    ∀ p : Port, p.inputInv → (∀ q, q ∈ env → q.inputInv ∧ q.output = p.output) →
      (∀ r, waitJavaToExec p env = .proceed r → r.inputInv) ∧
      (∀ o, waitJavaToExec p env = .finished o → o.port.inputInv ∧ ∀ e r, o ≠ .raised e r) := by
  induction env with
  | nil =>
    intro p hp _
    unfold waitJavaToExec
    split <;> simp [Outcome.port, hp]
  | cons q env ih =>
    intro p hp henv
    obtain ⟨hq0, hd⟩ := henv q (List.mem_cons_self _ _)
    have hq := inputInv_wake p q hq0 hd
    unfold waitJavaToExec
    split
    · split
      · simp [Outcome.port, hq]
      · exact ih _ hq (fun r hr => henv r (List.mem_cons_of_mem _ hr))
    · simp [hp]

theorem inputInv_waitNativeToExec (env : List Port) :
    ∀ p : Port, p.inputInv → (∀ q, q ∈ env → q.inputInv ∧ q.output = p.output) →
      (∀ r, waitNativeToExec p env = .proceed r → r.inputInv) ∧
      (∀ o, waitNativeToExec p env = .finished o → o.port.inputInv) := by
  induction env with
  | nil =>
    intro p hp _
    unfold waitNativeToExec
    split <;> simp [Outcome.port, hp]
  | cons q env ih =>
    intro p hp henv
    obtain ⟨hq0, hd⟩ := henv q (List.mem_cons_self _ _)
    have hq := inputInv_wake p q hq0 hd
    unfold waitNativeToExec
    split
    · split
      · simp [Outcome.port, throwCannot, hq]
      · exact ih _ hq (fun r hr => henv r (List.mem_cons_of_mem _ hr))
    · simp [hp]

/-- Every use of a port keeps NativeToTerminate away from an input port. -/
theorem inputInv_perform (h : Hooks) (a : Op) (p : Port) (hp : p.inputInv)
    (henv : ∀ q, q ∈ a.env → q.inputInv ∧ q.output = p.output) :
    (Port.perform h a p).port.inputInv := by
  cases a with
  | doInitialize =>
    simp only [Port.perform, Port.initialize]
    split
    · exact hp
    · rcases callHook_cases h .initialize_impl p with hq | ⟨e, hq⟩ <;> rw [hq] <;>
        simp_all [Outcome.andThen, Outcome.port, Port.inputInv]
  | doRegisterAtServer =>
    simp only [Port.perform, Port.registerAtServer]
    split
    · exact hp
    · rcases callHook_cases h .register_impl p with hq | ⟨e, hq⟩ <;> rw [hq] <;>
        simp_all [Outcome.andThen, Outcome.port, Port.inputInv]
  | doStart =>
    simp only [Port.perform, Port.start]
    split
    · exact hp
    · rcases callHook_cases h .start_impl p with hq | ⟨e, hq⟩ <;> rw [hq] <;>
        simp_all [Outcome.andThen, Outcome.port, Port.inputInv]
  | doUnregisterAtServer =>
    simp only [Port.perform, Port.unregisterAtServer]
    split
    · exact hp
    · rcases callHook_cases h .unregister_impl p with hq | ⟨e, hq⟩ <;> rw [hq] <;>
        simp_all [Outcome.andThen, Outcome.port, Port.inputInv]
  | doUnInitialize =>
    simp only [Port.perform, Port.uninitialize]
    split
    · exact hp
    · rcases callHook_cases h .uninitialize_impl p with hq | ⟨e, hq⟩ <;> rw [hq] <;>
        simp_all [Outcome.andThen, Outcome.port, Port.inputInv]
  | doExecNativeCycleInit s d =>
    simp only [Port.perform, Port.execNativeCycleInit]
    split
    · exact hp
    · split
      · exact hp
      · split
        · exact inputInv_emergencyStop h _ p hp
        · split <;> simp [Outcome.catchAll, Outcome.port, Port.inputInv]
  | doExecJavaProcess l env =>
    simp only [Port.perform, Port.execJavaProcess]
    split
    · exact hp
    · split
      · exact hp
      · obtain ⟨h1, h2⟩ := inputInv_waitJavaToExec env p hp henv
        split
        · rename_i o ho
          obtain ⟨h3, h4⟩ := h2 o ho
          cases o with
          | returned r => exact h3
          | blocked r => exact h3
          | raised e r => exact absurd rfl (h4 e r)
        · rename_i r hw
          have h3 := h1 r hw
          unfold execJavaWork
          simp only []
          rcases callHook_cases h
            (.execJavaProcess_impl r.timeCodeStart r.timeCodeDuration (r.lastCycle || l))
            { r with lastCycle := r.lastCycle || l } with hq | ⟨e, hq⟩ <;> rw [hq]
          · simp only [Outcome.andThen]
            split <;> split <;>
              simp_all [Outcome.catchAll, Outcome.port, Port.inputInv, Port.isOutput]
          · simp only [Outcome.andThen, Outcome.catchAll]
            exact inputInv_emergencyStop h e _ h3
  | doExecNativeProcess env =>
    simp only [Port.perform, Port.execNativeProcess]
    split
    · exact hp
    · split
      · exact hp
      · obtain ⟨h1, h2⟩ := inputInv_waitNativeToExec env p hp henv
        split
        · rename_i o ho
          have h3 := h2 o ho
          cases o with
          | returned r => exact h3
          | blocked r => exact h3
          | raised e r => exact inputInv_emergencyStop h e r h3
        · rename_i r hw
          have h3 := h1 r hw
          unfold execNativeWork
          split
          · exact h3
          · split
            · exact inputInv_emergencyStop h _ r h3
            · rcases callHook_cases h
                (.execNativeProcess_impl r.timeCodeStart r.timeCodeDuration) r
                with hq | ⟨e, hq⟩ <;> rw [hq]
              · simp only [Outcome.andThen]
                split
                · simp [Outcome.catchAll, Outcome.port, Port.inputInv]
                · split <;> simp [Outcome.catchAll, Outcome.port, Port.inputInv]
              · simp only [Outcome.andThen, Outcome.catchAll]
                exact inputInv_emergencyStop h e _ h3
  | doStop force env =>
    simp only [Port.perform, Port.stop]
    split
    · exact hp
    · split
      · exact hp
      · have hw := inputInv_waitForTermination force env { p with lastCycle := true } hp henv
        split
        · rcases emergencyStop_cases h .didNotTerminate
            (waitForTermination force { p with lastCycle := true } env)
            with hq | ⟨e, hq⟩ <;> rw [hq]
          · simp [Outcome.andThen, Outcome.port, Port.inputInv]
          · exact hw
        · rcases callHook_cases h .stop_impl
            (waitForTermination force { p with lastCycle := true } env)
            with hq | ⟨e, hq⟩ <;> rw [hq]
          · simp [Outcome.andThen, Outcome.port, Port.inputInv]
          · exact hw
  | doShutdown force env =>
    obtain ⟨r, hr, h1, h2, _⟩ := shutdown_returns h force env p
    simp [Port.perform, hr, Outcome.port, Port.inputInv, h2]
  | moveInto l s d => exact hp
  | moveFrom => simp [Port.perform, Port.moveConstruct, Outcome.port, Port.inputInv]

/-- The ports that can be met, the wake-ups being states of the port itself,
keep NativeToTerminate away from input ports. -/
theorem inputInv_reachable (h : Hooks) (p : Port) (hp : Reachable h sameDirection p) :
    p.inputInv := by
  induction hp with
  | construct isOutput internalId => simp [Port.inputInv, Port.construct]
  | perform a p _ ha _ ih ihenv => exact inputInv_perform h a p ih (fun q hq => ⟨ihenv q hq, ha q hq⟩)

/-- The port left by a sequence of calls that nobody signals, issued on a
port that can be met, can be met, for any condition on the uses that such
calls satisfy. -/
theorem reachable_run_alone (h : Hooks) (allowed : Op → Port → Prop)
    (hall : ∀ a p, a.env = [] → allowed a p) (ops : List Op) :
    ∀ p : Port, Reachable h allowed p → (∀ a, a ∈ ops → a.env = []) →
      Reachable h allowed (Port.run h ops p) := by
  induction ops with
  | nil => intro p hp _; exact hp
  | cons a ops ih =>
    intro p hp henv
    have he := henv a (List.mem_cons_self _ _)
    refine ih _ (.perform a p hp (hall a p he) (fun q hq => ?_))
      (fun b hb => henv b (List.mem_cons_of_mem _ hb))
    rw [he] at hq
    cases hq

/-- C37: in every input port that can be met from a constructed port by
calls of the public operations (administrative calls, worker operations with
any `lastCycle` argument, `stop`, `shutdown`, the wake-ups seen while waiting
being such states of the same port) and by move constructions, for any
behaviour of the hooks, the sub-state is not NativeToTerminate; and when the
wait loop of `execNativeProcess` is left on such a port, the test of the
illegal state (`isInput() && substate == nativeToTerminate`) is false. -/
theorem C37_input_never_nativeToTerminate (h : Hooks) (p : Port)
    (hp : Reachable h sameDirection p) (hin : p.isInput = true) :
    p.substate ≠ .nativeToTerminate ∧
    ∀ env : List Port, (∀ q, q ∈ env → Reachable h sameDirection q ∧ q.output = p.output) →
      ∀ r, waitNativeToExec p env = .proceed r →
        ¬ (r.isInput = true ∧ r.substate = .nativeToTerminate) := by
  have ho : p.output = false := by simpa [Port.isInput] using hin
  refine ⟨inputInv_reachable h p hp ho, ?_⟩
  intro env henv r hr
  have h1 := (inputInv_waitNativeToExec env p (inputInv_reachable h p hp)
    (fun q hq => ⟨inputInv_reachable h q (henv q hq).1, (henv q hq).2⟩)).1 r hr
  rintro ⟨hri, hrs⟩
  exact h1 (by simpa [Port.isInput] using hri) hrs

/-- Witness of C37: input port 7 after `initialize`, `registerAtServer`,
`start` and `execNativeCycleInit` is Running with sub-state NativeToExec; the
wait loop of `execNativeProcess` is left at once on it, and the test of the
illegal state is false. -/
theorem C37_input_never_nativeToTerminate_witness :
    (Port.run quietHooks [.doInitialize, .doRegisterAtServer, .doStart,
        .doExecNativeCycleInit 0 64] (Port.construct false 7)).substate ≠ .nativeToTerminate ∧
    ¬ ((Port.run quietHooks [.doInitialize, .doRegisterAtServer, .doStart,
        .doExecNativeCycleInit 0 64] (Port.construct false 7)).isInput = true ∧
      (Port.run quietHooks [.doInitialize, .doRegisterAtServer, .doStart,
        .doExecNativeCycleInit 0 64] (Port.construct false 7)).substate =
          .nativeToTerminate) :=
  ⟨(C37_input_never_nativeToTerminate quietHooks _
      (reachable_run_alone quietHooks sameDirection
        (fun a p he q hq => by rw [he] at hq; cases hq)
        [.doInitialize, .doRegisterAtServer, .doStart, .doExecNativeCycleInit 0 64] _
        (.construct false 7) (by decide))
      (by decide)).1,
   (C37_input_never_nativeToTerminate quietHooks _
      (reachable_run_alone quietHooks sameDirection
        (fun a p he q hq => by rw [he] at hq; cases hq)
        [.doInitialize, .doRegisterAtServer, .doStart, .doExecNativeCycleInit 0 64] _
        (.construct false 7) (by decide))
      (by decide)).2 [] (fun q hq => by cases hq) _ (by decide)⟩

/-! ## The wait for the end of a cycle -/

/-- The states above `running` in `enum State`. -/
theorem past_running_iff (s : State) :
    State.running.toNat < s.toNat ↔
      (s = .stoppedOnError ∨ s = .stopped ∨ s = .unregistered ∨ s = .deletable) := by
  cases s <;> simp [State.toNat]

/-- The loop of `waitForCycleDone2` ends without error only on sub-state
CycleDone, or after a wake-up that shows a state above `running` or sub-state
CycleDone. -/
theorem waitCycleDone_ok (env : List Port) :
    ∀ p : Port, waitCycleDone p env = .ok () →
      p.substate = .cycleDone ∨
        ∃ q, q ∈ env ∧ (State.running.toNat < q.state.toNat ∨ q.substate = .cycleDone) := by
  induction env with
  | nil =>
    intro p hr
    unfold waitCycleDone at hr
    split at hr
    · cases hr
    · rename_i hc
      exact Or.inl (by simpa using hc)
  | cons q env ih =>
    intro p hr
    unfold waitCycleDone at hr
    split at hr
    · split at hr
      · rename_i hs
        exact Or.inr ⟨q, List.mem_cons_self _ _, Or.inl hs⟩
      · rcases ih _ hr with h1 | ⟨q1, hq1, h1⟩
        · exact Or.inr ⟨q, List.mem_cons_self _ _, Or.inr h1⟩
        · exact Or.inr ⟨q1, List.mem_cons_of_mem _ hq1, h1⟩
    · rename_i hc
      exact Or.inl (by simpa using hc)

/-- The loop of `waitForCycleDone2` times out on a port that is not above
`running`, is not in sub-state CycleDone, and is seen in the same state and
sub-state at every wake-up. -/
theorem waitCycleDone_timeout (env : List Port) :
    ∀ p : Port, p.substate ≠ .cycleDone → ¬ State.running.toNat < p.state.toNat →
      (∀ q, q ∈ env → q.state = p.state ∧ q.substate = p.substate) →
      waitCycleDone p env = .error { message := "Timeout in waitForCycleDone2()." } := by
  induction env with
  | nil =>
    intro p hs _ _
    simp [waitCycleDone, hs]
  | cons q env ih =>
    intro p hs hst henv
    obtain ⟨h1, h2⟩ := henv q (List.mem_cons_self _ _)
    have hw1 : (p.wake q).state = p.state := h1
    have hw2 : (p.wake q).substate = p.substate := h2
    unfold waitCycleDone
    rw [if_pos hs, hw1, if_neg (by simpa using hst)]
    refine ih _ (by rw [hw2]; exact hs) (by rw [hw1]; exact hst) (fun r hr => ?_)
    rw [hw1, hw2]
    exact henv r (List.mem_cons_of_mem _ hr)

/-- C40: `waitForCycleDone` of the chain, `env` being the wake-ups the end
control port sees while it waits.  On a chain whose last slot holds an end
control port that can be met from a constructed port: the call returns at
once when the main state of that port is past Running (StoppedOnError,
Stopped, Unregistered, Deletable) or its sub-state is CycleDone; when it
returns without error, the main state was past Running or the sub-state was
CycleDone at the call, or at one of the wake-ups; when the port is Created,
Initialized or Registered and every wake-up shows it in the same state and
sub-state (in particular when there is no wake-up), the call fails with the
Timeout error of `waitForCycleDone2`.  On a chain whose last slot is empty
the call raises 'No End-Control port in port-chain.'. -/
theorem C40_waitForCycleDone (h : Hooks) (env : List Port) (c : PortChain) :
    (∀ endControl, (c.entry (MAX_PORTS - 1)).item = some endControl →
      Reachable h (fun _ _ => True) endControl →
      ((endControl.state = .stoppedOnError ∨ endControl.state = .stopped ∨
          endControl.state = .unregistered ∨ endControl.state = .deletable ∨
          endControl.substate = .cycleDone) →
        c.waitForCycleDone env = .ok ()) ∧
      (c.waitForCycleDone env = .ok () →
        (endControl.state = .stoppedOnError ∨ endControl.state = .stopped ∨
          endControl.state = .unregistered ∨ endControl.state = .deletable) ∨
        endControl.substate = .cycleDone ∨
        ∃ q, q ∈ env ∧
          ((q.state = .stoppedOnError ∨ q.state = .stopped ∨ q.state = .unregistered ∨
            q.state = .deletable) ∨ q.substate = .cycleDone)) ∧
      ((endControl.state = .created ∨ endControl.state = .initialized ∨
          endControl.state = .registered) →
        (∀ q, q ∈ env → q.state = endControl.state ∧ q.substate = endControl.substate) →
        c.waitForCycleDone env =
          .error (.timeout { message := "Timeout in waitForCycleDone2()." }))) ∧
    ((c.entry (MAX_PORTS - 1)).item = Option.none →
      c.waitForCycleDone env = .error (.runtimeError "No End-Control port in port-chain.")) := by
  constructor
  · intro p hitem hreach
    have hinv := subStateInv_reachable h p hreach
    refine ⟨?_, ?_, ?_⟩
    · intro hs
      unfold PortChain.waitForCycleDone
      rw [hitem]
      simp only
      unfold Port.waitForCycleDone2
      by_cases hpast : State.running.toNat < p.state.toNat
      · simp [hpast]
      · have hcd : p.substate = .cycleDone := by
          rcases hs with hs | hs | hs | hs | hs
          · exact absurd ((past_running_iff _).mpr (Or.inl hs)) hpast
          · exact absurd ((past_running_iff _).mpr (Or.inr (Or.inl hs))) hpast
          · exact absurd ((past_running_iff _).mpr (Or.inr (Or.inr (Or.inl hs)))) hpast
          · exact absurd ((past_running_iff _).mpr (Or.inr (Or.inr (Or.inr hs)))) hpast
          · exact hs
        have hw : waitCycleDone p env = .ok () := by
          cases env <;> simp [waitCycleDone, hcd]
        simp [hpast, hw]
    · intro hr
      unfold PortChain.waitForCycleDone at hr
      rw [hitem] at hr
      simp only at hr
      unfold Port.waitForCycleDone2 at hr
      by_cases hpast : State.running.toNat < p.state.toNat
      · exact Or.inl ((past_running_iff _).mp hpast)
      · rw [if_neg (by simpa using hpast)] at hr
        cases hw : waitCycleDone p env with
        | error e => rw [hw] at hr; cases hr
        | ok u =>
          rcases waitCycleDone_ok env p hw with h1 | ⟨q, hq, h1 | h1⟩
          · exact Or.inr (Or.inl h1)
          · exact Or.inr (Or.inr ⟨q, hq, Or.inl ((past_running_iff _).mp h1)⟩)
          · exact Or.inr (Or.inr ⟨q, hq, Or.inr h1⟩)
    · intro hs henv
      have hnr : p.state ≠ .running := by rcases hs with hs | hs | hs <;> simp [hs]
      have hnone : p.substate = .none := by
        by_contra hne
        exact hnr (hinv.mpr hne)
      have hpast : ¬ State.running.toNat < p.state.toNat := by
        rcases hs with hs | hs | hs <;> simp [hs, State.toNat]
      unfold PortChain.waitForCycleDone
      rw [hitem]
      simp only
      unfold Port.waitForCycleDone2
      rw [if_neg (by simpa using hpast),
        waitCycleDone_timeout env p (by rw [hnone]; decide) hpast henv]
  · intro hitem
    unfold PortChain.waitForCycleDone
    rw [hitem]

/-- Witness of C40: on the chain of the tests, which is not started (its end
control port is Initialized), the call times out when nobody signals; on a
constructed chain, whose last slot is empty, it raises the error of the
chain. -/
theorem C40_waitForCycleDone_witness :
    controlledChain.waitForCycleDone [] =
      .error (.timeout { message := "Timeout in waitForCycleDone2()." }) ∧
    PortChain.construct.waitForCycleDone [] =
      .error (.runtimeError "No End-Control port in port-chain.") :=
  ⟨((C40_waitForCycleDone quietHooks [] controlledChain).1 (userPort true (-1)) (by decide!)
      (.perform .doInitialize _ (.construct true (-1)) trivial (fun _ hq => by cases hq))).2.2
      (Or.inr (Or.inl rfl)) (fun q hq => by cases hq),
   (C40_waitForCycleDone quietHooks [] PortChain.construct).2 (by decide!)⟩

/-! ## The native cycle of the chain -/

/-- The accessor of the loop over the ports is destroyed when the member has
returned: the use count is as before. -/
theorem accessor_scope_item (entry : PtrEnvelope) (q : Port) :
    PtrEnvelope.decrementUseCount { entry.makeAccessor with item := some q } =
      { entry with item := some q } := by
  cases entry
  simp [PtrEnvelope.makeAccessor, PtrEnvelope.decrementUseCount]

/-- Slot by slot: when the loop over the ports completes, an empty entry is
as it was, and any other entry holds, with the use count it had, the port as
the member returned it. -/
theorem forEachPort_pointwise (f : Port → Outcome) (l : List PtrEnvelope) :
    ∀ l1, forEachPort f l = (.completed, l1) → ∀ i,
      ((l.getD i PtrEnvelope.construct).item = Option.none →
        l1.getD i PtrEnvelope.construct = l.getD i PtrEnvelope.construct) ∧
      (∀ p, (l.getD i PtrEnvelope.construct).item = some p →
        ∃ q, f p = .returned q ∧
          l1.getD i PtrEnvelope.construct =
            { l.getD i PtrEnvelope.construct with item := some q }) := by
  induction l with
  | nil =>
    intro l1 hr i
    simp only [forEachPort, Prod.mk.injEq, true_and] at hr
    rw [← hr]
    refine ⟨fun _ => rfl, fun p hp => ?_⟩
    simp [PtrEnvelope.construct] at hp
  | cons entry rest ih =>
    intro l1 hr i
    simp only [forEachPort] at hr
    cases hi : entry.makeAccessor.item with
    | none =>
      rw [hi] at hr
      simp only [Prod.mk.injEq] at hr
      obtain ⟨h1, h2⟩ := hr
      have hrest := ih (forEachPort f rest).2 (Prod.ext h1 rfl)
      rw [← h2, accessor_scope]
      cases i with
      | zero =>
        refine ⟨fun _ => rfl, fun p hp => ?_⟩
        have hi' : entry.item = Option.none := hi
        simp [hi'] at hp
      | succ n => simpa using hrest n
    | some port =>
      rw [hi] at hr
      simp only at hr
      cases hfp : f port with
      | raised x q => rw [hfp] at hr; simp at hr
      | blocked q => rw [hfp] at hr; simp at hr
      | returned q =>
        rw [hfp] at hr
        simp only [Prod.mk.injEq] at hr
        obtain ⟨h1, h2⟩ := hr
        have hrest := ih (forEachPort f rest).2 (Prod.ext h1 rfl)
        rw [← h2, accessor_scope_item]
        cases i with
        | zero =>
          have hi' : entry.item = some port := hi
          refine ⟨fun hn => ?_, fun p hp => ?_⟩
          · simp [hi'] at hn
          · have hp' : port = p := by simpa [hi'] using hp
            rw [← hp']
            exact ⟨q, hfp, rfl⟩
        | succ n => simpa using hrest n

/-- Slot by slot: when a loop of the chain that does not assign its state
returns, the state of the chain is as it was, an empty slot is as it was, and
any other slot holds the port as the member returned it. -/
theorem forPorts_returned (f : Port → Outcome) (c c1 : PortChain)
    (hr : c.forPorts f = .returned c1) :
    c1.state = c.state ∧ ∀ i,
      ((c.entry i).item = Option.none → c1.entry i = c.entry i) ∧
      (∀ p, (c.entry i).item = some p →
        ∃ q, f p = .returned q ∧ c1.entry i = { c.entry i with item := some q }) := by
  unfold PortChain.forPorts at hr
  cases hl : forEachPort f c.portList with
  | mk e l =>
    rw [hl] at hr
    cases e with
    | completed =>
      simp only [ChainOutcome.returned.injEq] at hr
      rw [← hr]
      exact ⟨rfl, forEachPort_pointwise f c.portList l hl⟩
    | raised x => simp at hr
    | blocked => simp at hr

/-- A sequence of the chain returned: so did its first part. -/
theorem chain_andThen_returned (o : ChainOutcome) (k : PortChain → ChainOutcome)
    (c1 : PortChain) (hr : o.andThen k = .returned c1) :
    ∃ c, o = .returned c ∧ k c = .returned c1 := by
  cases o with
  | returned c => exact ⟨c, rfl, hr⟩
  | raised e c => simp [ChainOutcome.andThen] at hr
  | blocked c => simp [ChainOutcome.andThen] at hr

/-- C31: `execNativeCycle(timeCodeStart, timeCodeDuration)` decides on the
end control port, the port of the last slot.  When the last slot is empty it
raises 'No End-Control port in port-chain.'.  When the end control port is
not Running, or Running with sub-state Terminated, it returns the chain as it
is: no hook is invoked and no port is changed.  When the end control port is
Running with a sub-state other than Terminated, CycleDone and Started, it
raises 'XRUN.' and the chain is as it is: no port has received
`execNativeCycleInit` or `execNativeProcess`.  When the end control port is
Running with sub-state CycleDone or Started, the call is the loop of
`execNativeCycleInit` over the ports followed by the loop of
`execNativeProcess`; when it returns, the state of the chain is as it was,
every empty slot is as it was and every held port has gone through
`execNativeCycleInit` and then `execNativeProcess`, both of which
returned. -/
theorem C31_execNativeCycle (h : Hooks) (timeCodeStart timeCodeDuration : Nat)
    (wake : Port → List Port) (c : PortChain) :
    ((c.entry (MAX_PORTS - 1)).item = Option.none →
      c.execNativeCycle h timeCodeStart timeCodeDuration wake =
        .raised (.runtimeError "No End-Control port in port-chain.") c) ∧
    (∀ endControl, (c.entry (MAX_PORTS - 1)).item = some endControl →
      ((endControl.state ≠ .running ∨
          (endControl.state = .running ∧ endControl.substate = .terminated)) →
        c.execNativeCycle h timeCodeStart timeCodeDuration wake = .returned c) ∧
      (endControl.state = .running → endControl.substate ≠ .terminated →
        endControl.substate ≠ .cycleDone → endControl.substate ≠ .started →
        c.execNativeCycle h timeCodeStart timeCodeDuration wake =
          .raised (.runtimeError "XRUN.") c) ∧
      (endControl.state = .running →
        (endControl.substate = .cycleDone ∨ endControl.substate = .started) →
        c.execNativeCycle h timeCodeStart timeCodeDuration wake =
          (c.forPorts ( Port.execNativeCycleInit h timeCodeStart timeCodeDuration)).andThen
            (PortChain.forPorts fun port => Port.execNativeProcess h (wake port) port) ∧
        ∀ c1, c.execNativeCycle h timeCodeStart timeCodeDuration wake = .returned c1 →
          c1.state = c.state ∧
          ∀ i, ((c.entry i).item = Option.none → c1.entry i = c.entry i) ∧
            ∀ p, (c.entry i).item = some p →
              ∃ p1 p2, Port.execNativeCycleInit h timeCodeStart timeCodeDuration p =
                  .returned p1 ∧
                Port.execNativeProcess h (wake p1) p1 = .returned p2 ∧
                c1.entry i = { c.entry i with item := some p2 })) := by
  refine ⟨?_, ?_⟩
  · intro hitem
    unfold PortChain.execNativeCycle
    rw [hitem]
  · intro e hitem
    refine ⟨?_, ?_, ?_⟩
    · intro hs
      unfold PortChain.execNativeCycle
      rw [hitem]
      simp only
      rcases hs with hs | ⟨hs, ht⟩
      · rw [if_pos hs]
      · rw [if_neg (by simp [hs]), if_pos ht]
    · intro hs ht hc hst
      unfold PortChain.execNativeCycle
      rw [hitem]
      simp only
      rw [if_neg (by simp [hs]), if_neg ht, if_pos ⟨hc, hst⟩, if_pos hs]
    · intro hs hsub
      have hg : ¬ (e.substate ≠ .cycleDone ∧ e.substate ≠ .started) := by
        rcases hsub with hsub | hsub <;> simp [hsub]
      have ht : ¬ e.substate = .terminated := by
        rcases hsub with hsub | hsub <;> simp [hsub]
      have heq : c.execNativeCycle h timeCodeStart timeCodeDuration wake =
          (c.forPorts ( Port.execNativeCycleInit h timeCodeStart timeCodeDuration)).andThen
            (PortChain.forPorts fun port => Port.execNativeProcess h (wake port) port) := by
        unfold PortChain.execNativeCycle
        rw [hitem]
        simp only
        rw [if_neg (by simp [hs]), if_neg ht, if_neg hg]
      refine ⟨heq, ?_⟩
      intro c1 hr
      rw [heq] at hr
      obtain ⟨c0, h0, h1⟩ := chain_andThen_returned _ _ c1 hr
      obtain ⟨hs0, hp0⟩ := forPorts_returned _ c c0 h0
      obtain ⟨hs1, hp1⟩ := forPorts_returned _ c0 c1 h1
      refine ⟨by rw [hs1, hs0], fun i => ⟨fun hn => ?_, fun p hp => ?_⟩⟩
      · have e0 := (hp0 i).1 hn
        rw [(hp1 i).1 (by rw [e0]; exact hn), e0]
      · obtain ⟨p1, hf1, e1⟩ := (hp0 i).2 p hp
        obtain ⟨p2, hf2, e2⟩ := (hp1 i).2 p1 (by rw [e1])
        exact ⟨p1, p2, hf1, hf2, by rw [e2, e1]⟩

/-- Witness of C31: a constructed chain has no end control port; on the
chain of the tests, which is not started, the call changes nothing; in the
middle of a cycle (end control port Running in JavaToExec) the call raises
'XRUN.'; on the running chain of the tests the call returns once the java
thread has run the java half of the end control port. -/
theorem C31_execNativeCycle_witness :
    PortChain.construct.execNativeCycle quietHooks 0 64 javaWake =
      .raised (.runtimeError "No End-Control port in port-chain.") PortChain.construct ∧
    controlledChain.execNativeCycle quietHooks 0 64 javaWake = .returned controlledChain ∧
    midCycleChain.execNativeCycle quietHooks 64 64 javaWake =
      .raised (.runtimeError "XRUN.") midCycleChain ∧
    ((runningChain.execNativeCycle quietHooks 0 64 javaWake).chain.state = runningChain.state ∧
      ∀ i, ((runningChain.entry i).item = Option.none →
          (runningChain.execNativeCycle quietHooks 0 64 javaWake).chain.entry i =
            runningChain.entry i) ∧
        ∀ p, (runningChain.entry i).item = some p →
          ∃ p1 p2, Port.execNativeCycleInit quietHooks 0 64 p = .returned p1 ∧
            Port.execNativeProcess quietHooks (javaWake p1) p1 = .returned p2 ∧
            (runningChain.execNativeCycle quietHooks 0 64 javaWake).chain.entry i =
              { runningChain.entry i with item := some p2 }) :=
  ⟨(C31_execNativeCycle quietHooks 0 64 javaWake PortChain.construct).1 (by decide!),
   ((C31_execNativeCycle quietHooks 0 64 javaWake controlledChain).2 (userPort true (-1))
      (by decide!)).1 (Or.inl (by decide)),
   ((C31_execNativeCycle quietHooks 64 64 javaWake midCycleChain).2
      ( Port.execNativeCycleInit quietHooks 0 64
        (Port.run quietHooks [.doInitialize, .doRegisterAtServer, .doStart]
          (Port.construct true (-1)))).port
      (by decide!)).2.1 (by decide) (by decide) (by decide) (by decide),
   (((C31_execNativeCycle quietHooks 0 64 javaWake runningChain).2
      (Port.run quietHooks [.doInitialize, .doRegisterAtServer, .doStart]
        (Port.construct true (-1)))
      (by decide!)).2.2 (by decide) (Or.inr (by decide))).2 _ (by decide!)⟩

/-! ## The life-cycle of the system listener -/

/-- A listener that can be met holds its global reference in every state
but `uninitialized`. -/
theorem listener_holds_reference (l : JackSystemListener) (hl : ListenerReachable l) :
    l.state ≠ .uninitialized → l.systemListener ≠ Option.none := by
  induction hl with
  | construct => intro hs; exact absurd rfl hs
  | perform a l _ ih =>
    cases a with
    | doInitialize jni =>
      simp only [JackSystemListener.perform, JackSystemListener.initialize,
        JackSystemListener.throwCannot]
      split
      · exact ih
      · rename_i hs
        simp only [ne_eq, not_not] at hs
        unfold JackSystemListener.initialize_impl
        simp only
        split
        · simp [ListenerOutcome.andThen, ListenerOutcome.listener, hs]
        · split
          · simp [ListenerOutcome.andThen, ListenerOutcome.listener, hs]
          · split
            · simp [ListenerOutcome.andThen, ListenerOutcome.listener, hs]
            · split
              · simp [ListenerOutcome.andThen, ListenerOutcome.listener, hs]
              · rename_i hn _ _ _
                intro _
                simpa [ListenerOutcome.andThen, ListenerOutcome.listener] using hn
    | doActivate err =>
      simp only [JackSystemListener.perform, JackSystemListener.activate,
        JackSystemListener.throwCannot, JackSystemListener.activate_impl]
      split
      · exact ih
      · rename_i hs
        simp only [ne_eq, not_not] at hs
        have hi := ih (by rw [hs]; decide)
        split <;> simp [ListenerOutcome.andThen, ListenerOutcome.listener, hi]
    | doDeactivate =>
      simp only [JackSystemListener.perform, JackSystemListener.deactivate,
        JackSystemListener.throwCannot, JackSystemListener.deactivate_impl]
      split
      · exact ih
      · rename_i hs
        simp only [ne_eq, not_not] at hs
        have hi := ih (by rw [hs]; decide)
        simp [ListenerOutcome.andThen, ListenerOutcome.listener, hi]
    | doUnInitialize =>
      simp only [JackSystemListener.perform, JackSystemListener.uninitialize,
        JackSystemListener.throwCannot, JackSystemListener.uninitialize_impl]
      split
      · exact ih
      · split
        · exact ih
        · simp [ListenerOutcome.andThen, ListenerOutcome.listener]
    | doShutdown =>
      simp only [JackSystemListener.perform, JackSystemListener.shutdown,
        JackSystemListener.shutdown_impl, JackSystemListener.uninitialize_impl,
        JackSystemListener.deactivate_impl]
      split
      · simp [ListenerOutcome.andThen, ListenerOutcome.listener]
      · rename_i hs
        rw [if_neg (ih (by rw [hs]; decide))]
        simp [ListenerOutcome.andThen, ListenerOutcome.listener]
      · rename_i hs
        simp [ListenerOutcome.andThen, ListenerOutcome.listener,
          JackSystemListener.uninitialize_impl, ih (by rw [hs]; decide)]
      · rename_i hs
        rw [if_neg (ih (by rw [hs]; decide))]
        simp [ListenerOutcome.andThen, ListenerOutcome.listener]

/-- An exception of `initialize_impl` leaves the state of the listener as
it was. -/
theorem listener_initialize_impl_state (jni : ListenerJni) (l : JackSystemListener) :
    (l.initialize_impl jni).listener.state = l.state ∧
    (jni.succeeds → ∃ l1, l.initialize_impl jni = .returned l1) ∧
    (∀ l1, l.initialize_impl jni = .returned l1 → jni.succeeds) := by
  unfold JackSystemListener.initialize_impl ListenerJni.succeeds
  simp only
  split
  · rename_i h1
    exact ⟨rfl, fun hs => absurd h1 hs.1, fun l1 hr => by cases hr⟩
  · split
    · rename_i h2
      exact ⟨rfl, fun hs => absurd h2 hs.2.1, fun l1 hr => by cases hr⟩
    · split
      · rename_i h3
        exact ⟨rfl, fun hs => absurd h3 hs.2.2.1, fun l1 hr => by cases hr⟩
      · split
        · rename_i h4
          exact ⟨rfl, fun hs => absurd hs.2.2.2 h4, fun l1 hr => by cases hr⟩
        · rename_i h1 h2 h3 h4
          exact ⟨rfl, fun _ => ⟨_, rfl⟩, fun _ _ => ⟨h1, h2, h3, by simpa using h4⟩⟩

/-- C36: the life-cycle of the system listener, on every listener that can
be met from a constructed one by calls of its public members.  `initialize`
in `uninitialized` ends in `initialized` when it returns, which it does
exactly when the JNI functions succeed, and raises the error of `throwCannot`
in every other state; `activate` in `initialized` ends in `activated` when it
returns, which it does exactly when JACK accepts the callback, and raises in
every other state; `deactivate` in `activated` returns and ends in
`deactivateted`, and raises in every other state; `uninitialize` in
`deactivateted` or `initialized` returns and ends in `uninitialized`, and
raises in every other state; `shutdown` returns in every state and ends in
`uninitialized`.  Every call that raises leaves the state as it was. -/
theorem C36_listener_life_cycle (l : JackSystemListener) (hl : ListenerReachable l) :
    (∀ jni : ListenerJni,
      (l.state = .uninitialized →
        (jni.succeeds → ∃ l1, l.initialize jni = .returned l1 ∧ l1.state = .initialized) ∧
        (∀ l1, l.initialize jni = .returned l1 → jni.succeeds ∧ l1.state = .initialized)) ∧
      (l.state ≠ .uninitialized →
        l.initialize jni = .raised (.cannot "initialize" 294 l.state) l)) ∧
    (∀ err : Int,
      (l.state = .initialized →
        (err = 0 → ∃ l1, l.activate err = .returned l1 ∧ l1.state = .activated) ∧
        (∀ l1, l.activate err = .returned l1 → err = 0 ∧ l1.state = .activated)) ∧
      (l.state ≠ .initialized → l.activate err = .raised (.cannot "activate" 312 l.state) l)) ∧
    ((l.state = .activated →
        ∃ l1, l.deactivate = .returned l1 ∧ l1.state = .deactivateted) ∧
      (l.state ≠ .activated → l.deactivate = .raised (.cannot "deactivate" 326 l.state) l)) ∧
    ((l.state = .deactivateted ∨ l.state = .initialized →
        ∃ l1, l.uninitialize = .returned l1 ∧ l1.state = .uninitialized) ∧
      (l.state ≠ .deactivateted → l.state ≠ .initialized →
        l.uninitialize = .raised (.cannot "un-initialize" 342 l.state) l)) ∧
    (∃ l1, l.shutdown = .returned l1 ∧ l1.state = .uninitialized) ∧
    (∀ (a : ListenerCall) (e : ListenerExc) (l1 : JackSystemListener),
      l.perform a = .raised e l1 → l1.state = l.state) := by
  have href := listener_holds_reference l hl
  refine ⟨?_, ?_, ?_, ?_, ?_, ?_⟩
  · intro jni
    obtain ⟨h1, h2, h3⟩ := listener_initialize_impl_state jni l
    refine ⟨fun hs => ⟨fun hj => ?_, fun l1 hr => ?_⟩, fun hs => ?_⟩
    · obtain ⟨l1, hl1⟩ := h2 hj
      exact ⟨{ l1 with state := .initialized },
        by simp [ JackSystemListener.initialize, hs, hl1, ListenerOutcome.andThen], rfl⟩
    · simp only [ JackSystemListener.initialize, hs, ne_eq, not_true_eq_false, if_false] at hr
      cases hi : l.initialize_impl jni with
      | raised e l2 => rw [hi] at hr; simp [ListenerOutcome.andThen] at hr
      | returned l2 =>
        rw [hi] at hr
        simp only [ListenerOutcome.andThen, ListenerOutcome.returned.injEq] at hr
        exact ⟨h3 l2 hi, by rw [← hr]⟩
    · simp [ JackSystemListener.initialize, hs, JackSystemListener.throwCannot]
  · intro err
    refine ⟨fun hs => ⟨fun he => ?_, fun l1 hr => ?_⟩, fun hs => ?_⟩
    · refine ⟨{ l with ignoreCallback := false, state := .activated }, ?_, rfl⟩
      simp [JackSystemListener.activate, hs, JackSystemListener.activate_impl, he,
        ListenerOutcome.andThen]
    · simp only [JackSystemListener.activate, hs, ne_eq, not_true_eq_false, if_false,
        JackSystemListener.activate_impl] at hr
      by_cases he : err = 0
      · simp only [he, not_true_eq_false, if_false, ListenerOutcome.andThen,
          ListenerOutcome.returned.injEq] at hr
        exact ⟨he, by rw [← hr]⟩
      · simp [he, ListenerOutcome.andThen] at hr
    · simp [JackSystemListener.activate, hs, JackSystemListener.throwCannot]
  · refine ⟨fun hs => ?_, fun hs => ?_⟩
    · refine ⟨{ l with ignoreCallback := true, state := .deactivateted }, ?_, rfl⟩
      simp [JackSystemListener.deactivate, hs, JackSystemListener.deactivate_impl,
        ListenerOutcome.andThen]
    · simp [JackSystemListener.deactivate, hs, JackSystemListener.throwCannot]
  · refine ⟨fun hs => ?_, fun h1 h2 => ?_⟩
    · have hne : l.state ≠ .uninitialized := by rcases hs with hs | hs <;> simp [hs]
      have hg : ¬ (l.state ≠ .deactivateted ∧ l.state ≠ .initialized) := by
        rcases hs with hs | hs <;> simp [hs]
      refine ⟨{ l with
        systemListener := Option.none
        onConnectionChangedMid := Option.none
        state := .uninitialized }, ?_, rfl⟩
      unfold JackSystemListener.uninitialize JackSystemListener.uninitialize_impl
      rw [if_neg hg, if_neg (href hne)]
      rfl
    · simp [ JackSystemListener.uninitialize, h1, h2, JackSystemListener.throwCannot]
  · unfold JackSystemListener.shutdown JackSystemListener.shutdown_impl
      JackSystemListener.uninitialize_impl JackSystemListener.deactivate_impl
    split
    · exact ⟨_, rfl, rfl⟩
    · rename_i hs
      rw [if_neg (href (by rw [hs]; decide))]
      exact ⟨_, rfl, rfl⟩
    · rename_i hs
      simp only [ListenerOutcome.andThen, JackSystemListener.uninitialize_impl]
      rw [if_neg (href (by rw [hs]; decide))]
      exact ⟨_, rfl, rfl⟩
    · rename_i hs
      rw [if_neg (href (by rw [hs]; decide))]
      exact ⟨_, rfl, rfl⟩
  · intro a e l1 hr
    cases a with
    | doInitialize jni =>
      simp only [JackSystemListener.perform, JackSystemListener.initialize,
        JackSystemListener.throwCannot] at hr
      split at hr
      · simp only [ListenerOutcome.raised.injEq] at hr
        rw [← hr.2]
      · have h1 := (listener_initialize_impl_state jni l).1
        cases hi : l.initialize_impl jni with
        | raised e2 l2 =>
          rw [hi] at hr h1
          simp only [ListenerOutcome.andThen, ListenerOutcome.raised.injEq] at hr
          rw [← hr.2]
          exact h1
        | returned l2 => rw [hi] at hr; simp [ListenerOutcome.andThen] at hr
    | doActivate err =>
      simp only [JackSystemListener.perform, JackSystemListener.activate,
        JackSystemListener.throwCannot, JackSystemListener.activate_impl] at hr
      split at hr
      · simp only [ListenerOutcome.raised.injEq] at hr
        rw [← hr.2]
      · split at hr
        · simp only [ListenerOutcome.andThen, ListenerOutcome.raised.injEq] at hr
          rw [← hr.2]
        · simp [ListenerOutcome.andThen] at hr
    | doDeactivate =>
      simp only [JackSystemListener.perform, JackSystemListener.deactivate,
        JackSystemListener.throwCannot, JackSystemListener.deactivate_impl] at hr
      split at hr
      · simp only [ListenerOutcome.raised.injEq] at hr
        rw [← hr.2]
      · simp [ListenerOutcome.andThen] at hr
    | doUnInitialize =>
      simp only [JackSystemListener.perform, JackSystemListener.uninitialize,
        JackSystemListener.throwCannot, JackSystemListener.uninitialize_impl] at hr
      split at hr
      · simp only [ListenerOutcome.raised.injEq] at hr
        rw [← hr.2]
      · split at hr
        · simp only [ListenerOutcome.andThen, ListenerOutcome.raised.injEq] at hr
          rw [← hr.2]
        · simp [ListenerOutcome.andThen] at hr
    | doShutdown =>
      exfalso
      unfold JackSystemListener.perform at hr
      simp only at hr
      unfold JackSystemListener.shutdown JackSystemListener.shutdown_impl
        JackSystemListener.uninitialize_impl JackSystemListener.deactivate_impl at hr
      split at hr
      · simp [ListenerOutcome.andThen] at hr
      · rename_i hs
        rw [if_neg (href (by rw [hs]; decide))] at hr
        simp [ListenerOutcome.andThen] at hr
      · rename_i hs
        simp [ListenerOutcome.andThen, JackSystemListener.uninitialize_impl,
          href (by rw [hs]; decide)] at hr
      · rename_i hs
        rw [if_neg (href (by rw [hs]; decide))] at hr
        simp [ListenerOutcome.andThen] at hr

/-- The listener left by a sequence of calls on a listener that can be met
can be met. -/
theorem listener_reachable_run (calls : List ListenerCall) :
    ∀ l : JackSystemListener, ListenerReachable l →
      ListenerReachable (JackSystemListener.run calls l) := by
  induction calls with
  | nil => intro l hl; exact hl
  | cons a calls ih => intro l hl; exact ih _ (.perform a l hl)

/-- Witness of C36: a constructed listener is initialized when the JNI
functions succeed; once it is activated, `initialize` is refused, and
`shutdown` takes it back to `uninitialized`. -/
theorem C36_listener_life_cycle_witness :
    (∃ l1, JackSystemListener.initialize sampleJni JackSystemListener.construct =
        .returned l1 ∧ l1.state = .initialized) ∧
    JackSystemListener.initialize sampleJni
        (JackSystemListener.run [.doInitialize sampleJni, .doActivate 0]
          JackSystemListener.construct) =
      .raised (.cannot "initialize" 294 .activated)
        (JackSystemListener.run [.doInitialize sampleJni, .doActivate 0]
          JackSystemListener.construct) ∧
    (∃ l1, JackSystemListener.shutdown
        (JackSystemListener.run [.doInitialize sampleJni, .doActivate 0]
          JackSystemListener.construct) = .returned l1 ∧ l1.state = .uninitialized) :=
  ⟨(((C36_listener_life_cycle JackSystemListener.construct .construct).1 sampleJni).1 rfl).1
      ⟨by decide, by decide, by decide, rfl⟩,
   ((C36_listener_life_cycle _
      (listener_reachable_run [.doInitialize sampleJni, .doActivate 0] _ .construct)).1
        sampleJni).2 (by decide),
   (C36_listener_life_cycle _
      (listener_reachable_run [.doInitialize sampleJni, .doActivate 0] _ .construct)).2.2.2.2.1⟩

/-! ## The native half of the JACK input port -/

theorem storeAt_inside (buffer : List Int) (i : Nat) (v : Int) (h : i < buffer.length) :
    storeAt buffer i v = some (buffer.set i v) := by
  simp [storeAt, h]

theorem take_set_self (l : List Int) (v : Int) : ∀ n, (l.set n v).take n = l.take n := by
  induction l with
  | nil => intro n; simp
  | cons x l ih =>
    intro n
    cases n with
    | zero => simp
    | succ n => simp [ih n]

theorem take_set_succ (l : List Int) (n : Nat) (v : Int) (h : n < l.length) :
    (l.set n v).take (n + 1) = l.take n ++ [v] := by
  rw [List.take_succ, take_set_self, List.getElem?_set_self h]
  rfl

/-- Buffering one event of three bytes, with room left in the arrays. -/
theorem store_inside (s : JackInputPort) (time b0 b1 b2 : Nat)
    (hraw : s.bufferRawMidi.length = 3 * MaxMidiEvents)
    (hdelta : s.bufferDeltaTimes.length = MaxMidiEvents)
    (hn : s.bufferEventCount < MaxMidiEvents) :
    ∃ s1, s.store { time := time, buffer := [b0, b1, b2] } = some s1 ∧
      s1.jackPort = s.jackPort ∧
      s1.bufferEventCount = s.bufferEventCount + 1 ∧
      s1.bufferRawMidi.length = 3 * MaxMidiEvents ∧
      s1.bufferDeltaTimes.length = MaxMidiEvents ∧
      s1.bufferDeltaTimes.take (s.bufferEventCount + 1) =
        s.bufferDeltaTimes.take s.bufferEventCount ++ [toJint time] ∧
      s1.bufferRawMidi.take (3 * (s.bufferEventCount + 1)) =
        s.bufferRawMidi.take (3 * s.bufferEventCount) ++ [(b0 : Int), (b1 : Int), (b2 : Int)] := by
  have h0 : 3 * s.bufferEventCount < s.bufferRawMidi.length := by omega
  have h1 : 3 * s.bufferEventCount + 1 <
      (s.bufferRawMidi.set (3 * s.bufferEventCount) (b0 : Int)).length := by
    rw [List.length_set]; omega
  have h2 : 3 * s.bufferEventCount + 2 <
      ((s.bufferRawMidi.set (3 * s.bufferEventCount) (b0 : Int)).set
        (3 * s.bufferEventCount + 1) (b1 : Int)).length := by
    rw [List.length_set, List.length_set]; omega
  refine ⟨{ s with
      bufferDeltaTimes := s.bufferDeltaTimes.set s.bufferEventCount (toJint time)
      bufferRawMidi := ((s.bufferRawMidi.set (3 * s.bufferEventCount) (b0 : Int)).set
        (3 * s.bufferEventCount + 1) (b1 : Int)).set (3 * s.bufferEventCount + 2) (b2 : Int)
      bufferEventCount := s.bufferEventCount + 1 }, ?_, rfl, rfl, ?_, ?_, ?_, ?_⟩
  · unfold JackInputPort.store
    simp only [List.getD_cons_zero, List.getD_cons_succ]
    rw [storeAt_inside _ _ _ (by omega)]
    simp only [Option.some_bind]
    rw [storeAt_inside _ _ _ h0]
    simp only [Option.some_bind]
    rw [storeAt_inside _ _ _ h1]
    simp only [Option.some_bind]
    rw [storeAt_inside _ _ _ h2]
    simp only [Option.some_bind]
  · simp [hraw]
  · simp [hdelta]
  · exact take_set_succ _ _ _ (by omega)
  · show (((s.bufferRawMidi.set (3 * s.bufferEventCount) (b0 : Int)).set
        (3 * s.bufferEventCount + 1) (b1 : Int)).set (3 * s.bufferEventCount + 2)
          (b2 : Int)).take (3 * (s.bufferEventCount + 1)) = _
    have e3 : 3 * (s.bufferEventCount + 1) = 3 * s.bufferEventCount + 2 + 1 := by omega
    rw [e3, take_set_succ _ _ _ h2, take_set_succ _ _ _ h1, take_set_succ _ _ _ h0]
    simp

/-- A list of length 3 is a list of three elements. -/
theorem length_three (l : List Nat) (h : l.length = 3) :
    ∃ b0 b1 b2, l = [b0, b1, b2] := by
  match l, h with
  | [b0, b1, b2], _ => exact ⟨b0, b1, b2, rfl⟩

/-- The loop of the native half: started with `n` events buffered, it adds
the delivered events of size 3, in their order, when they fit. -/
theorem bufferEvents_returns (delivered : List (Int × JackMidiEvent)) :
    ∀ s : JackInputPort, s.bufferRawMidi.length = 3 * MaxMidiEvents →
      s.bufferDeltaTimes.length = MaxMidiEvents →
      (∀ d, d ∈ delivered → d.1 = 0) →
      s.bufferEventCount + (delivered.filter fun d => decide (d.2.size = 3)).length
        ≤ MaxMidiEvents →
      ∃ s1, JackInputPort.bufferEvents delivered s = .returned s1 ∧
        s1.jackPort = s.jackPort ∧
        s1.bufferEventCount =
          s.bufferEventCount + (delivered.filter fun d => decide (d.2.size = 3)).length ∧
        s1.bufferDeltaTimes.take s1.bufferEventCount =
          s.bufferDeltaTimes.take s.bufferEventCount ++
            (delivered.filter fun d => decide (d.2.size = 3)).map (fun d => toJint d.2.time) ∧
        s1.bufferRawMidi.take (3 * s1.bufferEventCount) =
          s.bufferRawMidi.take (3 * s.bufferEventCount) ++
            ((delivered.filter fun d => decide (d.2.size = 3)).map
              (fun d => d.2.buffer.map Int.ofNat)).flatten := by
  induction delivered with
  | nil =>
    intro s _ _ _ _
    exact ⟨s, rfl, rfl, by simp, by simp, by simp⟩
  | cons d rest ih =>
    intro s hraw hdelta herr hcap
    obtain ⟨error, jackEvent⟩ := d
    have he : error = 0 := herr (error, jackEvent) (List.mem_cons_self _ _)
    have herr' : ∀ d, d ∈ rest → d.1 = 0 := fun d hd => herr d (List.mem_cons_of_mem _ hd)
    by_cases hsize : jackEvent.size = 3
    · have hf : ((error, jackEvent) :: rest).filter (fun d => decide (d.2.size = 3)) =
          (error, jackEvent) :: rest.filter (fun d => decide (d.2.size = 3)) := by
        simp [List.filter_cons, hsize]
      rw [hf] at hcap ⊢
      simp only [List.length_cons] at hcap
      obtain ⟨b0, b1, b2, hb⟩ := length_three jackEvent.buffer hsize
      have hev : jackEvent = { time := jackEvent.time, buffer := [b0, b1, b2] } := by
        cases jackEvent
        simp only [JackMidiEvent.mk.injEq, true_and]
        exact hb
      obtain ⟨s0, hs0, hp0, hc0, hr0, hd0, ht0, hw0⟩ :=
        store_inside s jackEvent.time b0 b1 b2 hraw hdelta (by omega)
      rw [← hev] at hs0
      obtain ⟨s1, hs1, hp1, hc1, ht1, hw1⟩ := ih s0 hr0 hd0 herr' (by rw [hc0]; omega)
      refine ⟨s1, ?_, by rw [hp1, hp0], ?_, ?_, ?_⟩
      · unfold JackInputPort.bufferEvents
        rw [if_pos he, if_pos hsize, if_neg (by omega), hs0]
        exact hs1
      · rw [hc1, hc0]
        simp only [List.length_cons]
        omega
      · rw [ht1, hc0, ht0]
        simp
      · rw [hw1, hc0, hw0]
        simp [hb]
    · have hf : ((error, jackEvent) :: rest).filter (fun d => decide (d.2.size = 3)) =
          rest.filter (fun d => decide (d.2.size = 3)) := by
        simp [List.filter_cons, hsize]
      rw [hf] at hcap ⊢
      obtain ⟨s1, hs1, hp1, hc1, ht1, hw1⟩ := ih s hraw hdelta herr' hcap
      refine ⟨s1, ?_, hp1, hc1, ht1, hw1⟩
      unfold JackInputPort.bufferEvents
      rw [if_pos he, if_neg hsize]
      exact hs1

/-- The conversion to `jint` keeps a frame time below 2^31. -/
theorem toJint_small (n : Nat) (h : n < 2 ^ 31) : toJint n = (n : Int) := by
  unfold toJint
  have h1 : n % 2 ^ 32 = n := Nat.mod_eq_of_lt (by omega)
  rw [h1, if_pos h]

/-- C39: the native half of `JackInputPort`, on a port that is registered
(`jackPort` not null) and whose arrays have their declared lengths, for every
list of delivered events that JACK retrieves without error and of which at
most `MaxMidiEvents` = 255 have size 3.  The hook returns; the buffered event
count is the number of the delivered events of size 3; the first entries of
`bufferDeltaTimes` are the frame times of these events, in the order of
arrival, as `jint` (the frame time itself when it is below 2^31), and the
first entries of `bufferRawMidi` are their three bytes each; the events of
any other size leave no trace and raise no error.  The java half then hands
exactly these entries to the listener. -/
theorem C39_input_buffers_three_byte_events (s : JackInputPort)
    (delivered : List (Int × JackMidiEvent))
    (hport : s.jackPort ≠ Option.none)
    (hraw : s.bufferRawMidi.length = 3 * MaxMidiEvents)
    (hdelta : s.bufferDeltaTimes.length = MaxMidiEvents)
    (herr : ∀ d, d ∈ delivered → d.1 = 0)
    (hcap : (delivered.filter fun d => decide (d.2.size = 3)).length ≤ MaxMidiEvents) :
    ∃ s1, s.execNativeProcess_impl delivered = .returned s1 ∧
      s1.bufferEventCount = (delivered.filter fun d => decide (d.2.size = 3)).length ∧
      s1.bufferDeltaTimes.take s1.bufferEventCount =
        (delivered.filter fun d => decide (d.2.size = 3)).map (fun d => toJint d.2.time) ∧
      s1.bufferRawMidi.take (3 * s1.bufferEventCount) =
        ((delivered.filter fun d => decide (d.2.size = 3)).map
          (fun d => d.2.buffer.map Int.ofNat)).flatten ∧
      (∀ d, d ∈ delivered → d.2.time < 2 ^ 31 → toJint d.2.time = (d.2.time : Int)) ∧
      s1.execJavaProcess_impl true false =
        .returned
          (((delivered.filter fun d => decide (d.2.size = 3)).map
              (fun d => d.2.buffer.map Int.ofNat)).flatten,
            (delivered.filter fun d => decide (d.2.size = 3)).map (fun d => toJint d.2.time)) := by
  obtain ⟨s1, hs1, _, hc1, ht1, hw1⟩ :=
    bufferEvents_returns delivered { s with bufferEventCount := 0 } hraw hdelta herr
      (by simpa using hcap)
  have hc : s1.bufferEventCount =
      (delivered.filter fun d => decide (d.2.size = 3)).length := by
    rw [hc1]; simp
  have ht : s1.bufferDeltaTimes.take s1.bufferEventCount =
      (delivered.filter fun d => decide (d.2.size = 3)).map (fun d => toJint d.2.time) := by
    rw [ht1]; simp
  have hw : s1.bufferRawMidi.take (3 * s1.bufferEventCount) =
      ((delivered.filter fun d => decide (d.2.size = 3)).map
        (fun d => d.2.buffer.map Int.ofNat)).flatten := by
    rw [hw1]; simp
  refine ⟨s1, ?_, hc, ht, hw, fun d _ hd => toJint_small _ hd, ?_⟩
  · unfold JackInputPort.execNativeProcess_impl
    rw [if_neg hport]
    exact hs1
  · unfold JackInputPort.execJavaProcess_impl
    rw [if_neg (by rw [hc]; omega)]
    simp only [Bool.not_true, Bool.false_eq_true, if_false]
    rw [hw, ht]

/-- Witness of C39: a registered input port that receives a note-on at
frame 5, a program change of two bytes at frame 7 and a note-on at frame 9
buffers the two note-on events, and the listener receives them. -/
theorem C39_input_buffers_three_byte_events_witness :
    ∃ s1, JackInputPort.execNativeProcess_impl
        [noteOn 5, (0, { time := 7, buffer := [192, 10] }), noteOn 9]
        { JackInputPort.construct with jackPort := some 1 } = .returned s1 ∧
      s1.bufferEventCount = 2 ∧
      s1.execJavaProcess_impl true false =
        .returned ([144, 60, 100, 144, 60, 100], [5, 9]) := by
  obtain ⟨s1, h1, h2, _, _, _, h6⟩ :=
    C39_input_buffers_three_byte_events { JackInputPort.construct with jackPort := some 1 }
      [noteOn 5, (0, { time := 7, buffer := [192, 10] }), noteOn 9]
      (by decide) (List.length_replicate _ _) (List.length_replicate _ _) (by decide)
      (by decide)
  exact ⟨s1, h1, h2, h6⟩

/-! ## The event capacity of the JACK ports -/

/-- The loop of the native half of the input port over a list in two parts. -/
theorem bufferEvents_append (pre post : List (Int × JackMidiEvent)) :
    ∀ s : JackInputPort, JackInputPort.bufferEvents (pre ++ post) s =
      match JackInputPort.bufferEvents pre s with
      | .returned s1 => JackInputPort.bufferEvents post s1
      | .raised message s1 => .raised message s1
      | .outOfBounds s1 => .outOfBounds s1 := by
  induction pre with
  | nil => intro s; rfl
  | cons d pre ih =>
    intro s
    obtain ⟨error, jackEvent⟩ := d
    simp only [List.cons_append, JackInputPort.bufferEvents]
    split
    · split
      · split
        · rfl
        · split
          · exact ih _
          · rfl
      · exact ih _
    · rfl

/-- The native half of the input port meets an event of three bytes when its
arrays are full: it raises 'Buffer overflow.' and has written nothing outside
the arrays. -/
theorem bufferEvents_overflow (pre post : List (Int × JackMidiEvent)) (e : JackMidiEvent)
    (s : JackInputPort) (hraw : s.bufferRawMidi.length = 3 * MaxMidiEvents)
    (hdelta : s.bufferDeltaTimes.length = MaxMidiEvents)
    (hport : s.jackPort ≠ Option.none)
    (herr : ∀ d, d ∈ pre → d.1 = 0)
    (hfull : (pre.filter fun d => decide (d.2.size = 3)).length = MaxMidiEvents)
    (hsize : e.size = 3) :
    ∃ s1, s.execNativeProcess_impl (pre ++ (0, e) :: post) = .raised "Buffer overflow." s1 ∧
      s1.bufferEventCount = MaxMidiEvents := by
  obtain ⟨s1, hs1, _, hc1, _, _⟩ :=
    bufferEvents_returns pre { s with bufferEventCount := 0 } hraw hdelta herr
      (by simp [hfull])
  have hc : s1.bufferEventCount = MaxMidiEvents := by
    rw [hc1, hfull]
    exact Nat.zero_add _
  refine ⟨s1, ?_, hc⟩
  unfold JackInputPort.execNativeProcess_impl
  rw [if_neg hport, bufferEvents_append, hs1]
  simp only
  unfold JackInputPort.bufferEvents
  rw [if_pos rfl, if_pos hsize, if_pos (by rw [hc])]

/-- The loop of the native half of the output port, on buffers filled with
events of one byte at frame 0, when the event count exceeds the length of the
arrays: after the last element it reads outside `bufferEventSizes`. -/
theorem writeEvents_past_buffers (s : JackOutputPort)
    (hsizes : s.bufferEventSizes = List.replicate MaxMidiEvents 1)
    (hdelta : s.bufferDeltaTimes = List.replicate MaxMidiEvents 0)
    (hraw : s.bufferRawMidi = List.replicate (3 * MaxMidiEvents) 248) :
    ∀ (todo i : Nat) (written : List (Int × List Nat)), i ≤ MaxMidiEvents →
      MaxMidiEvents < i + todo →
      JackOutputPort.writeEvents s (fun _ => true) todo i (3 * i) 0 written =
        .outOfBounds (written ++ List.replicate (MaxMidiEvents - i) (0, [248])) := by
  have h255 : MaxMidiEvents = 255 := rfl
  intro todo
  induction todo with
  | zero => intro i written h1 h2; omega
  | succ todo ih =>
    intro i written h1 h2
    unfold JackOutputPort.writeEvents
    by_cases hi : i = MaxMidiEvents
    · have hget : s.bufferEventSizes.get? i = Option.none := by
        rw [hsizes, hi]
        simp
      rw [hget]
      simp [hi]
    · have hlt : i < MaxMidiEvents := by omega
      have hget : s.bufferEventSizes.get? i = some 1 := by
        rw [hsizes]
        simp [List.getElem?_replicate, hlt]
      have hget2 : s.bufferDeltaTimes.get? i = some 0 := by
        rw [hdelta]
        simp [List.getElem?_replicate, hlt]
      have hbytes : readBytes s.bufferRawMidi (3 * i) (1 : Int).toNat = some [248] := by
        rw [hraw]
        have h3 : 3 * i < 3 * MaxMidiEvents := by omega
        simp [readBytes, List.getElem?_replicate, h3]
      rw [hget]
      simp only
      rw [hget2]
      simp only [lt_self_iff_false, if_false, Bool.not_true, Bool.false_eq_true]
      rw [hbytes]
      simp only
      have e3 : 3 * i + 3 = 3 * (i + 1) := by omega
      rw [e3, ih (i + 1) _ (by omega) (by omega)]
      have e4 : MaxMidiEvents - i = (MaxMidiEvents - (i + 1)) + 1 := by omega
      rw [e4, List.replicate_succ]
      simp

/-- C34 on the code.  A registered `JackInputPort` that is delivered 256
events of three bytes raises 'Buffer overflow.' with 255 events buffered and
without an access outside its arrays.  A registered `JackOutputPort` whose
listener reports 256 events: the java half returns, with 256 as the event
count, and the native half, every event being in order and finding space in
the JACK buffer, raises no error either: after 255 events written it reads
`bufferEventSizes[255]`, outside the array of 255 elements. -/
theorem C34_output_port_reads_past_buffers :
    (∃ s1, JackInputPort.execNativeProcess_impl (List.replicate 256 (noteOn 0))
        { JackInputPort.construct with jackPort := some 1 } =
          .raised "Buffer overflow." s1 ∧ s1.bufferEventCount = 255) ∧
    (∃ s1, JackOutputPort.execJavaProcess_impl (answerOf 256)
        { JackOutputPort.construct with jackPort := some 1 } = .returned s1 ∧
      s1.bufferEventCount = 256 ∧
      JackOutputPort.execNativeProcess_impl (fun _ => true) s1 =
        .outOfBounds (List.replicate 255 (0, [248]))) := by
  constructor
  · have hsplit : List.replicate 256 (noteOn 0) =
        List.replicate 255 (noteOn 0) ++ (0, (noteOn 0).2) :: [] := by
      rw [show (256 : Nat) = 255 + 1 from rfl, List.replicate_succ']
      rfl
    rw [hsplit]
    refine bufferEvents_overflow (List.replicate 255 (noteOn 0)) [] (noteOn 0).2 _
      (List.length_replicate _ _) (List.length_replicate _ _) (by decide) ?_ ?_ rfl
    · intro d hd
      rw [List.eq_of_mem_replicate hd]
      rfl
    · rw [List.filter_eq_self.mpr]
      · exact List.length_replicate _ _
      · intro d hd
        rw [List.eq_of_mem_replicate hd]
        rfl
  · refine ⟨⟨some 1, List.replicate (3 * MaxMidiEvents) 248, List.replicate MaxMidiEvents 0,
      List.replicate MaxMidiEvents 1, 256⟩, ?_, rfl, ?_⟩
    · simp [JackOutputPort.execJavaProcess_impl, answerOf, JackOutputPort.construct,
        List.take_replicate]
    · unfold JackOutputPort.execNativeProcess_impl
      simp only [reduceCtorEq, if_false]
      have := writeEvents_past_buffers
        ⟨some 1, List.replicate (3 * MaxMidiEvents) 248, List.replicate MaxMidiEvents 0,
          List.replicate MaxMidiEvents 1, 256⟩
        rfl rfl rfl 256 0 [] (by decide) (by decide)
      exact this

/-! ## The callbacks of the control ports -/

/-- A hook other than `initialize_impl` and `uninitialize_impl` leaves the
listener pointer and the identifier of `onClose` alone and delivers neither
`onOpen` nor `onClose`. -/
theorem hook_quiet (jni : ControlJni) (client : Option Nat) (isInput : Bool)
    (f : ControlFields) (c : HookCall) (hc : c.quiet = true) :
    (ControlPort.hook jni client isInput f c).2.systemListener = f.systemListener ∧
    (ControlPort.hook jni client isInput f c).2.onCloseMid = f.onCloseMid ∧
    (ControlPort.hook jni client isInput f c).2.events.count .onOpen =
      f.events.count .onOpen ∧
    (ControlPort.hook jni client isInput f c).2.events.count .onClose =
      f.events.count .onClose := by
  cases c with
  | initialize_impl => cases hc
  | uninitialize_impl => cases hc
  | register_impl =>
    simp only [ControlPort.hook]
    split <;> exact ⟨rfl, rfl, rfl, rfl⟩
  | start_impl => exact ⟨rfl, rfl, rfl, rfl⟩
  | stop_impl => exact ⟨rfl, rfl, rfl, rfl⟩
  | unregister_impl => exact ⟨rfl, rfl, rfl, rfl⟩
  | execNativeProcess_impl s d => exact ⟨rfl, rfl, rfl, rfl⟩
  | execJavaProcess_impl s d l =>
    simp [ControlPort.hook, List.count_append]

/-- Running hooks other than `initialize_impl` and `uninitialize_impl` over
the fields. -/
theorem foldl_quiet (jni : ControlJni) (client : Option Nat) (isInput : Bool)
    (cs : List HookCall) (hcs : ∀ c, c ∈ cs → c.quiet = true) :
    ∀ f : ControlFields,
      (cs.foldl (fun f c => (ControlPort.hook jni client isInput f c).2) f).systemListener =
        f.systemListener ∧
      (cs.foldl (fun f c => (ControlPort.hook jni client isInput f c).2) f).onCloseMid =
        f.onCloseMid ∧
      (cs.foldl (fun f c => (ControlPort.hook jni client isInput f c).2) f).events.count
        .onOpen = f.events.count .onOpen ∧
      (cs.foldl (fun f c => (ControlPort.hook jni client isInput f c).2) f).events.count
        .onClose = f.events.count .onClose := by
  induction cs with
  | nil => intro f; exact ⟨rfl, rfl, rfl, rfl⟩
  | cons c cs ih =>
    intro f
    obtain ⟨h1, h2, h3, h4⟩ := hook_quiet jni client isInput f c (hcs c (List.mem_cons_self _ _))
    obtain ⟨g1, g2, g3, g4⟩ := ih (fun d hd => hcs d (List.mem_cons_of_mem _ hd))
      (ControlPort.hook jni client isInput f c).2
    simp only [List.foldl_cons]
    exact ⟨g1.trans h1, g2.trans h2, g3.trans h3, g4.trans h4⟩

/-- A port that has gone through hooks other than `initialize_impl` and
`uninitialize_impl` has its listener pointer and has delivered as many
`onOpen` and `onClose` as before. -/
theorem fields_quietStep (jni : ControlJni) (client : Option Nat) (p q : Port)
    (hq : p.quietStep q) :
    (ControlPort.fields jni client q).systemListener =
      (ControlPort.fields jni client p).systemListener ∧
    (ControlPort.fields jni client q).onCloseMid =
      (ControlPort.fields jni client p).onCloseMid ∧
    (ControlPort.events jni client q).count .onOpen =
      (ControlPort.events jni client p).count .onOpen ∧
    (ControlPort.events jni client q).count .onClose =
      (ControlPort.events jni client p).count .onClose := by
  obtain ⟨ho, _, _, _, cs, hcs, hall⟩ := hq
  have hin : q.isInput = p.isInput := by simp [Port.isInput, ho]
  simp only [ControlPort.events, ControlPort.fields, ControlPort.replay, hcs, hin,
    List.foldl_append]
  exact foldl_quiet jni client p.isInput cs hall _

theorem quietStep_refl (p : Port) : p.quietStep p :=
  ⟨rfl, rfl, id, id, [], by simp, fun c hc => by cases hc⟩

theorem quietStep_trans (p q r : Port) (h1 : p.quietStep q) (h2 : q.quietStep r) :
    p.quietStep r := by
  obtain ⟨a1, a2, a3, a4, cs1, a5, a6⟩ := h1
  obtain ⟨b1, b2, b3, b4, cs2, b5, b6⟩ := h2
  refine ⟨b1.trans a1, b2.trans a2, fun hs => a3 (b3 hs), fun hs => a4 (b4 hs),
    cs1 ++ cs2, ?_, ?_⟩
  · rw [b5, a5, List.append_assoc]
  · intro c hc
    rcases List.mem_append.mp hc with hc | hc
    · exact a6 c hc
    · exact b6 c hc

/-- The start control port stays what it is through hooks other than
`initialize_impl` and `uninitialize_impl`. -/
theorem startInv_quietStep (jni : ControlJni) (client : Option Nat) (startId : Int)
    (p q : Port) (hq : p.quietStep q) (hk : p.state = .deletable → q.state = .deletable)
    (hp : ControlPort.startInv jni client startId p) :
    ControlPort.startInv jni client startId q := by
  obtain ⟨f1, f2, f3, f4⟩ := fields_quietStep jni client p q hq
  obtain ⟨ho, hi, hc, _, _⟩ := hq
  obtain ⟨p1, p2, p3, p4, p5, p6⟩ := hp
  refine ⟨hi.trans p1, ho.trans p2, fun hs => p3 (hc hs), f3.trans p4, f4.trans p5,
    fun hs => ?_⟩
  rw [f1, f2]
  exact p6 (fun hd => hs (hk hd))

/-- The end control port before its teardown stays what it is through hooks
other than `initialize_impl` and `uninitialize_impl`. -/
theorem endLive_quietStep (jni : ControlJni) (client : Option Nat) (endId : Int)
    (p q : Port) (hq : p.quietStep q) (hp : ControlPort.endLive jni client endId p) :
    ControlPort.endLive jni client endId q := by
  obtain ⟨f1, f2, f3, f4⟩ := fields_quietStep jni client p q hq
  obtain ⟨ho, hi, hc, hd, _⟩ := hq
  obtain ⟨p1, p2, p3, p4, p5, p6, p7, p8⟩ := hp
  exact ⟨hi.trans p1, ho.trans p2, fun hs => p3 (hc hs), fun hs => p4 (hd hs),
    by rw [f1]; exact p5, by rw [f2]; exact p6, f3.trans p7, f4.trans p8⟩

/-- One hook invocation other than `initialize_impl` and `uninitialize_impl`
on a port that keeps or changes its state among the states between Created
and Deletable. -/
theorem quietStep_hook (p q : Port) (c : HookCall) (hc : c.quiet = true)
    (ho : q.output = p.output) (hi : q.internalId = p.internalId)
    (hcalls : q.calls = p.calls ++ [c])
    (h1 : q.state = .created → p.state = .created)
    (h2 : q.state = .deletable → p.state = .deletable) : p.quietStep q :=
  ⟨ho, hi, h1, h2, [c], hcalls, fun d hd => by
    rw [List.mem_singleton.mp hd]; exact hc⟩

theorem quietStep_emergencyStop (h : Hooks) (cause : Exc) (p : Port) :
    p.quietStep (emergencyStop h cause p).port := by
  rcases emergencyStop_cases h cause p with hq | ⟨e, hq⟩ <;> rw [hq]
  · obtain ⟨f1, f2, f3, _, _, _, f7, f8⟩ := setProcessException_fields cause
      { p with state := .stoppedOnError, substate := .none, calls := p.calls ++ [.stop_impl] }
    refine quietStep_hook p _ .stop_impl rfl f7 f8 f3 ?_ ?_
    · simp [Outcome.port, f1]
    · simp [Outcome.port, f1]
  · exact quietStep_hook p _ .stop_impl rfl rfl rfl rfl id id

/-- The administrative calls between `initialize` and `uninitialize` invoke
no other hook than their own. -/
theorem quietStep_registerAtServer (h : Hooks) (p : Port) :
    p.quietStep (Port.registerAtServer h p).port := by
  unfold Port.registerAtServer
  split
  · exact quietStep_refl p
  · rename_i hs
    simp only [ne_eq, not_not] at hs
    rcases callHook_cases h .register_impl p with hq | ⟨e, hq⟩ <;> rw [hq]
    · exact quietStep_hook p _ .register_impl rfl rfl rfl rfl
        (by simp [Outcome.andThen, Outcome.port, hs])
        (by simp [Outcome.andThen, Outcome.port, hs])
    · exact quietStep_hook p _ .register_impl rfl rfl rfl rfl id id

theorem quietStep_start (h : Hooks) (p : Port) : p.quietStep (Port.start h p).port := by
  unfold Port.start
  split
  · exact quietStep_refl p
  · rename_i hs
    simp only [ne_eq, not_not] at hs
    rcases callHook_cases h .start_impl p with hq | ⟨e, hq⟩ <;> rw [hq]
    · exact quietStep_hook p _ .start_impl rfl rfl rfl rfl
        (by simp [Outcome.andThen, Outcome.port, hs])
        (by simp [Outcome.andThen, Outcome.port, hs])
    · exact quietStep_hook p _ .start_impl rfl rfl rfl rfl id id

theorem quietStep_unregisterAtServer (h : Hooks) (p : Port) :
    p.quietStep (Port.unregisterAtServer h p).port := by
  unfold Port.unregisterAtServer
  split
  · exact quietStep_refl p
  · rename_i hs
    have hs' : p.state = .stopped ∨ p.state = .registered := by
      by_contra hne
      push_neg at hne
      exact hs hne
    rcases callHook_cases h .unregister_impl p with hq | ⟨e, hq⟩ <;> rw [hq]
    · exact quietStep_hook p _ .unregister_impl rfl rfl rfl rfl
        (by rcases hs' with hs' | hs' <;> simp [Outcome.andThen, Outcome.port, hs'])
        (by rcases hs' with hs' | hs' <;> simp [Outcome.andThen, Outcome.port, hs'])
    · exact quietStep_hook p _ .unregister_impl rfl rfl rfl rfl id id

theorem quietStep_stop (h : Hooks) (force : Bool) (p : Port) :
    p.quietStep (Port.stop h force [] p).port := by
  unfold Port.stop
  split
  · rename_i hs
    exact ⟨rfl, rfl, by simp [Outcome.port, hs], by simp [Outcome.port, hs], [], by
      simp [Outcome.port], fun c hc => by cases hc⟩
  · split
    · exact quietStep_refl p
    · rename_i hs
      have hs' : p.state = .running ∨ p.state = .registered := by
        by_contra hne
        push_neg at hne
        exact hs hne
      simp only [waitForTermination]
      split
      · rcases emergencyStop_cases h .didNotTerminate { p with lastCycle := true }
          with hq | ⟨e, hq⟩ <;> rw [hq]
        · obtain ⟨f1, f2, f3, _, _, _, f7, f8⟩ := setProcessException_fields .didNotTerminate
            { p with lastCycle := true, state := .stoppedOnError, substate := .none,
                     calls := p.calls ++ [.stop_impl] }
          refine quietStep_hook p _ .stop_impl rfl ?_ ?_ ?_ ?_ ?_
          · simp [Outcome.andThen, Outcome.port]
          · simpa [Outcome.andThen, Outcome.port] using f8
          · simp [Outcome.andThen, Outcome.port]
          · rcases hs' with hs' | hs' <;> simp [Outcome.andThen, Outcome.port, hs']
          · rcases hs' with hs' | hs' <;> simp [Outcome.andThen, Outcome.port, hs']
        · exact quietStep_hook p _ .stop_impl rfl rfl rfl rfl id id
      · rcases callHook_cases h .stop_impl { p with lastCycle := true }
          with hq | ⟨e, hq⟩ <;> rw [hq]
        · exact quietStep_hook p _ .stop_impl rfl rfl rfl rfl
            (by rcases hs' with hs' | hs' <;> simp [Outcome.andThen, Outcome.port, hs'])
            (by rcases hs' with hs' | hs' <;> simp [Outcome.andThen, Outcome.port, hs'])
        · exact quietStep_hook p _ .stop_impl rfl rfl rfl rfl id id

theorem quietStep_wake (p0 p q : Port) (hp : p0.quietStep p) (hq : p0.quietStep q) :
    p0.quietStep (p.wake q) := by
  obtain ⟨a1, _, _, _, _⟩ := hp
  obtain ⟨b1, b2, b3, b4, cs, b5, b6⟩ := hq
  exact ⟨a1, b2, b3, b4, cs, b5, b6⟩

theorem quietStep_waitJavaToExec (p0 : Port) (env : List Port) :
    ∀ p : Port, p0.quietStep p → (∀ q, q ∈ env → p0.quietStep q) →
      (∀ r, waitJavaToExec p env = .proceed r → p0.quietStep r) ∧
      (∀ o, waitJavaToExec p env = .finished o → p0.quietStep o.port ∧ ∀ e r, o ≠ .raised e r) := by
  induction env with
  | nil =>
    intro p hp _
    unfold waitJavaToExec
    split <;> simp [Outcome.port, hp]
  | cons q env ih =>
    intro p hp henv
    have hq := quietStep_wake p0 p q hp (henv q (List.mem_cons_self _ _))
    unfold waitJavaToExec
    split
    · split
      · simp [Outcome.port, hq]
      · exact ih _ hq (fun r hr => henv r (List.mem_cons_of_mem _ hr))
    · simp [hp]

theorem quietStep_waitNativeToExec (p0 : Port) (env : List Port) :
    ∀ p : Port, p0.quietStep p → (∀ q, q ∈ env → p0.quietStep q) →
      (∀ r, waitNativeToExec p env = .proceed r → p0.quietStep r) ∧
      (∀ o, waitNativeToExec p env = .finished o → p0.quietStep o.port) := by
  induction env with
  | nil =>
    intro p hp _
    unfold waitNativeToExec
    split <;> simp [Outcome.port, hp]
  | cons q env ih =>
    intro p hp henv
    have hq := quietStep_wake p0 p q hp (henv q (List.mem_cons_self _ _))
    unfold waitNativeToExec
    split
    · split
      · simp [Outcome.port, throwCannot, hq]
      · exact ih _ hq (fun r hr => henv r (List.mem_cons_of_mem _ hr))
    · simp [hp]

/-- The worker operations invoke the process hooks and `stop_impl` only. -/
theorem quietStep_execNativeCycleInit (h : Hooks) (s d : Nat) (p : Port) :
    p.quietStep (Port.execNativeCycleInit h s d p).port := by
  unfold Port.execNativeCycleInit
  split
  · exact quietStep_refl p
  · split
    · exact quietStep_refl p
    · rename_i hr _
      simp only [ne_eq, not_not] at hr
      split
      · exact quietStep_emergencyStop h _ p
      · simp only []
        split <;>
          exact ⟨rfl, rfl, by simp [Outcome.catchAll, Outcome.port, hr],
            by simp [Outcome.catchAll, Outcome.port, hr], [],
            by simp [Outcome.catchAll, Outcome.port], fun c hc => by cases hc⟩

theorem quietStep_execNativeProcess (h : Hooks) (env : List Port) (p : Port)
    (henv : ∀ q, q ∈ env → p.quietStep q) :
    p.quietStep (Port.execNativeProcess h env p).port := by
  unfold Port.execNativeProcess
  split
  · exact quietStep_refl p
  · split
    · exact quietStep_refl p
    · obtain ⟨h1, h2⟩ := quietStep_waitNativeToExec p env p (quietStep_refl p) henv
      split
      · rename_i o ho
        have h3 := h2 o ho
        cases o with
        | returned r => exact h3
        | blocked r => exact h3
        | raised e r => exact quietStep_trans p r _ h3 (quietStep_emergencyStop h e r)
      · rename_i r hw
        have h3 := h1 r hw
        refine quietStep_trans p r _ h3 ?_
        unfold execNativeWork
        split
        · exact quietStep_refl r
        · rename_i hr
          simp only [ne_eq, not_not] at hr
          split
          · exact quietStep_emergencyStop h _ r
          · rcases callHook_cases h
              (.execNativeProcess_impl r.timeCodeStart r.timeCodeDuration) r
              with hq | ⟨e, hq⟩ <;> rw [hq]
            · simp only [Outcome.andThen]
              split
              · exact quietStep_hook r _
                  (.execNativeProcess_impl r.timeCodeStart r.timeCodeDuration) rfl rfl rfl rfl
                  (by simp [Outcome.catchAll, Outcome.port, hr])
                  (by simp [Outcome.catchAll, Outcome.port, hr])
              · split <;>
                  exact quietStep_hook r _
                    (.execNativeProcess_impl r.timeCodeStart r.timeCodeDuration) rfl rfl rfl rfl
                    (by simp [Outcome.catchAll, Outcome.port, hr])
                    (by simp [Outcome.catchAll, Outcome.port, hr])
            · simp only [Outcome.andThen, Outcome.catchAll]
              exact quietStep_trans r
                { r with calls := r.calls ++
                    [.execNativeProcess_impl r.timeCodeStart r.timeCodeDuration] } _
                (quietStep_hook r _ (.execNativeProcess_impl r.timeCodeStart r.timeCodeDuration)
                  rfl rfl rfl rfl id id)
                (quietStep_emergencyStop h e _)

theorem quietStep_execJavaProcess (h : Hooks) (l : Bool) (env : List Port) (p : Port)
    (henv : ∀ q, q ∈ env → p.quietStep q) :
    p.quietStep (Port.execJavaProcess h l env p).port := by
  unfold Port.execJavaProcess
  split
  · exact quietStep_refl p
  · split
    · exact quietStep_refl p
    · obtain ⟨h1, h2⟩ := quietStep_waitJavaToExec p env p (quietStep_refl p) henv
      split
      · rename_i o ho
        obtain ⟨h3, h4⟩ := h2 o ho
        cases o with
        | returned r => exact h3
        | blocked r => exact h3
        | raised e r => exact absurd rfl (h4 e r)
      · rename_i r hw
        have h3 := h1 r hw
        refine quietStep_trans p r _ h3 ?_
        unfold execJavaWork
        simp only []
        rcases callHook_cases h
          (.execJavaProcess_impl r.timeCodeStart r.timeCodeDuration (r.lastCycle || l))
          { r with lastCycle := r.lastCycle || l } with hq | ⟨e, hq⟩ <;> rw [hq]
        · simp only [Outcome.andThen]
          split <;> split <;>
            exact quietStep_hook r _
              (.execJavaProcess_impl r.timeCodeStart r.timeCodeDuration (r.lastCycle || l))
              rfl rfl rfl rfl
              (by simp [Outcome.catchAll, Outcome.port])
              (by simp [Outcome.catchAll, Outcome.port])
        · simp only [Outcome.andThen, Outcome.catchAll]
          exact quietStep_trans r
            { r with lastCycle := r.lastCycle || l, calls := r.calls ++
                [.execJavaProcess_impl r.timeCodeStart r.timeCodeDuration (r.lastCycle || l)] } _
            (quietStep_hook r _
              (.execJavaProcess_impl r.timeCodeStart r.timeCodeDuration (r.lastCycle || l))
              rfl rfl rfl rfl id id)
            (quietStep_emergencyStop h e _)

/-- The fields of a control port after one more hook invocation. -/
theorem fields_snoc (jni : ControlJni) (client : Option Nat) (p q : Port) (c : HookCall)
    (ho : q.output = p.output) (hc : q.calls = p.calls ++ [c]) :
    ControlPort.fields jni client q =
      (ControlPort.hook jni client p.isInput (ControlPort.fields jni client p) c).2 := by
  have hin : q.isInput = p.isInput := by simp [Port.isInput, ho]
  simp [ControlPort.fields, ControlPort.replay, hc, hin, List.foldl_append]

/-- On an input port `uninitialize_impl` delivers no callback. -/
theorem hook_uninitialize_input (jni : ControlJni) (client : Option Nat) (f : ControlFields) :
    (ControlPort.hook jni client true f .uninitialize_impl).2.events = f.events := by
  unfold ControlPort.hook
  simp only
  split <;> rfl

/-- On an output port that holds its listener `uninitialize_impl` returns
and delivers `onClose`. -/
theorem hook_uninitialize_output (jni : ControlJni) (client : Option Nat) (f : ControlFields)
    (h1 : f.systemListener ≠ Option.none) (h2 : f.onCloseMid ≠ Option.none) :
    (ControlPort.hook jni client false f .uninitialize_impl).1 = Option.none ∧
    (ControlPort.hook jni client false f .uninitialize_impl).2.events =
      f.events ++ [.onClose] := by
  unfold ControlPort.hook
  simp only
  rw [if_neg (by simp [h1, h2])]
  simp

/-- A control port that holds its listener: `uninitialize_impl` returns. -/
theorem hook_uninitialize_live (jni : ControlJni) (client : Option Nat) (isInput : Bool)
    (f : ControlFields) (h1 : f.systemListener ≠ Option.none)
    (h2 : f.onCloseMid ≠ Option.none) :
    (ControlPort.hook jni client isInput f .uninitialize_impl).1 = Option.none := by
  unfold ControlPort.hook
  simp only
  rw [if_neg (by simp [h1, h2])]

/-- The start control port stays what it is through `uninitialize`: a call
that is refused leaves it as it is, a call that is accepted returns and
leaves it Deletable, with no callback delivered. -/
theorem startInv_uninitialize (jni : ControlJni) (client : Option Nat) (startId endId : Int)
    (h : Hooks) (hh : h.controls jni client startId endId) (p : Port)
    (hp : ControlPort.startInv jni client startId p) :
    ControlPort.startInv jni client startId ( Port.uninitialize h p).port := by
  obtain ⟨p1, p2, p3, p4, p5, p6⟩ := hp
  have hin : p.isInput = true := by simp [Port.isInput, p2]
  unfold Port.uninitialize
  split
  · exact ⟨p1, p2, p3, p4, p5, p6⟩
  · rename_i hs
    have hnd : p.state ≠ .deletable := by
      intro hd
      apply hs
      rw [hd]
      exact ⟨by decide, by decide⟩
    obtain ⟨l1, l2⟩ := p6 hnd
    have hquiet : h p .uninitialize_impl = Option.none := by
      rw [hh p .uninitialize_impl (Or.inl p1)]
      simp only [controlHooks, hin]
      exact hook_uninitialize_live jni client _ _ l1 l2
    rw [callHook_quiet h _ p hquiet]
    simp only [Outcome.andThen, Outcome.port]
    have hf := fields_snoc jni client p
      { p with calls := p.calls ++ [.uninitialize_impl], state := .deletable }
      .uninitialize_impl rfl rfl
    have he : ControlPort.events jni client
        { p with calls := p.calls ++ [.uninitialize_impl], state := .deletable } =
        ControlPort.events jni client p := by
      simp only [ControlPort.events, hf, hin]
      exact hook_uninitialize_input jni client _
    exact ⟨p1, p2, by simp, by rw [he]; exact p4, by rw [he]; exact p5,
      fun hne => absurd rfl hne⟩

/-- The end control port through `uninitialize`: a call that is refused
leaves it as it is, a call that is accepted returns, delivers `onClose` and
leaves it Deletable. -/
theorem endLive_uninitialize (jni : ControlJni) (client : Option Nat) (startId endId : Int)
    (h : Hooks) (hh : h.controls jni client startId endId) (p : Port)
    (hp : ControlPort.endLive jni client endId p) :
    (( Port.uninitialize h p).port = p ∧ ∀ q, Port.uninitialize h p ≠ .returned q) ∨
    ControlPort.endDone jni client endId ( Port.uninitialize h p).port := by
  obtain ⟨p1, p2, p3, p4, p5, p6, p7, p8⟩ := hp
  have hin : p.isInput = false := by simp [Port.isInput, p2]
  unfold Port.uninitialize
  split
  · left
    exact ⟨rfl, fun q hq => by simp [throwCannot] at hq⟩
  · right
    have hhook := hook_uninitialize_output jni client (ControlPort.fields jni client p) p5 p6
    have hquiet : h p .uninitialize_impl = Option.none := by
      rw [hh p .uninitialize_impl (Or.inr p1)]
      simp only [controlHooks, hin]
      exact hhook.1
    rw [callHook_quiet h _ p hquiet]
    simp only [Outcome.andThen, Outcome.port]
    have hf := fields_snoc jni client p
      { p with calls := p.calls ++ [.uninitialize_impl], state := .deletable }
      .uninitialize_impl rfl rfl
    refine ⟨p1, p2, rfl, ?_, ?_⟩
    · simp only [ControlPort.events, hf, hin, hhook.2, List.count_append]
      simpa [ControlPort.events] using p7
    · simp only [ControlPort.events, hf, hin, hhook.2, List.count_append]
      simpa [ControlPort.events] using p8

/-- A port that is Deletable is left as it is by the calls of the life-cycle
and of the cycles. -/
theorem deletable_fixed (h : Hooks) (p : Port) (hd : p.state = .deletable) :
    ( Port.registerAtServer h p).port = p ∧ (Port.start h p).port = p ∧
    (∀ force, (Port.stop h force [] p).port = p) ∧
    (Port.unregisterAtServer h p).port = p ∧ ( Port.uninitialize h p).port = p ∧
    (∀ s d, (Port.execNativeCycleInit h s d p).port = p) ∧
    (∀ env, (Port.execNativeProcess h env p).port = p) ∧
    (∀ l env, (Port.execJavaProcess h l env p).port = p) := by
  refine ⟨?_, ?_, ?_, ?_, ?_, ?_, ?_, ?_⟩
  · simp [ Port.registerAtServer, hd, throwCannot, Outcome.port]
  · simp [Port.start, hd, throwCannot, Outcome.port]
  · intro force
    simp [Port.stop, hd, throwCannot, Outcome.port]
  · simp [Port.unregisterAtServer, hd, throwCannot, Outcome.port]
  · simp [ Port.uninitialize, hd, throwCannot, Outcome.port]
  · intro s d
    simp [Port.execNativeCycleInit, hd, Outcome.catchAll, Outcome.port]
  · intro env
    simp [Port.execNativeProcess, hd, Outcome.catchAll, Outcome.port]
  · intro l env
    simp [Port.execJavaProcess, hd, Outcome.catchAll, Outcome.port]

/-- When `initialize_impl` of a control port returns, the port holds its
listener and the identifier of `onClose`, and `onOpen` has been delivered if
the port is an input port. -/
theorem hook_initialize (jni : ControlJni) (client : Option Nat) (isInput : Bool)
    (f : ControlFields)
    (hq : (ControlPort.hook jni client isInput f .initialize_impl).1 = Option.none) :
    (ControlPort.hook jni client isInput f .initialize_impl).2.systemListener ≠ Option.none ∧
    (ControlPort.hook jni client isInput f .initialize_impl).2.onCloseMid ≠ Option.none ∧
    (ControlPort.hook jni client isInput f .initialize_impl).2.events =
      if isInput then f.events ++ [.onOpen] else f.events := by
  unfold ControlPort.hook at hq ⊢
  simp only at hq ⊢
  by_cases h1 : jni.newGlobalRef = Option.none
  · rw [if_pos h1] at hq
    simp at hq
  · rw [if_neg h1] at hq ⊢
    by_cases h2 : jni.getObjectClass = Option.none
    · rw [if_pos h2] at hq
      simp at hq
    · rw [if_neg h2] at hq ⊢
      by_cases h3 : jni.onOpen = Option.none ∨
          (if isInput then jni.onCycleStart else jni.onCycleEnd) = Option.none ∨
          jni.onClose = Option.none
      · rw [if_pos h3] at hq
        simp at hq
      · rw [if_neg h3]
        push_neg at h3
        cases isInput <;> exact ⟨h1, h3.2.2, by simp⟩

/-- The port that `initialize` returns on a constructed port. -/
theorem initialize_constructed (h : Hooks) (isOutput : Bool) (internalId : Int) (q : Port)
    (hr : Port.initialize h (Port.construct isOutput internalId) = .returned q) :
    h (Port.construct isOutput internalId) .initialize_impl = Option.none ∧
    q.internalId = internalId ∧ q.output = isOutput ∧ q.state = .initialized ∧
    q.calls = [.initialize_impl] := by
  have hs : ¬ (Port.construct isOutput internalId).state ≠ .created := by
    simp [Port.construct]
  unfold Port.initialize at hr
  rw [if_neg hs] at hr
  cases hq : h (Port.construct isOutput internalId) .initialize_impl with
  | some e =>
    rw [callHook_raises h _ _ e hq] at hr
    simp [Outcome.andThen] at hr
  | none =>
    rw [callHook_quiet h _ _ hq] at hr
    simp only [Outcome.andThen, Outcome.returned.injEq] at hr
    rw [← hr]
    exact ⟨rfl, rfl, rfl, rfl, rfl⟩

/-- A fresh input control port that `initialize` returns has delivered
`onOpen` and nothing else. -/
theorem initialize_start_control (jni : ControlJni) (client : Option Nat) (startId endId : Int)
    (h : Hooks) (hh : h.controls jni client startId endId) (q : Port)
    (hr : Port.initialize h (Port.construct false startId) = .returned q) :
    ControlPort.events jni client q = [.onOpen] ∧ ControlPort.startInv jni client startId q := by
  obtain ⟨hquiet, hi, ho, hs, hc⟩ := initialize_constructed h false startId q hr
  rw [hh _ _ (Or.inl rfl)] at hquiet
  have hf := fields_snoc jni client (Port.construct false startId) q .initialize_impl ho hc
  have hev : ControlPort.events jni client q = [.onOpen] := by
    rw [ControlPort.events, hf]
    exact ( hook_initialize jni client _ _ hquiet).2.2
  obtain ⟨g1, g2, _⟩ := hook_initialize jni client _ _ hquiet
  exact ⟨hev, hi, ho, by rw [hs]; decide, by rw [hev]; rfl, by rw [hev]; rfl,
    fun _ => ⟨by rw [hf]; exact g1, by rw [hf]; exact g2⟩⟩

/-- A fresh output control port that `initialize` returns holds its listener
and has delivered nothing. -/
theorem initialize_end_control (jni : ControlJni) (client : Option Nat) (startId endId : Int)
    (h : Hooks) (hh : h.controls jni client startId endId) (q : Port)
    (hr : Port.initialize h (Port.construct true endId) = .returned q) :
    ControlPort.events jni client q = [] ∧ ControlPort.endLive jni client endId q := by
  obtain ⟨hquiet, hi, ho, hs, hc⟩ := initialize_constructed h true endId q hr
  rw [hh _ _ (Or.inr rfl)] at hquiet
  have hf := fields_snoc jni client (Port.construct true endId) q .initialize_impl ho hc
  obtain ⟨g1, g2, g3⟩ := hook_initialize jni client _ _ hquiet
  have hev : ControlPort.events jni client q = [] := by
    rw [ControlPort.events, hf]
    exact g3
  exact ⟨hev, hi, ho, by rw [hs]; decide, by rw [hs]; decide, by rw [hf]; exact g1,
    by rw [hf]; exact g2, by rw [hev]; rfl, by rw [hev]; rfl⟩

/-- Slot by slot, however the loop over the ports ends: a property of the
port of a slot that the member keeps, whatever its outcome, holds of the port
of the slot after the loop. -/
theorem forEachPort_holds (f : Port → Outcome) (I : Port → Prop)
    (hf : ∀ p, I p → I (f p).port) (l : List PtrEnvelope) :
    ∀ i, (∃ p, (l.getD i PtrEnvelope.construct).item = some p ∧ I p) →
      ∃ p, ((forEachPort f l).2.getD i PtrEnvelope.construct).item = some p ∧ I p := by
  induction l with
  | nil =>
    intro i hi
    obtain ⟨p, hp, _⟩ := hi
    simp [PtrEnvelope.construct] at hp
  | cons entry rest ih =>
    intro i hi
    simp only [forEachPort]
    cases hitem : entry.makeAccessor.item with
    | none =>
      simp only
      rw [accessor_scope]
      cases i with
      | zero => simpa using hi
      | succ n => simpa using ih n (by simpa using hi)
    | some port =>
      have hitem' : entry.item = some port := hitem
      simp only
      cases hfp : f port with
      | returned q =>
        simp only
        rw [accessor_scope_item]
        cases i with
        | zero =>
          obtain ⟨p, hp, hI⟩ := hi
          have hp' : port = p := by simpa [hitem'] using hp
          refine ⟨q, by simp, ?_⟩
          have := hf port (by rw [hp']; exact hI)
          simpa [hfp, Outcome.port] using this
        | succ n => simpa using ih n (by simpa using hi)
      | raised x q =>
        simp only
        rw [accessor_scope_item]
        cases i with
        | zero =>
          obtain ⟨p, hp, hI⟩ := hi
          have hp' : port = p := by simpa [hitem'] using hp
          refine ⟨q, by simp, ?_⟩
          have := hf port (by rw [hp']; exact hI)
          simpa [hfp, Outcome.port] using this
        | succ n => simpa using hi
      | blocked q =>
        simp only
        cases i with
        | zero =>
          obtain ⟨p, hp, hI⟩ := hi
          have hp' : port = p := by simpa [hitem'] using hp
          refine ⟨q, by simp, ?_⟩
          have := hf port (by rw [hp']; exact hI)
          simpa [hfp, Outcome.port] using this
        | succ n => simpa using hi

/-- The array a life-cycle member of the chain leaves, however it ends. -/
theorem forAllPorts_portList (f : Port → Outcome) (next : ChainState) (c : PortChain) :
    (c.forAllPorts f next).chain.portList = (forEachPort f c.portList).2 ∧
    ((c.forAllPorts f next).chain.state = next ∨
      (c.forAllPorts f next).chain.state = c.state) := by
  unfold PortChain.forAllPorts
  cases hl : forEachPort f c.portList with
  | mk e l =>
    cases e with
    | completed => exact ⟨rfl, Or.inl rfl⟩
    | raised x => exact ⟨rfl, Or.inr rfl⟩
    | blocked => exact ⟨rfl, Or.inr rfl⟩

/-- The array a loop of the chain that does not assign its state leaves,
however it ends. -/
theorem forPorts_portList (f : Port → Outcome) (c : PortChain) :
    (c.forPorts f).chain.portList = (forEachPort f c.portList).2 ∧
    (c.forPorts f).chain.state = c.state := by
  unfold PortChain.forPorts
  cases hl : forEachPort f c.portList with
  | mk e l =>
    cases e with
    | completed => exact ⟨rfl, rfl⟩
    | raised x => exact ⟨rfl, rfl⟩
    | blocked => exact ⟨rfl, rfl⟩

/-- A property of the port of a slot that the member keeps holds after a
life-cycle member of the chain, however it ends. -/
theorem holdsAt_forAllPorts (f : Port → Outcome) (I : Port → Prop)
    (hf : ∀ p, I p → I (f p).port) (next : ChainState) (c : PortChain) (i : Nat)
    (hc : c.holdsAt I i) : (c.forAllPorts f next).chain.holdsAt I i := by
  unfold PortChain.holdsAt PortChain.entry at hc ⊢
  rw [(forAllPorts_portList f next c).1]
  exact forEachPort_holds f I hf c.portList i hc

theorem holdsAt_forPorts (f : Port → Outcome) (I : Port → Prop)
    (hf : ∀ p, I p → I (f p).port) (c : PortChain) (i : Nat)
    (hc : c.holdsAt I i) : (c.forPorts f).chain.holdsAt I i := by
  unfold PortChain.holdsAt PortChain.entry at hc ⊢
  rw [(forPorts_portList f c).1]
  exact forEachPort_holds f I hf c.portList i hc

/-- A property of the chain that both parts of a sequence keep. -/
theorem chain_andThen_keeps (P : PortChain → Prop) (o : ChainOutcome)
    (k : PortChain → ChainOutcome) (ho : P o.chain)
    (hk : ∀ c1, o = .returned c1 → P (k c1).chain) : P (o.andThen k).chain := by
  cases o with
  | returned c1 => exact hk c1 rfl
  | raised e c1 => exact ho
  | blocked c1 => exact ho

/-- A member of `Port` that invokes no `initialize_impl` and no
`uninitialize_impl` and leaves a Deletable port alone keeps the control ports
what they are. -/
theorem control_kept (jni : ControlJni) (client : Option Nat) (startId endId : Int)
    (f : Port → Outcome) (hq : ∀ p : Port, p.quietStep (f p).port)
    (hd : ∀ p : Port, p.state = .deletable → (f p).port = p) :
    (∀ p, ControlPort.startInv jni client startId p →
      ControlPort.startInv jni client startId (f p).port) ∧
    (∀ p, ControlPort.endLive jni client endId p →
      ControlPort.endLive jni client endId (f p).port) ∧
    (∀ p, ControlPort.endDone jni client endId p →
      ControlPort.endDone jni client endId (f p).port) ∧
    (∀ p, ControlPort.endLive jni client endId p ∨ ControlPort.endDone jni client endId p →
      ControlPort.endLive jni client endId (f p).port ∨
        ControlPort.endDone jni client endId (f p).port) := by
  have h1 : ∀ p, ControlPort.startInv jni client startId p →
      ControlPort.startInv jni client startId (f p).port :=
    fun p hp => startInv_quietStep jni client startId p _ (hq p)
      (fun hdel => by rw [hd p hdel]; exact hdel) hp
  have h2 : ∀ p, ControlPort.endLive jni client endId p →
      ControlPort.endLive jni client endId (f p).port :=
    fun p hp => endLive_quietStep jni client endId p _ (hq p) hp
  have h3 : ∀ p, ControlPort.endDone jni client endId p →
      ControlPort.endDone jni client endId (f p).port := by
    intro p hp
    rw [hd p hp.2.2.1]
    exact hp
  exact ⟨h1, h2, h3, fun p hp => hp.elim (fun h => Or.inl (h2 p h)) (fun h => Or.inr (h3 p h))⟩

/-- A loop of such a member over the ports, with or without a new state of
the chain other than Created and Deletable, keeps the control ports in their
slots, and the end control port before its teardown if it was. -/
theorem controlInv_quiet (jni : ControlJni) (client : Option Nat) (startId endId : Int)
    (f : Port → Outcome) (hq : ∀ p : Port, p.quietStep (f p).port)
    (hd : ∀ p : Port, p.state = .deletable → (f p).port = p) (c : PortChain)
    (hc : c.controlInv jni client startId endId) :
    (∀ next, next ≠ .created → next ≠ .deletable →
      (c.forAllPorts f next).chain.controlInv jni client startId endId ∧
      (c.holdsAt (ControlPort.endLive jni client endId) (MAX_PORTS - 1) →
        (c.forAllPorts f next).chain.holdsAt (ControlPort.endLive jni client endId)
          (MAX_PORTS - 1))) ∧
    ((c.forPorts f).chain.controlInv jni client startId endId ∧
      (c.holdsAt (ControlPort.endLive jni client endId) (MAX_PORTS - 1) →
        (c.forPorts f).chain.holdsAt (ControlPort.endLive jni client endId)
          (MAX_PORTS - 1))) := by
  obtain ⟨k1, k2, k3, k4⟩ := control_kept jni client startId endId f hq hd
  obtain ⟨c1, c2, c3, c4⟩ := hc
  constructor
  · intro next hn1 hn2
    have hst := (forAllPorts_portList f next c).2
    refine ⟨⟨?_, holdsAt_forAllPorts f _ k1 next c 0 c2,
      holdsAt_forAllPorts f _ k4 next c _ c3, ?_⟩,
      fun hl => holdsAt_forAllPorts f _ k2 next c _ hl⟩
    · rcases hst with hst | hst <;> rw [hst]
      · exact hn1
      · exact c1
    · intro hs
      rcases hst with hst | hst
      · rw [hst] at hs
        exact absurd hs hn2
      · rw [hst] at hs
        exact holdsAt_forAllPorts f _ k3 next c _ (c4 hs)
  · have hst := (forPorts_portList f c).2
    refine ⟨⟨by rw [hst]; exact c1, holdsAt_forPorts f _ k1 c 0 c2,
      holdsAt_forPorts f _ k4 c _ c3, ?_⟩,
      fun hl => holdsAt_forPorts f _ k2 c _ hl⟩
    intro hs
    rw [hst] at hs
    exact holdsAt_forPorts f _ k3 c _ (c4 hs)

/-- The life-cycle members between `initialize` and `uninitialize`, and the
cycles, keep the control ports in their slots and the end control port before
its teardown. -/
theorem controlInv_quiet_calls (jni : ControlJni) (client : Option Nat) (startId endId : Int)
    (h : Hooks) (c : PortChain) (hc : c.controlInv jni client startId endId) :
    let Live := fun c : PortChain =>
      c.holdsAt (ControlPort.endLive jni client endId) (MAX_PORTS - 1)
    ((c.registerAtServer_impl h).chain.controlInv jni client startId endId ∧
      (Live c → Live (c.registerAtServer_impl h).chain)) ∧
    ((c.start_impl h).chain.controlInv jni client startId endId ∧
      (Live c → Live (c.start_impl h).chain)) ∧
    ((c.stop_impl h).chain.controlInv jni client startId endId ∧
      (Live c → Live (c.stop_impl h).chain)) ∧
    ((c.unregisterAtServer_impl h).chain.controlInv jni client startId endId ∧
      (Live c → Live (c.unregisterAtServer_impl h).chain)) ∧
    (∀ s d wake, (∀ p q, q ∈ wake p → p.quietStep q) →
      (c.execNativeCycle h s d wake).chain.controlInv jni client startId endId ∧
      (Live c → Live (c.execNativeCycle h s d wake).chain)) ∧
    (∀ l wake, (∀ p q, q ∈ wake p → p.quietStep q) →
      (c.execJavaCycle h l wake).chain.controlInv jni client startId endId ∧
      (Live c → Live (c.execJavaCycle h l wake).chain)) := by
  intro Live
  refine ⟨?_, ?_, ?_, ?_, ?_, ?_⟩
  · unfold PortChain.registerAtServer_impl
    split
    · exact ⟨hc, id⟩
    · exact (controlInv_quiet jni client startId endId _ (quietStep_registerAtServer h)
        (fun p hd => (deletable_fixed h p hd).1) c hc).1 .registered (by decide) (by decide)
  · unfold PortChain.start_impl
    split
    · exact ⟨hc, id⟩
    · exact (controlInv_quiet jni client startId endId _ (quietStep_start h)
        (fun p hd => (deletable_fixed h p hd).2.1) c hc).1 .running (by decide) (by decide)
  · unfold PortChain.stop_impl
    split
    · exact ⟨hc, id⟩
    · split
      · exact ⟨hc, id⟩
      · rename_i endControl _
        exact (controlInv_quiet jni client startId endId _
          (fun p => quietStep_stop h _ p)
          (fun p hd => (deletable_fixed h p hd).2.2.1 _) { c with lastCycle := true } hc).1
            .stopped (by decide) (by decide)
  · unfold PortChain.unregisterAtServer_impl
    split
    · exact ⟨hc, id⟩
    · exact (controlInv_quiet jni client startId endId _ (quietStep_unregisterAtServer h)
        (fun p hd => (deletable_fixed h p hd).2.2.2.1) c hc).1 .unregistered
          (by decide) (by decide)
  · intro s d wake hw
    unfold PortChain.execNativeCycle
    split
    · split
      · exact ⟨hc, id⟩
      · split
        · exact ⟨hc, id⟩
        · split
          · split
            · exact ⟨hc, id⟩
            · exact ⟨hc, id⟩
          · have h1 := (controlInv_quiet jni client startId endId _
              (quietStep_execNativeCycleInit h s d)
              (fun p hd => (deletable_fixed h p hd).2.2.2.2.2.1 s d) c hc).2
            have step : ∀ c1 : PortChain, c1.controlInv jni client startId endId →
                (c1.forPorts fun port => Port.execNativeProcess h (wake port) port).chain.controlInv
                  jni client startId endId ∧
                (Live c1 → Live
                  (c1.forPorts fun port => Port.execNativeProcess h (wake port) port).chain) :=
              fun c1 hc1 => (controlInv_quiet jni client startId endId _
                (fun p => quietStep_execNativeProcess h (wake p) p (hw p))
                (fun p hd => (deletable_fixed h p hd).2.2.2.2.2.2.1 _) c1 hc1).2
            constructor
            · refine chain_andThen_keeps (fun c => c.controlInv jni client startId endId) _ _
                h1.1 (fun c1 ho => ?_)
              have : c1.controlInv jni client startId endId := by
                have := h1.1
                rw [ho] at this
                exact this
              exact (step c1 this).1
            · intro hl
              refine chain_andThen_keeps Live _ _ (h1.2 hl) (fun c1 ho => ?_)
              have hc1 : c1.controlInv jni client startId endId := by
                have := h1.1
                rw [ho] at this
                exact this
              have hl1 : Live c1 := by
                have := h1.2 hl
                rw [ho] at this
                exact this
              exact (step c1 hc1).2 hl1
    · exact ⟨hc, id⟩
  · intro l wake hw
    unfold PortChain.execJavaCycle
    exact (controlInv_quiet jni client startId endId _
      (fun p => quietStep_execJavaProcess h l (wake p) p (hw p))
      (fun p hd => (deletable_fixed h p hd).2.2.2.2.2.2.2 l _) c hc).2

/-- The teardown loop of the chain keeps the control ports in their slots;
when it returns, the end control port is through its teardown. -/
theorem controlInv_uninitialize_impl (jni : ControlJni) (client : Option Nat)
    (startId endId : Int) (h : Hooks) (hh : h.controls jni client startId endId)
    (c : PortChain) (hc : c.controlInv jni client startId endId) :
    (c.uninitialize_impl h).chain.controlInv jni client startId endId ∧
    ∀ c1, c.uninitialize_impl h = .returned c1 →
      c1.holdsAt (ControlPort.endDone jni client endId) (MAX_PORTS - 1) := by
  obtain ⟨c1, c2, c3, c4⟩ := hc
  have k1 : ∀ p, ControlPort.startInv jni client startId p →
      ControlPort.startInv jni client startId ( Port.uninitialize h p).port :=
    fun p hp => startInv_uninitialize jni client startId endId h hh p hp
  have k4 : ∀ p, ControlPort.endLive jni client endId p ∨ ControlPort.endDone jni client endId p →
      ControlPort.endLive jni client endId ( Port.uninitialize h p).port ∨
        ControlPort.endDone jni client endId ( Port.uninitialize h p).port := by
    intro p hp
    rcases hp with hp | hp
    · rcases endLive_uninitialize jni client startId endId h hh p hp with ⟨he, _⟩ | hd
      · rw [he]
        exact Or.inl hp
      · exact Or.inr hd
    · rw [(deletable_fixed h p hp.2.2.1).2.2.2.2.1]
      exact Or.inr hp
  have hret : ∀ cr, c.forAllPorts ( Port.uninitialize h) .deletable = .returned cr →
      cr.holdsAt (ControlPort.endDone jni client endId) (MAX_PORTS - 1) := by
    intro cr hr
    unfold PortChain.forAllPorts at hr
    cases hl : forEachPort ( Port.uninitialize h) c.portList with
    | mk e l =>
      rw [hl] at hr
      cases e with
      | raised x => simp at hr
      | blocked => simp at hr
      | completed =>
        simp only [ChainOutcome.returned.injEq] at hr
        obtain ⟨p, hp, hI⟩ := c3
        obtain ⟨q, hq, hent⟩ :=
          (forEachPort_pointwise _ c.portList l hl (MAX_PORTS - 1)).2 p hp
        refine ⟨q, ?_, ?_⟩
        · rw [← hr]
          show (l.getD (MAX_PORTS - 1) PtrEnvelope.construct).item = some q
          rw [hent]
        · rcases hI with hI | hI
          · rcases endLive_uninitialize jni client startId endId h hh p hI with ⟨_, hn⟩ | hd
            · exact absurd hq (hn q)
            · simpa [hq, Outcome.port] using hd
          · exfalso
            have := (deletable_fixed h p hI.2.2.1).2.2.2.2.1
            simp [ Port.uninitialize, hI.2.2.1, throwCannot] at hq
  unfold PortChain.uninitialize_impl
  split
  · exact ⟨⟨c1, c2, c3, c4⟩, fun cr hr => by simp at hr⟩
  · rename_i hg
    refine ⟨⟨?_, holdsAt_forAllPorts _ _ k1 _ c 0 c2, holdsAt_forAllPorts _ _ k4 _ c _ c3, ?_⟩,
      hret⟩
    · rcases (forAllPorts_portList ( Port.uninitialize h) .deletable c).2 with hst | hst <;>
        rw [hst]
      · decide
      · exact c1
    · intro hs
      cases ho : c.forAllPorts ( Port.uninitialize h) .deletable with
      | returned cr => exact hret cr ho
      | raised x cr =>
        exfalso
        have hcr : cr.state = c.state := by
          unfold PortChain.forAllPorts at ho
          cases hl : forEachPort ( Port.uninitialize h) c.portList with
          | mk e l =>
            rw [hl] at ho
            cases e <;> simp at ho
            rw [← ho.2]
        rw [ho] at hs
        apply hg
        have hsd : c.state = .deletable := by rw [← hcr]; exact hs
        simp [hsd]
      | blocked cr =>
        exfalso
        have hcr : cr.state = c.state := by
          unfold PortChain.forAllPorts at ho
          cases hl : forEachPort ( Port.uninitialize h) c.portList with
          | mk e l =>
            rw [hl] at ho
            cases e <;> simp at ho
            rw [← ho]
        rw [ho] at hs
        apply hg
        have hsd : c.state = .deletable := by rw [← hcr]; exact hs
        simp [hsd]

/-- The shutdown of the chain keeps the control ports in their slots; when
it returns, the end control port is through its teardown. -/
theorem controlInv_shutdown_impl (jni : ControlJni) (client : Option Nat)
    (startId endId : Int) (h : Hooks) (hh : h.controls jni client startId endId)
    (c : PortChain) (hc : c.controlInv jni client startId endId) :
    (c.shutdown_impl h).chain.controlInv jni client startId endId ∧
    ∀ c1, c.shutdown_impl h = .returned c1 →
      c1.holdsAt (ControlPort.endDone jni client endId) (MAX_PORTS - 1) := by
  have hun := controlInv_uninitialize_impl jni client startId endId h hh
  have hq := controlInv_quiet_calls jni client startId endId h
  have tail : ∀ o : ChainOutcome, o.chain.controlInv jni client startId endId →
      (o.andThen (PortChain.uninitialize_impl h)).chain.controlInv jni client startId endId ∧
      ∀ c1, o.andThen (PortChain.uninitialize_impl h) = .returned c1 →
        c1.holdsAt (ControlPort.endDone jni client endId) (MAX_PORTS - 1) := by
    intro o ho
    cases o with
    | returned c0 => exact hun c0 ho
    | raised e c0 => exact ⟨ho, fun c1 hr => by simp [ChainOutcome.andThen] at hr⟩
    | blocked c0 => exact ⟨ho, fun c1 hr => by simp [ChainOutcome.andThen] at hr⟩
  unfold PortChain.shutdown_impl
  split
  · rename_i hs
    exact absurd hs hc.1
  · exact hun c hc
  · exact tail _ (hq c hc).2.2.2.1.1
  · refine tail _ ?_
    refine chain_andThen_keeps (fun c => c.controlInv jni client startId endId) _ _
      (hq c hc).2.2.1.1 (fun c0 ho => ?_)
    have hc0 : c0.controlInv jni client startId endId := by
      have := (hq c hc).2.2.1.1
      rw [ho] at this
      exact this
    exact (hq c0 hc0).2.2.2.1.1
  · exact tail _ (hq c hc).2.2.2.1.1
  · exact hun c hc
  · rename_i hs
    exact ⟨hc, fun c1 hr => by
      simp only [ChainOutcome.returned.injEq] at hr
      rw [← hr]
      exact hc.2.2.2 hs⟩

/-- A chain that has the state, the first and the last slot of a chain that
holds its control ports holds them too. -/
theorem controlInv_same_ends (jni : ControlJni) (client : Option Nat) (startId endId : Int)
    (c c1 : PortChain) (h0 : c1.entry 0 = c.entry 0)
    (h1 : c1.entry (MAX_PORTS - 1) = c.entry (MAX_PORTS - 1)) (hs : c1.state = c.state)
    (hc : c.controlInv jni client startId endId) :
    c1.controlInv jni client startId endId ∧
    (c.holdsAt (ControlPort.endLive jni client endId) (MAX_PORTS - 1) →
      c1.holdsAt (ControlPort.endLive jni client endId) (MAX_PORTS - 1)) := by
  obtain ⟨c1', c2, c3, c4⟩ := hc
  unfold PortChain.controlInv PortChain.holdsAt at *
  rw [h0, h1, hs]
  exact ⟨⟨c1', c2, c3, c4⟩, id⟩

/-- However `addPort` ends, it leaves the state of the chain and every slot
that holds a port as they were. -/
theorem addPort_keeps_held (h : Hooks) (newPort : Option Port) (client : Option Nat)
    (c : PortChain) :
    (c.addPort h newPort client).2.chain.state = c.state ∧
    ∀ j p, (c.entry j).item = some p →
      (c.addPort h newPort client).2.chain.entry j = c.entry j := by
  rcases addPort_chain h newPort client c with ⟨c1, hr⟩ | hsame
  · cases newPort with
    | none => simp [PortChain.addPort] at hr
    | some port =>
      obtain ⟨_, _, _, _, i, q, hf, _, _, hc1⟩ :=
        addPort_returned h port client c c1 (c.addPort h (some port) client).1
          (Prod.ext rfl hr)
      have hempty := findSlotForNewPort_empty c port i hf
      rw [hr]
      simp only [ChainOutcome.chain, hc1]
      refine ⟨rfl, fun j p hp => ?_⟩
      have hne : j ≠ i := by
        intro he
        rw [he, hempty] at hp
        cases hp
      exact entry_setEntry_ne _ _ _ _ hne
  · rw [hsame]
    exact ⟨rfl, fun _ _ _ => rfl⟩

/-- However `removePort` ends, it leaves the state of the chain and every
slot but the one of the port it was called for as they were. -/
theorem removePort_keeps_others (h : Hooks) (internalId : Int) (c : PortChain) :
    (c.removePort h internalId).2.chain.state = c.state ∧
    ∀ j : Nat, c.findSlotOfPort internalId ≠ (j : Int) →
      (c.removePort h internalId).2.chain.entry j = c.entry j := by
  unfold PortChain.removePort
  simp only
  split
  · exact ⟨rfl, fun _ _ => rfl⟩
  · rename_i hneg
    have hidx : ((c.findSlotOfPort internalId).toNat : Int) = c.findSlotOfPort internalId :=
      Int.toNat_of_nonneg (by omega)
    have hne : ∀ j : Nat, c.findSlotOfPort internalId ≠ (j : Int) →
        j ≠ (c.findSlotOfPort internalId).toNat := by
      intro j hj he
      apply hj
      rw [he, hidx]
    split
    · exact ⟨rfl, fun _ _ => rfl⟩
    · split
      · exact ⟨rfl, fun j hj => entry_setEntry_ne _ _ _ _ (hne j hj)⟩
      · exact ⟨rfl, fun j hj => entry_setEntry_ne _ _ _ _ (hne j hj)⟩
      · split
        · exact ⟨rfl, fun j hj => entry_setEntry_ne _ _ _ _ (hne j hj)⟩
        · exact ⟨rfl, fun j hj => entry_setEntry_ne _ _ _ _ (hne j hj)⟩
        · refine ⟨rfl, fun j hj => ?_⟩
          show ((c.setEntry _ _).setEntry _ _).entry j = _
          rw [entry_setEntry_ne _ _ _ _ (hne j hj), entry_setEntry_ne _ _ _ _ (hne j hj)]

/-- Every call of the life of a chain keeps the control ports in their
slots; a call that is no teardown keeps the end control port before its
teardown, and a teardown that returns takes it through. -/
theorem controlInv_lifeCall (jni : ControlJni) (client : Option Nat) (startId endId : Int)
    (h : Hooks) (hh : h.controls jni client startId endId) (a : LifeCall)
    (ha : a.wakesQuietly) (hsp : a.sparesControls startId endId) (c : PortChain)
    (hc : c.controlInv jni client startId endId) :
    (c.lifeCall h a).chain.controlInv jni client startId endId ∧
    (a.isTeardown = false →
      c.holdsAt (ControlPort.endLive jni client endId) (MAX_PORTS - 1) →
      (c.lifeCall h a).chain.holdsAt (ControlPort.endLive jni client endId) (MAX_PORTS - 1)) ∧
    (a.isTeardown = true → ∀ c1, c.lifeCall h a = .returned c1 →
      c1.holdsAt (ControlPort.endDone jni client endId) (MAX_PORTS - 1)) := by
  obtain ⟨q1, q2, q3, q4, q5, q6⟩ := controlInv_quiet_calls jni client startId endId h c hc
  cases a with
  | registerAtServer => exact ⟨q1.1, fun _ => q1.2, fun ht => by cases ht⟩
  | start => exact ⟨q2.1, fun _ => q2.2, fun ht => by cases ht⟩
  | execNativeCycle s d wake =>
    exact ⟨(q5 s d wake ha).1, fun _ => (q5 s d wake ha).2, fun ht => by cases ht⟩
  | execJavaCycle l wake =>
    exact ⟨(q6 l wake ha).1, fun _ => (q6 l wake ha).2, fun ht => by cases ht⟩
  | stop => exact ⟨q3.1, fun _ => q3.2, fun ht => by cases ht⟩
  | unregisterAtServer => exact ⟨q4.1, fun _ => q4.2, fun ht => by cases ht⟩
  | uninitialize =>
    have := controlInv_uninitialize_impl jni client startId endId h hh c hc
    exact ⟨this.1, (fun ht => by cases ht), fun _ => this.2⟩
  | shutdown =>
    have := controlInv_shutdown_impl jni client startId endId h hh c hc
    exact ⟨this.1, (fun ht => by cases ht), fun _ => this.2⟩
  | addPort newPort client1 =>
    obtain ⟨hs, hent⟩ := addPort_keeps_held h newPort client1 c
    obtain ⟨s, hs0, _⟩ := hc.2.1
    obtain ⟨e, he0, _⟩ := hc.2.2.1
    have := controlInv_same_ends jni client startId endId c _ (hent 0 s hs0)
      (hent _ e he0) hs hc
    exact ⟨this.1, fun _ => this.2, fun ht => by cases ht⟩
  | removePort internalId =>
    obtain ⟨hs, hent⟩ := removePort_keeps_others h internalId c
    obtain ⟨s, hs0, hsI⟩ := hc.2.1
    obtain ⟨e, he0, heI⟩ := hc.2.2.1
    have hid : e.internalId = endId := by
      rcases heI with heI | heI <;> exact heI.1
    have n0 : c.findSlotOfPort internalId ≠ ((0 : Nat) : Int) := by
      intro hf
      obtain ⟨_, ⟨port, hp, hpid⟩, _⟩ := (findSlotOfPort_found c internalId 0).mp hf
      rw [hs0] at hp
      rw [← Option.some.inj hp, hsI.1] at hpid
      exact hsp.1 hpid.symm
    have n1 : c.findSlotOfPort internalId ≠ ((MAX_PORTS - 1 : Nat) : Int) := by
      intro hf
      obtain ⟨_, ⟨port, hp, hpid⟩, _⟩ :=
        (findSlotOfPort_found c internalId (MAX_PORTS - 1)).mp hf
      rw [he0] at hp
      rw [← Option.some.inj hp, hid] at hpid
      exact hsp.2 hpid.symm
    have := controlInv_same_ends jni client startId endId c _ (hent 0 n0)
      (hent _ n1) hs hc
    exact ⟨this.1, fun _ => this.2, fun ht => by cases ht⟩

/-- The control ports are in their slots all along the life of the chain,
and the end control port is before its teardown as long as no teardown is
called. -/
theorem controlInv_life (jni : ControlJni) (client : Option Nat) (startId endId : Int)
    (h : Hooks) (hh : h.controls jni client startId endId) (calls : List LifeCall) :
    ∀ c : PortChain, c.controlInv jni client startId endId →
      (∀ a, a ∈ calls → a.wakesQuietly ∧ a.sparesControls startId endId) →
      (c.life h calls).controlInv jni client startId endId ∧
      ((∀ a, a ∈ calls → a.isTeardown = false) →
        c.holdsAt (ControlPort.endLive jni client endId) (MAX_PORTS - 1) →
        (c.life h calls).holdsAt (ControlPort.endLive jni client endId) (MAX_PORTS - 1)) := by
  induction calls with
  | nil => intro c hc _; exact ⟨hc, fun _ hl => hl⟩
  | cons a calls ih =>
    intro c hc hw
    obtain ⟨s1, s2, _⟩ := controlInv_lifeCall jni client startId endId h hh a
      (hw a (List.mem_cons_self _ _)).1 (hw a (List.mem_cons_self _ _)).2 c hc
    obtain ⟨r1, r2⟩ := ih _ s1 (fun b hb => hw b (List.mem_cons_of_mem _ hb))
    exact ⟨r1, fun ht hl =>
      r2 (fun b hb => ht b (List.mem_cons_of_mem _ hb))
        (s2 (ht a (List.mem_cons_self _ _)) hl)⟩

/-- The callbacks of the two control ports of a chain that holds them. -/
theorem controlEvents_counts (jni : ControlJni) (client : Option Nat) (startId endId : Int)
    (c : PortChain) (hc : c.controlInv jni client startId endId) :
    (c.controlEvents jni client).count .onOpen = 1 ∧
    (c.controlEvents jni client).count .onClose ≤ 1 ∧
    (c.holdsAt (ControlPort.endLive jni client endId) (MAX_PORTS - 1) →
      (c.controlEvents jni client).count .onClose = 0) ∧
    (c.holdsAt (ControlPort.endDone jni client endId) (MAX_PORTS - 1) →
      (c.controlEvents jni client).count .onClose = 1) := by
  obtain ⟨_, ⟨s, hs, _, _, _, s4, s5, _⟩, ⟨e, he, hI⟩, _⟩ := hc
  have h0 : c.eventsAt jni client 0 = ControlPort.events jni client s := by
    simp [PortChain.eventsAt, hs]
  have h1 : c.eventsAt jni client (MAX_PORTS - 1) = ControlPort.events jni client e := by
    simp [PortChain.eventsAt, he]
  have hopen : (ControlPort.events jni client e).count .onOpen = 0 := by
    rcases hI with hI | hI
    · exact hI.2.2.2.2.2.2.1
    · exact hI.2.2.2.1
  have hclose : (ControlPort.events jni client e).count .onClose ≤ 1 := by
    rcases hI with hI | hI
    · rw [hI.2.2.2.2.2.2.2]
      exact Nat.zero_le _
    · rw [hI.2.2.2.2]
  have hco : (c.controlEvents jni client).count .onOpen = 1 := by
    simp only [PortChain.controlEvents, h0, h1, List.count_append, s4, hopen]
  have hcc : (c.controlEvents jni client).count .onClose =
      (ControlPort.events jni client e).count .onClose := by
    simp only [PortChain.controlEvents, h0, h1, List.count_append, s5, Nat.zero_add]
  refine ⟨hco, by rw [hcc]; exact hclose, ?_, ?_⟩
  · rintro ⟨e1, he1, hl⟩
    have : e1 = e := by rw [he] at he1; exact (Option.some.inj he1).symm
    rw [hcc, ← this, hl.2.2.2.2.2.2.2]
  · rintro ⟨e1, he1, hd⟩
    have : e1 = e := by rw [he] at he1; exact (Option.some.inj he1).symm
    rw [hcc, ← this, hd.2.2.2.2]

/-! ## The teardown of a chain with its control ports returns -/

/-- A port that has gone through hooks other than `initialize_impl` and
`uninitialize_impl` is still one on which `uninitialize_impl` can run. -/
theorem ready_quietStep (jni : ControlJni) (client : Option Nat) (startId endId : Int)
    (p q : Port) (hq : p.quietStep q) (hp : ControlPort.ready jni client startId endId p) :
    ControlPort.ready jni client startId endId q := by
  obtain ⟨f1, f2, _, _⟩ := fields_quietStep jni client p q hq
  obtain ⟨_, hi, _, _, _⟩ := hq
  intro hid
  rw [hi] at hid
  rw [f1, f2]
  exact hp hid

/-- With the hooks of `ControlPort` on the control ports and hooks that
return on the others, `stop_impl` and `unregister_impl` return on every port,
and `uninitialize_impl` on every port on which it can run. -/
theorem teardown_hooks (jni : ControlJni) (client : Option Nat) (startId endId : Int)
    (h : Hooks) (hh : h.controls jni client startId endId)
    (ho : h.othersReturn startId endId) :
    (∀ q, h q .stop_impl = Option.none) ∧ (∀ q, h q .unregister_impl = Option.none) ∧
    ∀ q, ControlPort.ready jni client startId endId q →
      h q .uninitialize_impl = Option.none := by
  refine ⟨fun q => ?_, fun q => ?_, fun q hq => ?_⟩
  · by_cases hid : q.internalId = startId ∨ q.internalId = endId
    · rw [hh q _ hid]
      rfl
    · push_neg at hid
      exact ho q _ hid.1 hid.2 rfl
  · by_cases hid : q.internalId = startId ∨ q.internalId = endId
    · rw [hh q _ hid]
      rfl
    · push_neg at hid
      exact ho q _ hid.1 hid.2 rfl
  · by_cases hid : q.internalId = startId ∨ q.internalId = endId
    · rw [hh q _ hid]
      obtain ⟨l1, l2⟩ := hq hid
      exact hook_uninitialize_live jni client _ _ l1 l2
    · push_neg at hid
      exact ho q _ hid.1 hid.2 rfl

/-- The teardown calls of a port return when the hook they invoke does. -/
theorem teardown_port (jni : ControlJni) (client : Option Nat) (startId endId : Int)
    (h : Hooks) (hh : h.controls jni client startId endId)
    (ho : h.othersReturn startId endId) (p : Port)
    (hp : ControlPort.ready jni client startId endId p) :
    (∀ force, p.state = .running ∨ p.state = .stoppedOnError →
      ∃ q, Port.stop h force [] p = .returned q ∧
        q.state = .stopped ∧ ControlPort.ready jni client startId endId q) ∧
    (p.state = .stopped ∨ p.state = .registered →
      ∃ q, Port.unregisterAtServer h p = .returned q ∧
        q.state = .unregistered ∧ ControlPort.ready jni client startId endId q) ∧
    (p.state = .initialized ∨ p.state = .unregistered →
      ∃ q, Port.uninitialize h p = .returned q ∧ q.state = .deletable) := by
  obtain ⟨t1, t2, t3⟩ := teardown_hooks jni client startId endId h hh ho
  refine ⟨fun force hs => ?_, fun hs => ?_, fun hs => ?_⟩
  · have hr : ControlPort.ready jni client startId endId (Port.stop h force [] p).port :=
      ready_quietStep jni client startId endId p _ (quietStep_stop h force p) hp
    rcases stop_cases h t1 force p with ⟨_, hq⟩ | ⟨⟨h1, h2, _⟩, _⟩ | ⟨_, r, hq, hst, _⟩
    · rw [hq] at hr
      exact ⟨_, hq, rfl, hr⟩
    · rcases hs with hs | hs
      · exact absurd hs h2
      · exact absurd hs h1
    · rw [hq] at hr
      exact ⟨r, hq, hst, hr⟩
  · have hr : ControlPort.ready jni client startId endId (Port.unregisterAtServer h p).port :=
      ready_quietStep jni client startId endId p _ (quietStep_unregisterAtServer h p) hp
    have hq : Port.unregisterAtServer h p =
        .returned { p with calls := p.calls ++ [.unregister_impl], state := .unregistered } := by
      rcases hs with hs | hs <;>
        simp [Port.unregisterAtServer, hs, callHook, t2, Outcome.andThen]
    rw [hq] at hr
    exact ⟨_, hq, rfl, hr⟩
  · exact ⟨{ p with calls := p.calls ++ [.uninitialize_impl], state := .deletable }, by
      rcases hs with hs | hs <;>
        simp [ Port.uninitialize, hs, callHook, t3 p hp, Outcome.andThen], rfl⟩

/-- Two properties that every held port has. -/
theorem allHeld_and (P Q : Port → Prop) (l : List PtrEnvelope) (hP : allHeld P l)
    (hQ : allHeld Q l) : allHeld (fun p => P p ∧ Q p) l :=
  fun e he p hp => ⟨hP e he p hp, hQ e he p hp⟩

/-- With the hooks of `ControlPort` on the control ports and hooks of the
teardown that return on the others, `shutdown` of a chain whose ports are in
a state that goes with the state of the chain, and that holds only ports on
which `uninitialize_impl` can run, returns with the chain Deletable; and so
does `uninitialize` of such a chain in the state Initialized or
Unregistered. -/
theorem chain_teardown_returns (jni : ControlJni) (client : Option Nat) (startId endId : Int)
    (h : Hooks) (hh : h.controls jni client startId endId)
    (ho : h.othersReturn startId endId) (c : PortChain) (hcomp : c.compatible)
    (hready : c.state ≠ .deletable →
      allHeld (ControlPort.ready jni client startId endId) c.portList) :
    (∃ c1, c.shutdown h = .returned c1 ∧ c1.state = .deletable) ∧
    (c.state = .initialized ∨ c.state = .unregistered →
      ∃ c1, PortChain.uninitialize h c = .returned c1 ∧ c1.state = .deletable) := by
  obtain ⟨hci, hcr, hcu, hcs, hcn, hcd⟩ := hcomp
  have tp := teardown_port jni client startId endId h hh ho
  -- the three loops
  have lstop : ∀ c0 : PortChain, c0.state = .running →
      allHeld (fun p => (p.state = .running ∨ p.state = .stoppedOnError) ∧
        ControlPort.ready jni client startId endId p) c0.portList →
      (c0.entry (MAX_PORTS - 1)).item ≠ Option.none →
      ∃ c1, c0.stop_impl h = .returned c1 ∧ c1.state = .stopped ∧
        allHeld (fun p => p.state = .stopped ∧ ControlPort.ready jni client startId endId p)
          c1.portList := by
    intro c0 hst hl hend
    cases he : (c0.entry (MAX_PORTS - 1)).item with
    | none => exact absurd he hend
    | some endControl =>
      obtain ⟨c1, hr, hs1, hP, _⟩ := forAllPorts_completes
        (fun port =>
          Port.stop h
            (match endControl.waitForTerminatedSubstate [] with
              | .ok _ => false
              | .error _ => true) [] port) _
        (fun p => p.state = .stopped ∧ ControlPort.ready jni client startId endId p)
        (fun p hp => (tp p hp.2).1 _ hp.1) .stopped { c0 with lastCycle := true } hl
      refine ⟨c1, ?_, hs1, hP⟩
      have hg : ¬ (c0.state ≠ .running) := by simp [hst]
      unfold PortChain.stop_impl
      rw [if_neg hg]
      simp only [he]
      exact hr
  have lunreg : ∀ c0 : PortChain, c0.state = .stopped ∨ c0.state = .registered →
      allHeld (fun p => (p.state = .stopped ∨ p.state = .registered) ∧
        ControlPort.ready jni client startId endId p) c0.portList →
      ∃ c1, c0.unregisterAtServer_impl h = .returned c1 ∧ c1.state = .unregistered ∧
        allHeld (fun p => p.state = .unregistered ∧
          ControlPort.ready jni client startId endId p) c1.portList := by
    intro c0 hst hl
    have hg : ¬ (c0.state ≠ .stopped ∧ c0.state ≠ .registered) := by
      rcases hst with hs | hs <;> simp [hs]
    obtain ⟨c1, hr, hs1, hP, _⟩ := forAllPorts_completes (Port.unregisterAtServer h) _
      (fun p => p.state = .unregistered ∧ ControlPort.ready jni client startId endId p)
      (fun p hp => (tp p hp.2).2.1 hp.1) .unregistered c0 hl
    exact ⟨c1, by simp only [PortChain.unregisterAtServer_impl, hg, if_false]; exact hr, hs1, hP⟩
  have luninit : ∀ c0 : PortChain,
      c0.state = .unregistered ∨ c0.state = .initialized ∨ c0.state = .created →
      allHeld (fun p => (p.state = .initialized ∨ p.state = .unregistered) ∧
        ControlPort.ready jni client startId endId p) c0.portList →
      ∃ c1, c0.uninitialize_impl h = .returned c1 ∧ c1.state = .deletable := by
    intro c0 hst hl
    have hg : ¬ (c0.state ≠ .unregistered ∧ c0.state ≠ .initialized ∧ c0.state ≠ .created) := by
      rcases hst with hs | hs | hs <;> simp [hs]
    obtain ⟨c1, hr, hs1, _, _⟩ := forAllPorts_completes ( Port.uninitialize h) _
      (fun p => p.state = .deletable)
      (fun p hp => (tp p hp.2).2.2 hp.1) .deletable c0 hl
    exact ⟨c1, by simp only [PortChain.uninitialize_impl, hg, if_false]; exact hr, hs1⟩
  have both : ∀ (P : Port → Prop), allHeld P c.portList → c.state ≠ .deletable →
      allHeld (fun p => P p ∧ ControlPort.ready jni client startId endId p) c.portList :=
    fun P hP hs => allHeld_and _ _ _ hP (hready hs)
  constructor
  · unfold PortChain.shutdown PortChain.shutdown_impl
    cases hs : c.state with
    | created =>
      obtain ⟨c1, hr, hs1⟩ := luninit c (Or.inr (Or.inr hs))
        (allHeld_mono _ _ (fun p hp => ⟨Or.inl hp.1, hp.2⟩) _
          (both _ (hci (Or.inl hs)) (by rw [hs]; decide)))
      exact ⟨{ c1 with state := .deletable }, by simp [hr, ChainOutcome.andThen], rfl⟩
    | initialized =>
      exact luninit c (Or.inr (Or.inl hs))
        (allHeld_mono _ _ (fun p hp => ⟨Or.inl hp.1, hp.2⟩) _
          (both _ (hci (Or.inr hs)) (by rw [hs]; decide)))
    | registered =>
      obtain ⟨c1, hr, hs1, hP⟩ := lunreg c (Or.inr hs)
        (allHeld_mono _ _ (fun p hp => ⟨Or.inr hp.1, hp.2⟩) _
          (both _ (hcr hs) (by rw [hs]; decide)))
      obtain ⟨c2, hr2, hs2⟩ := luninit c1 (Or.inl hs1)
        (allHeld_mono _ _ (fun p hp => ⟨Or.inr hp.1, hp.2⟩) _ hP)
      exact ⟨c2, by simp [hr, ChainOutcome.andThen, hr2], hs2⟩
    | running =>
      obtain ⟨c0, hr0, hs0, hP0⟩ := lstop c hs
        (both _ (hcu hs).1 (by rw [hs]; decide)) (hcu hs).2
      obtain ⟨c1, hr, hs1, hP⟩ := lunreg c0 (Or.inl hs0)
        (allHeld_mono _ _ (fun p hp => ⟨Or.inl hp.1, hp.2⟩) _ hP0)
      obtain ⟨c2, hr2, hs2⟩ := luninit c1 (Or.inl hs1)
        (allHeld_mono _ _ (fun p hp => ⟨Or.inr hp.1, hp.2⟩) _ hP)
      exact ⟨c2, by simp [hr0, hr, ChainOutcome.andThen, hr2], hs2⟩
    | stopped =>
      obtain ⟨c1, hr, hs1, hP⟩ := lunreg c (Or.inl hs)
        (allHeld_mono _ _ (fun p hp => ⟨Or.inl hp.1, hp.2⟩) _
          (both _ (hcs hs) (by rw [hs]; decide)))
      obtain ⟨c2, hr2, hs2⟩ := luninit c1 (Or.inl hs1)
        (allHeld_mono _ _ (fun p hp => ⟨Or.inr hp.1, hp.2⟩) _ hP)
      exact ⟨c2, by simp [hr, ChainOutcome.andThen, hr2], hs2⟩
    | unregistered =>
      exact luninit c (Or.inl hs)
        (allHeld_mono _ _ (fun p hp => ⟨Or.inr hp.1, hp.2⟩) _
          (both _ (hcn hs) (by rw [hs]; decide)))
    | deletable => exact ⟨c, rfl, hs⟩
  · intro hs
    unfold PortChain.uninitialize
    rcases hs with hs | hs
    · exact luninit c (Or.inr (Or.inl hs))
        (allHeld_mono _ _ (fun p hp => ⟨Or.inl hp.1, hp.2⟩) _
          (both _ (hci (Or.inr hs)) (by rw [hs]; decide)))
    · exact luninit c (Or.inl hs)
        (allHeld_mono _ _ (fun p hp => ⟨Or.inr hp.1, hp.2⟩) _
          (both _ (hcn hs) (by rw [hs]; decide)))

/-- In a chain that holds its control ports, that is not Deletable and whose
ports are in a state that goes with its state, and in which the ids of the
control ports are theirs only, `uninitialize_impl` can run on every port. -/
theorem controlInv_ready (jni : ControlJni) (client : Option Nat) (startId endId : Int)
    (c : PortChain) (hc : c.controlInv jni client startId endId) (hcomp : c.compatible)
    (hu : c.controlIdsUnique startId endId) (hs : c.state ≠ .deletable) :
    allHeld (ControlPort.ready jni client startId endId) c.portList := by
  obtain ⟨_, ⟨s, hs0, sI⟩, ⟨e, he0, eI⟩, _⟩ := hc
  obtain ⟨hci, hcr, hcu, hcs, hcn, hcd⟩ := hcomp
  have hnd : allHeld (fun p => p.state ≠ .deletable) c.portList := by
    intro x hx p hp
    cases hst : c.state with
    | created => rw [hci (Or.inl hst) x hx p hp]; decide
    | initialized => rw [hci (Or.inr hst) x hx p hp]; decide
    | registered => rw [hcr hst x hx p hp]; decide
    | running =>
      rcases (hcu hst).1 x hx p hp with h1 | h1 <;> rw [h1] <;> decide
    | stopped => rw [hcs hst x hx p hp]; decide
    | unregistered => rw [hcn hst x hx p hp]; decide
    | deletable => exact absurd hst hs
  intro x hx p hp hid
  have hpd := hnd x hx p hp
  rcases hu x hx p hp hid with hx0 | hx1
  · rw [hx0, hs0] at hp
    have : s = p := Option.some.inj hp
    rw [← this] at hpd ⊢
    exact sI.2.2.2.2.2 hpd
  · rw [hx1, he0] at hp
    have : e = p := Option.some.inj hp
    rw [← this] at hpd ⊢
    rcases eI with eI | eI
    · exact ⟨eI.2.2.2.2.1, eI.2.2.2.2.2.1⟩
    · exact absurd eI.2.2.1 hpd

/-- The chain of the library with an input port whose `uninitialize_impl`
raises: `initialize` and `addPort` return, `uninitialize` raises. -/
theorem broken_teardown_first :
    (( PortChain.initialize brokenTeardownHooks (Port.construct false (-1))
        (Port.construct true (-2)) PortChain.construct).2 = .returned controlChain ∧
      (controlChain.addPort brokenTeardownHooks (some (userPort false 5)) (some 1)).2 =
        .returned (controlChain.life brokenTeardownHooks
          [.addPort (some (userPort false 5)) (some 1)])) ∧
    ( PortChain.uninitialize brokenTeardownHooks
        (controlChain.life brokenTeardownHooks
          [.addPort (some (userPort false 5)) (some 1)])).raises = true :=
  ⟨⟨by decide!, by decide!⟩, by decide!⟩

/-- After the `uninitialize` that raised, `shutdown` and `uninitialize`
raise and leave the chain as it is. -/
theorem broken_teardown_stuck :
    ((controlChain.life brokenTeardownHooks
        [.addPort (some (userPort false 5)) (some 1), LifeCall.uninitialize]).shutdown
      brokenTeardownHooks).raises = true ∧
    ((controlChain.life brokenTeardownHooks
        [.addPort (some (userPort false 5)) (some 1), LifeCall.uninitialize]).shutdown
      brokenTeardownHooks).chain =
      controlChain.life brokenTeardownHooks
        [.addPort (some (userPort false 5)) (some 1), LifeCall.uninitialize] ∧
    ( PortChain.uninitialize brokenTeardownHooks
      (controlChain.life brokenTeardownHooks
        [.addPort (some (userPort false 5)) (some 1), LifeCall.uninitialize])).raises =
      true ∧
    ( PortChain.uninitialize brokenTeardownHooks
      (controlChain.life brokenTeardownHooks
        [.addPort (some (userPort false 5)) (some 1), LifeCall.uninitialize])).chain =
      controlChain.life brokenTeardownHooks
        [.addPort (some (userPort false 5)) (some 1), LifeCall.uninitialize] :=
  ⟨by decide!, by decide!, by decide!, by decide!⟩

/-- The chain after the teardown calls that raised: it is Initialized, its
start control port is Deletable, its end control port Initialized, and the
callbacks delivered are one `onOpen` and no `onClose`. -/
theorem broken_teardown_events :
    ((controlChain.life brokenTeardownHooks
        [.addPort (some (userPort false 5)) (some 1), LifeCall.uninitialize,
          .shutdown]).state = .initialized ∧
      ((controlChain.life brokenTeardownHooks
        [.addPort (some (userPort false 5)) (some 1), LifeCall.uninitialize,
          .shutdown]).entry 0).item.map (fun p => p.state) = some .deletable ∧
      ((controlChain.life brokenTeardownHooks
        [.addPort (some (userPort false 5)) (some 1), LifeCall.uninitialize,
          .shutdown]).entry (MAX_PORTS - 1)).item.map (fun p => p.state) =
        some .initialized) ∧
    ((controlChain.life brokenTeardownHooks
        [.addPort (some (userPort false 5)) (some 1), LifeCall.uninitialize,
          .shutdown]).controlEvents sampleControlJni (some 1)).count .onOpen = 1 ∧
    ((controlChain.life brokenTeardownHooks
        [.addPort (some (userPort false 5)) (some 1), LifeCall.uninitialize,
          .shutdown]).controlEvents sampleControlJni (some 1)).count .onClose = 0 :=
  ⟨⟨by decide!, by decide!, by decide!⟩, by decide!, by decide!⟩

/-- The end control port taken out of the Initialized chain of the library
by `removePort` has delivered `onClose`; the chain is still Initialized. -/
theorem removed_end_control :
    (controlChain.removePort libraryHooks (-2)).1.map
        (fun p => (p.internalId, p.state, ControlPort.events sampleControlJni (some 1) p)) =
      some (-2, .deletable, [.onClose]) ∧
    (controlChain.removePort libraryHooks (-2)).2.chain.state = .initialized := by
  refine ⟨by decide!, ?_⟩
  rw [(removePort_keeps_others libraryHooks (-2) controlChain).1]
  decide!

/-- The `shutdown` of the chain without its end control port leaves the chain
Deletable, and no port it holds has delivered `onClose`. -/
theorem removed_end_control_shutdown :
    (controlChain.life libraryHooks [.removePort (-2), .shutdown]).state = .deletable ∧
    ((controlChain.life libraryHooks [.removePort (-2), .shutdown]).controlEvents
      sampleControlJni (some 1)).count .onClose = 0 := by
  decide!

/-- C33, as stated, fails on the code in two ways.  First, the teardown of
the chain does not catch what a port raises: on the chain of the library,
initialized with its two control ports, to which an input port is added
whose `uninitialize_impl` raises, `uninitialize` tears the start control port
down, raises at the added port and never reaches the end control port; the
chain is left Initialized with its start control port Deletable, so that
every later `uninitialize` and `shutdown` raises at the start control port
and changes nothing: `onClose` is never delivered.  Second, `removePort` does
not spare the control ports: `removePort(-2)` on the Initialized chain hands
the end control port to the caller shut down, `onClose` delivered, while the
chain is still Initialized, and the `shutdown` that follows leaves the chain
Deletable without any `onClose` of a port it holds. -/
theorem C33_onClose_not_delivered :
    (((( PortChain.initialize brokenTeardownHooks (Port.construct false (-1))
          (Port.construct true (-2)) PortChain.construct).2 = .returned controlChain ∧
        (controlChain.addPort brokenTeardownHooks (some (userPort false 5)) (some 1)).2 =
          .returned (controlChain.life brokenTeardownHooks
            [.addPort (some (userPort false 5)) (some 1)])) ∧
      ( PortChain.uninitialize brokenTeardownHooks
          (controlChain.life brokenTeardownHooks
            [.addPort (some (userPort false 5)) (some 1)])).raises = true) ∧
      (((controlChain.life brokenTeardownHooks
          [.addPort (some (userPort false 5)) (some 1), LifeCall.uninitialize]).shutdown
        brokenTeardownHooks).raises = true ∧
      ((controlChain.life brokenTeardownHooks
          [.addPort (some (userPort false 5)) (some 1), LifeCall.uninitialize]).shutdown
        brokenTeardownHooks).chain =
        controlChain.life brokenTeardownHooks
          [.addPort (some (userPort false 5)) (some 1), LifeCall.uninitialize] ∧
      ( PortChain.uninitialize brokenTeardownHooks
        (controlChain.life brokenTeardownHooks
          [.addPort (some (userPort false 5)) (some 1), LifeCall.uninitialize])).raises =
        true ∧
      ( PortChain.uninitialize brokenTeardownHooks
        (controlChain.life brokenTeardownHooks
          [.addPort (some (userPort false 5)) (some 1), LifeCall.uninitialize])).chain =
        controlChain.life brokenTeardownHooks
          [.addPort (some (userPort false 5)) (some 1), LifeCall.uninitialize]) ∧
      ((controlChain.life brokenTeardownHooks
          [.addPort (some (userPort false 5)) (some 1), LifeCall.uninitialize,
            .shutdown]).state = .initialized ∧
        ((controlChain.life brokenTeardownHooks
          [.addPort (some (userPort false 5)) (some 1), LifeCall.uninitialize,
            .shutdown]).entry 0).item.map (fun p => p.state) = some .deletable ∧
        ((controlChain.life brokenTeardownHooks
          [.addPort (some (userPort false 5)) (some 1), LifeCall.uninitialize,
            .shutdown]).entry (MAX_PORTS - 1)).item.map (fun p => p.state) =
          some .initialized) ∧
      ((controlChain.life brokenTeardownHooks
          [.addPort (some (userPort false 5)) (some 1), LifeCall.uninitialize,
            .shutdown]).controlEvents sampleControlJni (some 1)).count .onOpen = 1 ∧
      ((controlChain.life brokenTeardownHooks
          [.addPort (some (userPort false 5)) (some 1), LifeCall.uninitialize,
            .shutdown]).controlEvents sampleControlJni (some 1)).count .onClose = 0) ∧
    (((controlChain.removePort libraryHooks (-2)).1.map
          (fun p => (p.internalId, p.state, ControlPort.events sampleControlJni (some 1) p)) =
        some (-2, .deletable, [.onClose]) ∧
        (controlChain.removePort libraryHooks (-2)).2.chain.state = .initialized) ∧
      (controlChain.life libraryHooks [.removePort (-2), .shutdown]).state = .deletable ∧
      ((controlChain.life libraryHooks [.removePort (-2), .shutdown]).controlEvents
        sampleControlJni (some 1)).count .onClose = 0) :=
  ⟨⟨broken_teardown_first, broken_teardown_stuck, broken_teardown_events⟩,
    ⟨removed_end_control, removed_end_control_shutdown⟩⟩

/-- C33, amended: a chain whose control ports are `ControlPort` objects (the
hooks are those of `ControlPort` on the ports with the two control ids, and
any hooks on the other ports), from the `initialize` that returns with two
fresh control ports, through any sequence of calls of `registerAtServer`,
`start`, cycles of the two worker threads, `stop`, `unregisterAtServer`,
`uninitialize`, `shutdown`, `addPort` and `removePort` for an id that is not
that of a control port, however each of them ends.  When `initialize` has
returned, the two control ports together have delivered `onOpen` and nothing
else.  At every point of the sequence they have delivered `onOpen` once and
`onClose` at most once, and no `onClose` as long as neither `uninitialize` nor
`shutdown` has been called; when `uninitialize` or `shutdown` then returns,
they have delivered `onOpen` once and `onClose` once.  And the teardown does
return: when the hooks of the teardown do not raise on the other ports, the
ports of the chain are in a state that goes with the state of the chain and
no other port has the id of a control port, `shutdown` returns with the chain
Deletable, and so does `uninitialize` on the chain when it is Initialized or
Unregistered, with `onOpen` delivered once and `onClose` once. -/
theorem C33_onOpen_onClose_once (jni : ControlJni) (client : Option Nat)
    (startId endId : Int) (h : Hooks) (hh : h.controls jni client startId endId)
    (c0 c1 : PortChain) (r : Option Port × Option Port)
    (hlen : c0.portList.length = MAX_PORTS)
    (hinit : c0.initialize h (Port.construct false startId) (Port.construct true endId) =
      (r, .returned c1)) :
    c1.controlEvents jni client = [.onOpen] ∧
    ∀ calls : List LifeCall,
      (∀ a, a ∈ calls → a.wakesQuietly ∧ a.sparesControls startId endId) →
      ((c1.life h calls).controlEvents jni client).count .onOpen = 1 ∧
      ((c1.life h calls).controlEvents jni client).count .onClose ≤ 1 ∧
      ((∀ a, a ∈ calls → a.isTeardown = false) →
        ((c1.life h calls).controlEvents jni client).count .onClose = 0) ∧
      (∀ c2, ( PortChain.uninitialize h (c1.life h calls) = .returned c2 ∨
          (c1.life h calls).shutdown h = .returned c2) →
        (c2.controlEvents jni client).count .onOpen = 1 ∧
        (c2.controlEvents jni client).count .onClose = 1) ∧
      (h.othersReturn startId endId → (c1.life h calls).compatible →
        (c1.life h calls).controlIdsUnique startId endId →
        (∃ c2, (c1.life h calls).shutdown h = .returned c2 ∧ c2.state = .deletable ∧
          (c2.controlEvents jni client).count .onOpen = 1 ∧
          (c2.controlEvents jni client).count .onClose = 1) ∧
        ((c1.life h calls).state = .initialized ∨ (c1.life h calls).state = .unregistered →
          ∃ c2, PortChain.uninitialize h (c1.life h calls) = .returned c2 ∧
            c2.state = .deletable ∧
            (c2.controlEvents jni client).count .onOpen = 1 ∧
            (c2.controlEvents jni client).count .onClose = 1)) := by
  have h512 : MAX_PORTS = 512 := rfl
  obtain ⟨_, _, _, _, _, s1, e1, hs1, he1, _, hc1⟩ :=
    initialize_returned h _ _ c0 c1 r hinit
  obtain ⟨vs, is⟩ := initialize_start_control jni client startId endId h hh s1 hs1
  obtain ⟨ve, ie⟩ := initialize_end_control jni client startId endId h hh e1 he1
  have ent0 : (c1.entry 0).item = some s1 := by
    rw [hc1]
    show (((c0.setEntry 0 _).setEntry (MAX_PORTS - 1) _).entry 0).item = _
    rw [entry_setEntry_ne _ _ _ _ (by omega), entry_setEntry_eq _ _ _ (by omega)]
  have ent1 : (c1.entry (MAX_PORTS - 1)).item = some e1 := by
    rw [hc1]
    show (((c0.setEntry 0 _).setEntry (MAX_PORTS - 1) _).entry (MAX_PORTS - 1)).item = _
    rw [entry_setEntry_eq _ _ _ (by simp [PortChain.setEntry]; omega)]
  have hst : c1.state = .initialized := by rw [hc1]
  have inv1 : c1.controlInv jni client startId endId :=
    ⟨by rw [hst]; decide, ⟨s1, ent0, is⟩, ⟨e1, ent1, Or.inl ie⟩,
      fun hs => by rw [hst] at hs; cases hs⟩
  have live1 : c1.holdsAt (ControlPort.endLive jni client endId) (MAX_PORTS - 1) :=
    ⟨e1, ent1, ie⟩
  refine ⟨?_, ?_⟩
  · simp [PortChain.controlEvents, PortChain.eventsAt, ent0, ent1, vs, ve]
  · intro calls hw
    obtain ⟨inv2, live2⟩ := controlInv_life jni client startId endId h hh calls c1 inv1 hw
    obtain ⟨n1, n2, n3, _⟩ := controlEvents_counts jni client startId endId _ inv2
    have after : ∀ c2, ( PortChain.uninitialize h (c1.life h calls) = .returned c2 ∨
        (c1.life h calls).shutdown h = .returned c2) →
        (c2.controlEvents jni client).count .onOpen = 1 ∧
        (c2.controlEvents jni client).count .onClose = 1 := by
      intro c2 hr
      rcases hr with hr | hr
      · obtain ⟨t1, t2⟩ := controlInv_uninitialize_impl jni client startId endId h hh _ inv2
        have inv3 : c2.controlInv jni client startId endId := by
          have := t1
          unfold PortChain.uninitialize at hr
          rw [hr] at this
          exact this
        obtain ⟨m1, _, _, m4⟩ := controlEvents_counts jni client startId endId _ inv3
        exact ⟨m1, m4 (t2 c2 hr)⟩
      · obtain ⟨t1, t2⟩ := controlInv_shutdown_impl jni client startId endId h hh _ inv2
        have inv3 : c2.controlInv jni client startId endId := by
          have := t1
          unfold PortChain.shutdown at hr
          rw [hr] at this
          exact this
        obtain ⟨m1, _, _, m4⟩ := controlEvents_counts jni client startId endId _ inv3
        exact ⟨m1, m4 (t2 c2 hr)⟩
    refine ⟨n1, n2, fun ht => n3 (live2 ht live1), after, ?_⟩
    intro ho hcomp hu
    obtain ⟨⟨c2, hr, hd⟩, hun⟩ := chain_teardown_returns jni client startId endId h hh ho _
      hcomp (fun hs => controlInv_ready jni client startId endId _ inv2 hcomp hu hs)
    refine ⟨⟨c2, hr, hd, after c2 (Or.inr hr)⟩, fun hs => ?_⟩
    obtain ⟨c3, hr3, hd3⟩ := hun hs
    exact ⟨c3, hr3, hd3, after c3 (Or.inl hr3)⟩

/-- The hooks of the chain of the library are those of `ControlPort` on the
control ports, and return on the other ports. -/
theorem libraryHooks_controls :
    libraryHooks.controls sampleControlJni (some 1) (-1) (-2) ∧
    libraryHooks.othersReturn (-1) (-2) := by
  constructor
  · intro p c hid
    simp [libraryHooks, controlledHooks, hid]
  · intro p c h1 h2 _
    simp [libraryHooks, controlledHooks, h1, h2, quietHooks]

/-- The Running chain of the library with one more input port: its ports
are Running, it holds its end control port, and the ids of the control ports
are theirs only. -/
theorem runningLife_chain :
    (controlChain.life libraryHooks runningLife).compatible ∧
    (controlChain.life libraryHooks runningLife).controlIdsUnique (-1) (-2) := by
  have hs : (controlChain.life libraryHooks runningLife).state = .running := by decide!
  have hall : ∀ e ∈ (controlChain.life libraryHooks runningLife).portList,
      (match e.item with
        | some q => decide (q.state = .running ∧
            (q.internalId = -1 ∨ q.internalId = -2 →
              e = (controlChain.life libraryHooks runningLife).entry 0 ∨
              e = (controlChain.life libraryHooks runningLife).entry (MAX_PORTS - 1)))
        | Option.none => true) = true := by decide!
  have hend : ((controlChain.life libraryHooks runningLife).entry (MAX_PORTS - 1)).item ≠
      Option.none := by decide!
  constructor
  · refine ⟨fun hc => ?_, fun hc => ?_, fun _ => ⟨fun e he p hp => Or.inl ?_, hend⟩,
      fun hc => ?_, fun hc => ?_, fun hc => ?_⟩
    · rw [hs] at hc; simp at hc
    · rw [hs] at hc; cases hc
    · have he1 := hall e he
      rw [hp] at he1
      exact (of_decide_eq_true he1).1
    · rw [hs] at hc; cases hc
    · rw [hs] at hc; cases hc
    · rw [hs] at hc; cases hc
  · intro e he p hp hid
    have he1 := hall e he
    rw [hp] at he1
    exact (of_decide_eq_true he1).2 hid

/-- The chain of the library after a life from `registerAtServer` to
`unregisterAtServer`: it is Unregistered and so are its ports, and the ids
of the control ports are theirs only. -/
theorem quietLife_chain :
    (controlChain.life libraryHooks quietLife).state = .unregistered ∧
    (controlChain.life libraryHooks quietLife).compatible ∧
    (controlChain.life libraryHooks quietLife).controlIdsUnique (-1) (-2) := by
  have hs : (controlChain.life libraryHooks quietLife).state = .unregistered := by decide!
  have hall : ∀ e ∈ (controlChain.life libraryHooks quietLife).portList,
      (match e.item with
        | some q => decide (q.state = .unregistered ∧
            (q.internalId = -1 ∨ q.internalId = -2 →
              e = (controlChain.life libraryHooks quietLife).entry 0 ∨
              e = (controlChain.life libraryHooks quietLife).entry (MAX_PORTS - 1)))
        | Option.none => true) = true := by decide!
  refine ⟨hs, ⟨fun hc => ?_, fun hc => ?_, fun hc => ?_, fun hc => ?_,
    fun _ e he p hp => ?_, fun hc => ?_⟩, ?_⟩
  · rw [hs] at hc; simp at hc
  · rw [hs] at hc; cases hc
  · rw [hs] at hc; cases hc
  · rw [hs] at hc; cases hc
  · have he1 := hall e he
    rw [hp] at he1
    exact (of_decide_eq_true he1).1
  · rw [hs] at hc; cases hc
  · intro e he p hp hid
    have he1 := hall e he
    rw [hp] at he1
    exact (of_decide_eq_true he1).2 hid

/-- Witness of amended C33: the chain of the library, initialized with its
two control ports, has delivered `onOpen`.  Registered, with an input port
added, and started, it has delivered one `onOpen` and no `onClose`; the
`shutdown` of this Running chain returns, with the chain Deletable, one
`onOpen` and one `onClose` delivered.  After a life from `registerAtServer` to
`unregisterAtServer`, with a port added and removed in between, it has
delivered one `onOpen` and no `onClose`; `uninitialize` then returns, with the
chain Deletable, one `onOpen` and one `onClose` delivered. -/
theorem C33_onOpen_onClose_once_witness :
    controlChain.controlEvents sampleControlJni (some 1) = [.onOpen] ∧
    (((controlChain.life libraryHooks runningLife).controlEvents
        sampleControlJni (some 1)).count .onOpen = 1 ∧
      ((controlChain.life libraryHooks runningLife).controlEvents
        sampleControlJni (some 1)).count .onClose = 0 ∧
      ∃ c2, (controlChain.life libraryHooks runningLife).shutdown libraryHooks = .returned c2 ∧
        c2.state = .deletable ∧
        (c2.controlEvents sampleControlJni (some 1)).count .onOpen = 1 ∧
        (c2.controlEvents sampleControlJni (some 1)).count .onClose = 1) ∧
    (((controlChain.life libraryHooks quietLife).controlEvents
        sampleControlJni (some 1)).count .onOpen = 1 ∧
      ((controlChain.life libraryHooks quietLife).controlEvents
        sampleControlJni (some 1)).count .onClose = 0 ∧
      ∃ c2, PortChain.uninitialize libraryHooks (controlChain.life libraryHooks quietLife) =
          .returned c2 ∧
        c2.state = .deletable ∧
        (c2.controlEvents sampleControlJni (some 1)).count .onOpen = 1 ∧
        (c2.controlEvents sampleControlJni (some 1)).count .onClose = 1) := by
  have hw : ∀ a, a ∈ runningLife → a.wakesQuietly ∧ a.sparesControls (-1) (-2) := by
    intro a ha
    simp only [runningLife, List.mem_cons, List.mem_singleton, List.not_mem_nil, or_false] at ha
    rcases ha with ha | ha | ha <;> rw [ha] <;>
      exact ⟨(fun p q hq => by cases hq), trivial⟩
  have ht : ∀ a, a ∈ runningLife → a.isTeardown = false := by
    intro a ha
    simp only [runningLife, List.mem_cons, List.mem_singleton, List.not_mem_nil, or_false] at ha
    rcases ha with ha | ha | ha <;> rw [ha] <;> rfl
  have hw2 : ∀ a, a ∈ quietLife → a.wakesQuietly ∧ a.sparesControls (-1) (-2) := by
    intro a ha
    simp only [quietLife, List.mem_cons, List.mem_singleton, List.not_mem_nil, or_false] at ha
    rcases ha with ha | ha | ha | ha | ha | ha <;> rw [ha] <;>
      first
        | exact ⟨(fun p q hq => by cases hq), trivial⟩
        | exact ⟨(fun p q hq => by cases hq), by decide, by decide⟩
  have ht2 : ∀ a, a ∈ quietLife → a.isTeardown = false := by
    intro a ha
    simp only [quietLife, List.mem_cons, List.mem_singleton, List.not_mem_nil, or_false] at ha
    rcases ha with ha | ha | ha | ha | ha | ha <;> rw [ha] <;> rfl
  have T := C33_onOpen_onClose_once sampleControlJni (some 1) (-1) (-2) libraryHooks
    libraryHooks_controls.1 PortChain.construct controlChain (Option.none, Option.none)
    (by simp [PortChain.construct]) (by decide!)
  have U := (T.2 runningLife hw).2.2.2.2 libraryHooks_controls.2 runningLife_chain.1
    runningLife_chain.2
  have V := (T.2 quietLife hw2).2.2.2.2 libraryHooks_controls.2 quietLife_chain.2.1
    quietLife_chain.2.2
  exact ⟨T.1, ⟨(T.2 runningLife hw).1, (T.2 runningLife hw).2.2.1 ht, U.1⟩,
    ⟨(T.2 quietLife hw2).1, (T.2 quietLife hw2).2.2.1 ht2, V.2 (Or.inr quietLife_chain.1)⟩⟩

end MidiIO
